import Mathlib

/-!
UniFi Icon Browser, the page-context engine.

A shallow embedding of the parts of `chrome-extension/scripts/injected.js`,
`background.js`, `content.js` and `storageManager.js` that harvest the
fingerprint table, replace the registry and patch the device panels, with
the properties of the specification proved (or refuted) on the embedding.

JavaScript values are modelled by `JsVal`.  Numbers are integers, printed in
decimal when they are used as property keys.  Plain objects are association
lists read from the front; they are written through `objSet`, which keeps
one entry per key.  A DOM node is identified by its path from the root of
the document.
-/

namespace UniFiIconBrowser

/-! ## JavaScript values -/

/-- JavaScript values as they appear in parsed payloads and in props. -/
inductive JsVal where
  | undefined
  | null
  | bool (b : Bool)
  | num (n : Int)
  | str (s : String)
  | arr (elems : List JsVal)
  | obj (fields : List (String × JsVal))

/-- A plain object: own properties, first entry of a key wins. -/
abbrev JsObj := List (String × JsVal)

/-- Truthiness, as tested by `if (v)`, `a && b` and `!v`. -/
def JsVal.truthy : JsVal → Bool
  | .undefined => false
  | .null => false
  | .bool b => b
  | .num n => n != 0
  | .str s => s != ""
  | .arr _ => true
  | .obj _ => true

/-- Property read `o[k]` on a plain object. -/
def objGet : JsObj → String → Option JsVal
  | [], _ => none
  | (k', v) :: rest, k => if k' = k then some v else objGet rest k

/-- Property write `o[k] = v` on a plain object. -/
def objSet : JsObj → String → JsVal → JsObj
  | [], k, v => [(k, v)]
  | (k', v') :: rest, k, v =>
    if k' = k then (k, v) :: rest else (k', v') :: objSet rest k v

/-- The own properties of a plain object, each key once with the value a
read gives, as `Object.entries(o)`. -/
def objEntries : JsObj → List (String × JsVal)
  | [] => []
  | (k, v) :: rest => (k, v) :: (objEntries rest).filter (fun e => e.1 != k)

/-- The keys of a plain object, as `Object.keys(o)`. -/
def objKeys (o : JsObj) : List String := (objEntries o).map Prod.fst

/-- Two tables hold the same entries (the order of keys is not observable
through property reads). -/
def sameTable (a b : JsObj) : Prop := ∀ k, objGet a k = objGet b k

/-- Optional property read `v?.name` for a data property `name` (one of
`items`, `data`, `id`, `subtitle`): primitives and arrays have no such
property. -/
def JsVal.getProp (v : JsVal) (name : String) : JsVal :=
  match v with
  | .obj fields => (objGet fields name).getD .undefined
  | _ => .undefined

mutual
/-- Conversion of a value to a property key, as in `table[item.id]`. -/
def JsVal.toKey : JsVal → String
  | .undefined => "undefined"
  | .null => "null"
  | .bool true => "true"
  | .bool false => "false"
  | .num n => toString n
  | .str s => s
  | .arr es => ",".intercalate (JsVal.elemKeys es)
  | .obj _ => "[object Object]"
/-- The strings joined by `Array.prototype.toString`. -/
def JsVal.elemKeys : List JsVal → List String
  | [] => []
  | .undefined :: es => "" :: JsVal.elemKeys es
  | .null :: es => "" :: JsVal.elemKeys es
  | .bool b :: es => JsVal.toKey (.bool b) :: JsVal.elemKeys es
  | .num n :: es => JsVal.toKey (.num n) :: JsVal.elemKeys es
  | .str s :: es => JsVal.toKey (.str s) :: JsVal.elemKeys es
  | .arr xs :: es => JsVal.toKey (.arr xs) :: JsVal.elemKeys es
  | .obj fs :: es => JsVal.toKey (.obj fs) :: JsVal.elemKeys es
end

/-! ## Page-context state (`injected.js`) -/

/-- A `unifi-icon-browser-fingerprints` message given to `window.postMessage`. -/
structure FingerprintsMessage where
  data : JsObj
  replaceRegistry : Bool
  source : String

/-- The mutable variables of the injected script that the harvester uses,
and the messages posted so far (oldest first). -/
structure PageState where
  capturedFingerprints : JsObj
  fullDatabaseFetched : Bool
  extractionInterval : Bool
  posted : List FingerprintsMessage

/-- The state when the script is loaded. -/
def PageState.init : PageState :=
  { capturedFingerprints := [], fullDatabaseFetched := false,
    extractionInterval := false, posted := [] }

/-- The `items` collection `processApiResponse` looks at: `data.items` if it
is an array, else `data.data.items` if it is an array, else empty. -/
def payloadItems (data : JsVal) : List JsVal :=
  match data.getProp "items" with
  | .arr xs => xs
  | _ =>
    match (data.getProp "data").getProp "items" with
    | .arr xs => xs
    | _ => []

/-- The test `item && item.id && item.subtitle`. -/
def hasIdAndSubtitle (item : JsVal) : Bool :=
  item.truthy && (item.getProp "id").truthy && (item.getProp "subtitle").truthy

/-- One round of the `items.forEach` callback of `processApiResponse`: the
table is written in place and the counter incremented. -/
def harvestItem (acc : JsObj × Nat) (item : JsVal) : JsObj × Nat :=
  if hasIdAndSubtitle item then
    (objSet acc.1 (item.getProp "id").toKey (item.getProp "subtitle"), acc.2 + 1)
  else acc

/-- The function `processApiResponse(url, data)`. -/
def processApiResponse (_url : String) (data : JsVal) (st : PageState) : PageState :=
  let items := payloadItems data
  if items.length < 1000 then st
  else
    let r := items.foldl harvestItem (st.capturedFingerprints, 0)
    let st1 := { st with capturedFingerprints := r.1 }
    if r.2 > 1000 then
      { st1 with
        fullDatabaseFetched := true
        posted := st1.posted ++
          [{ data := r.1, replaceRegistry := true, source := "icon-picker-complete" }] }
    else st1

/-! ## Render-tree harvest (`extractFromReact`) -/

/-- A fiber object of the host page: the props the search reads and the two
links it follows.  A link is an index into the heap of fibers. -/
structure Fiber where
  memoizedProps : JsVal
  child : Option Nat
  sibling : Option Nat

/-- The fiber objects of the page; a reference to a fiber is its index. -/
abbrev FiberHeap := List Fiber

/-- Length of a string in UTF-16 code units, the `length` of a JS string. -/
def utf16Length (s : String) : Nat :=
  (s.data.map (fun c => if c.val ≥ 0x10000 then 2 else 1)).sum

/-- The test `v?.length > bound`: arrays and strings have a length, a plain
object has one when it carries a numeric `length` property. -/
def lengthExceeds (v : JsVal) (bound : Nat) : Bool :=
  match v with
  | .arr xs => xs.length > bound
  | .str s => utf16Length s > bound
  | .obj fs =>
    match objGet fs "length" with
    | some (.num n) => n > (bound : Int)
    | _ => false
  | _ => false

/-- The value `fiber.memoizedProps?.data?.items`. -/
def Fiber.items (fb : Fiber) : JsVal :=
  (fb.memoizedProps.getProp "data").getProp "items"

/-- The variables shared by the calls of `search`: the `visited` set and
`found`.  `examined` is a ghost log of the fibers that passed the guard,
each with the depth it was examined at. -/
structure SearchState where
  visited : List Nat
  found : Option JsVal
  examined : List (Nat × Nat)

/-- The recursive function `search(fiber, depth)`, with the call depth left
as fuel; `search` below supplies what the depth guard allows. -/
def searchFuel : Nat → FiberHeap → Option Nat → Nat → SearchState → SearchState
  | 0, _, _, _, st => st
  | fuel + 1, heap, fiber, depth, st =>
    match fiber with
    | none => st
    | some f =>
      match heap.get? f with
      | none => st
      | some fb =>
        if depth > 50 || st.visited.contains f || st.found.isSome then st
        else
          let st1 : SearchState :=
            { st with visited := f :: st.visited, examined := st.examined ++ [(f, depth)] }
          if lengthExceeds fb.items 1000 then { st1 with found := some fb.items }
          else
            let st2 :=
              match fb.child with
              | some c => searchFuel fuel heap (some c) (depth + 1) st1
              | none => st1
            match fb.sibling with
            | some s => searchFuel fuel heap (some s) (depth + 1) st2
            | none => st2

/-- The function `search(fiber, depth)` of `extractFromReact`. -/
def search (heap : FiberHeap) (fiber : Option Nat) (depth : Nat) (st : SearchState) :
    SearchState :=
  searchFuel (52 - depth) heap fiber depth st

/-- The loop `document.querySelectorAll('*').forEach(...)`: `roots` lists, in
document order, the fiber each element carries (or none). -/
def scanRoots (heap : FiberHeap) (roots : List (Option Nat)) (st : SearchState) :
    SearchState :=
  roots.foldl
    (fun st r =>
      match r with
      | some f => if st.found.isSome then st else search heap (some f) 0 st
      | none => st)
    st

/-- One round of `found.forEach` in `extractFromReact`; reading `item.id` of
`null` or `undefined` throws, which is the result `none`. -/
def reactItem (map : JsObj) (item : JsVal) : Option JsObj :=
  match item with
  | .undefined => none
  | .null => none
  | _ =>
    if (item.getProp "id").truthy && (item.getProp "subtitle").truthy then
      some (objSet map (item.getProp "id").toKey (item.getProp "subtitle"))
    else some map

/-- The state of the search when the scan of the document is over. -/
def searchResult (heap : FiberHeap) (roots : List (Option Nat)) : SearchState :=
  scanRoots heap roots { visited := [], found := none, examined := [] }

/-- The function `extractFromReact()`; `none` is a thrown exception. -/
def extractFromReact (heap : FiberHeap) (roots : List (Option Nat)) : Option JsObj :=
  match (searchResult heap roots).found with
  | none => some []
  | some (.arr items) => items.foldlM reactItem []
  | some _ => none

/-- The assignment `capturedFingerprints = reactData` followed by the
`window.postMessage` call, as written in the three render-tree triggers. -/
def replaceAndPost (source : String) (reactData : JsObj) (st : PageState) : PageState :=
  { st with
    capturedFingerprints := reactData
    posted := st.posted ++
      [{ data := reactData, replaceRegistry := true, source := source }] }

/-- The function `startPeriodicExtraction()` (arming the timer). -/
def startPeriodicExtraction (st : PageState) : PageState :=
  if st.extractionInterval then st else { st with extractionInterval := true }

/-- One firing of the interval callback of `startPeriodicExtraction`; an
exception thrown by `extractFromReact` ends the callback. -/
def periodicExtraction (heap : FiberHeap) (roots : List (Option Nat)) (st : PageState) :
    PageState :=
  if st.extractionInterval then
    match extractFromReact heap roots with
    | none => st
    | some reactData =>
      if (objKeys reactData).length > 1000 then
        { replaceAndPost "react-complete" reactData st with extractionInterval := false }
      else st
  else st

/-- The `unifi-icon-browser-extract` branch of the message listener. -/
def manualExtraction (heap : FiberHeap) (roots : List (Option Nat)) (st : PageState) :
    PageState :=
  match extractFromReact heap roots with
  | none => st
  | some reactData =>
    if (objKeys reactData).length > 1000 then replaceAndPost "manual-extract" reactData st
    else st

/-- The debounced scroll callback. -/
def scrollExtraction (heap : FiberHeap) (roots : List (Option Nat)) (st : PageState) :
    PageState :=
  match extractFromReact heap roots with
  | none => st
  | some reactData =>
    if (objKeys reactData).length > 1000 then replaceAndPost "scroll-extract" reactData st
    else st

/-- The callback of the 60 second timer of `startPeriodicExtraction`. -/
def stopPeriodicExtraction (st : PageState) : PageState :=
  if st.extractionInterval then { st with extractionInterval := false } else st

/-- The events that make the harvester run; the fiber heap and the fibers
of the elements are those of the page when the event fires. -/
inductive PageEvent where
  | pageLoad
  | apiResponse (url : String) (data : JsVal)
  | periodicTick (heap : FiberHeap) (roots : List (Option Nat))
  | periodicTimeout
  | manualExtract (heap : FiberHeap) (roots : List (Option Nat))
  | scroll (heap : FiberHeap) (roots : List (Option Nat))

/-- The effect of one event on the page state. -/
def PageState.step (st : PageState) : PageEvent → PageState
  | .pageLoad => startPeriodicExtraction st
  | .apiResponse url data => processApiResponse url data st
  | .periodicTick heap roots => periodicExtraction heap roots st
  | .periodicTimeout => stopPeriodicExtraction st
  | .manualExtract heap roots => manualExtraction heap roots st
  | .scroll heap roots => scrollExtraction heap roots st

/-- The page state after a sequence of events. -/
def PageState.run (st : PageState) (events : List PageEvent) : PageState :=
  events.foldl PageState.step st

/-- The table a payload holds on its own: its items with id and subtitle,
written to an empty object. -/
def harvestTable (items : List JsVal) : JsObj :=
  (items.foldl harvestItem ([], 0)).1


/-! ## Concrete payloads used in the checks below -/

/-- An item of the icon picker list: `id` and `subtitle` present. -/
def pickerItem (id : Nat) (subtitle : String) : JsVal :=
  .obj [("id", .num id), ("subtitle", .str subtitle)]

/-- A payload whose `items` field is the given array. -/
def payloadOf (items : List JsVal) : JsVal := .obj [("items", .arr items)]

/-- Items with the ids `start, start + 1, ...`, `n` of them. -/
def pickerItems (start n : Nat) : List JsVal :=
  (List.range n).map (fun i => pickerItem (start + i) "Device")

/-- A page state whose captured table is `table`. -/
def stateWith (table : JsObj) : PageState :=
  { PageState.init with capturedFingerprints := table }

/-- The array the render-tree search hands to `found.forEach`; nothing when
the search found no collection or found a value that is not an array. -/
def foundItems (heap : FiberHeap) (roots : List (Option Nat)) : List JsVal :=
  match (searchResult heap roots).found with
  | some (.arr items) => items
  | _ => []

/-- The collection of items an event brings before the harvester: the
`items` array of the payload of an API response, the array found in the
render tree at an extraction, nothing at the timer events. -/
def PageEvent.collection : PageEvent → List JsVal
  | .pageLoad => []
  | .apiResponse _ data => payloadItems data
  | .periodicTick heap roots => foundItems heap roots
  | .periodicTimeout => []
  | .manualExtract heap roots => foundItems heap roots
  | .scroll heap roots => foundItems heap roots

/-- An entry of a table comes from an item with both an id and a subtitle:
one of the events brought a collection of at least 1000 items, and an item
of that collection has a truthy `id`, which gives the key of the entry, and
a truthy `subtitle`, which is the value of the entry. -/
def SourcedFrom (events : List PageEvent) (kv : String × JsVal) : Prop :=
  ∃ e ∈ events, 1000 ≤ e.collection.length ∧ ∃ item ∈ e.collection,
    (item.getProp "id").truthy = true ∧ (item.getProp "subtitle").truthy = true ∧
    kv = ((item.getProp "id").toKey, item.getProp "subtitle")

/-- What the engine guarantees of a table broadcast during `events`: it is
a replacement, every entry comes from an item with id and subtitle of a
collection of these events, and a render-tree broadcast has more than 1000
keys. -/
def GoodBroadcast (events : List PageEvent) (m : FingerprintsMessage) : Prop :=
  m.replaceRegistry = true ∧ (∀ kv ∈ m.data, SourcedFrom events kv) ∧
    (m.source ≠ "icon-picker-complete" → 1000 < (objKeys m.data).length)

/-- The property keys of the items of a payload that have id and subtitle. -/
def harvestKeys (items : List JsVal) : List String :=
  (items.filter hasIdAndSubtitle).map (fun item => (item.getProp "id").toKey)

/-- The number a string of decimal digits stands for. -/
def decimalValue (cs : List Char) : Nat :=
  cs.foldl (fun n c => 10 * n + (c.toNat - 48)) 0


/-- The invariant of the search: the ghost log lists exactly the visited
fibers, each once, none at a depth beyond 50, and all of them fibers of the
heap. -/
def SearchState.Sound (heap : FiberHeap) (st : SearchState) : Prop :=
  (st.examined.map Prod.fst).Nodup ∧
    (∀ f, f ∈ st.visited ↔ f ∈ st.examined.map Prod.fst) ∧
    (∀ p ∈ st.examined, p.2 ≤ 50) ∧
    ∀ p ∈ st.examined, p.1 < heap.length

/-- A heap of two fibers whose links form cycles: fiber 0 has fiber 1 as
child, fiber 1 has fiber 0 as child and itself as sibling. -/
def cyclicHeap : FiberHeap :=
  [{ memoizedProps := .obj [("data", .obj [("items", .arr [])])], child := some 1, sibling := none },
   { memoizedProps := .null, child := some 0, sibling := some 1 }]


/-! ## The DOM of the host page -/

/-- A DOM node: a text node or an element with its attributes (the `data-*`
attributes are the `dataset`) and child nodes. -/
inductive Node where
  | text (s : String)
  | elem (tag : String) (attrs : List (String × String)) (children : List Node)

/-- The position of a node: the child indices leading to it from the root
of the document.  A path stands for the identity of the node it reaches. -/
abbrev Path := List Nat

/-- Attribute read, `el.getAttribute(name)`. -/
def attrGet : List (String × String) → String → Option String
  | [], _ => none
  | (k, v) :: rest, name => if k = name then some v else attrGet rest name

/-- Attribute write, `el.setAttribute(name, value)`. -/
def attrSet : List (String × String) → String → String → List (String × String)
  | [], name, value => [(name, value)]
  | (k, v) :: rest, name, value =>
    if k = name then (name, value) :: rest else (k, v) :: attrSet rest name value

/-- Attribute removal, `delete el.dataset.x`. -/
def attrRemove (attrs : List (String × String)) (name : String) : List (String × String) :=
  attrs.filter (fun a => a.1 != name)

/-- Truthiness of a string that may be undefined. -/
def truthyStr : Option String → Bool
  | some s => s != ""
  | none => false

/-- Whether the node is an element. -/
def Node.isElement : Node → Bool
  | .elem _ _ _ => true
  | .text _ => false

/-- The tag of an element, in lower case. -/
def Node.tagName : Node → String
  | .elem tag _ _ => tag
  | .text _ => ""

/-- An attribute of an element. -/
def Node.attr : Node → String → Option String
  | .elem _ attrs _, name => attrGet attrs name
  | .text _, _ => none

/-- The child nodes of an element. -/
def Node.childNodes : Node → List Node
  | .elem _ _ cs => cs
  | .text _ => []

/-- The element with one attribute written. -/
def Node.setAttr (name value : String) : Node → Node
  | .elem tag attrs cs => .elem tag (attrSet attrs name value) cs
  | .text s => .text s

/-- The element with one attribute removed. -/
def Node.removeAttr (name : String) : Node → Node
  | .elem tag attrs cs => .elem tag (attrRemove attrs name) cs
  | .text s => .text s

mutual
/-- The property `textContent`. -/
def Node.textContent : Node → String
  | .text s => s
  | .elem _ _ cs => textContentList cs
/-- The concatenated text of a list of nodes. -/
def textContentList : List Node → String
  | [] => ""
  | c :: cs => c.textContent ++ textContentList cs
end

/-- The characters `String.prototype.trim` removes. -/
def isJsWhitespace (c : Char) : Bool :=
  [9, 10, 11, 12, 13, 32, 160, 5760, 8192, 8193, 8194, 8195, 8196, 8197, 8198, 8199, 8200,
    8201, 8202, 8232, 8233, 8239, 8287, 12288, 65279].contains c.toNat

/-- The method `String.prototype.trim`. -/
def jsTrim (s : String) : String :=
  ⟨((s.data.dropWhile isJsWhitespace).reverse.dropWhile isJsWhitespace).reverse⟩

/-- The node at a path, if the path leads to one. -/
def Node.get? : Node → Path → Option Node
  | n, [] => some n
  | .text _, _ :: _ => none
  | .elem _ _ cs, i :: p =>
    match cs.get? i with
    | some c => c.get? p
    | none => none

/-- A list with its `i`-th entry changed by `f`. -/
def listModify {α : Type} (f : α → α) : List α → Nat → List α
  | [], _ => []
  | a :: as, 0 => f a :: as
  | a :: as, i + 1 => a :: listModify f as i

/-- The document with the node at a path changed by `f`. -/
def Node.modify (f : Node → Node) : Node → Path → Node
  | n, [] => f n
  | .text s, _ :: _ => .text s
  | .elem tag attrs cs, i :: p => .elem tag attrs (listModify (fun c => Node.modify f c p) cs i)

mutual
/-- The element descendants of a node in document order, as paths from it. -/
def elemPaths : Node → List Path
  | .text _ => []
  | .elem _ _ cs => elemPathsList cs 0
/-- The elements of a list of sibling nodes, and their descendants. -/
def elemPathsList : List Node → Nat → List Path
  | [], _ => []
  | c :: cs, i =>
    (if c.isElement then [[i]] else []) ++ (elemPaths c).map (fun p => i :: p) ++
      elemPathsList cs (i + 1)
end

/-- The node at a path; a path that leads nowhere gives an empty text. -/
def nodeAt (doc : Node) (p : Path) : Node := (doc.get? p).getD (.text "")

/-- The value `el.textContent?.trim()` of the element at a path. -/
def textAt (doc : Node) (p : Path) : String := jsTrim (nodeAt doc p).textContent

/-- The element descendants of the element at `scope`, in document order. -/
def descendants (doc : Node) (scope : Path) : List Path :=
  (elemPaths (nodeAt doc scope)).map (fun p => scope ++ p)

/-- The call `scope.querySelectorAll` with a list of tag names. -/
def selectByTag (doc : Node) (scope : Path) (tags : List String) : List Path :=
  (descendants doc scope).filter (fun p => tags.contains (nodeAt doc p).tagName)

/-- The element children `el.children` of the element at a path. -/
def elementChildren (doc : Node) (el : Path) : List Path :=
  ((List.range (nodeAt doc el).childNodes.length).filter
    (fun i => (nodeAt doc (el ++ [i])).isElement)).map (fun i => el ++ [i])

/-- The test `a.contains(b)`: `b` is `a` or a descendant of `a`. -/
def pathContains : Path → Path → Bool
  | [], _ => true
  | _ :: _, [] => false
  | a :: as, b :: bs => a == b && pathContains as bs

/-- The parent element of a node, none for the root. -/
def parentPath (p : Path) : Option Path :=
  if p = [] then none else some p.dropLast

/-- The node and its ancestors, innermost first. -/
def ancestorsOrSelf : Path → List Path
  | [] => [[]]
  | i :: p => (ancestorsOrSelf p).map (fun q => i :: q) ++ [[]]

/-- Whether `sub` occurs at the start of `s`. -/
def startsWithChars : List Char → List Char → Bool
  | _, [] => true
  | [], _ :: _ => false
  | c :: cs, d :: ds => c == d && startsWithChars cs ds

/-- Whether `sub` occurs in `s`, as `s.includes(sub)`. -/
def includesChars : List Char → List Char → Bool
  | [], sub => sub.isEmpty
  | c :: cs, sub => startsWithChars (c :: cs) sub || includesChars cs sub

/-- The selector `[class*="sub"]` on the element at a path. -/
def classIncludes (doc : Node) (p : Path) (sub : String) : Bool :=
  match (nodeAt doc p).attr "class" with
  | some cls => includesChars cls.data sub.data
  | none => false

/-- The call `el.closest(selector)`, the selector given as a test on paths. -/
def closest (sel : Path → Bool) (p : Path) : Option Path :=
  (ancestorsOrSelf p).find? sel


/-! ## The DOM patch engine (`injected.js`) -/

/-- A custom mapping as stored by the options page; a field that is missing
or empty is falsy. -/
structure CustomMapping where
  iconUrl : Option String
  name : Option String
  deviceName : Option String
  manufacturer : Option String
  model : Option String
  os : Option String

/-- The table `customIconMappings`, keyed by device id. -/
abbrev MappingTable := List (String × CustomMapping)

/-- The read `customIconMappings[deviceId]`. -/
def mappingOf : MappingTable → String → Option CustomMapping
  | [], _ => none
  | (k, m) :: rest, deviceId => if k = deviceId then some m else mappingOf rest deviceId

/-- The document and the `processedPanels` set of the patch engine. -/
structure PatchState where
  doc : Node
  processedPanels : List Path

mutual
/-- The function `findInnermostTextElement(el)`, the result as a path from
`el`. -/
def findInnermostTextElement : Node → Option Path
  | .text _ => none
  | .elem _ _ cs =>
    if !(cs.any Node.isElement) && jsTrim (textContentList cs) != "" then some []
    else findInnermostIn cs 0
/-- The loop over `el.children` of `findInnermostTextElement`. -/
def findInnermostIn : List Node → Nat → Option Path
  | [], _ => none
  | c :: cs, i =>
    match findInnermostTextElement c with
    | some p => some (i :: p)
    | none => findInnermostIn cs (i + 1)
end

/-- The element `findInnermostTextElement(el) || el`. -/
def innermostPath (doc : Node) (el : Path) : Path :=
  el ++ (findInnermostTextElement (nodeAt doc el)).getD []

/-- The block guarded by `if (!innermost.dataset.originalText)`. -/
def stashOriginal (n : Node) : Node :=
  if truthyStr (n.attr "data-original-text") then n
  else (n.setAttr "data-original-text" n.textContent).setAttr "data-info-overridden" "true"

/-- The assignment `el.textContent = value`. -/
def setTextContent (value : String) : Node → Node
  | .elem tag attrs _ => .elem tag attrs (if value = "" then [] else [.text value])
  | .text _ => .text value

/-- The function `replaceTextPreservingStyle(el, newValue)`; the element it
returns is `innermostPath doc el`. -/
def replaceTextPreservingStyle (doc : Node) (el : Path) (newValue : String) : Node :=
  doc.modify (fun n => setTextContent newValue (stashOriginal n)) (innermostPath doc el)

/-- The labels a value of an info field must differ from. -/
def infoLabels : List String := ["Manufacturer", "Model", "OS", "IP Address", "Hostname"]

/-- The loop of method 1 of `replaceInfoField` over the scanned elements,
with the current `labelElement`; the result is the label element and the
element whose text is to be replaced. -/
def scanInfoField (doc : Node) (fieldLabel : String) :
    List Path → Option Path → Option (Path × Path)
  | [], _ => none
  | el :: rest, labelElement =>
    let hit : Option (Path × Path) :=
      match labelElement with
      | some lab =>
        if el != lab && !pathContains el lab && !pathContains lab el &&
            (textAt doc el != "" && textAt doc el != fieldLabel &&
              !infoLabels.contains (textAt doc el)) then some (lab, el)
        else none
      | none => none
    match hit with
    | some r => some r
    | none =>
      scanInfoField doc fieldLabel rest
        (if textAt doc el = fieldLabel then some el else labelElement)

/-- The loop `for (let i = 0; i < children.length - 1; i++)` of method 2: the
child after the first child that reads the label. -/
def findLabelledChild (doc : Node) (fieldLabel : String) : List Path → Option Path
  | [] => none
  | [_] => none
  | c :: v :: rest =>
    if textAt doc c = fieldLabel then some v
    else findLabelledChild doc fieldLabel (v :: rest)

/-- The callback of method 2 of `replaceInfoField` for one row.  A row that
an earlier round detached from the document is no longer reached by its
path, and what the callback does to it is not seen in the document. -/
def replaceInRow (fieldLabel newValue : String) (doc : Node) (row : Path) : Node :=
  if (nodeAt doc row).isElement then
    if (elementChildren doc row).length ≥ 2 then
      match findLabelledChild doc fieldLabel (elementChildren doc row) with
      | some valueEl => replaceTextPreservingStyle doc valueEl newValue
      | none => doc
    else doc
  else doc

/-- The function `replaceInfoField(container, fieldLabel, newValue)`. -/
def replaceInfoField (doc : Node) (container : Path) (fieldLabel newValue : String) : Node :=
  match scanInfoField doc fieldLabel (selectByTag doc container ["span", "div", "p", "td"])
      none with
  | some (_, el) => replaceTextPreservingStyle doc el newValue
  | none => (selectByTag doc container ["div", "tr"]).foldl (replaceInRow fieldLabel newValue) doc

/-- Whether a character is a hexadecimal digit, in either case. -/
def isHexDigit (c : Char) : Bool :=
  (48 ≤ c.toNat && c.toNat ≤ 57) || (97 ≤ c.toNat && c.toNat ≤ 102) ||
    (65 ≤ c.toNat && c.toNat ≤ 70)

/-- The test of the regular expression for a colon-separated MAC address,
case-insensitive and anchored at both ends. -/
def isMacAddress (s : String) : Bool :=
  match s.data with
  | [a0, a1, c0, b0, b1, c1, d0, d1, c2, e0, e1, c3, f0, f1, c4, g0, g1] =>
    [a0, a1, b0, b1, d0, d1, e0, e1, f0, f1, g0, g1].all isHexDigit &&
      [c0, c1, c2, c3, c4].all (fun c => c == ':')
  | _ => false

/-- The labels method 1 of `replaceDeviceName` skips. -/
def deviceTypeLabels : List String :=
  ["Manufacturer", "Model", "OS", "IP Address", "Hostname", "Change Icon"]

/-- The labels method 2 of `replaceDeviceName` skips. -/
def deviceNameLabels : List String :=
  ["Manufacturer", "Model", "OS", "IP Address", "Hostname", "VLAN", "Virtual Network",
    "Change Icon"]

/-- The `p` elements method 1 of `replaceDeviceName` looks at, in the order
of its two loops: the `p` descendants of each sibling of the icon container. -/
def deviceTypeCandidates (doc : Node) (deviceIcon : Path) : List Path :=
  match parentPath deviceIcon with
  | none => []
  | some iconContainer =>
    match parentPath iconContainer with
    | none => []
    | some iconGrandparent =>
      ((elementChildren doc iconGrandparent).filter (fun sibling => sibling != iconContainer)).flatMap
        (fun sibling => selectByTag doc sibling ["p"])

/-- The tests method 1 of `replaceDeviceName` makes on a `p` element;
`fontWeight` is the computed font weight of the page. -/
def isDeviceTypeText (fontWeight : Path → Nat) (doc : Node) (p : Path) : Bool :=
  !(textAt doc p == "" || utf16Length (textAt doc p) < 3) &&
    !isMacAddress (textAt doc p) &&
    !deviceTypeLabels.contains (textAt doc p) &&
    (classIncludes doc p "bold" || fontWeight p ≥ 600)

/-- What method 1 of `replaceDeviceName` does to the `p` element it picks. -/
def markDeviceType (doc : Node) (p : Path) (newName : String) : Node :=
  let replaced := innermostPath doc p
  let doc1 := replaceTextPreservingStyle doc p newName
  let doc2 := doc1.modify
    (fun n => (n.setAttr "data-original-device-type"
      ((n.attr "data-original-text").getD "undefined")).setAttr
        "data-device-type-overridden" "true") replaced
  let doc3 := doc2.modify (Node.setAttr "title" newName) p
  match parentPath p with
  | some parent => doc3.modify (Node.setAttr "title" newName) parent
  | none => doc3

/-- The selector of method 2 of `replaceDeviceName`: a heading, a class with
`title` or `name`, or a `span` below an element whose class has `header`
or `Header`. -/
def matchesNameSelector (doc : Node) (el : Path) : Bool :=
  ["h1", "h2", "h3", "h4"].contains (nodeAt doc el).tagName ||
    classIncludes doc el "title" || classIncludes doc el "name" ||
    ((nodeAt doc el).tagName == "span" &&
      ((ancestorsOrSelf el).tail.any (fun a => classIncludes doc a "header") ||
        (ancestorsOrSelf el).tail.any (fun a => classIncludes doc a "Header")))

/-- The value `el.closest('div')?.querySelector('img[data-custom-icon-applied]')`
as a truth value. -/
def nearIcon (doc : Node) (el : Path) : Bool :=
  match closest (fun a => (nodeAt doc a).tagName == "div") el with
  | some div =>
    (descendants doc div).any
      (fun i => (nodeAt doc i).tagName == "img" &&
        ((nodeAt doc i).attr "data-custom-icon-applied").isSome)
  | none => false

/-- The tests method 2 of `replaceDeviceName` makes on a candidate. -/
def isDeviceNameText (doc : Node) (el : Path) : Bool :=
  !(textAt doc el == "" || utf16Length (textAt doc el) < 2) &&
    !deviceNameLabels.contains (textAt doc el) &&
    (nearIcon doc el || (closest (fun a => classIncludes doc a "header") el).isSome ||
      (closest (fun a => classIncludes doc a "Header") el).isSome)

/-- What method 2 of `replaceDeviceName` does to the element it picks. -/
def markDeviceName (doc : Node) (el : Path) (newName : String) : Node :=
  (replaceTextPreservingStyle doc el newName).modify
    (fun n => (n.setAttr "data-original-device-name"
      ((n.attr "data-original-text").getD "undefined")).setAttr
        "data-device-name-overridden" "true") (innermostPath doc el)

/-- Method 2 of `replaceDeviceName`. -/
def replaceDeviceNameByHeading (doc : Node) (container : Path) (newName : String) : Node :=
  match ((descendants doc container).filter (matchesNameSelector doc)).find?
      (isDeviceNameText doc) with
  | some el => markDeviceName doc el newName
  | none => doc

/-- The function `replaceDeviceName(container, newName, deviceIcon)`. -/
def replaceDeviceName (fontWeight : Path → Nat) (doc : Node) (container : Path)
    (newName : String) (deviceIcon : Option Path) : Node :=
  match deviceIcon with
  | some icon =>
    match (deviceTypeCandidates doc icon).find? (isDeviceTypeText fontWeight doc) with
    | some p => markDeviceType doc p newName
    | none => replaceDeviceNameByHeading doc container newName
  | none => replaceDeviceNameByHeading doc container newName

/-- The function `revealPanel(panel)`, which `revealReplacedContent` calls. -/
def revealPanel (st : PatchState) (panel : Path) : PatchState :=
  { doc := st.doc.modify
      (fun n => (n.removeAttr "data-unifi-panel-processing").setAttr
        "data-unifi-panel-processed" "true") panel
    processedPanels :=
      if st.processedPanels.contains panel then st.processedPanels
      else panel :: st.processedPanels }

/-- The function `applyDeviceOverrides(container, mapping, deviceIcon, deviceId)`. -/
def applyDeviceOverrides (fontWeight : Path → Nat) (st : PatchState) (container : Path)
    (mapping : CustomMapping) (deviceIcon : Option Path) (_deviceId : String) : PatchState :=
  let doc1 :=
    if truthyStr mapping.manufacturer then
      replaceInfoField st.doc container "Manufacturer" (mapping.manufacturer.getD "")
    else st.doc
  let doc2 :=
    if truthyStr mapping.model then
      replaceInfoField doc1 container "Model" (mapping.model.getD "")
    else doc1
  let doc3 :=
    if truthyStr mapping.os then replaceInfoField doc2 container "OS" (mapping.os.getD "")
    else doc2
  let doc4 :=
    if truthyStr mapping.deviceName then
      replaceDeviceName fontWeight doc3 container (mapping.deviceName.getD "") deviceIcon
    else doc3
  revealPanel { st with doc := doc4 } container


/-! ## Override resolution -/

/-- The fields of a mapping the engine can override. -/
inductive OverrideField where
  | icon
  | deviceName
  | manufacturer
  | model
  | os

/-- The value a mapping holds for a field (`icon` is `iconUrl`). -/
def CustomMapping.field (m : CustomMapping) : OverrideField → Option String
  | .icon => m.iconUrl
  | .deviceName => m.deviceName
  | .manufacturer => m.manufacturer
  | .model => m.model
  | .os => m.os

/-- The function `getCustomIconUrl(deviceId)`:
`customIconMappings[deviceId]?.iconUrl || null`. -/
def getCustomIconUrl (mappings : MappingTable) (deviceId : String) : Option String :=
  match mappingOf mappings deviceId with
  | some m => if truthyStr m.iconUrl then m.iconUrl else none
  | none => none

/-- The value `hasOverrides` of `replaceDeviceInfoInPanel`. -/
def hasOverrides (m : CustomMapping) : Bool :=
  truthyStr m.deviceName || truthyStr m.manufacturer || truthyStr m.model || truthyStr m.os

/-- The replacements `applyDeviceOverrides` calls for, in its order. -/
def overrideCalls (m : CustomMapping) : List (OverrideField × String) :=
  (if truthyStr m.manufacturer then [(.manufacturer, m.manufacturer.getD "")] else []) ++
  (if truthyStr m.model then [(.model, m.model.getD "")] else []) ++
  (if truthyStr m.os then [(.os, m.os.getD "")] else []) ++
  (if truthyStr m.deviceName then [(.deviceName, m.deviceName.getD "")] else [])

/-- The replacement one call of `overrideCalls` stands for. -/
def applyOverrideCall (fontWeight : Path → Nat) (container : Path) (deviceIcon : Option Path)
    (doc : Node) (call : OverrideField × String) : Node :=
  match call.1 with
  | .manufacturer => replaceInfoField doc container "Manufacturer" call.2
  | .model => replaceInfoField doc container "Model" call.2
  | .os => replaceInfoField doc container "OS" call.2
  | .deviceName => replaceDeviceName fontWeight doc container call.2 deviceIcon
  | .icon => doc

/-- The guards of `replaceDeviceInfoInPanel(deviceId)`: what it hands to
`applyDeviceOverrides` once a container is located. -/
def panelOverrides (mappings : MappingTable) (deviceId : String) :
    List (OverrideField × String) :=
  match mappingOf mappings deviceId with
  | none => []
  | some m => if hasOverrides m then overrideCalls m else []

/-- The overrides the engine applies for a device id: the icon that
`replaceIconsInDom` swaps in (`getCustomIconUrl`) and the text fields of
`replaceDeviceInfoInPanel`. -/
def resolveOverrides (mappings : MappingTable) (deviceId : String) :
    List (OverrideField × String) :=
  (match getCustomIconUrl mappings deviceId with
    | some url => [(OverrideField.icon, url)]
    | none => []) ++ panelOverrides mappings deviceId

/-! ## The registry in the background worker (`background.js`, `content.js`) -/

/-- The area `chrome.storage.local`, a table from keys to values. -/
abbrev ChromeStorage := JsObj

/-- The key `StorageManager.KEYS.REGISTRY`. -/
def registryKey : String := "unifiDeviceRegistry"

/-- The function `StorageManager.saveRegistry(registry)`; `writeOk` tells
whether `chrome.storage.local.set` resolves, and the result carries the
success flag. -/
def saveRegistry (registry : JsObj) (writeOk : Bool) (store : ChromeStorage) :
    ChromeStorage × Bool :=
  if writeOk then (objSet store registryKey (.obj registry), true) else (store, false)

/-- A registry entry, the object with `name` and `addedAt`. -/
def registryEntry (name : JsVal) (now : Int) : JsVal :=
  .obj [("name", name), ("addedAt", .num now)]

/-- The loop of the `replaceRegistry` handler that converts the devices to
the registry format. -/
def buildRegistry (devices : JsObj) (now : Int) : JsObj :=
  (objEntries devices).foldl (fun registry e => objSet registry e.1 (registryEntry e.2 now)) []

/-- The response of the `replaceRegistry` handler. -/
structure ReplaceResponse where
  success : Bool
  count : Nat

/-- The `replaceRegistry` case of the message listener of the background
worker; `now` is the value of `Date.now()`. -/
def onReplaceRegistry (devices : JsObj) (now : Int) (writeOk : Bool) (store : ChromeStorage) :
    ChromeStorage × ReplaceResponse :=
  let count := (objKeys devices).length
  let registry := buildRegistry devices now
  let saved := saveRegistry registry writeOk store
  (saved.1, { success := saved.2, count := count })

/-- The registry held by the storage area, if one is stored. -/
def storedRegistry (store : ChromeStorage) : Option JsObj :=
  match objGet store registryKey with
  | some (.obj registry) => some registry
  | _ => none

/-- A request the content script sends to the background worker. -/
inductive BackgroundRequest where
  | replaceRegistry (devices : JsObj)
  | autoSaveDevices (devices : JsObj)

/-- The call `Object.assign(target, source)`. -/
def objAssign (target source : JsObj) : JsObj :=
  (objEntries source).foldl (fun t e => objSet t e.1 e.2) target

/-- The fingerprints branch of the message listener of the content script:
the new value of `collectedDevices` and the request sent, if any. -/
def contentOnFingerprints (m : FingerprintsMessage) (collectedDevices : JsObj) :
    JsObj × Option BackgroundRequest :=
  if m.replaceRegistry then (m.data, some (.replaceRegistry m.data))
  else
    let newCount :=
      ((objKeys m.data).filter
        (fun k => !((objGet collectedDevices k).getD .undefined).truthy)).length
    let merged := objAssign collectedDevices m.data
    (merged, if newCount > 0 then some (.autoSaveDevices merged) else none)

/-! ## Fingerprint URLs (`extractFingerprintId`) -/

/-- The class `\d` of the regular expressions of the script. -/
def isDigit (c : Char) : Bool := 48 ≤ c.toNat && c.toNat ≤ 57

/-- What is left of the input after a literal, when the input starts with it. -/
def dropLiteral : List Char → List Char → Option (List Char)
  | [], cs => some cs
  | _ :: _, [] => none
  | l :: ls, c :: cs => if l = c then dropLiteral ls cs else none

/-- The pattern `\d+` followed by something that is not a digit: the longest
run of digits, which must not be empty, and the rest of the input. -/
def takeDigits (cs : List Char) : Option (List Char × List Char) :=
  if (cs.takeWhile isDigit).isEmpty then none
  else some (cs.takeWhile isDigit, cs.dropWhile isDigit)

/-- The group `_\d+x\d+` at the start of the input; the rest after it. -/
def matchSizeSuffix (cs : List Char) : Option (List Char) :=
  match dropLiteral "_".data cs with
  | none => none
  | some r1 =>
    match takeDigits r1 with
    | none => none
    | some (_, r2) =>
      match dropLiteral "x".data r2 with
      | none => none
      | some r3 =>
        match takeDigits r3 with
        | none => none
        | some (_, r4) => some r4

/-- The regular expression `fingerprint\/\d+\/(\d+)(?:_\d+x\d+)?\.png` tried at
the start of the input; the result is the captured id. -/
def matchFingerprintUrlAt (cs : List Char) : Option String :=
  match dropLiteral "fingerprint/".data cs with
  | none => none
  | some r1 =>
    match takeDigits r1 with
    | none => none
    | some (_, r2) =>
      match dropLiteral "/".data r2 with
      | none => none
      | some r3 =>
        match takeDigits r3 with
        | none => none
        | some (id, r4) =>
          match dropLiteral ".png".data ((matchSizeSuffix r4).getD r4) with
          | none => none
          | some _ => some (String.mk id)

/-- The regular expression `\/device\/(?:image|icon)\/(\d+)` tried at the start
of the input. -/
def matchDeviceUrlAt (cs : List Char) : Option String :=
  match dropLiteral "/device/".data cs with
  | none => none
  | some r1 =>
    match (match dropLiteral "image".data r1 with
            | some r => some r
            | none => dropLiteral "icon".data r1) with
    | none => none
    | some r2 =>
      match dropLiteral "/".data r2 with
      | none => none
      | some r3 =>
        match takeDigits r3 with
        | none => none
        | some (id, _) => some (String.mk id)

/-- The leftmost match of an unanchored pattern, as `String.prototype.match`
finds it. -/
def firstMatch (pattern : List Char → Option String) : List Char → Option String
  | [] => pattern []
  | c :: cs =>
    match pattern (c :: cs) with
    | some r => some r
    | none => firstMatch pattern cs

/-- The function `extractFingerprintId(url)` on a string. -/
def extractFingerprintId (url : String) : Option String :=
  match firstMatch matchFingerprintUrlAt url.data with
  | some id => some id
  | none => firstMatch matchDeviceUrlAt url.data

/-! ## Selectors and images -/

/-- All elements of the document in document order, the root included, as
`document.querySelectorAll('*')` lists them. -/
def allElements (doc : Node) : List Path :=
  (if doc.isElement then [[]] else []) ++ descendants doc []

/-- The white space that separates the tokens of a `class` attribute. -/
def isAsciiSpace (c : Char) : Bool := [9, 10, 12, 13, 32].contains c.toNat

/-- The tokens of a `class` attribute; `cur` is the token being read,
reversed. -/
def classTokensAux : List Char → List Char → List String
  | [], cur => if cur.isEmpty then [] else [String.mk cur.reverse]
  | c :: cs, cur =>
    if isAsciiSpace c then
      (if cur.isEmpty then [] else [String.mk cur.reverse]) ++ classTokensAux cs []
    else classTokensAux cs (c :: cur)

/-- The class list of the element at a path. -/
def classList (doc : Node) (p : Path) : List String :=
  match (nodeAt doc p).attr "class" with
  | some cls => classTokensAux cls.data []
  | none => []

/-- The simple selectors the script uses for panel-like regions. -/
inductive Selector where
  | hasClass (name : String)
  | classContains (sub : String)
  | role (value : String)

/-- Whether the element at a path matches a selector. -/
def Selector.matchesAt (doc : Node) (p : Path) : Selector → Bool
  | .hasClass name => (classList doc p).contains name
  | .classContains sub => classIncludes doc p sub
  | .role value => (nodeAt doc p).attr "role" == some value

/-- Whether the element at a path matches one selector of a list, as
`el.matches('a, b, ...')`. -/
def matchesAny (sels : List Selector) (doc : Node) (p : Path) : Bool :=
  (nodeAt doc p).isElement && sels.any (Selector.matchesAt doc p)

/-- The constant `PANEL_SELECTORS`. -/
def PANEL_SELECTORS : List Selector :=
  [.hasClass "PROPERTY_PANEL_CLASSNAME",
   .classContains "panel", .classContains "Panel",
   .classContains "sidebar", .classContains "Sidebar",
   .classContains "detail", .classContains "Detail",
   .classContains "modal", .classContains "Modal",
   .role "dialog", .role "complementary"]

/-- The selector list of `img.closest(...)` in `replaceIconsInDom`. -/
def containingPanelSelectors : List Selector :=
  [.classContains "panel", .classContains "Panel",
   .classContains "sidebar", .classContains "Sidebar",
   .classContains "detail", .classContains "Detail",
   .role "complementary", .role "dialog"]

/-- The constant `panelSelectors` of the mutation observer. -/
def observerPanelSelectors : List Selector :=
  [.classContains "panel", .classContains "Panel",
   .classContains "modal", .classContains "Modal",
   .classContains "sidebar", .classContains "Sidebar",
   .classContains "detail", .classContains "Detail",
   .role "complementary", .role "dialog"]

/-- The selector list of `existingPanels` in the click handler. -/
def clickPanelSelectors : List Selector :=
  [.classContains "panel", .classContains "Panel",
   .classContains "detail", .classContains "Detail",
   .role "complementary"]

/-- The property `img.src`, empty without the attribute.  URLs are taken as
absolute, so that the property reads back the attribute. -/
def srcOf (doc : Node) (p : Path) : String := ((nodeAt doc p).attr "src").getD ""

/-- The property `img.srcset`, empty without the attribute. -/
def srcsetOf (doc : Node) (p : Path) : String := ((nodeAt doc p).attr "srcset").getD ""

/-- Whether an attribute of the element exists and contains `sub`, the
selector `[name*="sub"]`. -/
def attrIncludes (doc : Node) (p : Path) (name sub : String) : Bool :=
  match (nodeAt doc p).attr name with
  | some v => includesChars v.data sub.data
  | none => false

/-- The selector `img`. -/
def isImg (doc : Node) (p : Path) : Bool := (nodeAt doc p).tagName == "img"

/-- The selector `img[src*="fingerprint"]`. -/
def isFingerprintImg (doc : Node) (p : Path) : Bool :=
  isImg doc p && attrIncludes doc p "src" "fingerprint"

/-- The selector `img[data-custom-icon-applied="true"][data-device-id="id"]`. -/
def isTaggedFor (doc : Node) (deviceId : String) (p : Path) : Bool :=
  isImg doc p && (nodeAt doc p).attr "data-custom-icon-applied" == some "true" &&
    (nodeAt doc p).attr "data-device-id" == some deviceId

/-- The selector `img[src="url"]`. -/
def isImgWithSrc (doc : Node) (url : String) (p : Path) : Bool :=
  isImg doc p && (nodeAt doc p).attr "src" == some url

/-- The value `panel.closest('svg')` as a truth value. -/
def insideSvg (doc : Node) (p : Path) : Bool :=
  (closest (fun a => (nodeAt doc a).tagName == "svg") p).isSome

/-- The test `el.textContent?.includes(word)`. -/
def textIncludes (doc : Node) (p : Path) (word : String) : Bool :=
  includesChars (nodeAt doc p).textContent.data word.data

/-- The result of a call that may end in an exception. -/
inductive Completion (α : Type) where
  | returned (value : α)
  | threw

/-- A value spliced between double quotes into a selector.  Without a double
quote, a backslash or a line break in it, the selector compares with the
value.  With one of them the selector is taken to be invalid, so that
`querySelector` throws, as it does for a double quote that is followed by
more of a URL; values made up to end the string and start another valid
selector are not modelled. -/
def selectorString (v : String) : Option String :=
  if v.data.all (fun c => !([34, 92, 10, 12, 13].contains c.toNat)) then some v else none


/-! ## Locating the device panel -/

/-- The panels the loops over `PANEL_SELECTORS` and
`document.querySelectorAll(selector)` visit, in the order of the visits. -/
def panelsInOrder (doc : Node) : List Path :=
  PANEL_SELECTORS.flatMap (fun sel => (allElements doc).filter (fun p => sel.matchesAt doc p))

/-- A loop over panels that returns from the function at the first panel
whose body yields a result, and that an exception in a body ends. -/
def firstResult {α : Type} (body : Path → Completion (Option α)) :
    List Path → Completion (Option α)
  | [] => .returned none
  | p :: ps =>
    match body p with
    | .threw => .threw
    | .returned (some r) => .returned (some r)
    | .returned none => firstResult body ps

/-- The body of the loop of `findPanelWithDeviceFingerprint` for one panel;
the result is the icon and the container. -/
def fingerprintInPanel (doc : Node) (mappings : MappingTable) (deviceId : String)
    (panel : Path) : Completion (Option (Path × Path)) :=
  if insideSvg doc panel then .returned none
  else if !(textIncludes doc panel "Manufacturer" && textIncludes doc panel "Model") then
    .returned none
  else
    match selectorString deviceId with
    | none => .threw
    | some id =>
      match (descendants doc panel).find? (isTaggedFor doc id) with
      | some replacedIcon => .returned (some (replacedIcon, panel))
      | none =>
        match ((descendants doc panel).filter (isFingerprintImg doc)).find?
            (fun img => extractFingerprintId (srcOf doc img) == some deviceId) with
        | some img => .returned (some (img, panel))
        | none =>
          match mappingOf mappings deviceId with
          | none => .returned none
          | some mapping =>
            if truthyStr mapping.iconUrl then
              match selectorString (mapping.iconUrl.getD "") with
              | none => .threw
              | some url =>
                match (descendants doc panel).find? (isImgWithSrc doc url) with
                | some customImg => .returned (some (customImg, panel))
                | none => .returned none
            else .returned none

/-- The function `findPanelWithDeviceFingerprint(deviceId)`. -/
def findPanelWithDeviceFingerprint (doc : Node) (mappings : MappingTable)
    (deviceId : String) : Completion (Option (Path × Path)) :=
  firstResult (fingerprintInPanel doc mappings deviceId) (panelsInOrder doc)

/-- The function `findContainerWithDeviceInfo(startElement, stopElement,
maxLevels)`; an absent element is `none`. -/
def findContainerWithDeviceInfo (doc : Node) (stopElement : Option Path) :
    Nat → Option Path → Option Path
  | 0, _ => none
  | _ + 1, none => none
  | maxLevels + 1, some container =>
    if some container == stopElement then none
    else if textIncludes doc container "Manufacturer" || textIncludes doc container "Model" then
      some container
    else findContainerWithDeviceInfo doc stopElement maxLevels (parentPath container)

/-- The body of the loop of `findDeviceIconInPanels` for one panel. -/
def deviceIconInPanel (doc : Node) (deviceId : String) (mapping : CustomMapping)
    (panel : Path) : Completion (Option (Path × Path)) :=
  if insideSvg doc panel then .returned none
  else
    match selectorString deviceId with
    | none => .threw
    | some id =>
      match (descendants doc panel).find? (isTaggedFor doc id) with
      | some icon =>
        .returned (some (icon,
          (findContainerWithDeviceInfo doc (parentPath panel) 15 (parentPath icon)).getD panel))
      | none =>
        if truthyStr mapping.iconUrl then
          match selectorString (mapping.iconUrl.getD "") with
          | none => .threw
          | some url =>
            match (descendants doc panel).find? (isImgWithSrc doc url) with
            | some iconByUrl => .returned (some (iconByUrl, panel))
            | none => .returned none
        else .returned none

/-- The function `findDeviceIconInPanels(deviceId, mapping)`. -/
def findDeviceIconInPanels (doc : Node) (deviceId : String) (mapping : CustomMapping) :
    Completion (Option (Path × Path)) :=
  firstResult (deviceIconInPanel doc deviceId mapping) (panelsInOrder doc)

/-- The function `findDeviceIconGlobally(deviceId)`. -/
def findDeviceIconGlobally (doc : Node) (deviceId : String) :
    Completion (Option (Path × Path)) :=
  match selectorString deviceId with
  | none => .threw
  | some id =>
    match (allElements doc).find? (isTaggedFor doc id) with
    | none => .returned none
    | some globalIcon =>
      if insideSvg doc globalIcon then .returned none
      else
        match findContainerWithDeviceInfo doc none 15 (parentPath globalIcon) with
        | some container => .returned (some (globalIcon, container))
        | none => .returned none

/-! ## The engine: state, layout and scheduled callbacks -/

/-- A callback handed to `requestAnimationFrame` or `setTimeout`, with the
values its closure holds. -/
inductive Callback where
  | iconFrame (deviceId : String) (containingPanel : Option Path)
  | observerFrame (panels : List Path)
  | observerReveal (panels : List Path)
  | clickFrame (deviceId : String) (panels : List Path)
  | clickReveal (panels : List Path)
  | applyMappings
  deriving DecidableEq

/-- The state of the patch engine: the document with the `processedPanels`
set, the table `customIconMappings`, and the callbacks scheduled and not yet
run, oldest first. -/
structure EngineState where
  patch : PatchState
  customIconMappings : MappingTable
  scheduled : List Callback

/-- The document of an engine state. -/
def EngineState.doc (st : EngineState) : Node := st.patch.doc

/-- The engine state with another document. -/
def EngineState.withDoc (st : EngineState) (doc : Node) : EngineState :=
  { st with patch := { st.patch with doc := doc } }

/-- The engine state with one more callback scheduled. -/
def EngineState.schedule (st : EngineState) (t : Callback) : EngineState :=
  { st with scheduled := st.scheduled ++ [t] }

/-- The position `getBoundingClientRect()` reports, in pixels. -/
structure Rect where
  x : Int
  y : Int

/-- What the engine asks of the layout of the page: the computed font weight
of an element and its bounding rectangle in the current document. -/
structure PageLayout where
  fontWeight : Path → Nat
  rect : Node → Path → Rect

/-- The outcome of a call that changes the engine state: the state it leaves
and whether it returned (`completed`) or ended in an exception. -/
structure Run where
  state : EngineState
  completed : Bool

/-- Sequencing: the next statement runs when the one before returned. -/
def Run.andThen (r : Run) (next : EngineState → Run) : Run :=
  if r.completed then next r.state else r

/-- A `forEach` loop whose body may throw: an exception ends the loop. -/
def forEachRun {α : Type} (body : EngineState → α → Run) : List α → EngineState → Run
  | [], st => { state := st, completed := true }
  | a :: as, st =>
    match body st a with
    | { state := st1, completed := true } => forEachRun body as st1
    | r => r

/-- The last statement of `replaceDeviceInfoInPanel`: the call of
`applyDeviceOverrides` on the located container, with the located icon. -/
def applyToLocated (layout : PageLayout) (st : EngineState) (mapping : CustomMapping)
    (deviceId : String) (located : Path × Path) : EngineState :=
  { st with
    patch := (applyDeviceOverrides layout.fontWeight st.patch located.2 mapping
      (some located.1) deviceId) }

/-- The function `replaceDeviceInfoInPanel(deviceId)`. -/
def replaceDeviceInfoInPanel (layout : PageLayout) (st : EngineState) (deviceId : String) :
    Run :=
  match mappingOf st.customIconMappings deviceId with
  | none => { state := st, completed := true }
  | some mapping =>
    if !hasOverrides mapping then { state := st, completed := true }
    else
      match findPanelWithDeviceFingerprint st.doc st.customIconMappings deviceId with
      | .threw => { state := st, completed := false }
      | .returned (some r) =>
        { state := applyToLocated layout st mapping deviceId r, completed := true }
      | .returned none =>
        match findDeviceIconInPanels st.doc deviceId mapping with
        | .threw => { state := st, completed := false }
        | .returned (some r) =>
          { state := applyToLocated layout st mapping deviceId r, completed := true }
        | .returned none =>
          match findDeviceIconGlobally st.doc deviceId with
          | .threw => { state := st, completed := false }
          | .returned (some r) =>
            { state := applyToLocated layout st mapping deviceId r, completed := true }
          | .returned none => { state := st, completed := true }


/-! ## The vendor column (`replaceVendorInTableRow`) -/

/-- The test of `^\d{1,3}\.\d{1,3}\.\d{1,3}\.\d{1,3}$`: one to three digits. -/
def takeOctet (cs : List Char) : Option (List Char) :=
  match takeDigits cs with
  | some (ds, rest) => if ds.length ≤ 3 then some rest else none
  | none => none

/-- The test of the regular expression for a dotted quad. -/
def isDottedQuad (s : String) : Bool :=
  match takeOctet s.data with
  | none => false
  | some r1 =>
    match (dropLiteral ".".data r1).bind takeOctet with
    | none => false
    | some r2 =>
      match (dropLiteral ".".data r2).bind takeOctet with
      | none => false
      | some r3 =>
        match (dropLiteral ".".data r3).bind takeOctet with
        | none => false
        | some r4 => r4.isEmpty

/-- The test of `^\d+$`. -/
def isAllDigits (s : String) : Bool := !s.data.isEmpty && s.data.all isDigit

/-- The value `hasChildText`: some child element has text. -/
def hasChildText (doc : Node) (el : Path) : Bool :=
  (elementChildren doc el).any (fun child => textAt doc child != "")

/-- The tests of the loop of `replaceVendorInTableRow` on one candidate: it
is not skipped and it lies in the vendor column. -/
def isVendorCell (layout : PageLayout) (doc : Node) (icon el : Path) : Bool :=
  !((nodeAt doc el).attr "data-vendor-overridden" == some "true") &&
  !(((layout.rect doc el).y - (layout.rect doc icon).y).natAbs > 15) &&
  !((layout.rect doc el).x < (layout.rect doc icon).x + 100) &&
  !hasChildText doc el &&
  !(textAt doc el == "" || utf16Length (textAt doc el) < 1 || utf16Length (textAt doc el) > 50) &&
  !isDottedQuad (textAt doc el) &&
  !isMacAddress (textAt doc el) &&
  !isAllDigits (textAt doc el) &&
  !(includesChars (textAt doc el).data ".".data && includesChars (textAt doc el).data "/".data) &&
  ((layout.rect doc el).x - (layout.rect doc icon).x > 200 &&
    (layout.rect doc el).x - (layout.rect doc icon).x < 450)

/-- The element `replaceVendorInTableRow` overwrites, if any: the first
`span`, `div` or `p` of the document that passes the tests. -/
def vendorTarget (layout : PageLayout) (doc : Node) (icon : Path) (newVendor : String) :
    Option Path :=
  if newVendor = "" then none
  else if (layout.rect doc icon).y = 0 then none
  else ((allElements doc).filter
    (fun p => ["span", "div", "p"].contains (nodeAt doc p).tagName)).find?
      (isVendorCell layout doc icon)

/-- What `replaceVendorInTableRow` does to the element it picks. -/
def markVendor (newVendor deviceId : String) (n : Node) : Node :=
  setTextContent newVendor
    (((if truthyStr (n.attr "data-original-vendor") then n
       else n.setAttr "data-original-vendor" (jsTrim n.textContent)).setAttr
        "data-vendor-overridden" "true").setAttr "data-vendor-device-id" deviceId)

/-- The function `replaceVendorInTableRow(iconImg, newVendor, deviceId)`. -/
def replaceVendorInTableRow (layout : PageLayout) (doc : Node) (iconImg : Path)
    (newVendor deviceId : String) : Node :=
  match vendorTarget layout doc iconImg newVendor with
  | some el => doc.modify (markVendor newVendor deviceId) el
  | none => doc

/-! ## Panels and icons (`scanAndReplaceAllPanels`, `replaceIconsInDom`) -/

/-- The ids `scanAndReplaceAllPanels` collects in a panel, each once, in the
order in which the images give them. -/
def foundDeviceIds (doc : Node) (panel : Path) : List String :=
  (((descendants doc panel).filter
      (fun p => isFingerprintImg doc p ||
        (isImg doc p && ((nodeAt doc p).attr "data-custom-icon-applied").isSome))).filterMap
    (fun img =>
      if truthyStr ((nodeAt doc img).attr "data-device-id") then
        (nodeAt doc img).attr "data-device-id"
      else extractFingerprintId (srcOf doc img))).eraseDups

/-- The body of the inner loop of `scanAndReplaceAllPanels` for one panel.
A panel that is no longer in the document is left out: what is done to it is
not seen in the document. -/
def scanPanel (layout : PageLayout) (st : EngineState) (panel : Path) : EngineState :=
  if !(nodeAt st.doc panel).isElement then st
  else if insideSvg st.doc panel then st
  else if !(textIncludes st.doc panel "Manufacturer" || textIncludes st.doc panel "Model") then st
  else
    (foundDeviceIds st.doc panel).foldl
      (fun s deviceId =>
        match mappingOf s.customIconMappings deviceId with
        | some mapping =>
          if hasOverrides mapping then
            { s with patch :=
                (applyDeviceOverrides layout.fontWeight s.patch panel mapping none deviceId) }
          else s
        | none => s)
      st

/-- The function `scanAndReplaceAllPanels()`. -/
def scanAndReplaceAllPanels (layout : PageLayout) (st : EngineState) : EngineState :=
  if st.customIconMappings.isEmpty then st
  else
    PANEL_SELECTORS.foldl
      (fun s sel =>
        ((allElements s.doc).filter (fun p => sel.matchesAt s.doc p)).foldl (scanPanel layout) s)
      st

/-- The pre-hide of the click handler and of `replaceIconsInDom`: a panel
without the processed marker gets opacity 0 and the processing marker. -/
def hideAndMark (doc : Node) (panel : Path) : Node :=
  if truthyStr ((nodeAt doc panel).attr "data-unifi-panel-processed") then doc
  else doc.modify
    (fun n => (n.setAttr "style.opacity" "0").setAttr "data-unifi-panel-processing" "true") panel

/-- The pre-hide of the mutation observer: a panel without the processed
marker gets opacity 0. -/
def hideOnly (doc : Node) (panel : Path) : Node :=
  if truthyStr ((nodeAt doc panel).attr "data-unifi-panel-processed") then doc
  else doc.modify (Node.setAttr "style.opacity" "0") panel

/-- The id `replaceIconsInDom` reads off an image: from `src`, else from a
non-empty `srcset`. -/
def imageDeviceId (img : Node) : Option String :=
  match extractFingerprintId ((img.attr "src").getD "") with
  | some id => some id
  | none =>
    if truthyStr (img.attr "srcset") then extractFingerprintId ((img.attr "srcset").getD "")
    else none

/-- The attribute writes of `replaceIconsInDom` on an image: the stash, the
marker, the new `src`, and the removal of a non-empty `srcset`. -/
def patchImage (deviceId customUrl : String) (img : Node) : Node :=
  let stashed := (img.setAttr "data-original-src" ((img.attr "src").getD "")).setAttr
    "data-device-id" deviceId
  let stashed2 :=
    if truthyStr (img.attr "srcset") then
      stashed.setAttr "data-original-srcset" ((img.attr "srcset").getD "")
    else stashed
  let swapped := (stashed2.setAttr "data-custom-icon-applied" "true").setAttr "src" customUrl
  if truthyStr (img.attr "srcset") then swapped.removeAttr "srcset" else swapped

/-- An entry of a static node list: the path of the node and the node as it
was when the list was made, which stands for the node once it has left the
document. -/
structure ListedNode where
  path : Path
  snapshot : Node

/-- The node of an entry as the callback sees it, and whether it is still in
the document. -/
def ListedNode.current (doc : Node) (e : ListedNode) : Node × Bool :=
  match doc.get? e.path with
  | some n => if n.isElement then (n, true) else (e.snapshot, false)
  | none => (e.snapshot, false)

/-- The static list `querySelectorAll` returns for a test on paths. -/
def listNodes (doc : Node) (sel : Path → Bool) : List ListedNode :=
  ((allElements doc).filter sel).map (fun p => { path := p, snapshot := nodeAt doc p })

/-- The block of the first loop of `replaceIconsInDom` that patches the image
at `path`: the pre-hide of the containing panel, the attribute writes, the
vendor column, and the frame callback. -/
def patchIcon (layout : PageLayout) (st : EngineState) (path : Path)
    (deviceId customUrl : String) : EngineState :=
  let containingPanel := closest (matchesAny containingPanelSelectors st.doc) path
  let doc1 :=
    match containingPanel with
    | some panel => hideAndMark st.doc panel
    | none => st.doc
  let doc2 := doc1.modify (patchImage deviceId customUrl) path
  let doc3 :=
    match mappingOf st.customIconMappings deviceId with
    | some mapping =>
      if truthyStr mapping.manufacturer then
        replaceVendorInTableRow layout doc2 path (mapping.manufacturer.getD "") deviceId
      else doc2
    | none => doc2
  (st.withDoc doc3).schedule (.iconFrame deviceId containingPanel)

/-- The callback of the first loop of `replaceIconsInDom` for one image.  An
image that has left the document is patched out of sight; of that only the
frame callback is kept. -/
def replaceIcon (layout : PageLayout) (st : EngineState) (e : ListedNode) : EngineState :=
  match imageDeviceId (e.current st.doc).1 with
  | none => st
  | some deviceId =>
    match getCustomIconUrl st.customIconMappings deviceId with
    | none => st
    | some customUrl =>
      if truthyStr ((e.current st.doc).1.attr "data-custom-icon-applied") then st
      else if !(e.current st.doc).2 then
        st.schedule (.iconFrame deviceId none)
      else patchIcon layout st e.path deviceId customUrl

/-- The callback of the second loop of `replaceIconsInDom` for one image that
carries the marker. -/
def refreshReplacedIcon (layout : PageLayout) (st : EngineState) (e : ListedNode) : Run :=
  match (e.current st.doc).1.attr "data-device-id" with
  | none => { state := st, completed := true }
  | some deviceId =>
    if deviceId = "" then { state := st, completed := true }
    else
      match mappingOf st.customIconMappings deviceId with
      | none => { state := st, completed := true }
      | some mapping =>
        (replaceDeviceInfoInPanel layout st deviceId).andThen (fun s =>
          { state :=
              if truthyStr mapping.manufacturer && (e.current s.doc).2 then
                s.withDoc (replaceVendorInTableRow layout s.doc e.path
                  (mapping.manufacturer.getD "") deviceId)
              else s
            completed := true })

/-- The function `replaceIconsInDom()`. -/
def replaceIconsInDom (layout : PageLayout) (st : EngineState) : Run :=
  let st1 :=
    (listNodes st.doc (fun p => isImg st.doc p &&
        (attrIncludes st.doc p "src" "fingerprint" ||
          attrIncludes st.doc p "srcset" "fingerprint"))).foldl
      (replaceIcon layout) st
  (forEachRun (refreshReplacedIcon layout)
      (listNodes st1.doc (fun p => isImg st1.doc p &&
        (nodeAt st1.doc p).attr "data-custom-icon-applied" == some "true")) st1).andThen
    (fun s => { state := scanAndReplaceAllPanels layout s, completed := true })


/-! ## Observers, clicks and scheduled callbacks -/

/-- A record handed to the mutation observer: the element nodes a `childList`
record added (as they are found in the document when the callback runs), or
the target of an attribute change. -/
inductive MutationRecord where
  | childList (addedNodes : List Path)
  | attributes (attributeName : String) (target : Path)
  | characterData (target : Path)

/-- Whether a record makes the observer set `hasNewImages`. -/
def recordHasNewImages (doc : Node) : MutationRecord → Bool
  | .childList addedNodes =>
    addedNodes.any (fun node => (nodeAt doc node).isElement &&
      ((isImg doc node && includesChars (srcOf doc node).data "fingerprint".data) ||
        (descendants doc node).any (isFingerprintImg doc)))
  | .attributes attributeName target =>
    attributeName == "src" && isImg doc target &&
      includesChars (srcOf doc target).data "fingerprint".data
  | .characterData _ => false

/-- The panels an added node makes the observer look at: the node itself
when it matches `panelSelectors`, then its descendants that match. -/
def addedPanels (doc : Node) (node : Path) : List Path :=
  if (nodeAt doc node).isElement then
    (if matchesAny observerPanelSelectors doc node then [node] else []) ++
      (descendants doc node).filter (matchesAny observerPanelSelectors doc)
  else []

/-- The pre-hide of the observer for one added node: the panels without the
marker are hidden and put into `panelsToProcess`. -/
def observerHideNode (acc : Node × List Path) (node : Path) : Node × List Path :=
  (addedPanels acc.1 node).foldl
    (fun a panel =>
      if truthyStr ((nodeAt a.1 panel).attr "data-unifi-panel-processed") then a
      else (hideOnly a.1 panel, if a.2.contains panel then a.2 else a.2 ++ [panel]))
    acc

/-- The pre-hide of the observer for one record. -/
def observerHideRecord (acc : Node × List Path) : MutationRecord → Node × List Path
  | .childList addedNodes => addedNodes.foldl observerHideNode acc
  | .attributes _ _ => acc
  | .characterData _ => acc

/-- The loop of the observer callback over its records: the document with
the new panels hidden, and `panelsToProcess`. -/
def observerHide (st : EngineState) (records : List MutationRecord) : Node × List Path :=
  if st.customIconMappings.isEmpty then (st.doc, [])
  else records.foldl observerHideRecord (st.doc, [])

/-- The callback of the mutation observer of `setupIconReplacementObserver`.
The test for new images reads the document as the callback finds it. -/
def observerCallback (layout : PageLayout) (st : EngineState) (records : List MutationRecord) :
    Run :=
  let hidden := observerHide st records
  let st1 := st.withDoc hidden.1
  let r : Run :=
    if records.any (recordHasNewImages st.doc) then replaceIconsInDom layout st1
    else { state := st1, completed := true }
  r.andThen (fun s =>
    { state := if hidden.2.isEmpty then s else s.schedule (.observerFrame hidden.2)
      completed := true })

/-- The image the click handler finds from the click target. -/
def clickedFingerprintImg (doc : Node) (target : Path) : Option Path :=
  match closest (isFingerprintImg doc) target with
  | some img => some img
  | none =>
    match (descendants doc target).find? (isFingerprintImg doc) with
    | some img => some img
    | none =>
      match closest (fun a => classIncludes doc a "client") target with
      | some client => (descendants doc client).find? (isFingerprintImg doc)
      | none => none

/-- The click listener of `setupClickInterception`, for a click on the
element at `target`. -/
def clickHandler (st : EngineState) (target : Path) : EngineState :=
  if st.customIconMappings.isEmpty then st
  else
    match clickedFingerprintImg st.doc target with
    | none => st
    | some img =>
      match extractFingerprintId (srcOf st.doc img) with
      | none => st
      | some deviceId =>
        match mappingOf st.customIconMappings deviceId with
        | none => st
        | some _ =>
          let existingPanels := (allElements st.doc).filter (matchesAny clickPanelSelectors st.doc)
          ((st.withDoc (existingPanels.foldl hideAndMark st.doc)).schedule
            (.clickFrame deviceId existingPanels))

/-- The reveal of the observer's timer and of the frame callback of
`replaceIconsInDom` on one panel; `unmark` tells whether the processing
marker is deleted. -/
def revealNode (unmark : Bool) (n : Node) : Node :=
  let shown := (n.removeAttr "style.opacity").setAttr "data-unifi-panel-processed" "true"
  if unmark then shown.removeAttr "data-unifi-panel-processing" else shown

/-- The call `panel.classList.add(name)`. -/
def addClass (name : String) (n : Node) : Node :=
  match n.attr "class" with
  | some cls =>
    if (classTokensAux cls.data []).contains name then n
    else n.setAttr "class" (if cls = "" then name else cls ++ " " ++ name)
  | none => n.setAttr "class" name

/-- The reveal of the click handler's timer on one panel. -/
def clickRevealNode (n : Node) : Node :=
  (((addClass "unifi-reveal-ready" (n.removeAttr "style.opacity")).setAttr
    "data-unifi-panel-processed" "true").removeAttr "data-unifi-panel-processing")

/-- The loop `Object.keys(customIconMappings).forEach(replaceDeviceInfoInPanel)`. -/
def replaceAllDeviceInfo (layout : PageLayout) (st : EngineState) : Run :=
  forEachRun (replaceDeviceInfoInPanel layout) (st.customIconMappings.map Prod.fst) st

/-- One scheduled callback, run on the state it finds. -/
def runTask (layout : PageLayout) (st : EngineState) : Callback → Run
  | .iconFrame deviceId containingPanel =>
    (replaceDeviceInfoInPanel layout st deviceId).andThen (fun s =>
      { state :=
          match containingPanel with
          | some panel => s.withDoc (s.doc.modify (revealNode true) panel)
          | none => s
        completed := true })
  | .observerFrame panels =>
    ((replaceAllDeviceInfo layout st).andThen (replaceIconsInDom layout)).andThen (fun s =>
      { state := (scanAndReplaceAllPanels layout s).schedule (.observerReveal panels)
        completed := true })
  | .observerReveal panels =>
    { state := st.withDoc (panels.foldl (fun d p => d.modify (revealNode false) p) st.doc)
      completed := true }
  | .clickFrame deviceId panels =>
    ((replaceIconsInDom layout st).andThen
        (fun s => replaceDeviceInfoInPanel layout s deviceId)).andThen (fun s =>
      { state := (scanAndReplaceAllPanels layout s).schedule (.clickReveal panels)
        completed := true })
  | .clickReveal panels =>
    { state := st.withDoc (panels.foldl (fun d p => d.modify clickRevealNode p) st.doc)
      completed := true }
  | .applyMappings => replaceAllDeviceInfo layout st

/-- The restore loop of the `custom-icons` branch on one image. -/
def restoreImage (img : Node) : Node :=
  let img1 :=
    if truthyStr (img.attr "data-original-src") then
      (img.setAttr "src" ((img.attr "data-original-src").getD "")).removeAttr "data-original-src"
    else img
  let img2 :=
    if truthyStr (img1.attr "data-original-srcset") then
      (img1.setAttr "srcset" ((img1.attr "data-original-srcset").getD "")).removeAttr
        "data-original-srcset"
    else img1
  img2.removeAttr "data-custom-icon-applied"

/-- The `custom-icons` branch of the message listener of the injected
script, for a message that carries the table `mappings`. -/
def onCustomIcons (layout : PageLayout) (st : EngineState) (mappings : MappingTable) : Run :=
  if mappings.length > 0 then
    (replaceIconsInDom layout { st with customIconMappings := mappings }).andThen (fun s =>
      { state := s.schedule .applyMappings, completed := true })
  else
    let st1 := { st with customIconMappings := [] }
    { state := st1.withDoc
        (((allElements st1.doc).filter
            (fun p => isImg st1.doc p &&
              ((nodeAt st1.doc p).attr "data-custom-icon-applied").isSome)).foldl
          (fun d p => d.modify restoreImage p) st1.doc)
      completed := true }


/-! ## Concrete documents used in the checks below -/

/-- A panel whose `Manufacturer` row has a label and a value not yet
filled in. -/
def emptyValuePanel : Node :=
  .elem "div" [("class", "panel")]
    [.elem "div" [] [.elem "span" [] [.text "Manufacturer"], .elem "span" [] []]]

/-- A panel that shows its fields as a definition list. -/
def definitionListPanel : Node :=
  .elem "div" [("class", "panel")]
    [.elem "dl" []
      [.elem "dt" [] [.text "Manufacturer"], .elem "dd" [] [.text "OldCorp"]]]

/-- The panel of the specification: the text `Manufacturer`, then `OldCorp`. -/
def manufacturerPanel : Node :=
  .elem "div" [("class", "panel")]
    [.elem "div" [("class", "row")]
      [.elem "span" [("class", "label")] [.text "Manufacturer"],
       .elem "span" [("class", "value")] [.elem "b" [] [.text "OldCorp"]]]]

/-- A mapping that overrides the manufacturer only. -/
def acmeMapping : CustomMapping :=
  { iconUrl := some "https://example.com/acme.png", name := some "Custom (100)",
    deviceName := some "", manufacturer := some "Acme", model := some "", os := some "" }

/-- A mapping with an icon and no text field. -/
def iconOnlyMapping : CustomMapping :=
  { iconUrl := some "https://example.com/icon.png", name := some "Custom (200)",
    deviceName := some "", manufacturer := some "", model := some "", os := some "" }

/-- The computed font weight of a page without bold text. -/
def plainWeight : Path → Nat := fun _ => 400

/-- The state after `applyDeviceOverrides` ran once on the panel with the
empty value. -/
def patchedOnce : PatchState :=
  applyDeviceOverrides plainWeight { doc := emptyValuePanel, processedPanels := [] } []
    acmeMapping none "100"

/-- The state after `applyDeviceOverrides` ran a second time. -/
def patchedTwice : PatchState :=
  applyDeviceOverrides plainWeight patchedOnce [] acmeMapping none "100"


/-! ## Concrete pages used in the checks of the patch engine -/

/-- The address of the built-in icon of a device id. -/
def fpUrl (id : String) : String := "https://static.ui.com/fingerprint/0/" ++ id ++ "_129x129.png"

/-- Two rows of a detail panel, with the labels the engine looks for. -/
def infoRows : List Node :=
  [.elem "div" [] [.elem "span" [] [.text "Manufacturer"], .elem "span" [] [.text "OldCorp"]],
   .elem "div" [] [.elem "span" [] [.text "Model"], .elem "span" [] [.text "X1"]]]

/-- A mapping for device 100 with an icon and a manufacturer; the other
fields are empty, as the options page stores them. -/
def acme2 : CustomMapping :=
  { iconUrl := some "https://example.com/acme.png", name := some "Custom (100)",
    deviceName := some "", manufacturer := some "Acme", model := some "", os := some "" }

/-- A detail panel with the unpatched image of device 100, nested in a
sidebar whose device list holds the image of device 100 already patched. -/
def nestedDoc : Node :=
  .elem "div" [("class", "sidebar")]
    [.elem "ul" [] [.elem "li" []
      [.elem "img" [("src", "https://example.com/acme.png"), ("data-custom-icon-applied", "true"),
        ("data-device-id", "100"), ("data-original-src", fpUrl "100")] []]],
     .elem "div" [("class", "panel")] (.elem "img" [("src", fpUrl "100")] [] :: infoRows)]

/-- A detail panel that holds the patched image of device 100 before the
unpatched one. -/
def bothImagesDoc : Node :=
  .elem "body" []
    [.elem "div" [("class", "panel")]
      (.elem "img" [("src", fpUrl "100")] [] ::
       .elem "img" [("src", "https://example.com/acme.png"), ("data-custom-icon-applied", "true"),
        ("data-device-id", "100"), ("data-original-src", fpUrl "100")] [] :: infoRows)]

/-- A layout in which every element sits at the origin. -/
def flatLayout : PageLayout :=
  { fontWeight := fun _ => 400, rect := fun _ _ => { x := 0, y := 0 } }

/-- A page whose only image names its built-in icon in `srcset` and has no
`src` attribute. -/
def srcsetOnlyDoc : Node :=
  .elem "div" [] [.elem "img" [("srcset", fpUrl "100" ++ " 1x")] []]

/-- A page whose only image, of device 100, has been patched. -/
def patchedDoc : Node :=
  .elem "div" []
    [.elem "img" [("src", "https://example.com/acme.png"), ("data-custom-icon-applied", "true"),
      ("data-device-id", "100"), ("data-original-src", fpUrl "100")] []]

/-- A page with an image of device 100 that carries the marker and shows
the built-in icon again, as after a render that reset `src`. -/
def resetSrcDoc : Node :=
  .elem "div" []
    [.elem "img" [("src", fpUrl "100"), ("data-custom-icon-applied", "true"),
      ("data-device-id", "100"), ("data-original-src", fpUrl "100")] []]

/-- A page with a new detail panel of device 200. -/
def newPanelDoc : Node :=
  .elem "body" []
    [.elem "div" [("class", "panel")] (.elem "img" [("src", fpUrl "200")] [] :: infoRows)]

/-- A mapping whose icon is an inline SVG image, a `data:` address with
double quotes in it. -/
def svgMapping : CustomMapping :=
  { iconUrl := some "data:image/svg+xml,<svg xmlns=\"http://www.w3.org/2000/svg\"/>",
    name := none, deviceName := none, manufacturer := some "Acme", model := none, os := none }

/-- An engine state at rest on a document with a mappings table. -/
def engineOn (doc : Node) (mappings : MappingTable) : EngineState :=
  { patch := { doc := doc, processedPanels := [] }, customIconMappings := mappings,
    scheduled := [] }

/-! ## Relations between a document and a later one -/

/-- Two nodes of the same kind with the same tag and the same attributes. -/
def SameShape (n n' : Node) : Prop :=
  n.isElement = n'.isElement ∧ n.tagName = n'.tagName ∧ ∀ name, n.attr name = n'.attr name

/-- A change of a node that keeps its kind and its children. -/
def AttrOnly (f : Node → Node) : Prop :=
  ∀ n, (f n).isElement = n.isElement ∧ (f n).childNodes = n.childNodes

/-- A change of a node that keeps its kind and either keeps its children or
leaves it without element children. -/
def Gentle (f : Node → Node) : Prop :=
  ∀ n, (f n).isElement = n.isElement ∧
    ((f n).childNodes = n.childNodes ∨ ∀ c ∈ (f n).childNodes, c.isElement = false)

/-- The element at `p` of the later document, if there is one, was an
element at `p` of the earlier document, and the two are related by `ρ`. -/
def FrameAt (ρ : Node → Node → Prop) (p : Path) (doc doc' : Node) : Prop :=
  ∀ n', doc'.get? p = some n' → n'.isElement = true →
    ∃ n, doc.get? p = some n ∧ n.isElement = true ∧ ρ n n'

/-- The relation `FrameAt` at every path. -/
def Frame (ρ : Node → Node → Prop) (doc doc' : Node) : Prop :=
  ∀ p, FrameAt ρ p doc doc'

/-- The attributes the text replacements of the engine write. -/
def textAttributes : List String :=
  ["data-original-text", "data-info-overridden", "data-original-device-type",
   "data-device-type-overridden", "title", "data-original-device-name",
   "data-device-name-overridden", "data-original-vendor", "data-vendor-overridden",
   "data-vendor-device-id"]

/-- A relation between the earlier and the later state of an element that
looks at tag and attributes only, composes, and holds across a write of a
text attribute. -/
structure Stable (ρ : Node → Node → Prop) : Prop where
  of_same : ∀ n n', n.tagName = n'.tagName → (∀ name, n.attr name = n'.attr name) → ρ n n'
  trans : ∀ a b c, ρ a b → ρ b c → ρ a c
  text : ∀ n name value, name ∈ textAttributes → ρ n (n.setAttr name value)

/-- A relation that also holds across the writes of the visibility gate: the
reveals, and the pre-hides with their guard. -/
structure GateStable (ρ : Node → Node → Prop) extends Stable ρ : Prop where
  revealPanel : ∀ n, ρ n ((n.removeAttr "data-unifi-panel-processing").setAttr
    "data-unifi-panel-processed" "true")
  revealNode : ∀ unmark n, ρ n (revealNode unmark n)
  clickRevealNode : ∀ n, ρ n (clickRevealNode n)
  hideAndMark : ∀ n, truthyStr (n.attr "data-unifi-panel-processed") = false →
    ρ n ((n.setAttr "style.opacity" "0").setAttr "data-unifi-panel-processing" "true")
  hideOnly : ∀ n, truthyStr (n.attr "data-unifi-panel-processed") = false →
    ρ n (n.setAttr "style.opacity" "0")

/-- The attributes of an image the icon replacement reads and writes. -/
def imageAttributes : List String :=
  ["src", "srcset", "data-original-src", "data-original-srcset", "data-device-id",
   "data-custom-icon-applied"]

/-- The later element has the tag and the image attributes of the earlier. -/
def SameImage (n n' : Node) : Prop :=
  n.tagName = n'.tagName ∧ ∀ name ∈ imageAttributes, n.attr name = n'.attr name

/-- A panel that carries the processed marker still carries it later, and is
not hidden or marked as processing unless it was before. -/
def GateKept (n n' : Node) : Prop :=
  truthyStr (n.attr "data-unifi-panel-processed") = true →
    truthyStr (n'.attr "data-unifi-panel-processed") = true ∧
    (n'.attr "style.opacity" = some "0" → n.attr "style.opacity" = some "0") ∧
    (n'.attr "data-unifi-panel-processing" = some "true" →
      n.attr "data-unifi-panel-processing" = some "true")

/-- The state the observer leaves when the panel of `newPanelDoc` is
inserted while a mapping for device 100 exists: the panel is hidden. -/
def hiddenPanelState : EngineState :=
  (observerCallback flatLayout (engineOn newPanelDoc [("100", acme2)]) [.childList [[0]]]).state

/-! ## The shapes of text the vendor column must not hold, as the claims word them -/

/-- One to three decimal digits. -/
def IsDigitGroup (g : List Char) : Prop :=
  1 ≤ g.length ∧ g.length ≤ 3 ∧ ∀ c ∈ g, isDigit c = true

instance (g : List Char) : Decidable (IsDigitGroup g) := by
  unfold IsDigitGroup
  infer_instance

/-- A dotted quad: four groups of one to three digits, separated by dots. -/
def DottedQuad (s : String) : Prop :=
  ∃ a b c d : List Char, IsDigitGroup a ∧ IsDigitGroup b ∧ IsDigitGroup c ∧ IsDigitGroup d ∧
    s.data = a ++ '.' :: (b ++ '.' :: (c ++ '.' :: d))

/-- A colon-separated MAC address: six pairs of hexadecimal digits. -/
def MacShape (s : String) : Prop :=
  ∃ a0 a1 b0 b1 c0 c1 d0 d1 e0 e1 f0 f1 : Char,
    (∀ x ∈ [a0, a1, b0, b1, c0, c1, d0, d1, e0, e1, f0, f1], isHexDigit x = true) ∧
    s.data = [a0, a1, ':', b0, b1, ':', c0, c1, ':', d0, d1, ':', e0, e1, ':', f0, f1]

/-- A row of a device table: the icon, an address, a MAC address and the
vendor. -/
def tableRowDoc : Node :=
  .elem "div" []
    [.elem "img" [("src", fpUrl "100")] [],
     .elem "span" [] [.text "192.168.1.20"],
     .elem "span" [] [.text "AA:BB:CC:DD:EE:FF"],
     .elem "span" [] [.text "Ubiquiti"]]

/-- A layout of `tableRowDoc`: the cells lie in one row, 250, 300 and 400
pixels right of the icon. -/
def tableRowLayout : PageLayout :=
  { fontWeight := fun _ => 400
    rect := fun _ p =>
      match p with
      | [0] => { x := 10, y := 100 }
      | [1] => { x := 260, y := 100 }
      | [2] => { x := 310, y := 102 }
      | [3] => { x := 410, y := 98 }
      | _ => { x := 0, y := 100 } }

/-! ## Response data as objects with identity (`transformResponseData`) -/

/-- A value of the page script: a primitive, or a reference to an object of
the heap.  Two references to the same address are the same object. -/
inductive HVal where
  | undefined
  | null
  | bool (b : Bool)
  | num (n : Int)
  | str (s : String)
  | ref (addr : Nat)
  deriving DecidableEq

/-- An object of the heap: an array, or a plain object with its own
properties in the order in which they are enumerated. -/
inductive HObj where
  | array (elems : List HVal)
  | object (fields : List (String × HVal))
  deriving DecidableEq

/-- The objects of the page; the address of an object is its index. -/
abbrev Heap := List HObj

/-- Truthiness of a value. -/
def HVal.truthy : HVal → Bool
  | .undefined => false
  | .null => false
  | .bool b => b
  | .num n => n != 0
  | .str s => s != ""
  | .ref _ => true

/-- The test `v && typeof v === 'object'`. -/
def HVal.isObject : HVal → Bool
  | .ref _ => true
  | _ => false

/-- A new object: its address and the heap that holds it. -/
def hAlloc (h : Heap) (o : HObj) : Nat × Heap := (h.length, h ++ [o])

/-- The index properties of an array, from index `i` on. -/
def indexFields : List HVal → Nat → List (String × HVal)
  | [], _ => []
  | e :: es, i => (toString i, e) :: indexFields es (i + 1)

/-- The own enumerable properties of a value, as `{...v}`, `Object.keys(v)`
and `Object.entries(v)` read them. -/
def ownFields (h : Heap) : HVal → List (String × HVal)
  | .ref a =>
    match h.get? a with
    | some (.object fields) => fields
    | some (.array elems) => indexFields elems 0
    | none => []
  | _ => []

/-- A property of a list of own properties; `undefined` when it is absent. -/
def fieldGet : List (String × HVal) → String → HVal
  | [], _ => .undefined
  | (k, v) :: rest, name => if k = name then v else fieldGet rest name

/-- An assignment to a property in a list of own properties. -/
def fieldSet : List (String × HVal) → String → HVal → List (String × HVal)
  | [], name, value => [(name, value)]
  | (k, v) :: rest, name, value =>
    if k = name then (name, value) :: rest else (k, v) :: fieldSet rest name value

/-- The read `v.name` of a named data property; arrays and primitives have
none of the names the script reads. -/
def hRead (h : Heap) (v : HVal) (name : String) : HVal :=
  match v with
  | .ref a =>
    match h.get? a with
    | some (.object fields) => fieldGet fields name
    | _ => .undefined
  | _ => .undefined

/-- The assignment `obj.name = value` to the plain object at address `a`. -/
def hWrite (h : Heap) (a : Nat) (name : String) (value : HVal) : Heap :=
  listModify
    (fun o =>
      match o with
      | .object fields => .object (fieldSet fields name value)
      | .array elems => .array elems)
    h a

/-- The statement `if (obj.name !== undefined) obj.name = value`. -/
def overwrite (h : Heap) (a : Nat) (name value : String) : Heap :=
  if hRead h (.ref a) name != .undefined then hWrite h a name (.str value) else h

/-- The statement `if (value && obj.name !== undefined) obj.name = value`. -/
def substitute (h : Heap) (a : Nat) (name : String) (value : Option String) : Heap :=
  if truthyStr value then overwrite h a name (value.getD "") else h

/-- Conversion of a value to a property key, as in `customIconMappings[id]`.
The fuel bounds the nesting of arrays. -/
def hKey (h : Heap) : Nat → HVal → String
  | _, .undefined => "undefined"
  | _, .null => "null"
  | _, .bool true => "true"
  | _, .bool false => "false"
  | _, .num n => toString n
  | _, .str s => s
  | 0, .ref _ => ""
  | fuel + 1, .ref a =>
    match h.get? a with
    | some (.array elems) =>
      ",".intercalate (elems.map (fun e =>
        match e with
        | .undefined => ""
        | .null => ""
        | _ => hKey h fuel e))
    | some (.object _) => "[object Object]"
    | none => ""

/-- The value of `a || b || ...`: the first truthy operand, else the last. -/
def firstTruthy : List HVal → HVal
  | [] => .undefined
  | [v] => v
  | v :: rest => if v.truthy then v else firstTruthy rest

/-- The read `v?.id`. -/
def optionalId (h : Heap) (v : HVal) : HVal := hRead h v "id"

/-- The body of the loop over `Object.entries(result.dev_ids)` for one
entry: the value stored under `devId` in `transformedDevIds`. -/
def transformDevId (mappings : MappingTable) (h : Heap) (devId : String) (deviceInfo : HVal) :
    Heap × HVal :=
  match mappingOf mappings devId with
  | some mapping =>
    if deviceInfo.isObject then
      let made := hAlloc h (.object (ownFields h deviceInfo))
      let h1 := substitute made.2 made.1 "name" mapping.deviceName
      let h2 := substitute h1 made.1 "manufacturer" mapping.manufacturer
      let h3 := substitute h2 made.1 "model" mapping.model
      let h4 :=
        if truthyStr mapping.os then
          overwrite (overwrite h3 made.1 "os_name" (mapping.os.getD "")) made.1 "os_class"
            (mapping.os.getD "")
        else h3
      (h4, .ref made.1)
    else (h, deviceInfo)
  | none => (h, deviceInfo)

/-- The branch of `transform` for an object with a `dev_ids` object; `result`
is the address of the clone. -/
def transformDevIds (mappings : MappingTable) (h : Heap) (result : Nat) : Heap :=
  let made := hAlloc h (.object [])
  let h1 := (ownFields h (hRead h (.ref result) "dev_ids")).foldl
    (fun hh entry =>
      let r := transformDevId mappings hh entry.1 entry.2
      hWrite r.1 made.1 entry.1 r.2)
    made.2
  hWrite h1 result "dev_ids" (.ref made.1)

/-- The block of `transform` guarded by
`if (result.fingerprint && typeof result.fingerprint === 'object')`: the
fingerprint object is cloned, and the clone takes the substitutions. -/
def applyToFingerprint (h : Heap) (result : Nat) (mapping : CustomMapping) : Heap :=
  if (hRead h (.ref result) "fingerprint").isObject then
    let made := hAlloc h (.object (ownFields h (hRead h (.ref result) "fingerprint")))
    let h1 := hWrite made.2 result "fingerprint" (.ref made.1)
    let h2 := substitute h1 made.1 "name" mapping.deviceName
    let h3 := substitute h2 made.1 "manufacturer" mapping.manufacturer
    let h4 := substitute h3 made.1 "model" mapping.model
    if truthyStr mapping.os then
      overwrite (overwrite h4 made.1 "os" (mapping.os.getD "")) made.1 "os_name"
        (mapping.os.getD "")
    else h4
  else h

/-- The block of `transform` guarded by
`if (fingerprintId && customIconMappings[fingerprintId])`, on the clone at
address `result`. -/
def applyMapping (h : Heap) (result : Nat) (mapping : CustomMapping) : Heap :=
  let h1 :=
    if truthyStr mapping.deviceName then
      ["name", "display_name", "computed_name", "device_name"].foldl
        (fun hh name => overwrite hh result name (mapping.deviceName.getD "")) h
    else h
  let h2 := applyToFingerprint h1 result mapping
  let h3 := substitute h2 result "manufacturer" mapping.manufacturer
  let h4 := substitute h3 result "model" mapping.model
  if truthyStr mapping.os then
    overwrite (overwrite h4 result "os" (mapping.os.getD "")) result "os_name"
      (mapping.os.getD "")
  else h4

/-- The value `fingerprintId` of `transform` for the clone at `result`; the
parameter `keyAsId` is `null` in every call of the script. -/
def fingerprintIdOf (h : Heap) (result : Nat) : HVal :=
  firstTruthy
    [.null, hRead h (.ref result) "dev_id", hRead h (.ref result) "fingerprint_dev_id",
     optionalId h (hRead h (.ref result) "fingerprint"), hRead h (.ref result) "id",
     hRead h (.ref result) "dev_type_id"]

/-- The inner function `transform(obj)` of `transformResponseData`.  The fuel
bounds the depth of the recursion; without fuel the value is returned as it
is. -/
def transform (mappings : MappingTable) : Nat → Heap → HVal → Heap × HVal
  | 0, h, v => (h, v)
  | fuel + 1, h, v =>
    match v with
    | .ref a =>
      match h.get? a with
      | none => (h, v)
      | some (.array elems) =>
        let r := elems.foldl
          (fun (acc : Heap × List HVal) item =>
            let t := transform mappings fuel acc.1 item
            (t.1, acc.2 ++ [t.2]))
          (h, [])
        let made := hAlloc r.1 (.array r.2)
        (made.2, .ref made.1)
      | some (.object fields) =>
        let made := hAlloc h (.object fields)
        if (hRead made.2 (.ref made.1) "dev_ids").isObject then
          (transformDevIds mappings made.2 made.1, .ref made.1)
        else
          let fingerprintId := fingerprintIdOf made.2 made.1
          let h1 :=
            if fingerprintId.truthy then
              match mappingOf mappings (hKey made.2 (made.2.length + 1) fingerprintId) with
              | some mapping => applyMapping made.2 made.1 mapping
              | none => made.2
            else made.2
          let h2 := ((ownFields h1 (.ref made.1)).map Prod.fst).foldl
            (fun hh key =>
              if (hRead hh (.ref made.1) key).isObject then
                let t := transform mappings fuel hh (hRead hh (.ref made.1) key)
                hWrite t.1 made.1 key t.2
              else hh)
            h1
          (h2, .ref made.1)
    | _ => (h, v)

/-- The function `transformResponseData(data)`, with the heap it leaves. -/
def transformResponseData (mappings : MappingTable) (fuel : Nat) (h : Heap) (data : HVal) :
    Heap × HVal :=
  if !data.isObject then (h, data)
  else if mappings.isEmpty then (h, data)
  else transform mappings fuel h data

/-- The later heap has every object of the earlier one, unchanged, at its
address. -/
def HeapExtends (h h' : Heap) : Prop :=
  h.length ≤ h'.length ∧ ∀ a, a < h.length → h'.get? a = h.get? a

/-- Whether a value is a primitive or a reference to an object of the heap. -/
def refBelow (h : Heap) : HVal → Bool
  | .ref a => a < h.length
  | _ => true

/-- Whether every reference in the heap and in the value leads to an object
of the heap. -/
def heapClosed (h : Heap) (v : HVal) : Bool :=
  refBelow h v &&
    h.all (fun o =>
      match o with
      | .array elems => elems.all (refBelow h)
      | .object fields => fields.all (fun kv => refBelow h kv.2))

mutual
/-- A parsed JSON value written to the heap: its value and the heap. -/
def intern : JsVal → Heap → HVal × Heap
  | .undefined, h => (.undefined, h)
  | .null, h => (.null, h)
  | .bool b, h => (.bool b, h)
  | .num n, h => (.num n, h)
  | .str s, h => (.str s, h)
  | .arr elems, h =>
    let r := internList elems h
    ((.ref (hAlloc r.2 (.array r.1)).1), (hAlloc r.2 (.array r.1)).2)
  | .obj fields, h =>
    let r := internFields fields h
    ((.ref (hAlloc r.2 (.object r.1)).1), (hAlloc r.2 (.object r.1)).2)
/-- The elements of an array written to the heap. -/
def internList : List JsVal → Heap → List HVal × Heap
  | [], h => ([], h)
  | e :: es, h =>
    let r1 := intern e h
    let r2 := internList es r1.2
    (r1.1 :: r2.1, r2.2)
/-- The properties of an object written to the heap. -/
def internFields : List (String × JsVal) → Heap → List (String × HVal) × Heap
  | [], h => ([], h)
  | (k, v) :: fs, h =>
    let r1 := intern v h
    let r2 := internFields fs r1.2
    ((k, r1.1) :: r2.1, r2.2)
end

/-- The tree a value of the heap stands for, read to the depth the fuel
allows; what lies deeper reads as `undefined`. -/
def reify (h : Heap) : Nat → HVal → JsVal
  | _, .undefined => .undefined
  | _, .null => .null
  | _, .bool b => .bool b
  | _, .num n => .num n
  | _, .str s => .str s
  | 0, .ref _ => .undefined
  | fuel + 1, .ref a =>
    match h.get? a with
    | some (.array elems) => .arr (elems.map (reify h fuel))
    | some (.object fields) => .obj (fields.map (fun kv => (kv.1, reify h fuel kv.2)))
    | none => .undefined

/-- A mapping with every field filled in. -/
def fullMapping : CustomMapping :=
  { iconUrl := some "https://example.com/cam.png", name := some "Camera (100)",
    deviceName := some "Acme Cam", manufacturer := some "Acme", model := some "C1",
    os := some "AcmeOS" }

/-- A parsed client record of device 100 with a nested fingerprint object. -/
def sampleRecord : JsVal :=
  .obj [("dev_id", .num 100), ("name", .str "old"), ("os", .str "Linux"),
        ("fingerprint", .obj [("name", .str "fp"), ("os_name", .str "L")])]

/-- The record `sampleRecord` in the heap. -/
def sampleHeap : HVal × Heap := intern sampleRecord []

/-- The function `transformResponseData` on a parsed JSON value: the value is
written to a heap of its own, transformed there, and the result read back as
a tree.  The fuel is the number of objects, which bounds the nesting. -/
def transformParsed (mappings : MappingTable) (data : JsVal) : JsVal :=
  let written := intern data []
  let out := transformResponseData mappings (written.2.length + 1) written.2 written.1
  reify out.1 (out.1.length + 1) out.2

/-! ## The fetch hook -/

/-- What the hook reads of a response: status line, headers and body. -/
structure Response where
  status : Nat
  statusText : String
  headers : List (String × String)
  body : String
  deriving DecidableEq

/-- What the hook returns: the response object it was given, or a new one. -/
inductive HookResult where
  | original
  | replaced (response : Response)
  deriving DecidableEq

/-- The JSON functions of the page: `response.json()` on a body, which
rejects (`none`) when the body does not parse, and `JSON.stringify`. -/
structure JsonCodec where
  parse : String → Option JsVal
  stringify : JsVal → String

/-- Whether a URL contains one of the substrings the hook looks for. -/
def mentionsDeviceData (url : String) : Bool :=
  includesChars url.data "fingerprint".data || includesChars url.data "device".data ||
    includesChars url.data "stat/sta".data || includesChars url.data "stat/user".data ||
    includesChars url.data "clients".data

/-- The value `needsTransformation` of the hook. -/
def needsTransformation (mappings : MappingTable) (url : String) : Bool :=
  mappings.length > 0 && mentionsDeviceData url

/-- The value `args[0]?.url || args[0]` of the hook. -/
def requestUrl (input : JsVal) : JsVal :=
  if (input.getProp "url").truthy then input.getProp "url" else input

/-- Whether `new Response(body, init)` accepts the status: it throws a
`RangeError` outside 200 to 599, and a `TypeError` for a body with a status
that allows none. -/
def responseInitOk (status : Nat) : Bool :=
  200 ≤ status && status ≤ 599 && !([204, 205, 304].contains status)

/-- The replacement of `window.fetch`, after the original `fetch` has
returned `response` for a call whose first argument is `input`; the page
state is the state of the harvester. -/
def fetchHook (codec : JsonCodec) (mappings : MappingTable) (st : PageState) (input : JsVal)
    (response : Response) : HookResult × PageState :=
  match requestUrl input with
  | .str url =>
    if needsTransformation mappings url then
      match codec.parse response.body with
      | none => (.original, st)
      | some data =>
        if responseInitOk response.status then
          (.replaced
            { status := response.status, statusText := response.statusText,
              headers := response.headers,
              body := codec.stringify (transformParsed mappings data) },
            processApiResponse url data st)
        else (.original, processApiResponse url data st)
    else (.original, st)
  | _ => (.original, st)

/-- A codec for the checks: it parses one body, and prints the name of a
record. -/
def sampleCodec : JsonCodec :=
  { parse := fun body => if body = "sample" then some sampleRecord else none
    stringify := fun v => (v.getProp "name").toKey }

/-- A response whose body is no JSON. -/
def htmlResponse : Response :=
  { status := 200
    statusText := "OK"
    headers := [("content-type", "text/html")]
    body := "<html>" }

/-- A response whose body parses as `sampleRecord`. -/
def jsonResponse : Response :=
  { status := 200
    statusText := "OK"
    headers := [("content-type", "application/json")]
    body := "sample" }

/-- A `Request` object for the client list. -/
def clientsRequest : JsVal := .obj [("url", .str "https://unifi.local/api/s/default/stat/sta")]

/-- The relation `FrameAt` between the documents of two engine states with
the same mappings table. -/
def StateFrameAt (ρ : Node → Node → Prop) (p : Path) (s s' : EngineState) : Prop :=
  FrameAt ρ p s.doc s'.doc ∧ s'.customIconMappings = s.customIconMappings

/-- The element at `p` of the later document is not hidden, and not marked
as processing, unless it was in the earlier document, and it carries the
processed marker. -/
def StaysPatched (p : Path) (doc doc' : Node) : Prop :=
  ((nodeAt doc' p).attr "style.opacity" = some "0" →
    (nodeAt doc p).attr "style.opacity" = some "0") ∧
  ((nodeAt doc' p).attr "data-unifi-panel-processing" = some "true" →
    (nodeAt doc p).attr "data-unifi-panel-processing" = some "true") ∧
  ((nodeAt doc' p).isElement = true →
    truthyStr ((nodeAt doc' p).attr "data-unifi-panel-processed") = true)

/-- A page whose detail panel of device 100 carries the processed marker. -/
def processedPanelDoc : Node :=
  .elem "body" []
    [.elem "div" [("class", "panel"), ("data-unifi-panel-processed", "true")]
      (.elem "img" [("src", fpUrl "100")] [] :: infoRows)]

/-- The state of an image after `replaceIconsInDom` has patched it: the new
`src`, no `srcset` that counts, the stash of the values of `orig`, the device
id and the marker. -/
def PatchedFrom (orig : Node) (deviceId customUrl : String) (n : Node) : Prop :=
  n.attr "src" = some customUrl ∧
  truthyStr (n.attr "srcset") = false ∧
  n.attr "data-original-src" = some ((orig.attr "src").getD "") ∧
  n.attr "data-device-id" = some deviceId ∧
  (truthyStr (orig.attr "srcset") = true →
    n.attr "data-original-srcset" = orig.attr "srcset" ∧ n.attr "srcset" = none) ∧
  n.attr "data-custom-icon-applied" = some "true"

/-- A page with an unpatched image of device 100 that has both `src` and
`srcset`, inside a panel. -/
def freshImageDoc : Node :=
  .elem "body" []
    [.elem "div" [("class", "panel")]
      (.elem "img" [("src", fpUrl "100"), ("srcset", fpUrl "100" ++ " 2x")] [] :: infoRows)]

/-! ## The storage manager (`storageManager.js`) -/

/-- The operator `a || b` on values. -/
def jsOr (a b : JsVal) : JsVal := if a.truthy then a else b

/-- What the surroundings of the worker answer during a call: `now k` is the
value of the `k`-th call of `Date.now()`, `readOk` and `writeOk` tell whether
`chrome.storage.local.get` and `chrome.storage.local.set` resolve. -/
structure Host where
  now : Nat → Int
  readOk : Bool
  writeOk : Bool

/-- The state the storage manager works on: the storage area, the number of
calls of `Date.now()` made so far, and a log of the registries handed to
`chrome.storage.local.set` (oldest first). -/
structure StoreState where
  area : ChromeStorage
  ticks : Nat
  saved : List JsObj

/-- The function `StorageManager.saveRegistry(registry)` on the state: the
result is the success flag. -/
def StorageManager.saveRegistry (host : Host) (registry : JsObj) (st : StoreState) :
    Bool × StoreState :=
  if host.writeOk then
    (true, { st with
      area := objSet st.area registryKey (.obj registry)
      saved := st.saved ++ [registry] })
  else (false, { st with saved := st.saved ++ [registry] })

/-- The variables of the loop of `_migrateRegistryIfNeeded`, with the count
of the calls of `Date.now()`. -/
structure Migration where
  registry : JsObj
  needsSave : Bool
  ticks : Nat

/-- One round of the loop of `_migrateRegistryIfNeeded`.  An array passes
the test `entry && typeof entry === 'object'` and has neither property. -/
def migrateEntry (host : Host) (m : Migration) (e : String × JsVal) : Migration :=
  match e.2 with
  | .str _ =>
    { registry := objSet m.registry e.1 (.obj [("name", e.2), ("addedAt", .num (host.now m.ticks))])
      needsSave := true
      ticks := m.ticks + 1 }
  | .obj _ | .arr _ =>
    if (e.2.getProp "addedAt").truthy then
      { m with
        registry := objSet m.registry e.1
          (.obj [("name", jsOr (e.2.getProp "name") (.str "Unknown")),
            ("addedAt", e.2.getProp "addedAt")]) }
    else
      { registry := objSet m.registry e.1
          (.obj [("name", jsOr (e.2.getProp "name") (.str "Unknown")),
            ("addedAt", .num (host.now m.ticks))])
        needsSave := true
        ticks := m.ticks + 1 }
  | _ => m

/-- The function `StorageManager._migrateRegistryIfNeeded(registry)`, called
when `ticks` calls of `Date.now()` have been made. -/
def migrateRegistryIfNeeded (host : Host) (registry : JsObj) (ticks : Nat) : Migration :=
  (objEntries registry).foldl (migrateEntry host)
    { registry := [], needsSave := false, ticks := ticks }

/-- The value `result[this.KEYS.REGISTRY] || {}` as a plain object.  The
extension stores plain objects only under the key; a number or a boolean has
no entries, as the empty object; a stored array or string is not modelled. -/
def readRegistry (area : ChromeStorage) : JsObj :=
  match objGet area registryKey with
  | some (.obj registry) => registry
  | _ => []

/-- The function `StorageManager.getRegistry()`; a rejected read is caught
and gives the empty object. -/
def StorageManager.getRegistry (host : Host) (st : StoreState) : JsObj × StoreState :=
  if host.readOk then
    let migrated := migrateRegistryIfNeeded host (readRegistry st.area) st.ticks
    let st1 := { st with ticks := migrated.ticks }
    if migrated.needsSave then
      (migrated.registry, (StorageManager.saveRegistry host migrated.registry st1).2)
    else (migrated.registry, st1)
  else ([], st)

/-- The function `StorageManager._normalizeEntry(value, timestamp)`. -/
def normalizeEntry (value : JsVal) (timestamp : Int) : JsVal :=
  match value with
  | .str _ => .obj [("name", value), ("addedAt", .num timestamp)]
  | _ =>
    .obj [("name", jsOr (value.getProp "name") (.str "Unknown")),
      ("addedAt", jsOr (value.getProp "addedAt") (.num timestamp))]

/-- The test `!registry[id]`. -/
def lacksEntry (registry : JsObj) (id : String) : Bool :=
  !((objGet registry id).getD .undefined).truthy

/-- The result of `saveDevicesToRegistry`. -/
structure SaveResult where
  success : Bool
  newCount : Nat
  totalCount : Nat
  deriving DecidableEq

/-- One round of the loop of `saveDevicesToRegistry`. -/
def mergeDevice (now : Int) (acc : JsObj × Nat) (e : String × JsVal) : JsObj × Nat :=
  if lacksEntry acc.1 e.1 then (objSet acc.1 e.1 (normalizeEntry e.2 now), acc.2 + 1) else acc

/-- The function `StorageManager.saveDevicesToRegistry(devices)` for a plain
object `devices`; nothing in the `try` block throws then, `saveRegistry`
catching the failure of the write. -/
def StorageManager.saveDevicesToRegistry (host : Host) (devices : JsObj) (st : StoreState) :
    SaveResult × StoreState :=
  let got := StorageManager.getRegistry host st
  let now := host.now got.2.ticks
  let st1 := { got.2 with ticks := got.2.ticks + 1 }
  let merged := (objEntries devices).foldl (mergeDevice now) (got.1, 0)
  let st2 := if merged.2 > 0 then (StorageManager.saveRegistry host merged.1 st1).2 else st1
  ({ success := true, newCount := merged.2, totalCount := (objKeys merged.1).length }, st2)

/-- The result of `importRegistry`. -/
structure ImportResult where
  success : Bool
  count : Nat
  deriving DecidableEq

/-- One round of the loop of `importRegistry`. -/
def importDevice (merge : Bool) (now : Int) (acc : JsObj × Nat) (e : String × JsVal) :
    JsObj × Nat :=
  if !merge || lacksEntry acc.1 e.1 then (objSet acc.1 e.1 (normalizeEntry e.2 now), acc.2 + 1)
  else acc

/-- The function `StorageManager.importRegistry(importData, merge)` for a
plain object `importData`. -/
def StorageManager.importRegistry (host : Host) (importData : JsObj) (merge : Bool)
    (st : StoreState) : ImportResult × StoreState :=
  let got := if merge then StorageManager.getRegistry host st else ([], st)
  let now := host.now got.2.ticks
  let st1 := { got.2 with ticks := got.2.ticks + 1 }
  let merged := (objEntries importData).foldl (importDevice merge now) (got.1, 0)
  let st2 := (StorageManager.saveRegistry host merged.1 st1).2
  ({ success := true, count := merged.2 }, st2)

/-- The response of the `importRegistry` case of the background worker. -/
structure ImportResponse where
  success : Bool
  newCount : Nat
  totalCount : Nat
  deriving DecidableEq

/-- The `importRegistry` case of the message listener of the background
worker. -/
def onImportRegistry (host : Host) (data : JsObj) (st : StoreState) :
    ImportResponse × StoreState :=
  let result := StorageManager.importRegistry host data true st
  ({ success := result.1.success, newCount := result.1.count, totalCount := result.1.count },
    result.2)

/-- The entry `_migrateRegistryIfNeeded` writes for `entry` when `Date.now()`,
if it is called, answers `t`; a value that is neither a string nor an object
has no entry. -/
def migratedEntry (entry : JsVal) (t : Int) : Option JsVal :=
  match entry with
  | .str _ => some (.obj [("name", entry), ("addedAt", .num t)])
  | .obj _ | .arr _ =>
    some (.obj [("name", jsOr (entry.getProp "name") (.str "Unknown")),
      ("addedAt", jsOr (entry.getProp "addedAt") (.num t))])
  | _ => none

/-- Whether the round of `_migrateRegistryIfNeeded` for `entry` sets
`needsSave`; these are the rounds that call `Date.now()`. -/
def needsMigration (entry : JsVal) : Bool :=
  match entry with
  | .str _ => true
  | .obj _ | .arr _ => !(entry.getProp "addedAt").truthy
  | _ => false

/-- Every entry of the registry is an object. -/
def AllObjects (registry : JsObj) : Prop :=
  ∀ id v, objGet registry id = some v → ∃ fs, v = JsVal.obj fs

/-- Every entry of the registry is an object with a truthy `addedAt`, the
entries `_migrateRegistryIfNeeded` passes without asking for a save. -/
def AllSettled (registry : JsObj) : Prop :=
  ∀ id v, objGet registry id = some v →
    ∃ fs, v = JsVal.obj fs ∧ ((JsVal.obj fs).getProp "addedAt").truthy = true

/-! ## Concrete registries used in the checks below -/

/-- A clock that answers a later instant at each call. -/
def sampleClock (k : Nat) : Int := 1700000000000 + k

/-- A host whose storage area answers every call. -/
def workingHost : Host := { now := sampleClock, readOk := true, writeOk := true }

/-- A host whose storage area rejects every write. -/
def failingHost : Host := { now := sampleClock, readOk := true, writeOk := false }

/-- The state in which the area holds `registry` and nothing has happened. -/
def storeOf (registry : JsObj) : StoreState :=
  { area := [(registryKey, .obj registry)], ticks := 0, saved := [] }

/-- A registry in the legacy shape. -/
def legacyRegistry : JsObj := [("100", .str "Device A"), ("101", .str "Device B")]

/-- A registry whose one entry has the shape `{name, addedAt}` with the empty
name, as `importRegistry` stores it for the import data `{"7": ""}`. -/
def unnamedRegistry : JsObj := [("7", .obj [("name", .str ""), ("addedAt", .num 5)])]

/-- A registry in the current shape. -/
def currentRegistry : JsObj :=
  [("100", .obj [("name", .str "Device A"), ("addedAt", .num 5)])]

/-- A codec for the checks: its one body parses as a picker list of 1001
items. -/
def bulkCodec : JsonCodec :=
  { parse := fun body => if body = "bulk" then some (payloadOf (pickerItems 1000 1001)) else none
    stringify := fun _ => "" }

/-- A response whose body parses as the picker list. -/
def bulkResponse : Response :=
  { status := 200
    statusText := "OK"
    headers := [("content-type", "application/json")]
    body := "bulk" }

/-! ## Regular expressions (`utils.js`) -/

/-- The fragment of the regular expressions of `utils.js`: a character of a
class, the empty pattern, concatenation, alternation (left branch first), the
greedy star, the capturing group whose text is read, and `$`.  The other
forms are written with these: `a+` is `a a*`, `a?` is `a|` and `a{2,}` is
`a a a*`.  Strings are lists of code points; no class of the patterns tells a
surrogate pair from one character. -/
inductive Re where
  | chr (p : Char → Bool)
  | eps
  | seq (a b : Re)
  | alt (a b : Re)
  | star (a : Re)
  | group (a : Re)
  | eol

/-- The state of a match: the input still to be read and the text of the
capturing group. -/
structure MState where
  rest : List Char
  cap : Option (List Char)

/-- The greedy loop of `a*`: one more round of `step` that reads at least one
character, then the loop again; if that fails, the continuation.  The fuel is
the length of the input. -/
def starLoop (step : MState → (MState → Option MState) → Option MState) :
    Nat → MState → (MState → Option MState) → Option MState
  | 0, s, k => k s
  | fuel + 1, s, k =>
    match step s (fun s1 =>
        if s1.rest.length < s.rest.length then starLoop step fuel s1 k else none) with
    | some r => some r
    | none => k s

/-- The backtracking matcher: `re.run s k` is the first way, in the order of
preference of the pattern, to match `re` at `s` such that the continuation
`k` accepts where it ends. -/
def Re.run : Re → MState → (MState → Option MState) → Option MState
  | .chr p, s, k =>
    match s.rest with
    | c :: cs => if p c then k { s with rest := cs } else none
    | [] => none
  | .eps, s, k => k s
  | .seq a b, s, k => a.run s (fun s1 => b.run s1 k)
  | .alt a b, s, k =>
    match a.run s k with
    | some r => some r
    | none => b.run s k
  | .star a, s, k => starLoop a.run s.rest.length s k
  | .group a, s, k =>
    a.run s (fun s1 => k { s1 with cap := some (s.rest.take (s.rest.length - s1.rest.length)) })
  | .eol, s, k => if s.rest.isEmpty then k s else none

/-- The match of a pattern that starts at the head of the input. -/
def Re.matchAt (re : Re) (cs : List Char) : Option MState :=
  re.run { rest := cs, cap := none } some

/-- The leftmost match of a pattern in the input. -/
def Re.search (re : Re) : List Char → Option MState
  | [] => re.matchAt []
  | c :: cs =>
    match re.matchAt (c :: cs) with
    | some m => some m
    | none => re.search cs

/-- A pattern literal: `anchored` tells whether it starts with `^`, which,
the flag `m` being absent, allows a match at index 0 only. -/
structure Pattern where
  anchored : Bool
  body : Re

/-- The match `RegExp.prototype.exec` finds. -/
def Pattern.exec (p : Pattern) (s : String) : Option MState :=
  if p.anchored then p.body.matchAt s.data else p.body.search s.data

/-- The method `RegExp.prototype.test`. -/
def Pattern.test (p : Pattern) (s : String) : Bool := (p.exec s).isSome

/-- The pattern `a+`. -/
def Re.plus (a : Re) : Re := .seq a (.star a)

/-- The pattern `a?`. -/
def Re.opt (a : Re) : Re := .alt a .eps

/-- The concatenation of a list of patterns. -/
def Re.cat : List Re → Re
  | [] => .eps
  | [a] => a
  | a :: rest => .seq a (Re.cat rest)

/-- The alternation of a list of patterns. -/
def Re.any : List Re → Re
  | [] => .chr (fun _ => false)
  | [a] => a
  | a :: rest => .alt a (Re.any rest)

/-- One character, as written. -/
def Re.lit (c : Char) : Re := .chr (fun x => x == c)

/-- One character under the flag `i`: the letters `A` to `Z` and `a` to `z`
match in either case, and nothing outside ASCII matches an ASCII letter. -/
def Re.litI (c : Char) : Re := .chr (fun x => x.toLower == c.toLower)

/-- A word, as written. -/
def Re.word (w : String) : Re := Re.cat (w.data.map Re.lit)

/-- A word under the flag `i`. -/
def Re.wordI (w : String) : Re := Re.cat (w.data.map Re.litI)

/-- The class `\s`: the white space and the line terminators. -/
def isSpace (c : Char) : Bool :=
  (9 ≤ c.toNat && c.toNat ≤ 13) || c.toNat = 32 || c.toNat = 160 || c.toNat = 5760 ||
    (8192 ≤ c.toNat && c.toNat ≤ 8202) || c.toNat = 8232 || c.toNat = 8233 ||
    c.toNat = 8239 || c.toNat = 8287 || c.toNat = 12288 || c.toNat = 65279

/-- The class `.`: any character but a line terminator. -/
def isDot (c : Char) : Bool :=
  !(c.toNat = 10 || c.toNat = 13 || c.toNat = 8232 || c.toNat = 8233)

/-- The class `[A-Z]`. -/
def isUpperAZ (c : Char) : Bool := 65 ≤ c.toNat && c.toNat ≤ 90

/-- The class `[A-Z0-9]`. -/
def isUpperOrDigit (c : Char) : Bool := isUpperAZ c || isDigit c

/-- The class `[A-Z0-9]` under the flag `i`. -/
def isAlnumI (c : Char) : Bool := isUpperAZ c || (97 ≤ c.toNat && c.toNat ≤ 122) || isDigit c

/-- The class `[A-F0-9]` under the flag `i`. -/
def isHexI (c : Char) : Bool :=
  (65 ≤ c.toNat && c.toNat ≤ 70) || (97 ≤ c.toNat && c.toNat ≤ 102) || isDigit c

/-! ## User device names (`Utils.looksLikeUserDeviceName`) -/

/-- The list `userDevicePatterns`, in the order of the source. -/
def userDevicePatterns : List Pattern :=
  [ -- 1. /\s*\|\s*/
    { anchored := false
      body := Re.cat [.star (.chr isSpace), Re.lit '|', .star (.chr isSpace)] },
    -- 2. /'s\s+/
    { anchored := false
      body := Re.cat [Re.lit (Char.ofNat 39), Re.lit 's', Re.plus (.chr isSpace)] },
    -- 3. /^(My|Home|Office|Work|Guest|Kids|Family|New|Old)\s/i
    { anchored := true
      body := Re.cat
        [Re.any (["My", "Home", "Office", "Work", "Guest", "Kids", "Family", "New", "Old"].map
          Re.wordI),
         .chr isSpace] },
    -- 4. /^(DESKTOP|WIN|PC|LAPTOP|WORKSTATION|SERVER|HOST|VM|NODE)-[A-Z0-9]+/i
    { anchored := true
      body := Re.cat
        [Re.any (["DESKTOP", "WIN", "PC", "LAPTOP", "WORKSTATION", "SERVER", "HOST", "VM",
          "NODE"].map Re.wordI),
         Re.lit '-', Re.plus (.chr isAlnumI)] },
    -- 5. /\(VLAN\s*\d+\)/i
    { anchored := false
      body := Re.cat
        [Re.lit '(', Re.wordI "VLAN", .star (.chr isSpace), Re.plus (.chr isDigit),
         Re.lit ')'] },
    -- 6. /^[A-Z0-9]+-?(AMT|PC|VM|NAS|SRV|SVR|WS|AP|SW)$/i
    { anchored := true
      body := Re.cat
        [Re.plus (.chr isAlnumI), Re.opt (Re.lit '-'),
         Re.any (["AMT", "PC", "VM", "NAS", "SRV", "SVR", "WS", "AP", "SW"].map Re.wordI),
         .eol] },
    -- 7. /^PROX(VE|MOX)?\d*-?/i
    { anchored := true
      body := Re.cat
        [Re.wordI "PROX", Re.opt (Re.any [Re.wordI "VE", Re.wordI "MOX"]),
         .star (.chr isDigit), Re.opt (Re.lit '-')] },
    -- 8. /^[A-Z]{2,}[A-Z0-9]*\d+[A-Z0-9]*$/
    { anchored := true
      body := Re.cat
        [.chr isUpperAZ, .chr isUpperAZ, .star (.chr isUpperAZ), .star (.chr isUpperOrDigit),
         Re.plus (.chr isDigit), .star (.chr isUpperOrDigit), .eol] },
    -- 9. /^[A-F0-9]{2}[:-][A-F0-9]{2}/i
    { anchored := true
      body := Re.cat
        [.chr isHexI, .chr isHexI, .chr (fun c => c == ':' || c == '-'), .chr isHexI,
         .chr isHexI] },
    -- 10. /(Strip\s*Lights?|Picture\s*Frame|Door\s*Opener|Thermostat|Smart\s*Plug)/i
    { anchored := false
      body := Re.any
        [Re.cat [Re.wordI "Strip", .star (.chr isSpace), Re.wordI "Light",
           Re.opt (Re.litI 's')],
         Re.cat [Re.wordI "Picture", .star (.chr isSpace), Re.wordI "Frame"],
         Re.cat [Re.wordI "Door", .star (.chr isSpace), Re.wordI "Opener"],
         Re.wordI "Thermostat",
         Re.cat [Re.wordI "Smart", .star (.chr isSpace), Re.wordI "Plug"]] } ]

/-- The function `Utils.looksLikeUserDeviceName(name)`. -/
def Utils.looksLikeUserDeviceName (name : JsVal) : Bool :=
  match name with
  | .str s => if s = "" then true else userDevicePatterns.any (fun pattern => pattern.test s)
  | _ => true

/-! ## Fingerprint URLs (`utils.js`) -/

/-- The conversion of a number to a string in a template literal, for a
natural number.  Below 10^21 JavaScript prints decimal digits only (the
decimal numeral of `n` up to 2^53); this is modelled by the decimal numeral.
From 10^21 on it prints the form `d.ddde+x`, modelled with the digits of `n`
up to the last one that is not 0: so 10^21 is printed `1e+21`. -/
def numberToString (n : Nat) : String :=
  if n < 10 ^ 21 then toString n
  else
    match ((toString n).data.reverse.dropWhile (fun c => c == '0')).reverse with
    | [] => "0"
    | [d] => String.mk [d] ++ "e+" ++ toString ((toString n).length - 1)
    | d :: ds => String.mk (d :: '.' :: ds) ++ "e+" ++ toString ((toString n).length - 1)

/-- The function `Utils.buildFingerprintUrl(deviceId, size)`. -/
def Utils.buildFingerprintUrl (deviceId : String) (size : Nat) : String :=
  "https://static.ui.com/fingerprint/0/" ++ deviceId ++ "_" ++ numberToString size ++ "x" ++
    numberToString size ++ ".png"

/-- The pattern `/fingerprint\/\d+\/(\d+)(?:_\d+x\d+)?\.png/i`. -/
def fingerprintPattern : Pattern :=
  { anchored := false
    body := Re.cat
      [Re.wordI "fingerprint/", Re.plus (.chr isDigit), Re.lit '/',
       .group (Re.plus (.chr isDigit)),
       Re.opt (Re.cat [Re.lit '_', Re.plus (.chr isDigit), Re.litI 'x', Re.plus (.chr isDigit)]),
       Re.wordI ".png"] }

/-- The pattern `/\/api\/.*device.*image.*\/(\d+)/i`. -/
def apiImagePattern : Pattern :=
  { anchored := false
    body := Re.cat
      [Re.wordI "/api/", .star (.chr isDot), Re.wordI "device", .star (.chr isDot),
       Re.wordI "image", .star (.chr isDot), Re.lit '/', .group (Re.plus (.chr isDigit))] }

/-- The element `match[1]` of a match, the text of the group. -/
def MState.group1 (m : MState) : Option String := m.cap.map String.mk

/-- The function `Utils.extractDeviceIdFromUrl(url)` on a string. -/
def Utils.extractDeviceIdFromUrl (url : String) : Option String :=
  if url = "" then none
  else
    match fingerprintPattern.exec url with
    | some fingerprintMatch => fingerprintMatch.group1
    | none =>
      match apiImagePattern.exec url with
      | some apiMatch => apiMatch.group1
      | none => none

/-! ## The device list built for display (`options.js`, `popup.js`) -/

/-- The function `StorageManager.getDeviceName(entry)`. -/
def StorageManager.getDeviceName (entry : JsVal) : JsVal :=
  match entry with
  | .str _ => entry
  | _ => jsOr (entry.getProp "name") (.str "Unknown")

/-- The function `StorageManager.getDeviceAddedAt(entry)`. -/
def StorageManager.getDeviceAddedAt (entry : JsVal) : JsVal :=
  match entry with
  | .str _ => .num 0
  | _ => jsOr (entry.getProp "addedAt") (.num 0)

/-- The value of a digit in a radix, if it is one. -/
def digitValue (radix : Nat) (c : Char) : Option Nat :=
  if isDigit c then (if c.toNat - 48 < radix then some (c.toNat - 48) else none)
  else if radix = 16 && 97 ≤ c.toNat && c.toNat ≤ 102 then some (c.toNat - 87)
  else if radix = 16 && 65 ≤ c.toNat && c.toNat ≤ 70 then some (c.toNat - 55)
  else none

/-- The number the longest prefix of digits stands for; `none` when the
input does not start with a digit. -/
def parseDigits (radix : Nat) (cs : List Char) : Option Nat :=
  match cs.takeWhile (fun c => (digitValue radix c).isSome) with
  | [] => none
  | ds => some (ds.foldl (fun n c => radix * n + (digitValue radix c).getD 0) 0)

/-- The function `parseInt(s)` with no radix: white space is skipped, a sign
is read, the prefix `0x` selects the radix 16, and the digits that follow are
read as far as they go.  `none` is `NaN`.  The value is exact, as that of
JavaScript is up to 2^53. -/
def parseInt (s : String) : Option Int :=
  let cs := s.data.dropWhile isSpace
  let signed : Bool × List Char :=
    match cs with
    | '-' :: r => (true, r)
    | '+' :: r => (false, r)
    | _ => (false, cs)
  let based : Nat × List Char :=
    match signed.2 with
    | '0' :: 'x' :: r => (16, r)
    | '0' :: 'X' :: r => (16, r)
    | _ => (10, signed.2)
  match parseDigits based.1 based.2 with
  | none => none
  | some n => some (if signed.1 then -(n : Int) else (n : Int))

/-- An element of the array `devices`. -/
structure DisplayDevice where
  id : Int
  name : JsVal
  addedAt : JsVal
  isNew : Bool

/-- The value `typeof name === 'string' ? name : (name.name || 'Unknown')`;
the read `name.name` throws for `null` and `undefined`, which is `none`. -/
def officialName (name : JsVal) : Option JsVal :=
  match name with
  | .str _ => some name
  | .undefined => none
  | .null => none
  | _ => some (jsOr (name.getProp "name") (.str "Unknown"))

/-- One round of the first loop, over the bundled database. -/
def bundledRound (registry : JsObj) (devices : List DisplayDevice) (e : String × JsVal) :
    Option (List DisplayDevice) :=
  match parseInt e.1 with
  | none => some devices
  | some numericId =>
    match officialName e.2 with
    | none => none
    | some name =>
      let registryEntry := (objGet registry e.1).getD .undefined
      some (devices ++
        [{ id := numericId
           name := name
           addedAt :=
             if registryEntry.truthy then StorageManager.getDeviceAddedAt registryEntry
             else .num 0
           isNew := false }])

/-- The first loop, from the entry it has reached. -/
def bundledLoop (registry : JsObj) :
    List (String × JsVal) → List DisplayDevice → Option (List DisplayDevice)
  | [], devices => some devices
  | e :: rest, devices =>
    match bundledRound registry devices e with
    | none => none
    | some devices1 => bundledLoop registry rest devices1

/-- One round of the second loop, over the registry. -/
def registryRound (bundledDatabase : JsObj) (devices : List DisplayDevice)
    (e : String × JsVal) : List DisplayDevice :=
  match parseInt e.1 with
  | none => devices
  | some numericId =>
    if (objKeys bundledDatabase).contains e.1 then devices
    else if numericId < 1 || numericId > 99999 then devices
    else if Utils.looksLikeUserDeviceName (StorageManager.getDeviceName e.2) then devices
    else
      devices ++
        [{ id := numericId
           name := StorageManager.getDeviceName e.2
           addedAt := StorageManager.getDeviceAddedAt e.2
           isNew := true }]

/-- The array `devices` of `loadBrowserDevices` and of
`loadAllDevicesSilently` when their two loops are over, for the bundled
database and the registry they have loaded; the sort that follows permutes
the array.  `none` is a thrown `TypeError`. -/
def displayDevices (bundledDatabase registry : JsObj) : Option (List DisplayDevice) :=
  match bundledLoop registry (objEntries bundledDatabase) [] with
  | none => none
  | some devices => some ((objEntries registry).foldl (registryRound bundledDatabase) devices)

/-- What the display shows of a device: the id, the name as text, and the
marker of a new entry. -/
def DisplayDevice.shown (d : DisplayDevice) : Int × String × Bool := (d.id, d.name.toKey, d.isNew)

/-! ## Reachability in the fiber heap -/

/-- The fiber `t` is reached from the fiber `f` by at most `n` links, each a
`child` or a `sibling` link. -/
inductive Within (heap : FiberHeap) : Nat → Nat → Nat → Prop where
  | here (n f : Nat) : Within heap n f f
  | child (n f c t : Nat) (fb : Fiber) : heap.get? f = some fb → fb.child = some c →
      Within heap n c t → Within heap (n + 1) f t
  | sibling (n f s t : Nat) (fb : Fiber) : heap.get? f = some fb → fb.sibling = some s →
      Within heap n s t → Within heap (n + 1) f t

/-- The fiber `t` is reached from the fiber `f` by links. -/
def Reach (heap : FiberHeap) (f t : Nat) : Prop := ∃ n, Within heap n f t

/-- The fibers form a forest: no fiber is reached from its own child or
sibling, and the fibers reached from the child of a fiber are not reached
from its sibling. -/
def IsForest (heap : FiberHeap) : Prop :=
  ∀ f fb, heap.get? f = some fb →
    (∀ c, fb.child = some c → ¬ Reach heap c f) ∧
    (∀ s, fb.sibling = some s → ¬ Reach heap s f) ∧
    (∀ c s g, fb.child = some c → fb.sibling = some s → Reach heap c g → ¬ Reach heap s g)

/-- A chain of 52 fibers: the fiber `i` has the fiber `i + 1` as child, and
the last fiber, 51, exposes a picker list of 1001 items. -/
def chainHeap : FiberHeap :=
  (List.range 51).map
      (fun i => { memoizedProps := .null, child := some (i + 1), sibling := none }) ++
    [{ memoizedProps := .obj [("data", payloadOf (pickerItems 1000 1001))]
       child := none
       sibling := none }]

/-- A forest of three fibers: the fiber 0 has the child 1, which has the
sibling 2, which exposes a picker list of 1001 items. -/
def smallForest : FiberHeap :=
  [{ memoizedProps := .null, child := some 1, sibling := none },
   { memoizedProps := .null, child := none, sibling := some 2 },
   { memoizedProps := .obj [("data", payloadOf (pickerItems 1000 1001))]
     child := none
     sibling := none }]

/-! ## The entries of `dev_ids` after the transformation -/

/-- The own properties after `if (o.name !== undefined) o.name = value`. -/
def fieldsOverwrite (fs : List (String × HVal)) (name value : String) : List (String × HVal) :=
  if fieldGet fs name != .undefined then fieldSet fs name (.str value) else fs

/-- The own properties after
`if (value && o.name !== undefined) o.name = value`. -/
def fieldsSubstitute (fs : List (String × HVal)) (name : String) (value : Option String) :
    List (String × HVal) :=
  if truthyStr value then fieldsOverwrite fs name (value.getD "") else fs

/-- The own properties of the clone `transformed` of a `dev_ids` entry when
the statements of the loop body have run. -/
def rewrittenFields (mapping : CustomMapping) (fs : List (String × HVal)) :
    List (String × HVal) :=
  let f1 := fieldsSubstitute fs "name" mapping.deviceName
  let f2 := fieldsSubstitute f1 "manufacturer" mapping.manufacturer
  let f3 := fieldsSubstitute f2 "model" mapping.model
  if truthyStr mapping.os then
    fieldsOverwrite (fieldsOverwrite f3 "os_name" (mapping.os.getD "")) "os_class"
      (mapping.os.getD "")
  else f3

/-- The override a mapping holds for a field of a `dev_ids` entry, as the
claim lists them: `name`, `manufacturer`, `model`, `os_name` and `os_class`. -/
def devIdOverride (mapping : CustomMapping) (name : String) : Option String :=
  if name = "name" then mapping.deviceName
  else if name = "manufacturer" then mapping.manufacturer
  else if name = "model" then mapping.model
  else if name = "os_name" then mapping.os
  else if name = "os_class" then mapping.os
  else none

/-- What the transformed `dev_ids` holds for an entry `(devId, info)` of the
heap `h`, as the value `v` in the heap `hh`: the value itself when the id has
no mapping or the value is no object, else a new object, above the address
`top`, with the rewritten properties. -/
def EntryRewritten (mappings : MappingTable) (h : Heap) (top : Nat) (hh : Heap)
    (devId : String) (info v : HVal) : Prop :=
  match mappingOf mappings devId with
  | none => v = info
  | some mapping =>
    if info.isObject then
      ∃ b, v = .ref b ∧ top < b ∧
        hh.get? b = some (.object (rewrittenFields mapping (ownFields h info)))
    else v = info

/-- The heap `hh` is the heap `g` with one more object, at the address
`g.length`, whose own properties are `fs`. -/
def TopObject (g hh : Heap) (fs : List (String × HVal)) : Prop :=
  hh.length = g.length + 1 ∧ (∀ b, b < g.length → hh.get? b = g.get? b) ∧
    hh.get? g.length = some (.object fs)

/-- The state of the loop over `Object.entries(result.dev_ids)` when the
entries `done` have been handled: `top` is the address of
`transformedDevIds`, `base` the heap when the loop started and `hh` the heap
now.  Nothing below `top` has changed, `transformedDevIds` has the keys of
`done` in their order, and each holds what `EntryRewritten` describes. -/
def DevIdsDone (mappings : MappingTable) (top : Nat) (base hh : Heap)
    (done : List (String × HVal)) : Prop :=
  top < hh.length ∧ (∀ b, b < top → hh.get? b = base.get? b) ∧
    ∃ tf, hh.get? top = some (.object tf) ∧ tf.map Prod.fst = done.map Prod.fst ∧
      ∀ e ∈ done, EntryRewritten mappings base top hh e.1 e.2 (fieldGet tf e.1)

/-- A parsed response with a `dev_ids` table: the id 100 has three fields, the
id 200 one, and a further field holds a record of the device 100. -/
def devIdsRecord : JsVal :=
  .obj [("dev_ids", .obj
          [("100", .obj [("name", .str "old"), ("model", .str "m"), ("extra", .num 1)]),
           ("200", .obj [("name", .str "other")])]),
        ("meta", .obj [("dev_id", .num 100), ("name", .str "kept")])]

/-- The record `devIdsRecord` in the heap. -/
def devIdsHeap : HVal × Heap := intern devIdsRecord []

/-! ## Theorems -/

/-! ### Plain objects -/

theorem objGet_objSet (o : JsObj) (k k' : String) (v : JsVal) :
    objGet (objSet o k v) k' = if k = k' then some v else objGet o k' := by
  induction o with
  | nil => simp [objSet, objGet]
  | cons kv rest ih =>
    obtain ⟨k0, v0⟩ := kv
    by_cases h0 : k0 = k
    · subst h0
      by_cases h1 : k0 = k' <;> simp [objSet, objGet, h1]
    · by_cases h1 : k = k'
      · subst h1
        simp [objSet, objGet, h0, ih]
      · by_cases h2 : k0 = k'
        · subst h2
          simp [objSet, objGet, h0, h1]
        · simp [objSet, objGet, h0, h1, h2, ih]

theorem mem_objSet (o : JsObj) (k : String) (v : JsVal) (kv : String × JsVal)
    (h : kv ∈ objSet o k v) : kv ∈ o ∨ kv = (k, v) := by
  induction o with
  | nil => simpa [objSet] using h
  | cons e rest ih =>
    obtain ⟨k0, v0⟩ := e
    by_cases h0 : k0 = k
    · simp only [objSet, h0, if_true, List.mem_cons] at h
      rcases h with h | h
      · exact Or.inr h
      · exact Or.inl (List.mem_cons_of_mem _ h)
    · simp only [objSet, h0, if_false, List.mem_cons] at h
      rcases h with h | h
      · exact Or.inl (h ▸ List.mem_cons_self _ _)
      · rcases ih h with h | h
        · exact Or.inl (List.mem_cons_of_mem _ h)
        · exact Or.inr h

theorem mem_objEntries (o : JsObj) (k : String) (v : JsVal) :
    (k, v) ∈ objEntries o ↔ objGet o k = some v := by
  induction o with
  | nil => simp [objEntries, objGet]
  | cons e rest ih =>
    obtain ⟨k0, v0⟩ := e
    simp only [objEntries, objGet, List.mem_cons, List.mem_filter, ih, Prod.mk.injEq]
    by_cases h0 : k0 = k
    · subst h0
      simp
      constructor
      · intro h; exact h.symm
      · intro h; exact h.symm
    · have h1 : ¬ k = k0 := fun h => h0 h.symm
      simp [h0, h1]

theorem nodup_objKeys (o : JsObj) : (objKeys o).Nodup := by
  induction o with
  | nil => simp [objKeys, objEntries]
  | cons e rest ih =>
    obtain ⟨k0, v0⟩ := e
    simp only [objKeys, objEntries, List.map_cons, List.nodup_cons, List.mem_map,
      List.mem_filter, not_exists, not_and]
    refine ⟨?_, ?_⟩
    · intro x hx hk
      simp [hk] at hx
    · exact (ih.sublist ((List.filter_sublist _).map Prod.fst))

theorem mem_objKeys (o : JsObj) (k : String) : k ∈ objKeys o ↔ (objGet o k).isSome = true := by
  simp only [objKeys, List.mem_map, Prod.exists, exists_and_right, exists_eq_right]
  constructor
  · rintro ⟨v, hv⟩
    rw [(mem_objEntries o k v).mp hv]
    rfl
  · intro h
    obtain ⟨v, hv⟩ := Option.isSome_iff_exists.mp h
    exact ⟨v, (mem_objEntries o k v).mpr hv⟩

theorem objKeys_objSet_self (o : JsObj) (k : String) (v : JsVal) :
    k ∈ objKeys (objSet o k v) := by
  rw [mem_objKeys, objGet_objSet]
  simp

theorem objKeys_objSet_mono (o : JsObj) (k k' : String) (v : JsVal)
    (h : k' ∈ objKeys o) : k' ∈ objKeys (objSet o k v) := by
  rw [mem_objKeys] at h ⊢
  rw [objGet_objSet]
  by_cases hk : k = k'
  · simp [hk]
  · simpa [hk] using h

/-! ### The harvest loop of `processApiResponse` -/

/-- The property key an item is stored under. -/
theorem harvestItem_of_true (acc : JsObj × Nat) (item : JsVal) (h : hasIdAndSubtitle item = true) :
    harvestItem acc item =
      (objSet acc.1 (item.getProp "id").toKey (item.getProp "subtitle"), acc.2 + 1) := by
  simp [harvestItem, h]

theorem harvestItem_of_false (acc : JsObj × Nat) (item : JsVal)
    (h : hasIdAndSubtitle item = false) : harvestItem acc item = acc := by
  simp [harvestItem, h]

theorem harvest_count (items : List JsVal) (acc : JsObj × Nat) :
    (items.foldl harvestItem acc).2 = acc.2 + items.countP hasIdAndSubtitle := by
  induction items generalizing acc with
  | nil => simp
  | cons item rest ih =>
    rw [List.foldl_cons, ih]
    by_cases h : hasIdAndSubtitle item = true
    · rw [harvestItem_of_true _ _ h, List.countP_cons_of_pos _ _ h]
      simp only
      omega
    · have h' : hasIdAndSubtitle item = false := by simpa using h
      rw [harvestItem_of_false _ _ h', List.countP_cons_of_neg _ _ h]

theorem harvest_get_of_not_key (items : List JsVal) (acc : JsObj × Nat) (k : String)
    (h : ∀ item ∈ items, hasIdAndSubtitle item = true → (item.getProp "id").toKey ≠ k) :
    objGet (items.foldl harvestItem acc).1 k = objGet acc.1 k := by
  induction items generalizing acc with
  | nil => simp
  | cons item rest ih =>
    rw [List.foldl_cons, ih _ (fun it hit => h it (List.mem_cons_of_mem _ hit))]
    by_cases hq : hasIdAndSubtitle item = true
    · rw [harvestItem_of_true _ _ hq]
      simp only
      rw [objGet_objSet, if_neg (h item (List.mem_cons_self _ _) hq)]
    · have h' : hasIdAndSubtitle item = false := by simpa using hq
      rw [harvestItem_of_false _ _ h']

theorem harvest_keys_mono (items : List JsVal) (acc : JsObj × Nat) (k : String)
    (h : k ∈ objKeys acc.1) : k ∈ objKeys (items.foldl harvestItem acc).1 := by
  induction items generalizing acc with
  | nil => simpa using h
  | cons item rest ih =>
    rw [List.foldl_cons]
    apply ih
    by_cases hq : hasIdAndSubtitle item = true
    · rw [harvestItem_of_true _ _ hq]
      exact objKeys_objSet_mono _ _ _ _ h
    · have h' : hasIdAndSubtitle item = false := by simpa using hq
      rw [harvestItem_of_false _ _ h']
      exact h

theorem harvest_keys_of_items (items : List JsVal) (acc : JsObj × Nat) (item : JsVal)
    (hmem : item ∈ items) (hq : hasIdAndSubtitle item = true) :
    (item.getProp "id").toKey ∈ objKeys (items.foldl harvestItem acc).1 := by
  induction items generalizing acc with
  | nil => simp at hmem
  | cons it rest ih =>
    rw [List.foldl_cons]
    rcases List.mem_cons.mp hmem with h | h
    · subst h
      apply harvest_keys_mono
      rw [harvestItem_of_true _ _ hq]
      exact objKeys_objSet_self _ _ _
    · exact ih _ h

theorem harvest_replicate_of_false (n : Nat) (item : JsVal) (acc : JsObj × Nat)
    (h : hasIdAndSubtitle item = false) :
    (List.replicate n item).foldl harvestItem acc = acc := by
  induction n with
  | zero => simp
  | succ n ih => rw [List.replicate_succ, List.foldl_cons, harvestItem_of_false _ _ h, ih]

/-! ### What `processApiResponse` does, case by case -/

theorem processApiResponse_small (url : String) (data : JsVal) (st : PageState)
    (h : (payloadItems data).length < 1000) : processApiResponse url data st = st := by
  simp [processApiResponse, h]

theorem processApiResponse_posted (url : String) (data : JsVal) (st : PageState) :
    (processApiResponse url data st).posted =
      if 1000 ≤ (payloadItems data).length ∧
          1000 < (payloadItems data).countP hasIdAndSubtitle then
        st.posted ++
          [{ data := ((payloadItems data).foldl harvestItem (st.capturedFingerprints, 0)).1,
             replaceRegistry := true, source := "icon-picker-complete" }]
      else st.posted := by
  unfold processApiResponse
  by_cases h1 : (payloadItems data).length < 1000
  · have h1' : ¬ 1000 ≤ (payloadItems data).length := by omega
    simp [h1, h1']
  · have h1' : 1000 ≤ (payloadItems data).length := by omega
    simp only [h1, if_false, harvest_count, Nat.zero_add, gt_iff_lt, h1', true_and]
    by_cases h2 : 1000 < (payloadItems data).countP hasIdAndSubtitle <;> simp [h2]

theorem processApiResponse_table (url : String) (data : JsVal) (st : PageState)
    (h : 1000 ≤ (payloadItems data).length) :
    (processApiResponse url data st).capturedFingerprints =
      ((payloadItems data).foldl harvestItem (st.capturedFingerprints, 0)).1 := by
  unfold processApiResponse
  have h1 : ¬ (payloadItems data).length < 1000 := by omega
  simp only [h1, if_false]
  split <;> rfl


/-! ### The concrete payloads -/

theorem payloadItems_payloadOf (items : List JsVal) : payloadItems (payloadOf items) = items := by
  simp [payloadItems, payloadOf, JsVal.getProp, objGet]

theorem hasIdAndSubtitle_pickerItem (id : Nat) (subtitle : String) (hid : id ≠ 0)
    (hs : subtitle ≠ "") : hasIdAndSubtitle (pickerItem id subtitle) = true := by
  simp [hasIdAndSubtitle, pickerItem, JsVal.truthy, JsVal.getProp, objGet, hid, hs]

theorem key_pickerItem (id : Nat) (subtitle : String) :
    ((pickerItem id subtitle).getProp "id").toKey = toString (id : Int) := by
  simp [pickerItem, JsVal.getProp, objGet, JsVal.toKey]

theorem subtitle_pickerItem (id : Nat) (subtitle : String) :
    (pickerItem id subtitle).getProp "subtitle" = .str subtitle := by
  simp [pickerItem, JsVal.getProp, objGet]

theorem length_pickerItems (start n : Nat) : (pickerItems start n).length = n := by
  simp [pickerItems]

theorem hasIdAndSubtitle_pickerItems (start n : Nat) (h : start ≠ 0) :
    ∀ item ∈ pickerItems start n, hasIdAndSubtitle item = true := by
  intro item hitem
  simp only [pickerItems, List.mem_map, List.mem_range] at hitem
  obtain ⟨i, _, rfl⟩ := hitem
  exact hasIdAndSubtitle_pickerItem _ _ (by omega) (by decide)

theorem countP_pickerItems (start n : Nat) (h : start ≠ 0) :
    (pickerItems start n).countP hasIdAndSubtitle = n := by
  rw [List.countP_eq_length.mpr (hasIdAndSubtitle_pickerItems start n h), length_pickerItems]

theorem harvestKeys_pickerItems (start n : Nat) (h : start ≠ 0) :
    harvestKeys (pickerItems start n) =
      (List.range n).map (fun i => toString ((start + i : Nat) : Int)) := by
  unfold harvestKeys
  rw [List.filter_eq_self.mpr (hasIdAndSubtitle_pickerItems start n h)]
  simp [pickerItems, key_pickerItem]

theorem digitChar_value (d : Nat) (h : d < 10) : (Nat.digitChar d).toNat - 48 = d := by
  interval_cases d <;> rfl

theorem decimalValue_toDigitsCore (fuel n : Nat) (ds : List Char) (h : n < fuel) :
    decimalValue (Nat.toDigitsCore 10 fuel n ds) =
      ds.foldl (fun n c => 10 * n + (c.toNat - 48)) n := by
  induction fuel generalizing n ds with
  | zero => omega
  | succ fuel ih =>
    unfold Nat.toDigitsCore
    simp only
    split
    · rename_i h0
      have hn : n < 10 := by
        by_contra hc
        have : 1 ≤ n / 10 := Nat.div_pos (by omega) (by decide)
        omega
      have hd := digitChar_value _ (Nat.mod_lt n (by decide : 10 > 0))
      rw [Nat.mod_eq_of_lt hn] at hd
      simp [decimalValue, Nat.mod_eq_of_lt hn, hd]
    · rename_i h0
      have hlt : n / 10 < fuel := by
        have : n / 10 < n := Nat.div_lt_self (by omega) (by decide)
        omega
      rw [ih _ _ hlt]
      simp only [List.foldl_cons, digitChar_value _ (Nat.mod_lt n (by decide))]
      congr 1
      omega

/-- Printing a natural number in decimal loses nothing: the digits give the
number back, so distinct numeric ids are distinct property keys. -/
theorem decimalValue_toString (n : Nat) : decimalValue (toString (n : Int)).data = n := by
  have : toString (n : Int) = Nat.repr n := rfl
  rw [this, Nat.repr, Nat.toDigits]
  simp only [List.asString]
  rw [decimalValue_toDigitsCore _ _ _ (Nat.lt_succ_self n)]
  rfl

theorem toString_nat_injective (a b : Nat) (h : toString (a : Int) = toString (b : Int)) :
    a = b := by
  have h1 := decimalValue_toString a
  rw [h, decimalValue_toString] at h1
  exact h1.symm

theorem nodup_harvestKeys_pickerItems (start n : Nat) (h : start ≠ 0) :
    (harvestKeys (pickerItems start n)).Nodup := by
  rw [harvestKeys_pickerItems start n h]
  refine (List.nodup_range n).map_on ?_
  intro a _ b _ hab
  have := toString_nat_injective _ _ hab
  omega

theorem harvest_replicate_of_true (n : Nat) (item : JsVal) (acc : JsObj × Nat)
    (h : hasIdAndSubtitle item = true) :
    (List.replicate (n + 1) item).foldl harvestItem acc =
      (objSet acc.1 (item.getProp "id").toKey (item.getProp "subtitle"), acc.2 + (n + 1)) := by
  induction n generalizing acc with
  | zero => simp [harvestItem_of_true _ _ h]
  | succ n ih =>
    rw [List.replicate_succ, List.foldl_cons, ih, harvestItem_of_true _ _ h]
    have hset : ∀ (o : JsObj) (k : String) (v : JsVal), objSet (objSet o k v) k v = objSet o k v := by
      intro o k v
      induction o with
      | nil => simp [objSet]
      | cons e rest ih2 =>
        obtain ⟨k0, v0⟩ := e
        by_cases h0 : k0 = k <;> simp [objSet, h0, ih2]
    simp only [hset]
    congr 1
    omega


/-! ### The table `extractFromReact` returns -/

/-- What the search finds is the collection of a fiber of the heap with more
than 1000 items. -/
theorem searchFuel_found (fuel : Nat) (heap : FiberHeap) (fiber : Option Nat) (depth : Nat)
    (st : SearchState) (items : JsVal)
    (h : (searchFuel fuel heap fiber depth st).found = some items) :
    st.found = some items ∨
      ∃ g fb, heap.get? g = some fb ∧ lengthExceeds fb.items 1000 = true ∧ fb.items = items := by
  induction fuel generalizing fiber depth st items with
  | zero => exact Or.inl (by simpa [searchFuel] using h)
  | succ fuel ih =>
    cases fiber with
    | none => exact Or.inl (by simpa [searchFuel] using h)
    | some f =>
      rw [searchFuel] at h
      cases hfb : heap.get? f with
      | none => rw [hfb] at h; exact Or.inl h
      | some fb =>
        rw [hfb] at h
        simp only at h
        split at h
        · exact Or.inl h
        · split at h
          · rename_i hq
            exact Or.inr ⟨f, fb, hfb, hq, Option.some.inj h⟩
          · have hst2 : ∀ x, (match fb.child with
                | some c => searchFuel fuel heap (some c) (depth + 1)
                    { st with visited := f :: st.visited,
                              examined := st.examined ++ [(f, depth)] }
                | none => { st with visited := f :: st.visited,
                                    examined := st.examined ++ [(f, depth)] }).found = some x →
                st.found = some x ∨ ∃ g fb, heap.get? g = some fb ∧
                  lengthExceeds fb.items 1000 = true ∧ fb.items = x := by
              intro x hx
              cases hc : fb.child with
              | none => rw [hc] at hx; exact Or.inl hx
              | some c =>
                rw [hc] at hx
                simp only at hx
                rcases ih _ _ _ _ hx with hx1 | hx1
                · exact Or.inl hx1
                · exact Or.inr hx1
            cases hs : fb.sibling with
            | none => rw [hs] at h; exact hst2 items h
            | some s =>
              rw [hs] at h
              simp only at h
              rcases ih _ _ _ _ h with hx1 | hx1
              · exact hst2 items hx1
              · exact Or.inr hx1

theorem scanRoots_found (heap : FiberHeap) (roots : List (Option Nat)) (st : SearchState)
    (items : JsVal) (h : (scanRoots heap roots st).found = some items) :
    st.found = some items ∨
      ∃ g fb, heap.get? g = some fb ∧ lengthExceeds fb.items 1000 = true ∧ fb.items = items := by
  induction roots generalizing st with
  | nil => exact Or.inl h
  | cons r rest ih =>
    simp only [scanRoots, List.foldl_cons] at ih h
    rcases ih _ h with h1 | h1
    · cases r with
      | none => exact Or.inl h1
      | some f =>
        simp only at h1
        split at h1
        · exact Or.inl h1
        · exact searchFuel_found _ _ _ _ _ _ h1
    · exact Or.inr h1

/-- The array handed to `found.forEach` has more than 1000 elements. -/
theorem foundItems_length (heap : FiberHeap) (roots : List (Option Nat))
    (h : foundItems heap roots ≠ []) : 1000 < (foundItems heap roots).length := by
  unfold foundItems at h ⊢
  cases hf : (searchResult heap roots).found with
  | none => rw [hf] at h; exact absurd rfl h
  | some v =>
    rcases scanRoots_found heap roots _ v hf with h0 | ⟨g, fb, _, hq, hv⟩
    · simp at h0
    · rw [hf] at h
      rw [← hv] at h ⊢
      cases hx : fb.items with
      | arr items =>
        rw [hx] at hq
        simpa [lengthExceeds] using hq
      | undefined => rw [hx] at h; exact absurd rfl h
      | null => rw [hx] at h; exact absurd rfl h
      | bool b => rw [hx] at h; exact absurd rfl h
      | num n => rw [hx] at h; exact absurd rfl h
      | str s => rw [hx] at h; exact absurd rfl h
      | obj fs => rw [hx] at h; exact absurd rfl h

/-- An item with id and subtitle of a collection of at least 1000 items that
an event of `events` brought is a source for its entry. -/
theorem sourcedFrom_of_item (events : List PageEvent) (e : PageEvent) (he : e ∈ events)
    (hlen : 1000 ≤ e.collection.length) (item : JsVal) (hitem : item ∈ e.collection)
    (hid : (item.getProp "id").truthy = true) (hsub : (item.getProp "subtitle").truthy = true) :
    SourcedFrom events ((item.getProp "id").toKey, item.getProp "subtitle") :=
  ⟨e, he, hlen, item, hitem, hid, hsub, rfl⟩

theorem harvest_sourced (events : List PageEvent) (e : PageEvent) (he : e ∈ events)
    (hlen : 1000 ≤ e.collection.length) (items : List JsVal)
    (hitems : ∀ item ∈ items, item ∈ e.collection) (acc : JsObj × Nat)
    (h : ∀ kv ∈ acc.1, SourcedFrom events kv) :
    ∀ kv ∈ (items.foldl harvestItem acc).1, SourcedFrom events kv := by
  induction items generalizing acc with
  | nil => simpa using h
  | cons item rest ih =>
    rw [List.foldl_cons]
    apply ih (fun it hit => hitems it (List.mem_cons_of_mem _ hit))
    by_cases hq : hasIdAndSubtitle item = true
    · rw [harvestItem_of_true _ _ hq]
      intro kv hkv
      rcases mem_objSet _ _ _ _ hkv with h1 | h1
      · exact h kv h1
      · simp only [hasIdAndSubtitle, Bool.and_eq_true] at hq
        rw [h1]
        exact sourcedFrom_of_item events e he hlen item (hitems item (List.mem_cons_self _ _))
          hq.1.2 hq.2
    · have h' : hasIdAndSubtitle item = false := by simpa using hq
      rw [harvestItem_of_false _ _ h']
      exact h

theorem reactItem_sourced (events : List PageEvent) (e : PageEvent) (he : e ∈ events)
    (hlen : 1000 ≤ e.collection.length) (map map' : JsObj) (item : JsVal)
    (hitem : item ∈ e.collection) (h : reactItem map item = some map')
    (hmap : ∀ kv ∈ map, SourcedFrom events kv) : ∀ kv ∈ map', SourcedFrom events kv := by
  unfold reactItem at h
  by_cases hq : ((item.getProp "id").truthy && (item.getProp "subtitle").truthy) = true
  · have hset : map' = objSet map (item.getProp "id").toKey (item.getProp "subtitle") := by
      cases item <;> simp_all
    intro kv hkv
    rw [hset] at hkv
    rcases mem_objSet _ _ _ _ hkv with h1 | h1
    · exact hmap kv h1
    · simp only [Bool.and_eq_true] at hq
      rw [h1]
      exact sourcedFrom_of_item events e he hlen item hitem hq.1 hq.2
  · have hsame : map' = map := by
      cases item <;> simp_all
    rw [hsame]
    exact hmap

theorem foldlM_reactItem_sourced (events : List PageEvent) (e : PageEvent) (he : e ∈ events)
    (hlen : 1000 ≤ e.collection.length) (items : List JsVal)
    (hitems : ∀ item ∈ items, item ∈ e.collection) (map map' : JsObj)
    (h : items.foldlM reactItem map = some map') (hmap : ∀ kv ∈ map, SourcedFrom events kv) :
    ∀ kv ∈ map', SourcedFrom events kv := by
  induction items generalizing map with
  | nil =>
    simp only [List.foldlM_nil, pure, Option.some.injEq] at h
    rw [← h]
    exact hmap
  | cons item rest ih =>
    rw [List.foldlM_cons] at h
    cases hitem : reactItem map item with
    | none => rw [hitem] at h; simp at h
    | some map1 =>
      rw [hitem] at h
      exact ih (fun it hit => hitems it (List.mem_cons_of_mem _ hit)) map1 h
        (reactItem_sourced events e he hlen map map1 item
          (hitems item (List.mem_cons_self _ _)) hitem hmap)

/-- The table `extractFromReact` returns is built from the array the search
found, and from nothing else. -/
theorem extractFromReact_eq (heap : FiberHeap) (roots : List (Option Nat)) (table : JsObj)
    (h : extractFromReact heap roots = some table) :
    (foundItems heap roots).foldlM reactItem [] = some table := by
  unfold extractFromReact at h
  unfold foundItems
  split at h
  · rename_i hf
    rw [hf]
    exact h
  · rename_i items hf
    rw [hf]
    exact h
  · simp at h

theorem extractFromReact_sourced (events : List PageEvent) (e : PageEvent) (he : e ∈ events)
    (heap : FiberHeap) (roots : List (Option Nat))
    (hcoll : e.collection = foundItems heap roots) (table : JsObj)
    (h : extractFromReact heap roots = some table) :
    ∀ kv ∈ table, SourcedFrom events kv := by
  have hfold := extractFromReact_eq heap roots table h
  by_cases hnil : foundItems heap roots = []
  · rw [hnil] at hfold
    simp only [List.foldlM_nil, pure, Option.some.injEq] at hfold
    rw [← hfold]
    intro kv hkv
    simp at hkv
  · have hlen : 1000 ≤ e.collection.length := by
      rw [hcoll]
      exact Nat.le_of_lt (foundItems_length heap roots hnil)
    exact foldlM_reactItem_sourced events e he hlen (foundItems heap roots)
      (fun it hit => by rw [hcoll]; exact hit) [] table hfold
      (by intro kv hkv; simp at hkv)

/-! ### The invariant of the broadcasts -/

theorem goodBroadcast_replaceAndPost (events : List PageEvent) (source : String)
    (reactData : JsObj) (st : PageState)
    (hsrc : ∀ kv ∈ reactData, SourcedFrom events kv) (hlen : 1000 < (objKeys reactData).length)
    (hst : ∀ m ∈ st.posted, GoodBroadcast events m) :
    (∀ kv ∈ (replaceAndPost source reactData st).capturedFingerprints, SourcedFrom events kv) ∧
      ∀ m ∈ (replaceAndPost source reactData st).posted, GoodBroadcast events m := by
  refine ⟨hsrc, ?_⟩
  intro m hm
  simp only [replaceAndPost, List.mem_append, List.mem_singleton] at hm
  rcases hm with hm | hm
  · exact hst m hm
  · subst hm
    exact ⟨rfl, hsrc, fun _ => hlen⟩

theorem goodBroadcast_step (events : List PageEvent) (st : PageState) (e : PageEvent)
    (he : e ∈ events)
    (h : (∀ kv ∈ st.capturedFingerprints, SourcedFrom events kv) ∧
      ∀ m ∈ st.posted, GoodBroadcast events m) :
    (∀ kv ∈ (st.step e).capturedFingerprints, SourcedFrom events kv) ∧
      ∀ m ∈ (st.step e).posted, GoodBroadcast events m := by
  obtain ⟨hcap, hpost⟩ := h
  cases e with
  | pageLoad =>
    simp only [PageState.step, startPeriodicExtraction]
    split <;> exact ⟨hcap, hpost⟩
  | periodicTimeout =>
    simp only [PageState.step, stopPeriodicExtraction]
    split <;> exact ⟨hcap, hpost⟩
  | apiResponse url data =>
    simp only [PageState.step]
    by_cases hlen : (payloadItems data).length < 1000
    · rw [processApiResponse_small _ _ _ hlen]
      exact ⟨hcap, hpost⟩
    · have hlen' : 1000 ≤ (payloadItems data).length := by omega
      have hsrc := harvest_sourced events (.apiResponse url data) he hlen' (payloadItems data)
        (fun _ hit => hit) (st.capturedFingerprints, 0) hcap
      refine ⟨?_, ?_⟩
      · rw [processApiResponse_table _ _ _ hlen']
        exact hsrc
      · intro m hm
        rw [processApiResponse_posted] at hm
        split at hm
        · simp only [List.mem_append, List.mem_singleton] at hm
          rcases hm with hm | hm
          · exact hpost m hm
          · subst hm
            exact ⟨rfl, hsrc, fun hne => absurd rfl hne⟩
        · exact hpost m hm
  | periodicTick heap roots =>
    simp only [PageState.step, periodicExtraction]
    split
    · cases hx : extractFromReact heap roots with
      | none => exact ⟨hcap, hpost⟩
      | some reactData =>
        simp only
        split
        · rename_i hlen
          exact goodBroadcast_replaceAndPost events "react-complete" reactData st
            (extractFromReact_sourced events _ he heap roots rfl _ hx) hlen hpost
        · exact ⟨hcap, hpost⟩
    · exact ⟨hcap, hpost⟩
  | manualExtract heap roots =>
    simp only [PageState.step, manualExtraction]
    cases hx : extractFromReact heap roots with
    | none => exact ⟨hcap, hpost⟩
    | some reactData =>
      simp only
      split
      · rename_i hlen
        exact goodBroadcast_replaceAndPost events "manual-extract" reactData st
          (extractFromReact_sourced events _ he heap roots rfl _ hx) hlen hpost
      · exact ⟨hcap, hpost⟩
  | scroll heap roots =>
    simp only [PageState.step, scrollExtraction]
    cases hx : extractFromReact heap roots with
    | none => exact ⟨hcap, hpost⟩
    | some reactData =>
      simp only
      split
      · rename_i hlen
        exact goodBroadcast_replaceAndPost events "scroll-extract" reactData st
          (extractFromReact_sourced events _ he heap roots rfl _ hx) hlen hpost
      · exact ⟨hcap, hpost⟩

theorem goodBroadcast_run (events es : List PageEvent) (hes : ∀ e ∈ es, e ∈ events)
    (st : PageState)
    (h : (∀ kv ∈ st.capturedFingerprints, SourcedFrom events kv) ∧
      ∀ m ∈ st.posted, GoodBroadcast events m) :
    (∀ kv ∈ (st.run es).capturedFingerprints, SourcedFrom events kv) ∧
      ∀ m ∈ (st.run es).posted, GoodBroadcast events m := by
  induction es generalizing st with
  | nil => exact h
  | cons e rest ih =>
    simp only [PageState.run, List.foldl_cons]
    exact ih (fun x hx => hes x (List.mem_cons_of_mem _ hx)) (st.step e)
      (goodBroadcast_step events st e (hes e (List.mem_cons_self _ _)) h)

theorem harvestKeys_subset (items : List JsVal) (acc : JsObj × Nat) :
    ∀ k ∈ harvestKeys items, k ∈ objKeys (items.foldl harvestItem acc).1 := by
  intro k hk
  simp only [harvestKeys, List.mem_map, List.mem_filter] at hk
  obtain ⟨item, ⟨hmem, hq⟩, rfl⟩ := hk
  exact harvest_keys_of_items items acc item hmem hq

theorem length_harvestKeys (items : List JsVal) :
    (harvestKeys items).length = items.countP hasIdAndSubtitle := by
  simp [harvestKeys, List.countP_eq_length_filter]


/-! ### Corpus-size filter and replacement (`processApiResponse`) -/

/-- C1: a payload whose items collection has fewer than 1000 entries is not
accepted: `processApiResponse` posts no message and leaves the page state as
it was, whatever fields the entries carry. -/
theorem processApiResponse_rejects_small_payload (url : String) (data : JsVal) (st : PageState)
    (h : (payloadItems data).length < 1000) :
    (processApiResponse url data st).posted = st.posted ∧
      processApiResponse url data st = st := by
  have hst := processApiResponse_small url data st h
  exact ⟨by rw [hst], hst⟩

theorem processApiResponse_rejects_small_payload_witness :
    (payloadItems (payloadOf (pickerItems 100 999))).length < 1000 ∧
      (processApiResponse "/api/fingerprint" (payloadOf (pickerItems 100 999))
        PageState.init).posted = PageState.init.posted :=
  have h : (payloadItems (payloadOf (pickerItems 100 999))).length < 1000 := by
    rw [payloadItems_payloadOf, length_pickerItems]
    decide
  ⟨h, (processApiResponse_rejects_small_payload "/api/fingerprint" _ PageState.init h).1⟩

/-- C2 (the code at the failing input): with the captured table holding the
key 5 and a qualifying payload of 1001 items with the ids 1000 to 2000, the
table that is broadcast and kept still holds the key 5, which the payload's
own table does not have: the payload is merged, not swapped in. -/
theorem processApiResponse_merges_stale_key :
    (processApiResponse "/api/fingerprint" (payloadOf (pickerItems 1000 1001))
        (stateWith [("5", .str "Old Device")])).posted =
      [{ data := (processApiResponse "/api/fingerprint" (payloadOf (pickerItems 1000 1001))
            (stateWith [("5", .str "Old Device")])).capturedFingerprints,
         replaceRegistry := true, source := "icon-picker-complete" }] ∧
    objGet (processApiResponse "/api/fingerprint" (payloadOf (pickerItems 1000 1001))
        (stateWith [("5", .str "Old Device")])).capturedFingerprints "5" =
      some (.str "Old Device") ∧
    objGet (harvestTable (payloadItems (payloadOf (pickerItems 1000 1001)))) "5" = none ∧
    ¬ sameTable
      (processApiResponse "/api/fingerprint" (payloadOf (pickerItems 1000 1001))
        (stateWith [("5", .str "Old Device")])).capturedFingerprints
      (harvestTable (payloadItems (payloadOf (pickerItems 1000 1001)))) := by
  have hkey : ∀ item ∈ pickerItems 1000 1001, hasIdAndSubtitle item = true →
      (item.getProp "id").toKey ≠ "5" := by
    intro item hitem _ hk
    simp only [pickerItems, List.mem_map, List.mem_range] at hitem
    obtain ⟨i, _, rfl⟩ := hitem
    rw [key_pickerItem] at hk
    have h5 : ("5" : String) = toString ((5 : Nat) : Int) := by decide
    rw [h5] at hk
    have := toString_nat_injective _ _ hk
    omega
  have hlen : 1000 ≤ (payloadItems (payloadOf (pickerItems 1000 1001))).length := by
    rw [payloadItems_payloadOf, length_pickerItems]
    decide
  have hkept : objGet (processApiResponse "/api/fingerprint" (payloadOf (pickerItems 1000 1001))
      (stateWith [("5", .str "Old Device")])).capturedFingerprints "5" =
        some (.str "Old Device") := by
    rw [processApiResponse_table _ _ _ hlen, payloadItems_payloadOf,
      harvest_get_of_not_key _ _ _ hkey]
    simp [stateWith, PageState.init, objGet]
  have hfresh : objGet (harvestTable (payloadItems (payloadOf (pickerItems 1000 1001)))) "5" =
      none := by
    rw [payloadItems_payloadOf, harvestTable, harvest_get_of_not_key _ _ _ hkey]
    simp [objGet]
  refine ⟨?_, hkept, hfresh, ?_⟩
  · rw [processApiResponse_posted, processApiResponse_table _ _ _ hlen, payloadItems_payloadOf,
      length_pickerItems, countP_pickerItems 1000 1001 (by decide)]
    simp [stateWith, PageState.init]
  · intro hsame
    have h5 := hsame "5"
    rw [hkept, hfresh] at h5
    simp at h5

/-- C3 (the code at the failing input): a payload of exactly 1000 items, each
with an id and a subtitle, passes the length guard but not the test
`count > 1000`: no replace message is posted. -/
theorem processApiResponse_drops_exactly_1000 :
    (payloadItems (payloadOf (pickerItems 100 1000))).length = 1000 ∧
    (∀ item ∈ payloadItems (payloadOf (pickerItems 100 1000)), hasIdAndSubtitle item = true) ∧
    (processApiResponse "/api/fingerprint" (payloadOf (pickerItems 100 1000))
        PageState.init).posted = [] := by
  refine ⟨?_, ?_, ?_⟩
  · rw [payloadItems_payloadOf, length_pickerItems]
  · rw [payloadItems_payloadOf]
    exact hasIdAndSubtitle_pickerItems 100 1000 (by decide)
  · rw [processApiResponse_posted, payloadItems_payloadOf, length_pickerItems,
      countP_pickerItems 100 1000 (by decide)]
    simp [PageState.init]

/-- C4 (the code at the failing input): a payload of 1000 items of which one
has an id and a subtitle is not broadcast, yet its entry has been written to
the captured table. -/
theorem processApiResponse_rejected_harvest_writes_table :
    (processApiResponse "/api/fingerprint"
        (payloadOf (pickerItem 7 "Printer" :: List.replicate 999 (.obj [])))
        (stateWith [("5", .str "Old Device")])).posted = [] ∧
    (processApiResponse "/api/fingerprint"
        (payloadOf (pickerItem 7 "Printer" :: List.replicate 999 (.obj [])))
        (stateWith [("5", .str "Old Device")])).capturedFingerprints =
      [("5", .str "Old Device"), ("7", .str "Printer")] := by
  have hempty : hasIdAndSubtitle (.obj []) = false := by
    simp [hasIdAndSubtitle, JsVal.truthy, JsVal.getProp, objGet]
  have hq : hasIdAndSubtitle (pickerItem 7 "Printer") = true :=
    hasIdAndSubtitle_pickerItem 7 "Printer" (by decide) (by decide)
  have hlen : 1000 ≤
      (payloadItems (payloadOf (pickerItem 7 "Printer" :: List.replicate 999 (.obj [])))).length := by
    rw [payloadItems_payloadOf, List.length_cons, List.length_replicate]
  refine ⟨?_, ?_⟩
  · rw [processApiResponse_posted, payloadItems_payloadOf, List.countP_cons_of_pos _ _ hq,
      List.length_cons, List.length_replicate]
    have hc : (List.replicate 999 (JsVal.obj [])).countP hasIdAndSubtitle = 0 := by
      rw [List.countP_eq_zero]
      intro a ha
      rw [List.eq_of_mem_replicate ha, hempty]
      decide
    rw [hc, if_neg (by decide)]
    rfl
  · rw [processApiResponse_table _ _ _ hlen, payloadItems_payloadOf, List.foldl_cons,
      harvest_replicate_of_false _ _ _ hempty, harvestItem_of_true _ _ hq, key_pickerItem,
      subtitle_pickerItem]
    have h7 : toString ((7 : Nat) : Int) = "7" := by decide
    rw [h7]
    simp [stateWith, PageState.init, objSet]

/-- C5 (the claim fails as stated): a payload of 1001 items that all carry the
same id is broadcast as a replacement, and the broadcast table has one entry. -/
theorem broadcast_table_below_minimum :
    ∃ m ∈ (PageState.init.run
        [.apiResponse "/api/fingerprint"
          (payloadOf (List.replicate 1001 (pickerItem 7 "Printer")))]).posted,
      m.replaceRegistry = true ∧ (objKeys m.data).length < 1000 := by
  have hq : hasIdAndSubtitle (pickerItem 7 "Printer") = true :=
    hasIdAndSubtitle_pickerItem 7 "Printer" (by decide) (by decide)
  refine ⟨{ data := [("7", .str "Printer")], replaceRegistry := true,
            source := "icon-picker-complete" }, ?_, rfl, by simp [objKeys, objEntries]⟩
  simp only [PageState.run, List.foldl_cons, List.foldl_nil, PageState.step]
  rw [processApiResponse_posted, payloadItems_payloadOf, harvest_replicate_of_true _ _ _ hq,
    key_pickerItem, subtitle_pickerItem]
  have h7 : toString ((7 : Nat) : Int) = "7" := by decide
  have hc : (List.replicate 1001 (pickerItem 7 "Printer")).countP hasIdAndSubtitle = 1001 := by
    rw [List.countP_eq_length.mpr]
    · rw [List.length_replicate]
    · intro a ha
      rw [List.eq_of_mem_replicate ha, hq]
  rw [h7, hc, List.length_replicate, if_pos (by decide)]
  simp [PageState.init, objSet]

/-- C5 (amended): from the initial state, every table the page-context engine
broadcasts during `events` is a replacement, and each of its entries comes
from an item of these events: one of the events brought a collection of at
least 1000 items (the `items` array of an API payload, or the array found in
the render tree), and an item of that collection has a truthy `id`, whose
property key is the key of the entry, and a truthy `subtitle`, which is the
value of the entry.  A render-tree broadcast (periodic, manual, scroll) has
more than 1000 keys.  `processApiResponse` broadcasts only after counting
more than 1000 items with id and subtitle in the payload; the table it
broadcasts is the captured table, which then has the key of every such item,
hence more than 1000 keys when those keys are pairwise distinct. -/
theorem broadcast_minimum_corpus (events : List PageEvent) :
    (∀ m ∈ (PageState.init.run events).posted, GoodBroadcast events m) ∧
    (∀ (url : String) (data : JsVal) (st : PageState),
      (processApiResponse url data st).posted ≠ st.posted →
        1000 < (payloadItems data).countP hasIdAndSubtitle ∧
        (processApiResponse url data st).posted = st.posted ++
          [{ data := (processApiResponse url data st).capturedFingerprints,
             replaceRegistry := true, source := "icon-picker-complete" }] ∧
        (∀ k ∈ harvestKeys (payloadItems data),
          k ∈ objKeys (processApiResponse url data st).capturedFingerprints) ∧
        ((harvestKeys (payloadItems data)).Nodup →
          1000 < (objKeys (processApiResponse url data st).capturedFingerprints).length)) := by
  refine ⟨(goodBroadcast_run events events (fun _ he => he) PageState.init ⟨?_, ?_⟩).2, ?_⟩
  · intro kv hkv
    simp [PageState.init] at hkv
  · intro m hm
    simp [PageState.init] at hm
  · intro url data st hne
    rw [processApiResponse_posted] at hne
    have hcond : 1000 ≤ (payloadItems data).length ∧
        1000 < (payloadItems data).countP hasIdAndSubtitle := by
      by_contra hc
      rw [if_neg hc] at hne
      exact hne rfl
    have htable := processApiResponse_table url data st hcond.1
    have hsub := harvestKeys_subset (payloadItems data) (st.capturedFingerprints, 0)
    refine ⟨hcond.2, ?_, ?_, ?_⟩
    · rw [processApiResponse_posted, if_pos hcond, htable]
    · rw [htable]
      exact hsub
    · intro hnodup
      rw [htable]
      have hle := (List.subperm_of_subset hnodup hsub).length_le
      rw [length_harvestKeys] at hle
      simp only [objKeys] at hle ⊢
      omega

theorem broadcast_minimum_corpus_witness :
    GoodBroadcast [.apiResponse "/api/fingerprint" (payloadOf (pickerItems 1000 1001))]
        { data := (processApiResponse "/api/fingerprint" (payloadOf (pickerItems 1000 1001))
            PageState.init).capturedFingerprints,
          replaceRegistry := true, source := "icon-picker-complete" } ∧
      1000 < (objKeys (processApiResponse "/api/fingerprint" (payloadOf (pickerItems 1000 1001))
        PageState.init).capturedFingerprints).length := by
  have hposted : (processApiResponse "/api/fingerprint" (payloadOf (pickerItems 1000 1001))
      PageState.init).posted =
        [{ data := (processApiResponse "/api/fingerprint" (payloadOf (pickerItems 1000 1001))
            PageState.init).capturedFingerprints,
           replaceRegistry := true, source := "icon-picker-complete" }] := by
    have hlen : 1000 ≤ (payloadItems (payloadOf (pickerItems 1000 1001))).length := by
      rw [payloadItems_payloadOf, length_pickerItems]
      decide
    rw [processApiResponse_posted, processApiResponse_table _ _ _ hlen, payloadItems_payloadOf,
      length_pickerItems, countP_pickerItems 1000 1001 (by decide)]
    simp [PageState.init]
  have hthm := broadcast_minimum_corpus
    [.apiResponse "/api/fingerprint" (payloadOf (pickerItems 1000 1001))]
  refine ⟨hthm.1 _ ?_, ?_⟩
  · simp only [PageState.run, List.foldl_cons, List.foldl_nil, PageState.step]
    rw [hposted]
    exact List.mem_singleton.mpr rfl
  · refine (hthm.2 "/api/fingerprint" (payloadOf (pickerItems 1000 1001)) PageState.init
      ?_).2.2.2 ?_
    · rw [hposted]
      simp [PageState.init]
    · rw [payloadItems_payloadOf]
      exact nodup_harvestKeys_pickerItems 1000 1001 (by decide)


/-! ### The render-tree search -/

/-- The fuel given by `search` is never what stops it: `search` satisfies the
recursive equation of the source function. -/
theorem search_unfold (heap : FiberHeap) (f : Nat) (depth : Nat) (st : SearchState) :
    search heap (some f) depth st =
      match heap.get? f with
      | none => st
      | some fb =>
        if depth > 50 || st.visited.contains f || st.found.isSome then st
        else
          let st1 : SearchState :=
            { st with visited := f :: st.visited, examined := st.examined ++ [(f, depth)] }
          if lengthExceeds fb.items 1000 then { st1 with found := some fb.items }
          else
            let st2 :=
              match fb.child with
              | some c => search heap (some c) (depth + 1) st1
              | none => st1
            match fb.sibling with
            | some s => search heap (some s) (depth + 1) st2
            | none => st2 := by
  unfold search
  by_cases hd : depth ≤ 50
  · have h1 : 52 - depth = (52 - (depth + 1)) + 1 := by omega
    rw [h1, searchFuel]
  · have hgt : depth > 50 := by omega
    cases hfuel : 52 - depth with
    | zero =>
      rw [searchFuel]
      cases heap.get? f <;> simp [hgt]
    | succ n =>
      rw [searchFuel]
      cases heap.get? f <;> simp [hgt]

theorem searchFuel_sound (fuel : Nat) (heap : FiberHeap) (fiber : Option Nat) (depth : Nat)
    (st : SearchState) (h : st.Sound heap) : (searchFuel fuel heap fiber depth st).Sound heap := by
  induction fuel generalizing fiber depth st with
  | zero => simpa [searchFuel] using h
  | succ fuel ih =>
    cases fiber with
    | none => simpa [searchFuel] using h
    | some f =>
      rw [searchFuel]
      cases hfb : heap.get? f with
      | none => exact h
      | some fb =>
        simp only
        split
        · exact h
        · rename_i hguard
          simp only [Bool.or_eq_true, decide_eq_true_eq, not_or] at hguard
          obtain ⟨⟨hdepth, hvis0⟩, _⟩ := hguard
          have hvis : f ∉ st.visited := by simpa using hvis0
          have hnew : f ∉ st.examined.map Prod.fst := fun hc => hvis ((h.2.1 f).mpr hc)
          have hlt : f < heap.length := (List.get?_eq_some.mp hfb).1
          have h1 : SearchState.Sound heap
              { st with visited := f :: st.visited, examined := st.examined ++ [(f, depth)] } := by
            refine ⟨?_, ?_, ?_, ?_⟩
            · simp only [List.map_append, List.map_cons, List.map_nil]
              rw [List.nodup_append]
              refine ⟨h.1, List.nodup_singleton f, ?_⟩
              intro a ha hb
              rw [List.mem_singleton] at hb
              exact hnew (hb ▸ ha)
            · intro g
              simp only [List.mem_cons, List.map_append, List.map_cons, List.map_nil,
                List.mem_append, List.not_mem_nil, or_false]
              rw [h.2.1 g]
              constructor
              · rintro (hg | hg)
                · exact Or.inr hg
                · exact Or.inl hg
              · rintro (hg | hg)
                · exact Or.inr hg
                · exact Or.inl hg
            · intro p hp
              simp only [List.mem_append, List.mem_singleton] at hp
              rcases hp with hp | hp
              · exact h.2.2.1 p hp
              · subst hp
                simp only
                omega
            · intro p hp
              simp only [List.mem_append, List.mem_singleton] at hp
              rcases hp with hp | hp
              · exact h.2.2.2 p hp
              · subst hp
                exact hlt
          split
          · exact h1
          · have h2 : SearchState.Sound heap
                (match fb.child with
                  | some c => searchFuel fuel heap (some c) (depth + 1)
                      { st with visited := f :: st.visited,
                                examined := st.examined ++ [(f, depth)] }
                  | none => { st with visited := f :: st.visited,
                                      examined := st.examined ++ [(f, depth)] }) := by
              cases fb.child with
              | none => exact h1
              | some c => exact ih _ _ _ h1
            cases fb.sibling with
            | none => exact h2
            | some s => exact ih _ _ _ h2

theorem searchFuel_found_none (fuel : Nat) (heap : FiberHeap) (fiber : Option Nat)
    (depth : Nat) (st : SearchState)
    (hheap : ∀ fb ∈ heap, lengthExceeds fb.items 1000 = false) (h : st.found = none) :
    (searchFuel fuel heap fiber depth st).found = none := by
  induction fuel generalizing fiber depth st with
  | zero => simpa [searchFuel] using h
  | succ fuel ih =>
    cases fiber with
    | none => simpa [searchFuel] using h
    | some f =>
      rw [searchFuel]
      cases hfb : heap.get? f with
      | none => exact h
      | some fb =>
        simp only
        have hno : lengthExceeds fb.items 1000 = false :=
          hheap fb (List.get?_mem hfb)
        split
        · exact h
        · rw [hno]
          simp only [Bool.false_eq_true, if_false]
          have h2 : (match fb.child with
                  | some c => searchFuel fuel heap (some c) (depth + 1)
                      { st with visited := f :: st.visited,
                                examined := st.examined ++ [(f, depth)] }
                  | none => { st with visited := f :: st.visited,
                                      examined := st.examined ++ [(f, depth)] }).found = none := by
            cases fb.child with
            | none => exact h
            | some c => exact ih _ _ _ h
          cases fb.sibling with
          | none => exact h2
          | some s => exact ih _ _ _ h2

theorem scanRoots_sound (heap : FiberHeap) (roots : List (Option Nat)) (st : SearchState)
    (h : st.Sound heap) : (scanRoots heap roots st).Sound heap := by
  induction roots generalizing st with
  | nil => exact h
  | cons r rest ih =>
    simp only [scanRoots, List.foldl_cons]
    apply ih
    cases r with
    | none => exact h
    | some f =>
      simp only
      split
      · exact h
      · exact searchFuel_sound _ _ _ _ _ h

theorem scanRoots_found_none (heap : FiberHeap) (roots : List (Option Nat)) (st : SearchState)
    (hheap : ∀ fb ∈ heap, lengthExceeds fb.items 1000 = false) (h : st.found = none) :
    (scanRoots heap roots st).found = none := by
  induction roots generalizing st with
  | nil => exact h
  | cons r rest ih =>
    simp only [scanRoots, List.foldl_cons]
    apply ih
    cases r with
    | none => exact h
    | some f =>
      simp only
      split
      · exact h
      · exact searchFuel_found_none _ _ _ _ _ hheap h

/-- C7: the render-tree search is a total function of the fiber heap, cyclic
or not; over the whole scan each fiber is examined at most once (so the scan
examines no more fibers than the heap holds), no fiber is examined at a depth
greater than 50, and when no fiber exposes a collection of more than 1000
items the result is the empty table and not an error. -/
theorem extractFromReact_search_bounded (heap : FiberHeap) (roots : List (Option Nat)) :
    ((searchResult heap roots).examined.map Prod.fst).Nodup ∧
      (searchResult heap roots).examined.length ≤ heap.length ∧
      (∀ p ∈ (searchResult heap roots).examined, p.2 ≤ 50) ∧
      ((∀ fb ∈ heap, lengthExceeds fb.items 1000 = false) →
        extractFromReact heap roots = some []) := by
  have hsound : (searchResult heap roots).Sound heap :=
    scanRoots_sound heap roots _ ⟨by simp, by simp, by simp, by simp⟩
  have hlen : (searchResult heap roots).examined.length ≤ heap.length := by
    have hsub : (searchResult heap roots).examined.map Prod.fst ⊆ List.range heap.length := by
      intro f hf
      obtain ⟨p, hp, rfl⟩ := List.mem_map.mp hf
      exact List.mem_range.mpr (hsound.2.2.2 p hp)
    have hle := (List.subperm_of_subset hsound.1 hsub).length_le
    simpa using hle
  refine ⟨hsound.1, hlen, hsound.2.2.1, ?_⟩
  intro hheap
  have hnone : (searchResult heap roots).found = none :=
    scanRoots_found_none heap roots _ hheap rfl
  unfold extractFromReact
  rw [hnone]

theorem extractFromReact_search_bounded_witness :
    (∀ fb ∈ cyclicHeap, lengthExceeds fb.items 1000 = false) ∧
      extractFromReact cyclicHeap [some 0, none, some 1] = some [] :=
  have h : ∀ fb ∈ cyclicHeap, lengthExceeds fb.items 1000 = false := by decide
  ⟨h, (extractFromReact_search_bounded cyclicHeap [some 0, none, some 1]).2.2.2 h⟩


/-! ### Registry replacement in the background worker -/

theorem buildRegistry_fold_of_not_key (es : List (String × JsVal)) (acc : JsObj) (now : Int)
    (k : String) (h : ∀ e ∈ es, e.1 ≠ k) :
    objGet (es.foldl (fun registry e => objSet registry e.1 (registryEntry e.2 now)) acc) k =
      objGet acc k := by
  induction es generalizing acc with
  | nil => rfl
  | cons e rest ih =>
    rw [List.foldl_cons, ih _ (fun x hx => h x (List.mem_cons_of_mem _ hx)), objGet_objSet,
      if_neg (h e (List.mem_cons_self _ _))]

theorem buildRegistry_fold_of_mem (es : List (String × JsVal)) (acc : JsObj) (now : Int)
    (k : String) (v : JsVal) (hnodup : (es.map Prod.fst).Nodup) (hmem : (k, v) ∈ es) :
    objGet (es.foldl (fun registry e => objSet registry e.1 (registryEntry e.2 now)) acc) k =
      some (registryEntry v now) := by
  induction es generalizing acc with
  | nil => simp at hmem
  | cons e rest ih =>
    rw [List.map_cons, List.nodup_cons] at hnodup
    rw [List.foldl_cons]
    rcases List.mem_cons.mp hmem with h | h
    · subst h
      rw [buildRegistry_fold_of_not_key, objGet_objSet, if_pos rfl]
      intro x hx hk
      exact hnodup.1 (List.mem_map.mpr ⟨x, hx, hk⟩)
    · exact ih _ hnodup.2 h

theorem objGet_buildRegistry (devices : JsObj) (now : Int) (id : String) :
    objGet (buildRegistry devices now) id =
      (objGet devices id).map (fun name => registryEntry name now) := by
  unfold buildRegistry
  cases h : objGet devices id with
  | none =>
    rw [buildRegistry_fold_of_not_key]
    · rfl
    · intro e he hk
      have hv := (mem_objEntries devices e.1 e.2).mp he
      rw [hk, h] at hv
      simp at hv
  | some v =>
    exact buildRegistry_fold_of_mem _ _ now id v (nodup_objKeys devices)
      ((mem_objEntries devices id v).mpr h)

/-- C6: when the background handler has processed a `replaceRegistry` message
with devices `D` and reports success (the storage write went through), the
stored registry has exactly the ids of `D`, each mapped to the entry with
name `D[id]` and the one timestamp `now`; nothing of the registry stored
before is read, so no other id survives.  The content script hands the
broadcast table to the handler as it is. -/
theorem replaceRegistry_stores_exactly_devices (devices : JsObj) (now : Int) (writeOk : Bool)
    (store : ChromeStorage)
    (h : (onReplaceRegistry devices now writeOk store).2.success = true) :
    (∃ registry, storedRegistry (onReplaceRegistry devices now writeOk store).1 = some registry ∧
      ∀ id, objGet registry id = (objGet devices id).map (fun name => registryEntry name now)) ∧
    (∀ (m : FingerprintsMessage) (collected : JsObj), m.replaceRegistry = true →
      contentOnFingerprints m collected = (m.data, some (.replaceRegistry m.data))) := by
  refine ⟨⟨buildRegistry devices now, ?_, objGet_buildRegistry devices now⟩, ?_⟩
  · cases writeOk with
    | false => simp [onReplaceRegistry, saveRegistry] at h
    | true => simp [onReplaceRegistry, saveRegistry, storedRegistry, objGet_objSet]
  · intro m collected hm
    simp [contentOnFingerprints, hm]

theorem replaceRegistry_stores_exactly_devices_witness :
    (onReplaceRegistry [("101", .str "Device B")] 1700000000000 true
        [(registryKey, .obj [("100", registryEntry (.str "Device A") 5)])]).2.success = true ∧
      ∃ registry,
        storedRegistry (onReplaceRegistry [("101", .str "Device B")] 1700000000000 true
          [(registryKey, .obj [("100", registryEntry (.str "Device A") 5)])]).1 = some registry ∧
        ∀ id, objGet registry id =
          (objGet [("101", .str "Device B")] id).map
            (fun name => registryEntry name 1700000000000) :=
  have h : (onReplaceRegistry [("101", .str "Device B")] 1700000000000 true
      [(registryKey, .obj [("100", registryEntry (.str "Device A") 5)])]).2.success = true := rfl
  ⟨h, (replaceRegistry_stores_exactly_devices _ _ _ _ h).1⟩

/-! ### Idempotence of the patch -/

/-- C8 (the code at the failing input): on a panel whose `Manufacturer` value
is still empty, the first `applyDeviceOverrides` stashes the empty original
and writes the override; the second one, on the same container with the same
mapping, overwrites the stash with the override itself, so the DOM after two
applications is not the DOM after one. -/
theorem applyDeviceOverrides_twice_differs :
    (nodeAt patchedOnce.doc [0, 1]).attr "data-original-text" = some "" ∧
      (nodeAt patchedOnce.doc [0, 1]).textContent = "Acme" ∧
      (nodeAt patchedTwice.doc [0, 1]).attr "data-original-text" = some "Acme" ∧
      (nodeAt patchedTwice.doc [0, 1]).textContent = "Acme" ∧
      patchedTwice.doc ≠ patchedOnce.doc := by
  have h1 : (nodeAt patchedOnce.doc [0, 1]).attr "data-original-text" = some "" := by decide
  have h2 : (nodeAt patchedTwice.doc [0, 1]).attr "data-original-text" = some "Acme" := by
    decide
  refine ⟨h1, by decide, h2, by decide, ?_⟩
  intro h
  rw [h, h1] at h2
  exact absurd h2 (by decide)

/-! ### Override resolution -/

theorem truthyStr_iff (o : Option String) :
    truthyStr o = true ↔ ∃ s, o = some s ∧ s ≠ "" := by
  cases o with
  | none => simp [truthyStr]
  | some s => simp [truthyStr]

theorem mem_overrideCalls (m : CustomMapping) (f : OverrideField) (v : String) :
    (f, v) ∈ overrideCalls m ↔ f ≠ .icon ∧ m.field f = some v ∧ v ≠ "" := by
  obtain ⟨icon, name, dn, man, mod, os⟩ := m
  cases f <;> cases dn <;> cases man <;> cases mod <;> cases os <;>
    simp [overrideCalls, CustomMapping.field, truthyStr] <;>
    (try constructor) <;> (try rintro ⟨rfl, h⟩) <;> (try rintro ⟨h, rfl⟩) <;> simp_all

theorem panelOverrides_eq (mappings : MappingTable) (deviceId : String) (m : CustomMapping)
    (h : mappingOf mappings deviceId = some m) : panelOverrides mappings deviceId = overrideCalls m := by
  simp only [panelOverrides, h]
  split
  · rfl
  · rename_i hno
    simp only [hasOverrides, Bool.or_eq_true, not_or, Bool.not_eq_true] at hno
    obtain ⟨⟨⟨h1, h2⟩, h3⟩, h4⟩ := hno
    simp [overrideCalls, h1, h2, h3, h4]

/-- The calls of `overrideCalls` are the replacements `applyDeviceOverrides`
makes, in order, before it reveals the container. -/
theorem applyDeviceOverrides_eq_calls (fontWeight : Path → Nat) (st : PatchState)
    (container : Path) (mapping : CustomMapping) (deviceIcon : Option Path) (deviceId : String) :
    applyDeviceOverrides fontWeight st container mapping deviceIcon deviceId =
      revealPanel
        { doc := List.foldl (applyOverrideCall fontWeight container deviceIcon) st.doc
            (overrideCalls mapping),
          processedPanels := st.processedPanels }
        container := by
  unfold applyDeviceOverrides overrideCalls
  by_cases h1 : truthyStr mapping.manufacturer = true <;>
    by_cases h2 : truthyStr mapping.model = true <;>
    by_cases h3 : truthyStr mapping.os = true <;>
    by_cases h4 : truthyStr mapping.deviceName = true <;>
    simp [h1, h2, h3, h4, applyOverrideCall]


theorem mem_resolveOverrides (mappings : MappingTable) (deviceId : String) (f : OverrideField)
    (v : String) :
    (f, v) ∈ resolveOverrides mappings deviceId ↔
      ∃ m, mappingOf mappings deviceId = some m ∧ m.field f = some v ∧ v ≠ "" := by
  cases hm : mappingOf mappings deviceId with
  | none => simp [resolveOverrides, getCustomIconUrl, panelOverrides, hm]
  | some m =>
    simp only [resolveOverrides, panelOverrides_eq mappings deviceId m hm, List.mem_append,
      mem_overrideCalls, Option.some.injEq, exists_eq_left']
    have hicon : (f, v) ∈ (match getCustomIconUrl mappings deviceId with
        | some url => [(OverrideField.icon, url)]
        | none => []) ↔ f = .icon ∧ m.field f = some v ∧ v ≠ "" := by
      simp only [getCustomIconUrl, hm]
      cases hi : m.iconUrl with
      | none =>
        simp only [truthyStr, Bool.false_eq_true, if_false, List.not_mem_nil, false_iff]
        rintro ⟨rfl, h, _⟩
        simp [CustomMapping.field, hi] at h
      | some url =>
        by_cases hu : url = ""
        · subst hu
          simp only [truthyStr, bne_self_eq_false, Bool.false_eq_true, if_false,
            List.not_mem_nil, false_iff]
          rintro ⟨rfl, h, hv⟩
          simp only [CustomMapping.field, hi, Option.some.injEq] at h
          exact hv h.symm
        · have ht : truthyStr (some url) = true := by simp [truthyStr, hu]
          simp only [ht, if_true, List.mem_singleton, Prod.mk.injEq]
          constructor
          · rintro ⟨rfl, rfl⟩
            exact ⟨rfl, by simp [CustomMapping.field, hi], hu⟩
          · rintro ⟨rfl, h, _⟩
            simp only [CustomMapping.field, hi, Option.some.injEq] at h
            exact ⟨rfl, h.symm⟩
    rw [hicon]
    constructor
    · rintro (⟨_, h⟩ | ⟨_, h⟩) <;> exact h
    · intro h
      by_cases hf : f = .icon
      · exact Or.inl ⟨hf, h⟩
      · exact Or.inr ⟨hf, h⟩

/-- C10: for every mapping table and device id, the fields the engine
overrides are exactly the non-empty fields among icon (iconUrl), deviceName,
manufacturer, model and os of the id's mapping, each with the mapping's
value; there is nothing to do exactly when no mapping exists or all five are
empty, and a mapping with only an iconUrl still has its icon replaced. -/
theorem resolveOverrides_exact (mappings : MappingTable) (deviceId : String) :
    (∀ f v, (f, v) ∈ resolveOverrides mappings deviceId ↔
      ∃ m, mappingOf mappings deviceId = some m ∧ m.field f = some v ∧ v ≠ "") ∧
    (resolveOverrides mappings deviceId = [] ↔
      (mappingOf mappings deviceId = none ∨
        ∃ m, mappingOf mappings deviceId = some m ∧ ∀ f, truthyStr (m.field f) = false)) ∧
    (∀ m url, mappingOf mappings deviceId = some m → m.iconUrl = some url → url ≠ "" →
      hasOverrides m = false → resolveOverrides mappings deviceId = [(.icon, url)]) := by
  refine ⟨mem_resolveOverrides mappings deviceId, ?_, ?_⟩
  · rw [List.eq_nil_iff_forall_not_mem]
    constructor
    · intro hall
      cases hm : mappingOf mappings deviceId with
      | none => exact Or.inl rfl
      | some m =>
        refine Or.inr ⟨m, rfl, ?_⟩
        intro f
        cases ht : truthyStr (m.field f) with
        | false => rfl
        | true =>
          obtain ⟨s, hs, hne⟩ := (truthyStr_iff _).mp ht
          exact absurd ((mem_resolveOverrides mappings deviceId f s).mpr ⟨m, hm, hs, hne⟩)
            (hall (f, s))
    · rintro (hnone | ⟨m, hm, hall⟩) ⟨f, v⟩ hmem
      · obtain ⟨m, hm, _⟩ := (mem_resolveOverrides mappings deviceId f v).mp hmem
        rw [hnone] at hm
        simp at hm
      · obtain ⟨m', hm', hf, hv⟩ := (mem_resolveOverrides mappings deviceId f v).mp hmem
        rw [hm] at hm'
        cases hm'
        have ht := (truthyStr_iff (m.field f)).mpr ⟨v, hf, hv⟩
        rw [hall f] at ht
        simp at ht
  · intro m url hm hicon hurl hno
    have ht : truthyStr (some url) = true := by simp [truthyStr, hurl]
    simp [resolveOverrides, getCustomIconUrl, panelOverrides, hm, hicon, ht, hno]

theorem resolveOverrides_exact_witness :
    mappingOf [("200", iconOnlyMapping)] "200" = some iconOnlyMapping ∧
      resolveOverrides [("200", iconOnlyMapping)] "200" =
        [(.icon, "https://example.com/icon.png")] :=
  ⟨by simp [mappingOf],
    (resolveOverrides_exact [("200", iconOnlyMapping)] "200").2.2 iconOnlyMapping
      "https://example.com/icon.png" (by simp [mappingOf]) rfl (by decide) (by decide)⟩


/-! ### Paths, reads and writes in the document -/

theorem listModify_get?_same {α : Type} (f : α → α) (cs : List α) (i : Nat) :
    (listModify f cs i).get? i = (cs.get? i).map f := by
  induction cs generalizing i with
  | nil => simp [listModify]
  | cons c cs ih =>
    cases i with
    | zero => simp [listModify]
    | succ i => simpa [listModify] using ih i

theorem listModify_get?_ne {α : Type} (f : α → α) (cs : List α) (i j : Nat) (h : i ≠ j) :
    (listModify f cs i).get? j = cs.get? j := by
  induction cs generalizing i j with
  | nil => simp [listModify]
  | cons c cs ih =>
    cases i with
    | zero =>
      cases j with
      | zero => exact absurd rfl h
      | succ j => simp [listModify]
    | succ i =>
      cases j with
      | zero => simp [listModify]
      | succ j => simpa [listModify] using ih i j (fun hc => h (by rw [hc]))

theorem get?_modify_append (f : Node → Node) (n : Node) (p r : Path) :
    (n.modify f (p ++ r)).get? p = (n.get? p).map (fun m => m.modify f r) := by
  induction p generalizing n with
  | nil => simp [Node.get?]
  | cons i p ih =>
    cases n with
    | text s => simp [Node.modify, Node.get?]
    | elem tag attrs cs =>
      simp only [List.cons_append, Node.modify, Node.get?, listModify_get?_same]
      cases cs.get? i with
      | none => rfl
      | some c => exact ih c

theorem get?_modify_self (f : Node → Node) (n : Node) (p : Path) :
    (n.modify f p).get? p = (n.get? p).map f := by
  have h := get?_modify_append f n p []
  rw [List.append_nil] at h
  rw [h]
  cases n.get? p <;> simp [Node.modify]

theorem get?_modify_disjoint (f : Node → Node) (n : Node) (p q : Path)
    (h1 : pathContains p q = false) (h2 : pathContains q p = false) :
    (n.modify f p).get? q = n.get? q := by
  induction p generalizing n q with
  | nil => simp [pathContains] at h1
  | cons i p ih =>
    cases q with
    | nil => simp [pathContains] at h2
    | cons j q =>
      cases n with
      | text s => simp [Node.modify, Node.get?]
      | elem tag attrs cs =>
        simp only [Node.modify, Node.get?]
        by_cases hij : i = j
        · subst hij
          simp only [pathContains, beq_self_eq_true, Bool.true_and] at h1 h2
          rw [listModify_get?_same]
          cases cs.get? i with
          | none => rfl
          | some c => exact ih c q h1 h2
        · rw [listModify_get?_ne _ _ _ _ hij]

theorem pathContains_append_left (b r a : Path) (h : pathContains (b ++ r) a = true) :
    pathContains b a = true := by
  induction b generalizing a with
  | nil => simp [pathContains]
  | cons i b ih =>
    cases a with
    | nil => simp [pathContains] at h
    | cons j a =>
      simp only [List.cons_append, pathContains, Bool.and_eq_true] at h ⊢
      exact ⟨h.1, ih a h.2⟩

theorem pathContains_of_append (a b r : Path) (h : pathContains a (b ++ r) = true) :
    pathContains a b = true ∨ pathContains b a = true := by
  induction a generalizing b with
  | nil => exact Or.inl (by simp [pathContains])
  | cons i a ih =>
    cases b with
    | nil => exact Or.inr (by simp [pathContains])
    | cons j b =>
      simp only [List.cons_append, pathContains, Bool.and_eq_true] at h ⊢
      rcases ih b h.2 with h' | h'
      · exact Or.inl ⟨h.1, h'⟩
      · refine Or.inr ⟨?_, h'⟩
        have := h.1
        simp only [beq_iff_eq] at this ⊢
        exact this.symm

theorem disjoint_append (a b r : Path) (h1 : pathContains b a = false)
    (h2 : pathContains a b = false) :
    pathContains (b ++ r) a = false ∧ pathContains a (b ++ r) = false := by
  constructor
  · cases h : pathContains (b ++ r) a with
    | false => rfl
    | true => rw [pathContains_append_left b r a h] at h1; exact absurd h1 (by decide)
  · cases h : pathContains a (b ++ r) with
    | false => rfl
    | true =>
      rcases pathContains_of_append a b r h with h' | h'
      · rw [h'] at h2; exact absurd h2 (by decide)
      · rw [h'] at h1; exact absurd h1 (by decide)

/-! ### The replaced text -/

theorem textContent_setTextContent (value : String) (n : Node) :
    (setTextContent value n).textContent = value := by
  cases n with
  | text s => rfl
  | elem tag attrs cs =>
    by_cases h : value = ""
    · subst h
      simp [setTextContent, Node.textContent, textContentList]
    · simp [setTextContent, h, Node.textContent, textContentList]

theorem tagName_replaced (value : String) (n : Node) :
    (setTextContent value (stashOriginal n)).tagName = n.tagName := by
  cases n with
  | text s => simp [stashOriginal, Node.attr, truthyStr, Node.setAttr, setTextContent, Node.tagName]
  | elem tag attrs cs =>
    simp only [stashOriginal, Node.attr]
    split <;> rfl

theorem attrGet_attrSet_ne (attrs : List (String × String)) (k v name : String) (h : name ≠ k) :
    attrGet (attrSet attrs k v) name = attrGet attrs name := by
  induction attrs with
  | nil => simp [attrSet, attrGet, Ne.symm h]
  | cons a rest ih =>
    obtain ⟨k0, v0⟩ := a
    by_cases h0 : k0 = k
    · subst h0
      simp [attrSet, attrGet, Ne.symm h]
    · by_cases h1 : k0 = name
      · subst h1
        simp [attrSet, attrGet, h0]
      · simp [attrSet, attrGet, h0, h1, ih]

theorem attr_replaced (value : String) (n : Node) (name : String)
    (h1 : name ≠ "data-original-text") (h2 : name ≠ "data-info-overridden") :
    (setTextContent value (stashOriginal n)).attr name = n.attr name := by
  cases n with
  | text s => simp [stashOriginal, Node.attr, truthyStr, Node.setAttr, setTextContent]
  | elem tag attrs cs =>
    by_cases ht : truthyStr (attrGet attrs "data-original-text") = true
    · simp [stashOriginal, Node.attr, ht, setTextContent]
    · simp only [stashOriginal, Node.attr, ht, Node.setAttr, setTextContent]
      simp only [Bool.false_eq_true, if_false, Node.attr]
      rw [attrGet_attrSet_ne _ _ _ _ h2, attrGet_attrSet_ne _ _ _ _ h1]

theorem tagName_modify_cons (f : Node → Node) (n : Node) (i : Nat) (r : Path) :
    (n.modify f (i :: r)).tagName = n.tagName ∧
      ∀ name, (n.modify f (i :: r)).attr name = n.attr name := by
  cases n with
  | text s => exact ⟨rfl, fun _ => rfl⟩
  | elem tag attrs cs => exact ⟨rfl, fun _ => rfl⟩

/-! ### The scan of method 1 -/

theorem scanInfoField_spec (doc : Node) (fieldLabel : String) (els : List Path)
    (labelElement : Option Path) (lab val : Path)
    (h : scanInfoField doc fieldLabel els labelElement = some (lab, val)) :
    (labelElement = some lab ∨ (lab ∈ els ∧ textAt doc lab = fieldLabel)) ∧ val ∈ els ∧
      pathContains val lab = false ∧ pathContains lab val = false ∧
      textAt doc val ≠ "" ∧ textAt doc val ≠ fieldLabel ∧ textAt doc val ∉ infoLabels := by
  induction els generalizing labelElement with
  | nil => simp [scanInfoField] at h
  | cons el rest ih =>
    cases labelElement with
    | none =>
      simp only [scanInfoField] at h
      obtain ⟨h1, h2, h3⟩ := ih _ h
      refine ⟨Or.inr ?_, List.mem_cons_of_mem _ h2, h3⟩
      rcases h1 with h1 | h1
      · split at h1
        · rename_i ht
          simp only [Option.some.injEq] at h1
          subst h1
          exact ⟨List.mem_cons_self _ _, ht⟩
        · simp at h1
      · exact ⟨List.mem_cons_of_mem _ h1.1, h1.2⟩
    | some l =>
      simp only [scanInfoField] at h
      split at h
      · rename_i r hr
        split at hr
        · rename_i hcond
          simp only [Option.some.injEq] at hr h
          rw [← hr] at h
          simp only [Prod.mk.injEq] at h
          obtain ⟨rfl, rfl⟩ := h
          simp only [Bool.and_eq_true, Bool.not_eq_true', bne_iff_ne, ne_eq] at hcond
          obtain ⟨⟨⟨_, hc1⟩, hc2⟩, ⟨hc3, hc4⟩, hc5⟩ := hcond
          refine ⟨Or.inl rfl, List.mem_cons_self _ _, hc1, hc2, hc3, hc4, ?_⟩
          intro hmem
          have : infoLabels.contains (textAt doc el) = true := by simpa using hmem
          rw [this] at hc5
          exact absurd hc5 (by decide)
        · simp at hr
      · obtain ⟨h1, h2, h3⟩ := ih _ h
        refine ⟨?_, List.mem_cons_of_mem _ h2, h3⟩
        rcases h1 with h1 | h1
        · split at h1
          · rename_i ht
            simp only [Option.some.injEq] at h1
            subst h1
            exact Or.inr ⟨List.mem_cons_self _ _, ht⟩
          · exact Or.inl h1
        · exact Or.inr ⟨List.mem_cons_of_mem _ h1.1, h1.2⟩


theorem findInnermostIn_spec (cs : List Node) (k : Nat) (q : Path)
    (h : findInnermostIn cs k = some q) :
    ∃ j r c, q = (k + j) :: r ∧ cs.get? j = some c ∧ findInnermostTextElement c = some r := by
  induction cs generalizing k with
  | nil => simp [findInnermostIn] at h
  | cons c cs ih =>
    simp only [findInnermostIn] at h
    cases hc : findInnermostTextElement c with
    | some p =>
      rw [hc] at h
      simp only [Option.some.injEq] at h
      exact ⟨0, p, c, by simp [← h], by simp, hc⟩
    | none =>
      rw [hc] at h
      obtain ⟨j, r, c', hq, hget, hfind⟩ := ih (k + 1) h
      exact ⟨j + 1, r, c', by rw [hq]; congr 1; omega, by simpa using hget, hfind⟩

theorem findInnermostTextElement_valid (n : Node) (r : Path)
    (h : findInnermostTextElement n = some r) : ∃ e, n.get? r = some e := by
  induction r generalizing n with
  | nil => exact ⟨n, by simp [Node.get?]⟩
  | cons j r ih =>
    cases n with
    | text s => simp [findInnermostTextElement] at h
    | elem tag attrs cs =>
      simp only [findInnermostTextElement] at h
      split at h
      · simp at h
      · obtain ⟨j', r', c, hq, hget, hfind⟩ := findInnermostIn_spec cs 0 _ h
        simp only [Nat.zero_add, List.cons.injEq] at hq
        obtain ⟨rfl, rfl⟩ := hq
        obtain ⟨e, he⟩ := ih c hfind
        exact ⟨e, by simp only [Node.get?, hget, he]⟩

theorem get?_append (n : Node) (p q : Path) :
    n.get? (p ++ q) = (n.get? p).bind (fun m => m.get? q) := by
  induction p generalizing n with
  | nil => simp [Node.get?]
  | cons i p ih =>
    cases n with
    | text s => simp [Node.get?]
    | elem tag attrs cs =>
      simp only [List.cons_append, Node.get?]
      cases cs.get? i with
      | none => rfl
      | some c => exact ih c

theorem innermostPath_valid (doc : Node) (el : Path) (h : textAt doc el ≠ "") :
    ∃ e, doc.get? (innermostPath doc el) = some e := by
  cases hget : doc.get? el with
  | none =>
    exfalso
    apply h
    simp only [textAt, nodeAt, hget, Option.getD_none, Node.textContent]
    decide
  | some n =>
    simp only [innermostPath, nodeAt, hget, Option.getD_some, get?_append, Option.some_bind]
    cases hf : findInnermostTextElement n with
    | none => exact ⟨n, by simp [Node.get?]⟩
    | some r => simpa using findInnermostTextElement_valid n r hf

theorem replaceTextPreservingStyle_text (doc : Node) (el : Path) (newValue : String)
    (h : textAt doc el ≠ "") :
    (nodeAt (replaceTextPreservingStyle doc el newValue) (innermostPath doc el)).textContent =
      newValue := by
  obtain ⟨e, he⟩ := innermostPath_valid doc el h
  simp only [nodeAt, replaceTextPreservingStyle, get?_modify_self, he, Option.map_some',
    Option.getD_some, textContent_setTextContent]

theorem replaceTextPreservingStyle_frame (doc : Node) (el : Path) (newValue : String) (q : Path)
    (h1 : pathContains el q = false) (h2 : pathContains q el = false) :
    (replaceTextPreservingStyle doc el newValue).get? q = doc.get? q := by
  unfold replaceTextPreservingStyle innermostPath
  have hd := disjoint_append q el ((findInnermostTextElement (nodeAt doc el)).getD []) h1 h2
  exact get?_modify_disjoint _ _ _ _ hd.1 hd.2

theorem replaceTextPreservingStyle_wrapper (doc : Node) (el : Path) (newValue : String) :
    (nodeAt (replaceTextPreservingStyle doc el newValue) el).tagName = (nodeAt doc el).tagName ∧
      ∀ name, name ≠ "data-original-text" → name ≠ "data-info-overridden" →
        (nodeAt (replaceTextPreservingStyle doc el newValue) el).attr name =
          (nodeAt doc el).attr name := by
  unfold replaceTextPreservingStyle innermostPath
  simp only [nodeAt, get?_modify_append]
  cases hget : doc.get? el with
  | none => exact ⟨rfl, fun _ _ _ => rfl⟩
  | some n =>
    simp only [Option.map_some', Option.getD_some]
    cases hr : (findInnermostTextElement n).getD [] with
    | nil =>
      simp only [Node.modify]
      exact ⟨tagName_replaced newValue n, fun name h1 h2 => attr_replaced newValue n name h1 h2⟩
    | cons i r =>
      have := tagName_modify_cons (fun n => setTextContent newValue (stashOriginal n)) n i r
      exact ⟨this.1, fun name _ _ => this.2 name⟩

/-- C9 (amended): when the scan of method 1 over the span, div, p and td
descendants of the container meets an element `lab` whose trimmed text is
exactly the label and then the first element `val`, not nested with the
current label element, whose trimmed text is non-empty, is not the label and
is not a known label, then after `replaceInfoField(container, label, v)` the
innermost text element of `val` reads `v`, the label element is untouched and
still reads the label, `val` keeps its tag and its attributes other than the
stash, and no node outside `val` is changed. -/
theorem replaceInfoField_replaces_value (doc : Node) (container : Path)
    (fieldLabel newValue : String) (lab val : Path)
    (hscan : scanInfoField doc fieldLabel
      (selectByTag doc container ["span", "div", "p", "td"]) none = some (lab, val)) :
    lab ∈ selectByTag doc container ["span", "div", "p", "td"] ∧
    val ∈ selectByTag doc container ["span", "div", "p", "td"] ∧
    textAt doc lab = fieldLabel ∧ textAt doc val ≠ "" ∧ textAt doc val ∉ infoLabels ∧
    (nodeAt (replaceInfoField doc container fieldLabel newValue)
      (innermostPath doc val)).textContent = newValue ∧
    (replaceInfoField doc container fieldLabel newValue).get? lab = doc.get? lab ∧
    textAt (replaceInfoField doc container fieldLabel newValue) lab = fieldLabel ∧
    (nodeAt (replaceInfoField doc container fieldLabel newValue) val).tagName =
      (nodeAt doc val).tagName ∧
    (∀ name, name ≠ "data-original-text" → name ≠ "data-info-overridden" →
      (nodeAt (replaceInfoField doc container fieldLabel newValue) val).attr name =
        (nodeAt doc val).attr name) ∧
    (∀ q, pathContains val q = false → pathContains q val = false →
      (replaceInfoField doc container fieldLabel newValue).get? q = doc.get? q) := by
  obtain ⟨hlab, hval, hc1, hc2, hne, _, hnl⟩ := scanInfoField_spec _ _ _ _ _ _ hscan
  have hlab' : lab ∈ selectByTag doc container ["span", "div", "p", "td"] ∧
      textAt doc lab = fieldLabel := by
    rcases hlab with h | h
    · simp at h
    · exact h
  have hrep : replaceInfoField doc container fieldLabel newValue =
      replaceTextPreservingStyle doc val newValue := by
    simp only [replaceInfoField, hscan]
  have hframe := replaceTextPreservingStyle_frame doc val newValue lab hc1 hc2
  have hwrap := replaceTextPreservingStyle_wrapper doc val newValue
  rw [hrep]
  refine ⟨hlab'.1, hval, hlab'.2, hne, hnl, replaceTextPreservingStyle_text doc val newValue hne,
    hframe, ?_, hwrap.1, hwrap.2, ?_⟩
  · simp only [textAt, nodeAt, hframe]
    exact hlab'.2
  · intro q h1 h2
    exact replaceTextPreservingStyle_frame doc val newValue q h1 h2


theorem replaceInfoField_replaces_value_witness :
    scanInfoField manufacturerPanel "Manufacturer"
        (selectByTag manufacturerPanel [] ["span", "div", "p", "td"]) none =
        some ([0, 0], [0, 1]) ∧
      (nodeAt (replaceInfoField manufacturerPanel [] "Manufacturer" "Acme")
        [0, 1, 0]).textContent = "Acme" ∧
      textAt (replaceInfoField manufacturerPanel [] "Manufacturer" "Acme") [0, 0] =
        "Manufacturer" :=
  have h : scanInfoField manufacturerPanel "Manufacturer"
      (selectByTag manufacturerPanel [] ["span", "div", "p", "td"]) none =
      some ([0, 0], [0, 1]) := by decide
  have hinner : innermostPath manufacturerPanel [0, 1] = [0, 1, 0] := by decide
  have hthm := replaceInfoField_replaces_value manufacturerPanel [] "Manufacturer" "Acme"
    [0, 0] [0, 1] h
  ⟨h, hinner ▸ hthm.2.2.2.2.2.1, hthm.2.2.2.2.2.2.2.1⟩

/-- C9 (the claim fails as stated): in a panel that shows its fields as a
definition list the element reading `Manufacturer` is followed by the value
element reading `OldCorp`, and `replaceInfoField` leaves the value as it is,
since neither element is among the span, div, p and td elements it scans
nor a child of a div or tr row. -/
theorem replaceInfoField_skips_definition_list :
    textAt definitionListPanel [0, 0] = "Manufacturer" ∧
      textAt definitionListPanel [0, 1] = "OldCorp" ∧
      textAt (replaceInfoField definitionListPanel [] "Manufacturer" "Acme") [0, 1] =
        "OldCorp" := by
  decide

/-! ### Locating the panel of a device -/

theorem firstResult_some {α : Type} (body : Path → Completion (Option α)) (r : α) :
    ∀ ps : List Path, firstResult body ps = .returned (some r) →
      ∃ p ∈ ps, body p = .returned (some r)
  | [], h => by simp [firstResult] at h
  | p :: ps, h => by
    cases hb : body p with
    | threw => simp [firstResult, hb] at h
    | returned v =>
      cases v with
      | some r2 =>
        simp only [firstResult, hb, Completion.returned.injEq, Option.some.injEq] at h
        exact ⟨p, List.mem_cons_self _ _, by rw [hb, h]⟩
      | none =>
        simp only [firstResult, hb] at h
        obtain ⟨q, hq, hbq⟩ := firstResult_some body r ps h
        exact ⟨q, List.mem_cons_of_mem _ hq, hbq⟩

theorem selectorString_eq {v id : String} (h : selectorString v = some id) : id = v := by
  unfold selectorString at h
  split at h
  · exact (Option.some.inj h).symm
  · exact absurd h (by simp)

/-- The result of the loop body of `findPanelWithDeviceFingerprint` on a
panel that holds an image tagged for the device: the first such image, with
the panel itself as the container. -/
theorem fingerprintInPanel_tagged (doc : Node) (mappings : MappingTable) (deviceId : String)
    (p icon panel : Path)
    (h : fingerprintInPanel doc mappings deviceId p = .returned (some (icon, panel)))
    (htag : ∃ t ∈ descendants doc p, isTaggedFor doc deviceId t = true) :
    panel = p ∧ (descendants doc p).find? (isTaggedFor doc deviceId) = some icon := by
  unfold fingerprintInPanel at h
  split at h
  · simp at h
  split at h
  · simp at h
  cases hs : selectorString deviceId with
  | none => simp [hs] at h
  | some id =>
    have hid := selectorString_eq hs
    subst hid
    simp only [hs] at h
    cases hf : (descendants doc p).find? (isTaggedFor doc id) with
    | some t =>
      simp only [hf, Completion.returned.injEq, Option.some.injEq, Prod.mk.injEq] at h
      exact ⟨h.2.symm, by rw [h.1]⟩
    | none =>
      obtain ⟨t, ht, htt⟩ := htag
      have := List.find?_eq_none.mp hf t ht
      exact absurd htt this

theorem fingerprintInPanel_of_tagged (doc : Node) (mappings : MappingTable) (deviceId : String)
    (p : Path) (hsvg : insideSvg doc p = false)
    (hman : textIncludes doc p "Manufacturer" = true) (hmod : textIncludes doc p "Model" = true)
    (hsel : selectorString deviceId = some deviceId)
    (htag : ∃ t ∈ descendants doc p, isTaggedFor doc deviceId t = true) :
    ∃ icon, (descendants doc p).find? (isTaggedFor doc deviceId) = some icon ∧
      fingerprintInPanel doc mappings deviceId p = .returned (some (icon, p)) := by
  cases hf : (descendants doc p).find? (isTaggedFor doc deviceId) with
  | none =>
    obtain ⟨t, ht, htt⟩ := htag
    exact absurd htt (List.find?_eq_none.mp hf t ht)
  | some icon =>
    refine ⟨icon, rfl, ?_⟩
    simp [fingerprintInPanel, hsvg, hman, hmod, hsel, hf]

/-- C11 (the claim fails as stated): the sidebar of `nestedDoc` holds both the image
tagged for device 100 and the unpatched image of device 100, and the search
returns the unpatched image, found in the nested panel that is visited
first. -/
theorem findPanelWithDeviceFingerprint_returns_unpatched :
    isTaggedFor nestedDoc "100" [0, 0, 0] = true ∧
    [0, 0, 0] ∈ descendants nestedDoc [] ∧ [1, 0] ∈ descendants nestedDoc [] ∧
    extractFingerprintId (srcOf nestedDoc [1, 0]) = some "100" ∧
    isTaggedFor nestedDoc "100" [1, 0] = false ∧
    findPanelWithDeviceFingerprint nestedDoc [("100", acme2)] "100"
      = .returned (some ([1, 0], [1])) := by
  refine ⟨by decide, by decide, by decide, by decide, by decide, rfl⟩

/-- C11 (amended): within the panel that `findPanelWithDeviceFingerprint`
returns, an image tagged for the device wins over an unpatched one: when the
returned container holds a tagged image, the returned icon is the first
tagged image of that container.  And when the panel visited first lies
outside `svg`, shows both labels and holds a tagged image, the search
returns that panel with its first tagged image. -/
theorem findPanelWithDeviceFingerprint_prefers_tagged (doc : Node) (mappings : MappingTable)
    (deviceId : String) :
    (∀ icon panel,
      findPanelWithDeviceFingerprint doc mappings deviceId = .returned (some (icon, panel)) →
      (∃ t ∈ descendants doc panel, isTaggedFor doc deviceId t = true) →
      (descendants doc panel).find? (isTaggedFor doc deviceId) = some icon ∧
        isTaggedFor doc deviceId icon = true) ∧
    (∀ panel rest, panelsInOrder doc = panel :: rest →
      insideSvg doc panel = false →
      textIncludes doc panel "Manufacturer" = true → textIncludes doc panel "Model" = true →
      selectorString deviceId = some deviceId →
      (∃ t ∈ descendants doc panel, isTaggedFor doc deviceId t = true) →
      ∃ icon, (descendants doc panel).find? (isTaggedFor doc deviceId) = some icon ∧
        findPanelWithDeviceFingerprint doc mappings deviceId
          = .returned (some (icon, panel))) := by
  constructor
  · intro icon panel h htag
    obtain ⟨p, _, hp⟩ := firstResult_some _ _ _ h
    have hpanel : panel = p := by
      unfold fingerprintInPanel at hp
      split at hp
      · simp at hp
      split at hp
      · simp at hp
      revert hp
      cases selectorString deviceId with
      | none => simp
      | some id =>
        simp only
        split
        · simp only [Completion.returned.injEq, Option.some.injEq, Prod.mk.injEq]
          exact fun h => h.2.symm
        split
        · simp only [Completion.returned.injEq, Option.some.injEq, Prod.mk.injEq]
          exact fun h => h.2.symm
        split
        · simp
        split
        · split
          · simp
          split
          · simp only [Completion.returned.injEq, Option.some.injEq, Prod.mk.injEq]
            exact fun h => h.2.symm
          · simp
        · simp
    subst hpanel
    have h2 := (fingerprintInPanel_tagged doc mappings deviceId panel icon panel hp htag).2
    exact ⟨h2, by simpa using List.find?_some h2⟩
  · intro panel rest hps hsvg hman hmod hsel htag
    obtain ⟨icon, hf, hb⟩ :=
      fingerprintInPanel_of_tagged doc mappings deviceId panel hsvg hman hmod hsel htag
    refine ⟨icon, hf, ?_⟩
    unfold findPanelWithDeviceFingerprint
    rw [hps]
    simp [firstResult, hb]

theorem findPanelWithDeviceFingerprint_prefers_tagged_witness :
    ((descendants bothImagesDoc [0]).find? (isTaggedFor bothImagesDoc "100") = some [0, 1] ∧
      isTaggedFor bothImagesDoc "100" [0, 1] = true) ∧
    extractFingerprintId (srcOf bothImagesDoc [0, 0]) = some "100" :=
  ⟨(findPanelWithDeviceFingerprint_prefers_tagged bothImagesDoc [("100", acme2)] "100").1
      [0, 1] [0] rfl ⟨[0, 1], by decide, by decide⟩,
    by decide⟩

/-! ### Restoring and re-patching images -/

/-- C14 (the code at the failing input): an image that names its built-in
icon in `srcset` only is patched for device 100; the stash of its empty
`src` is the empty string, which the restore loop takes for no stash.  After
the broadcast of the empty table the marker is gone and `srcset` is back, but
`src` still is the custom icon, where before the patch there was none. -/
theorem restore_keeps_custom_src :
    (nodeAt srcsetOnlyDoc [0]).attr "src" = none ∧
    (nodeAt (replaceIconsInDom flatLayout
        (engineOn srcsetOnlyDoc [("100", acme2)])).state.doc [0]).attr "src"
      = some "https://example.com/acme.png" ∧
    (nodeAt (replaceIconsInDom flatLayout
        (engineOn srcsetOnlyDoc [("100", acme2)])).state.doc [0]).attr "data-original-src"
      = some "" ∧
    (nodeAt (onCustomIcons flatLayout
        (replaceIconsInDom flatLayout (engineOn srcsetOnlyDoc [("100", acme2)])).state
        []).state.doc [0]).attr "data-custom-icon-applied" = none ∧
    (nodeAt (onCustomIcons flatLayout
        (replaceIconsInDom flatLayout (engineOn srcsetOnlyDoc [("100", acme2)])).state
        []).state.doc [0]).attr "srcset" = (nodeAt srcsetOnlyDoc [0]).attr "srcset" ∧
    (nodeAt (onCustomIcons flatLayout
        (replaceIconsInDom flatLayout (engineOn srcsetOnlyDoc [("100", acme2)])).state
        []).state.doc [0]).attr "src" = some "https://example.com/acme.png" := by
  refine ⟨by decide, by decide, by decide, by decide, by decide, by decide⟩

/-- C15 (the code at the failing input): the image of device 100 is patched
with the icon of the old mapping.  A broadcast whose table gives device 100
a new icon, and a broadcast whose table has lost device 100 while device 200
remains, both leave the image with the old icon and the marker; the
callback the handler schedules does not change that. -/
theorem broadcast_leaves_stale_icon :
    (nodeAt patchedDoc [0]).attr "src" = some "https://example.com/acme.png" ∧
    (onCustomIcons flatLayout (engineOn patchedDoc [("100", acme2)])
      [("100", { acme2 with iconUrl := some "https://example.com/new.png" })]).completed
      = true ∧
    (nodeAt (onCustomIcons flatLayout (engineOn patchedDoc [("100", acme2)])
      [("100", { acme2 with iconUrl := some "https://example.com/new.png" })]).state.doc
      [0]).attr "src" = some "https://example.com/acme.png" ∧
    (onCustomIcons flatLayout (engineOn patchedDoc [("100", acme2)])
      [("200", acme2)]).completed = true ∧
    (nodeAt (onCustomIcons flatLayout (engineOn patchedDoc [("100", acme2)])
      [("200", acme2)]).state.doc [0]).attr "src" = some "https://example.com/acme.png" ∧
    (nodeAt (onCustomIcons flatLayout (engineOn patchedDoc [("100", acme2)])
      [("200", acme2)]).state.doc [0]).attr "data-custom-icon-applied" = some "true" ∧
    (onCustomIcons flatLayout (engineOn patchedDoc [("100", acme2)])
      [("100", { acme2 with iconUrl := some "https://example.com/new.png" })]).state.scheduled
      = [.applyMappings] ∧
    (nodeAt (runTask flatLayout
      (onCustomIcons flatLayout (engineOn patchedDoc [("100", acme2)])
        [("100", { acme2 with iconUrl := some "https://example.com/new.png" })]).state
      .applyMappings).state.doc [0]).attr "src" = some "https://example.com/acme.png" := by
  refine ⟨by decide, by decide, by decide, by decide, by decide, by decide, by decide,
    by decide⟩

/-! ### Documents before and after a change -/

theorem get?_cons (n : Node) (j : Nat) (p : Path) :
    n.get? (j :: p) = (n.childNodes.get? j).bind (fun c => c.get? p) := by
  cases n with
  | text s => simp [Node.get?, Node.childNodes]
  | elem tag attrs cs =>
    simp only [Node.get?, Node.childNodes]
    cases cs.get? j <;> rfl

theorem sameShape_refl (n : Node) : SameShape n n := ⟨rfl, rfl, fun _ => rfl⟩

theorem sameShape_trans {a b c : Node} (h1 : SameShape a b) (h2 : SameShape b c) :
    SameShape a c :=
  ⟨h1.1.trans h2.1, h1.2.1.trans h2.2.1, fun name => (h1.2.2 name).trans (h2.2.2 name)⟩

/-- A change of attributes at `q` leaves kind, tag and attributes of the
node at any other path as they were. -/
theorem sameShape_modify (f : Node → Node) (hf : AttrOnly f) :
    ∀ (q : Path) (doc : Node) (p : Path), p ≠ q →
      SameShape (nodeAt doc p) (nodeAt (doc.modify f q) p)
  | [], doc, p, hne => by
    cases p with
    | nil => exact absurd rfl hne
    | cons j p =>
      have : (doc.modify f []).get? (j :: p) = doc.get? (j :: p) := by
        rw [get?_cons, get?_cons]
        simp only [Node.modify]
        rw [(hf doc).2]
      unfold nodeAt
      rw [this]
      exact sameShape_refl _
  | i :: q, .text s, p, _ => by
    simp only [Node.modify]
    exact sameShape_refl _
  | i :: q, .elem tag attrs cs, p, hne => by
    cases p with
    | nil =>
      simp only [nodeAt, Node.get?, Node.modify, Option.getD_some]
      exact ⟨rfl, rfl, fun _ => rfl⟩
    | cons j p =>
      by_cases hij : i = j
      · subst hij
        have hpq : p ≠ q := fun h => hne (by rw [h])
        simp only [nodeAt, Node.get?, Node.modify, listModify_get?_same]
        cases hc : cs.get? i with
        | none => simp only [Option.map_none']; exact sameShape_refl _
        | some c =>
          simp only [Option.map_some']
          exact sameShape_modify f hf q c p hpq
      · simp only [nodeAt, Node.get?, Node.modify, listModify_get?_ne _ _ _ _ hij]
        exact sameShape_refl _

theorem nodeAt_modify_self (f : Node → Node) (hf : AttrOnly f) (doc : Node) (p : Path) :
    SameShape (f (nodeAt doc p)) (nodeAt (doc.modify f p) p) := by
  unfold nodeAt
  rw [get?_modify_self]
  cases doc.get? p with
  | some n => exact sameShape_refl _
  | none =>
    simp only [Option.map_none', Option.getD_none]
    have h1 := (hf (.text "")).1
    refine ⟨by rw [h1], ?_, ?_⟩
    · cases hfn : f (.text "") with
      | text s => rfl
      | elem tag attrs cs => rw [hfn] at h1; simp [Node.isElement] at h1
    · intro name
      cases hfn : f (.text "") with
      | text s => rfl
      | elem tag attrs cs => rw [hfn] at h1; simp [Node.isElement] at h1

theorem attrOnly_setAttr (name value : String) : AttrOnly (Node.setAttr name value) := by
  intro n; cases n <;> exact ⟨rfl, rfl⟩

theorem attrOnly_removeAttr (name : String) : AttrOnly (Node.removeAttr name) := by
  intro n; cases n <;> exact ⟨rfl, rfl⟩

theorem attrOnly_comp {f g : Node → Node} (hf : AttrOnly f) (hg : AttrOnly g) :
    AttrOnly (fun n => f (g n)) := by
  intro n
  exact ⟨(hf (g n)).1.trans (hg n).1, (hf (g n)).2.trans (hg n).2⟩

/-! ### Attribute reads after attribute writes -/

theorem attrGet_attrSet_same (attrs : List (String × String)) (k v : String) :
    attrGet (attrSet attrs k v) k = some v := by
  induction attrs with
  | nil => simp [attrSet, attrGet]
  | cons a rest ih =>
    obtain ⟨k0, v0⟩ := a
    by_cases h0 : k0 = k
    · simp [attrSet, attrGet, h0]
    · simp [attrSet, attrGet, h0, ih]

theorem attrGet_attrRemove_same (attrs : List (String × String)) (k : String) :
    attrGet (attrRemove attrs k) k = none := by
  unfold attrRemove
  induction attrs with
  | nil => simp [attrGet]
  | cons a rest ih =>
    obtain ⟨k0, v0⟩ := a
    by_cases h0 : k0 = k
    · rw [List.filter_cons_of_neg (by simp [h0])]
      exact ih
    · rw [List.filter_cons_of_pos (by simp [h0])]
      simp only [attrGet, h0, if_false]
      exact ih

theorem attrGet_attrRemove_ne (attrs : List (String × String)) (k name : String)
    (h : name ≠ k) : attrGet (attrRemove attrs k) name = attrGet attrs name := by
  unfold attrRemove
  induction attrs with
  | nil => simp [attrGet]
  | cons a rest ih =>
    obtain ⟨k0, v0⟩ := a
    by_cases h0 : k0 = k
    · have h1 : k0 ≠ name := fun e => h (e ▸ h0)
      rw [List.filter_cons_of_neg (by simp [h0])]
      simp only [attrGet, h1, if_false]
      exact ih
    · rw [List.filter_cons_of_pos (by simp [h0])]
      by_cases h1 : k0 = name
      · simp only [attrGet, h1, if_true]
      · simp only [attrGet, h1, if_false]
        exact ih

theorem attr_setAttr_same (n : Node) (k v : String) (h : n.isElement = true) :
    (n.setAttr k v).attr k = some v := by
  cases n with
  | text s => simp [Node.isElement] at h
  | elem tag attrs cs => exact attrGet_attrSet_same attrs k v

theorem attr_setAttr_ne (n : Node) (k v name : String) (h : name ≠ k) :
    (n.setAttr k v).attr name = n.attr name := by
  cases n with
  | text s => rfl
  | elem tag attrs cs => exact attrGet_attrSet_ne attrs k v name h

theorem attr_removeAttr_same (n : Node) (k : String) : (n.removeAttr k).attr k = none := by
  cases n with
  | text s => rfl
  | elem tag attrs cs => exact attrGet_attrRemove_same attrs k

theorem attr_removeAttr_ne (n : Node) (k name : String) (h : name ≠ k) :
    (n.removeAttr k).attr name = n.attr name := by
  cases n with
  | text s => rfl
  | elem tag attrs cs => exact attrGet_attrRemove_ne attrs k name h

theorem isElement_setAttr (n : Node) (k v : String) : (n.setAttr k v).isElement = n.isElement := by
  cases n <;> rfl

theorem isElement_removeAttr (n : Node) (k : String) :
    (n.removeAttr k).isElement = n.isElement := by
  cases n <;> rfl

theorem tagName_setAttr (n : Node) (k v : String) : (n.setAttr k v).tagName = n.tagName := by
  cases n <;> rfl

theorem tagName_removeAttr (n : Node) (k : String) : (n.removeAttr k).tagName = n.tagName := by
  cases n <;> rfl

theorem childNodes_setAttr (n : Node) (k v : String) :
    (n.setAttr k v).childNodes = n.childNodes := by
  cases n <;> rfl

theorem childNodes_removeAttr (n : Node) (k : String) :
    (n.removeAttr k).childNodes = n.childNodes := by
  cases n <;> rfl

/-! ### The engine without a mapping -/

theorem replaceIcon_empty (layout : PageLayout) (st : EngineState) (e : ListedNode)
    (h : st.customIconMappings = []) : replaceIcon layout st e = st := by
  unfold replaceIcon
  cases imageDeviceId (e.current st.doc).1 with
  | none => rfl
  | some deviceId => simp [h, getCustomIconUrl, mappingOf]

theorem foldl_replaceIcon_empty (layout : PageLayout) (st : EngineState)
    (h : st.customIconMappings = []) (l : List ListedNode) :
    l.foldl (replaceIcon layout) st = st := by
  induction l with
  | nil => rfl
  | cons e l ih => rw [List.foldl_cons, replaceIcon_empty layout st e h, ih]

theorem refreshReplacedIcon_empty (layout : PageLayout) (st : EngineState) (e : ListedNode)
    (h : st.customIconMappings = []) :
    refreshReplacedIcon layout st e = { state := st, completed := true } := by
  unfold refreshReplacedIcon
  cases (e.current st.doc).1.attr "data-device-id" with
  | none => rfl
  | some deviceId =>
    simp only
    split
    · rfl
    · simp [h, mappingOf]

theorem forEachRun_refresh_empty (layout : PageLayout) (st : EngineState)
    (h : st.customIconMappings = []) (l : List ListedNode) :
    forEachRun (refreshReplacedIcon layout) l st = { state := st, completed := true } := by
  induction l with
  | nil => rfl
  | cons e l ih =>
    simp only [forEachRun, refreshReplacedIcon_empty layout st e h]
    exact ih

theorem replaceIconsInDom_empty (layout : PageLayout) (st : EngineState)
    (h : st.customIconMappings = []) :
    replaceIconsInDom layout st = { state := st, completed := true } := by
  unfold replaceIconsInDom
  simp only [foldl_replaceIcon_empty layout st h, forEachRun_refresh_empty layout st h,
    Run.andThen, if_true, scanAndReplaceAllPanels, h, List.isEmpty_nil]

theorem observerCallback_empty (layout : PageLayout) (st : EngineState)
    (records : List MutationRecord) (h : st.customIconMappings = []) :
    observerCallback layout st records = { state := st, completed := true } := by
  have hst : st.withDoc st.doc = st := rfl
  unfold observerCallback
  simp only [observerHide, h, List.isEmpty_nil, if_true, hst, replaceIconsInDom_empty layout st h]
  split <;> rfl

/-- One round of the observer's pre-hide keeps a hidden panel hidden and
listed. -/
theorem observerHide_step_keeps (p : Path) (a : Node × List Path) (panel : Path)
    (h : (nodeAt a.1 p).attr "style.opacity" = some "0" ∧ p ∈ a.2) :
    (nodeAt (if truthyStr ((nodeAt a.1 panel).attr "data-unifi-panel-processed") then a
        else (hideOnly a.1 panel, if a.2.contains panel then a.2 else a.2 ++ [panel])).1
      p).attr "style.opacity" = some "0" ∧
    p ∈ (if truthyStr ((nodeAt a.1 panel).attr "data-unifi-panel-processed") then a
        else (hideOnly a.1 panel, if a.2.contains panel then a.2 else a.2 ++ [panel])).2 := by
  by_cases hm : truthyStr ((nodeAt a.1 panel).attr "data-unifi-panel-processed") = true
  · simp only [hm, if_true]; exact h
  · simp only [hm, Bool.false_eq_true, if_false, hideOnly]
    constructor
    · by_cases hp : p = panel
      · subst hp
        have hs := nodeAt_modify_self (Node.setAttr "style.opacity" "0")
          (attrOnly_setAttr _ _) a.1 p
        rw [← hs.2.2]
        apply attr_setAttr_same
        cases hn : nodeAt a.1 p with
        | text s => rw [hn] at h; simp [Node.attr] at h
        | elem tag attrs cs => rfl
      · have hs := sameShape_modify (Node.setAttr "style.opacity" "0")
          (attrOnly_setAttr _ _) panel a.1 p hp
        rw [← hs.2.2]
        exact h.1
    · split
      · exact h.2
      · exact List.mem_append_left _ h.2

theorem observerHide_hides (st : EngineState) (p : Path)
    (hne : st.customIconMappings ≠ [])
    (hel : (nodeAt st.doc p).isElement = true)
    (hsel : matchesAny observerPanelSelectors st.doc p = true)
    (hm : truthyStr ((nodeAt st.doc p).attr "data-unifi-panel-processed") = false) :
    (nodeAt (observerHide st [.childList [p]]).1 p).attr "style.opacity" = some "0" ∧
      p ∈ (observerHide st [.childList [p]]).2 := by
  have hemp : st.customIconMappings.isEmpty = false := by
    cases hc : st.customIconMappings with
    | nil => exact absurd hc hne
    | cons a l => rfl
  simp only [observerHide, hemp, Bool.false_eq_true, if_false, List.foldl_cons, List.foldl_nil,
    observerHideRecord, observerHideNode, addedPanels, hel, hsel, if_true, List.singleton_append]
  generalize (descendants st.doc p).filter (matchesAny observerPanelSelectors st.doc) = rest
  have hbase : (nodeAt (hideOnly st.doc p) p).attr "style.opacity" = some "0" := by
    simp only [hideOnly, hm, Bool.false_eq_true, if_false]
    have hs := nodeAt_modify_self (Node.setAttr "style.opacity" "0")
      (attrOnly_setAttr _ _) st.doc p
    rw [← hs.2.2]
    exact attr_setAttr_same _ _ _ hel
  simp only [hm, Bool.false_eq_true, if_false, List.contains_nil, List.nil_append]
  have key : ∀ (l : List Path) (a : Node × List Path),
      ((nodeAt a.1 p).attr "style.opacity" = some "0" ∧ p ∈ a.2) →
      ((nodeAt (l.foldl (fun a panel =>
          if truthyStr ((nodeAt a.1 panel).attr "data-unifi-panel-processed") then a
          else (hideOnly a.1 panel, if a.2.contains panel then a.2 else a.2 ++ [panel])) a).1
        p).attr "style.opacity" = some "0" ∧
      p ∈ (l.foldl (fun a panel =>
          if truthyStr ((nodeAt a.1 panel).attr "data-unifi-panel-processed") then a
          else (hideOnly a.1 panel, if a.2.contains panel then a.2 else a.2 ++ [panel])) a).2) := by
    intro l
    induction l with
    | nil => intro a h; exact h
    | cons x l ih =>
      intro a h
      rw [List.foldl_cons]
      exact ih _ (observerHide_step_keeps p a x h)
  exact key rest (hideOnly st.doc p, [p]) ⟨hbase, List.mem_singleton.mpr rfl⟩

/-- C16 (the claim fails as stated): a panel that shows device 200, which has no
mapping, is inserted while a mapping for device 100 exists; the observer
sets its opacity to 0 and schedules the pass that precedes the reveal. -/
theorem observer_hides_unmapped_panel :
    mappingOf [("100", acme2)] "200" = none ∧
    (foundDeviceIds newPanelDoc [0]) = ["200"] ∧
    (nodeAt newPanelDoc [0]).attr "style.opacity" = none ∧
    (observerCallback flatLayout (engineOn newPanelDoc [("100", acme2)])
      [.childList [[0]]]).completed = true ∧
    (nodeAt (observerCallback flatLayout (engineOn newPanelDoc [("100", acme2)])
      [.childList [[0]]]).state.doc [0]).attr "style.opacity" = some "0" := by
  refine ⟨rfl, by decide, by decide, by decide, by decide⟩

/-- C16 (amended): for a device id without mapping `replaceDeviceInfoInPanel`
returns at once and leaves the state as it is.  Whether a new panel is
hidden does not depend on the device it shows: with an empty table the
observer changes nothing and schedules nothing, and with any mapping in the
table it hides every inserted element that matches its panel selectors and
does not carry the processed marker. -/
theorem unmapped_device_untouched (layout : PageLayout) (st : EngineState) :
    (∀ deviceId, mappingOf st.customIconMappings deviceId = none →
      replaceDeviceInfoInPanel layout st deviceId = { state := st, completed := true }) ∧
    (∀ records, st.customIconMappings = [] →
      observerCallback layout st records = { state := st, completed := true }) ∧
    (∀ p, st.customIconMappings ≠ [] → (nodeAt st.doc p).isElement = true →
      matchesAny observerPanelSelectors st.doc p = true →
      truthyStr ((nodeAt st.doc p).attr "data-unifi-panel-processed") = false →
      (nodeAt (observerHide st [.childList [p]]).1 p).attr "style.opacity" = some "0" ∧
        p ∈ (observerHide st [.childList [p]]).2) := by
  refine ⟨?_, ?_, ?_⟩
  · intro deviceId h
    simp [replaceDeviceInfoInPanel, h]
  · intro records h
    exact observerCallback_empty layout st records h
  · intro p hne hel hsel hm
    exact observerHide_hides st p hne hel hsel hm

theorem unmapped_device_untouched_witness :
    replaceDeviceInfoInPanel flatLayout (engineOn newPanelDoc [("100", acme2)]) "200"
        = { state := engineOn newPanelDoc [("100", acme2)], completed := true } ∧
    observerCallback flatLayout (engineOn newPanelDoc []) [.childList [[0]]]
        = { state := engineOn newPanelDoc [], completed := true } ∧
    ((nodeAt (observerHide (engineOn newPanelDoc [("100", acme2)]) [.childList [[0]]]).1
        [0]).attr "style.opacity" = some "0" ∧
      [0] ∈ (observerHide (engineOn newPanelDoc [("100", acme2)]) [.childList [[0]]]).2) :=
  ⟨(unmapped_device_untouched flatLayout (engineOn newPanelDoc [("100", acme2)])).1 "200"
      rfl,
    (unmapped_device_untouched flatLayout (engineOn newPanelDoc [])).2.1 [.childList [[0]]] rfl,
    (unmapped_device_untouched flatLayout (engineOn newPanelDoc [("100", acme2)])).2.2 [0]
      (List.cons_ne_nil _ _) (by decide) (by decide) (by decide)⟩

/-! ### Hiding and revealing panels -/

theorem foldl_invariant {α β : Type} (P : β → Prop) (f : β → α → β)
    (h : ∀ b a, P b → P (f b a)) : ∀ (l : List α) (b : β), P b → P (l.foldl f b)
  | [], _, hb => hb
  | a :: l, b, hb => foldl_invariant P f h l (f b a) (h b a hb)

/-- A loop that changes attributes at the paths of a list leaves an element
of the list in a state `Q` that each change establishes and that depends on
the attributes only. -/
theorem foldl_modify_reaches (g : Node → Node) (hg : AttrOnly g) (Q : Node → Prop)
    (hshape : ∀ n n', SameShape n n' → Q n → Q n')
    (hQ : ∀ n, n.isElement = true → Q (g n)) (p : Path) :
    ∀ (panels : List Path) (doc : Node),
      (nodeAt doc p).isElement = true → (p ∈ panels ∨ Q (nodeAt doc p)) →
      Q (nodeAt (panels.foldl (fun d q => d.modify g q) doc) p)
  | [], doc, _, h => by
    rcases h with h | h
    · simp at h
    · exact h
  | q :: panels, doc, hel, h => by
    rw [List.foldl_cons]
    by_cases hq : p = q
    · subst hq
      have hs := nodeAt_modify_self g hg doc p
      apply foldl_modify_reaches g hg Q hshape hQ p panels
      · rw [← hs.1, (hg _).1]; exact hel
      · exact Or.inr (hshape _ _ hs (hQ _ hel))
    · have hs := sameShape_modify g hg q doc p hq
      apply foldl_modify_reaches g hg Q hshape hQ p panels
      · rw [← hs.1]; exact hel
      · rcases h with h | h
        · rcases List.mem_cons.mp h with h | h
          · exact absurd h hq
          · exact Or.inl h
        · exact Or.inr (hshape _ _ hs h)

theorem attrOnly_revealNode (unmark : Bool) : AttrOnly (revealNode unmark) := by
  intro n
  cases n with
  | text s => cases unmark <;> exact ⟨rfl, rfl⟩
  | elem tag attrs cs => cases unmark <;> exact ⟨rfl, rfl⟩

theorem revealNode_shown (unmark : Bool) (n : Node) (h : n.isElement = true) :
    (revealNode unmark n).attr "style.opacity" = none ∧
    (revealNode unmark n).attr "data-unifi-panel-processed" = some "true" ∧
    (unmark = true → (revealNode unmark n).attr "data-unifi-panel-processing" = none) := by
  cases unmark with
  | false =>
    simp only [revealNode, Bool.false_eq_true, if_false]
    refine ⟨?_, ?_, fun h => absurd h (by simp)⟩
    · rw [attr_setAttr_ne _ _ _ _ (by decide)]
      exact attr_removeAttr_same _ _
    · exact attr_setAttr_same _ _ _ (by rw [isElement_removeAttr]; exact h)
  | true =>
    simp only [revealNode, if_true]
    refine ⟨?_, ?_, fun _ => attr_removeAttr_same _ _⟩
    · rw [attr_removeAttr_ne _ _ _ (by decide), attr_setAttr_ne _ _ _ _ (by decide)]
      exact attr_removeAttr_same _ _
    · rw [attr_removeAttr_ne _ _ _ (by decide)]
      exact attr_setAttr_same _ _ _ (by rw [isElement_removeAttr]; exact h)

theorem attrOnly_addClass (name : String) : AttrOnly (addClass name) := by
  intro n
  unfold addClass
  split
  · split
    · exact ⟨rfl, rfl⟩
    · exact ⟨isElement_setAttr _ _ _, childNodes_setAttr _ _ _⟩
  · exact ⟨isElement_setAttr _ _ _, childNodes_setAttr _ _ _⟩

theorem attr_addClass_ne (cls : String) (n : Node) (name : String) (h : name ≠ "class") :
    (addClass cls n).attr name = n.attr name := by
  unfold addClass
  split
  · split
    · rfl
    · exact attr_setAttr_ne _ _ _ _ h
  · exact attr_setAttr_ne _ _ _ _ h

theorem attrOnly_clickRevealNode : AttrOnly clickRevealNode := by
  intro n
  unfold clickRevealNode
  have h := attrOnly_addClass "unifi-reveal-ready" (n.removeAttr "style.opacity")
  refine ⟨?_, ?_⟩
  · rw [isElement_removeAttr, isElement_setAttr, h.1, isElement_removeAttr]
  · rw [childNodes_removeAttr, childNodes_setAttr, h.2, childNodes_removeAttr]

theorem clickRevealNode_shown (n : Node) (h : n.isElement = true) :
    (clickRevealNode n).attr "style.opacity" = none ∧
    (clickRevealNode n).attr "data-unifi-panel-processed" = some "true" ∧
    (clickRevealNode n).attr "data-unifi-panel-processing" = none := by
  unfold clickRevealNode
  refine ⟨?_, ?_, attr_removeAttr_same _ _⟩
  · rw [attr_removeAttr_ne _ _ _ (by decide), attr_setAttr_ne _ _ _ _ (by decide),
      attr_addClass_ne _ _ _ (by decide)]
    exact attr_removeAttr_same _ _
  · rw [attr_removeAttr_ne _ _ _ (by decide)]
    apply attr_setAttr_same
    rw [(attrOnly_addClass _ _).1, isElement_removeAttr]
    exact h

theorem foldl_invariant_mem {α β : Type} (P : β → Prop) (f : β → α → β) :
    ∀ (l : List α) (b : β), (∀ b a, a ∈ l → P b → P (f b a)) → P b → P (l.foldl f b)
  | [], _, _, hb => hb
  | a :: l, b, h, hb =>
    foldl_invariant_mem P f l (f b a)
      (fun b2 a2 ha2 => h b2 a2 (List.mem_cons_of_mem _ ha2))
      (h b a (List.mem_cons_self _ _) hb)

theorem sameShape_hideOnly (doc : Node) (panel p : Path) (h : p ≠ panel) :
    SameShape (nodeAt doc p) (nodeAt (hideOnly doc panel) p) := by
  unfold hideOnly
  split
  · exact sameShape_refl _
  · exact sameShape_modify _ (attrOnly_setAttr _ _) panel doc p h

theorem sameShape_hideAndMark (doc : Node) (panel p : Path) (h : p ≠ panel) :
    SameShape (nodeAt doc p) (nodeAt (hideAndMark doc panel) p) := by
  unfold hideAndMark
  split
  · exact sameShape_refl _
  · exact sameShape_modify _
      (attrOnly_comp (attrOnly_setAttr "data-unifi-panel-processing" "true")
        (attrOnly_setAttr "style.opacity" "0")) panel doc p h

/-- The pre-hide of the observer changes no element outside the list
`panelsToProcess` it returns. -/
theorem observerHide_others (st : EngineState) (records : List MutationRecord) (p : Path)
    (hp : p ∉ (observerHide st records).2) :
    SameShape (nodeAt st.doc p) (nodeAt (observerHide st records).1 p) := by
  revert hp
  unfold observerHide
  split
  · intro _; exact sameShape_refl _
  · apply foldl_invariant
      (fun a : Node × List Path => p ∉ a.2 → SameShape (nodeAt st.doc p) (nodeAt a.1 p))
    · intro acc record hacc
      cases record with
      | attributes _ _ => exact hacc
      | characterData _ => exact hacc
      | childList addedNodes =>
        simp only [observerHideRecord]
        apply foldl_invariant
          (fun a : Node × List Path => p ∉ a.2 → SameShape (nodeAt st.doc p) (nodeAt a.1 p))
        · intro acc2 node hacc2
          unfold observerHideNode
          apply foldl_invariant
            (fun a : Node × List Path =>
              p ∉ a.2 → SameShape (nodeAt st.doc p) (nodeAt a.1 p))
          · intro a panel ha
            split
            · exact ha
            · intro hnot
              have hne : p ≠ panel := by
                intro e
                apply hnot
                subst e
                simp only
                split
                · rename_i hc
                  simpa using hc
                · exact List.mem_append_right _ (List.mem_singleton.mpr rfl)
              have hin : p ∉ a.2 := by
                intro hmem
                apply hnot
                simp only
                split
                · exact hmem
                · exact List.mem_append_left _ hmem
              exact sameShape_trans (ha hin) (sameShape_hideOnly a.1 panel p hne)
          · exact hacc2
        · exact hacc
    · intro _; exact sameShape_refl _

/-- The pre-hide of the click handler changes no element outside the list of
panels it walks. -/
theorem foldl_hideAndMark_others (p : Path) (panels : List Path) (doc : Node)
    (hp : p ∉ panels) :
    SameShape (nodeAt doc p) (nodeAt (panels.foldl hideAndMark doc) p) := by
  apply foldl_invariant_mem (fun d => SameShape (nodeAt doc p) (nodeAt d p))
  · intro d q hq hd
    have hne : p ≠ q := fun e => hp (e ▸ hq)
    exact sameShape_trans hd (sameShape_hideAndMark d q p hne)
  · exact sameShape_refl _

theorem Run.andThen_of_completed (r : Run) (next : EngineState → Run)
    (h : (r.andThen next).completed = true) :
    r.completed = true ∧ r.andThen next = next r.state := by
  unfold Run.andThen at h ⊢
  by_cases hr : r.completed = true
  · simp [hr]
  · simp only [hr, if_false] at h
    exact absurd h hr

/-- C18 (the claim fails as stated): with a mapping whose icon is an inline SVG image,
the observer hides the new panel and schedules its pass; the pass ends in
the exception of `querySelector` on the selector built from the icon
address, the reveal is never scheduled, and the panel stays at opacity 0
without the processed marker. -/
theorem failed_pass_leaves_panel_hidden :
    (observerCallback flatLayout (engineOn newPanelDoc [("100", svgMapping)])
      [.childList [[0]]]).completed = true ∧
    (observerCallback flatLayout (engineOn newPanelDoc [("100", svgMapping)])
      [.childList [[0]]]).state.scheduled = [.observerFrame [[0]]] ∧
    (runTask flatLayout
      { (observerCallback flatLayout (engineOn newPanelDoc [("100", svgMapping)])
          [.childList [[0]]]).state with scheduled := [] }
      (.observerFrame [[0]])).completed = false ∧
    (runTask flatLayout
      { (observerCallback flatLayout (engineOn newPanelDoc [("100", svgMapping)])
          [.childList [[0]]]).state with scheduled := [] }
      (.observerFrame [[0]])).state.scheduled = [] ∧
    (nodeAt (runTask flatLayout
      { (observerCallback flatLayout (engineOn newPanelDoc [("100", svgMapping)])
          [.childList [[0]]]).state with scheduled := [] }
      (.observerFrame [[0]])).state.doc [0]).attr "style.opacity" = some "0" ∧
    (nodeAt (runTask flatLayout
      { (observerCallback flatLayout (engineOn newPanelDoc [("100", svgMapping)])
          [.childList [[0]]]).state with scheduled := [] }
      (.observerFrame [[0]])).state.doc [0]).attr "data-unifi-panel-processed" = none := by
  refine ⟨by decide, by decide, by decide, by decide, by decide, by decide⟩

/-- C18 (amended): the reveal follows a pass that returns.  The observer and
the click handler hand the panels they hide to a frame callback, and change
no other element; the block of `replaceIconsInDom` that hides a panel hands
it to its frame callback.  The frame callback schedules the reveal, or, for
`replaceIconsInDom`, reveals the panel, once its pass has returned; and the
reveal restores the opacity and sets the processed marker on every listed
panel that is in the document (the click reveal and the icon reveal also
delete the processing marker). -/
theorem reveal_follows_returned_pass (layout : PageLayout) (st : EngineState) :
    (∀ records, (observerCallback layout st records).completed = true →
      (observerHide st records).2 ≠ [] →
      Callback.observerFrame (observerHide st records).2
        ∈ (observerCallback layout st records).state.scheduled) ∧
    (∀ records p, p ∉ (observerHide st records).2 →
      SameShape (nodeAt st.doc p) (nodeAt (observerHide st records).1 p)) ∧
    (∀ panels, (runTask layout st (.observerFrame panels)).completed = true →
      Callback.observerReveal panels
        ∈ (runTask layout st (.observerFrame panels)).state.scheduled) ∧
    (∀ panels p, p ∈ panels → (nodeAt st.doc p).isElement = true →
      (runTask layout st (.observerReveal panels)).completed = true ∧
      (nodeAt (runTask layout st (.observerReveal panels)).state.doc p).attr "style.opacity"
        = none ∧
      (nodeAt (runTask layout st (.observerReveal panels)).state.doc p).attr
        "data-unifi-panel-processed" = some "true") ∧
    (∀ target, clickHandler st target = st ∨
      ∃ deviceId panels,
        (clickHandler st target).scheduled = st.scheduled ++ [.clickFrame deviceId panels] ∧
        ∀ p, p ∉ panels → SameShape (nodeAt st.doc p) (nodeAt (clickHandler st target).doc p)) ∧
    (∀ deviceId panels, (runTask layout st (.clickFrame deviceId panels)).completed = true →
      Callback.clickReveal panels
        ∈ (runTask layout st (.clickFrame deviceId panels)).state.scheduled) ∧
    (∀ panels p, p ∈ panels → (nodeAt st.doc p).isElement = true →
      (runTask layout st (.clickReveal panels)).completed = true ∧
      (nodeAt (runTask layout st (.clickReveal panels)).state.doc p).attr "style.opacity"
        = none ∧
      (nodeAt (runTask layout st (.clickReveal panels)).state.doc p).attr
        "data-unifi-panel-processed" = some "true" ∧
      (nodeAt (runTask layout st (.clickReveal panels)).state.doc p).attr
        "data-unifi-panel-processing" = none) ∧
    (∀ deviceId panel,
      (runTask layout st (.iconFrame deviceId (some panel))).completed = true →
      (nodeAt (runTask layout st (.iconFrame deviceId (some panel))).state.doc
        panel).isElement = true →
      (nodeAt (runTask layout st (.iconFrame deviceId (some panel))).state.doc panel).attr
        "style.opacity" = none ∧
      (nodeAt (runTask layout st (.iconFrame deviceId (some panel))).state.doc panel).attr
        "data-unifi-panel-processed" = some "true" ∧
      (nodeAt (runTask layout st (.iconFrame deviceId (some panel))).state.doc panel).attr
        "data-unifi-panel-processing" = none) ∧
    (∀ path deviceId customUrl,
      (patchIcon layout st path deviceId customUrl).scheduled
        = st.scheduled ++
          [.iconFrame deviceId (closest (matchesAny containingPanelSelectors st.doc) path)]) := by
  refine ⟨?_, ?_, ?_, ?_, ?_, ?_, ?_, ?_, ?_⟩
  · intro records hc hne
    have hemp : (observerHide st records).2.isEmpty = false := by
      cases hl : (observerHide st records).2 with
      | nil => exact absurd hl hne
      | cons a l => rfl
    have h2 : observerCallback layout st records = _ :=
      (Run.andThen_of_completed _ _ hc).2
    rw [h2]
    simp [hemp, EngineState.schedule]
  · intro records p hp
    exact observerHide_others st records p hp
  · intro panels hc
    have h2 : runTask layout st (.observerFrame panels) = _ :=
      (Run.andThen_of_completed _ _ hc).2
    rw [h2]
    simp [EngineState.schedule]
  · intro panels p hp hel
    refine ⟨rfl, ?_⟩
    exact foldl_modify_reaches (revealNode false) (attrOnly_revealNode false)
      (fun n => n.attr "style.opacity" = none ∧
        n.attr "data-unifi-panel-processed" = some "true")
      (fun n n' hs hq => ⟨(hs.2.2 _).symm.trans hq.1, (hs.2.2 _).symm.trans hq.2⟩)
      (fun n hn => ⟨(revealNode_shown false n hn).1, (revealNode_shown false n hn).2.1⟩)
      p panels st.doc hel (Or.inl hp)
  · intro target
    unfold clickHandler
    split
    · exact Or.inl rfl
    split
    · exact Or.inl rfl
    split
    · exact Or.inl rfl
    split
    · exact Or.inl rfl
    · refine Or.inr ⟨_, _, rfl, ?_⟩
      intro p hp
      exact foldl_hideAndMark_others p _ st.doc hp
  · intro deviceId panels hc
    have h2 : runTask layout st (.clickFrame deviceId panels) = _ :=
      (Run.andThen_of_completed _ _ hc).2
    rw [h2]
    simp [EngineState.schedule]
  · intro panels p hp hel
    refine ⟨rfl, ?_⟩
    exact foldl_modify_reaches clickRevealNode attrOnly_clickRevealNode
      (fun n => n.attr "style.opacity" = none ∧
        n.attr "data-unifi-panel-processed" = some "true" ∧
        n.attr "data-unifi-panel-processing" = none)
      (fun n n' hs hq => ⟨(hs.2.2 _).symm.trans hq.1, (hs.2.2 _).symm.trans hq.2.1,
        (hs.2.2 _).symm.trans hq.2.2⟩)
      (fun n hn => clickRevealNode_shown n hn)
      p panels st.doc hel (Or.inl hp)
  · intro deviceId panel hc
    have h2 : runTask layout st (.iconFrame deviceId (some panel)) = _ :=
      (Run.andThen_of_completed _ _ hc).2
    rw [h2]
    intro hel
    simp only [EngineState.doc, EngineState.withDoc] at hel ⊢
    have hs := nodeAt_modify_self (revealNode true) (attrOnly_revealNode true)
      (replaceDeviceInfoInPanel layout st deviceId).state.patch.doc panel
    have hel2 : (nodeAt (replaceDeviceInfoInPanel layout st deviceId).state.patch.doc
        panel).isElement = true := by
      rw [← (attrOnly_revealNode true _).1, hs.1]; exact hel
    have h := revealNode_shown true _ hel2
    exact ⟨(hs.2.2 _).symm.trans h.1, (hs.2.2 _).symm.trans h.2.1,
      (hs.2.2 _).symm.trans (h.2.2 rfl)⟩
  · intro path deviceId customUrl
    rfl

theorem reveal_follows_returned_pass_witness :
    (nodeAt hiddenPanelState.doc [0]).attr "style.opacity" = some "0" ∧
    Callback.observerReveal [[0]]
      ∈ (runTask flatLayout hiddenPanelState (.observerFrame [[0]])).state.scheduled ∧
    (nodeAt (runTask flatLayout hiddenPanelState (.observerReveal [[0]])).state.doc
      [0]).attr "style.opacity" = none ∧
    (nodeAt (runTask flatLayout hiddenPanelState (.observerReveal [[0]])).state.doc
      [0]).attr "data-unifi-panel-processed" = some "true" :=
  ⟨by decide,
    (reveal_follows_returned_pass flatLayout hiddenPanelState).2.2.1 [[0]] (by decide),
    ((reveal_follows_returned_pass flatLayout hiddenPanelState).2.2.2.1 [[0]] [0]
      (List.mem_singleton.mpr rfl) (by decide)).2⟩

/-! ### The vendor column -/

theorem span_digits (a r : List Char) (ha : ∀ c ∈ a, isDigit c = true)
    (hr : ∀ c r2, r = c :: r2 → isDigit c = false) :
    (a ++ r).takeWhile isDigit = a ∧ (a ++ r).dropWhile isDigit = r := by
  induction a with
  | nil =>
    cases r with
    | nil => exact ⟨rfl, rfl⟩
    | cons c r2 =>
      have h := hr c r2 rfl
      simp [List.takeWhile, List.dropWhile, h]
  | cons x a ih =>
    have hx := ha x (List.mem_cons_self _ _)
    have := ih (fun c hc => ha c (List.mem_cons_of_mem _ hc))
    simp [List.takeWhile, List.dropWhile, hx, this.1, this.2]

theorem takeOctet_group (a r : List Char) (ha : IsDigitGroup a)
    (hr : ∀ c r2, r = c :: r2 → isDigit c = false) : takeOctet (a ++ r) = some r := by
  obtain ⟨h1, h3, hd⟩ := ha
  have hs := span_digits a r hd hr
  unfold takeOctet takeDigits
  rw [hs.1, hs.2]
  cases a with
  | nil => simp at h1
  | cons x a =>
    simp only [List.isEmpty_cons, Bool.false_eq_true, if_false, h3, if_true]

theorem dot_not_digit (rest : List Char) (c : Char) (r2 : List Char)
    (h : '.' :: rest = c :: r2) :
    isDigit c = false := by
  have : c = '.' := (List.cons.inj h).1.symm
  subst this
  decide

/-- The test of the script accepts every dotted quad. -/
theorem isDottedQuad_of_DottedQuad (s : String) (h : DottedQuad s) : isDottedQuad s = true := by
  obtain ⟨a, b, c, d, ha, hb, hc, hd, hs⟩ := h
  have h1 := takeOctet_group a ('.' :: (b ++ '.' :: (c ++ '.' :: d))) ha (dot_not_digit _)
  have h2 := takeOctet_group b ('.' :: (c ++ '.' :: d)) hb (dot_not_digit _)
  have h3 := takeOctet_group c ('.' :: d) hc (dot_not_digit _)
  have h4 := takeOctet_group d [] hd (fun x r2 e => by simp at e)
  rw [List.append_nil] at h4
  have hdot : ∀ x : List Char, dropLiteral ".".data ('.' :: x) = some x := by
    intro x
    simp [dropLiteral]
  unfold isDottedQuad
  rw [hs, h1]
  simp only [hdot, Option.some_bind, h2, h3, h4]
  rfl

/-- The test of the script accepts every colon-separated MAC address. -/
theorem isMacAddress_of_MacShape (s : String) (h : MacShape s) : isMacAddress s = true := by
  obtain ⟨a0, a1, b0, b1, c0, c1, d0, d1, e0, e1, f0, f1, hx, hs⟩ := h
  unfold isMacAddress
  rw [hs]
  simp only [List.all_cons, List.all_nil, Bool.and_true, beq_self_eq_true, Bool.and_eq_true]
  simp only [List.mem_cons, List.mem_singleton, forall_eq_or_imp, forall_eq] at hx
  simp [hx]

/-- C12: the element `replaceVendorInTableRow` overwrites, if any, does not
read as a dotted quad or as a colon-separated MAC address, lies within 15
pixels of the icon vertically and more than 200 and less than 450 pixels to
its right; the call overwrites that element only, and nothing without such
an element. -/
theorem replaceVendorInTableRow_target (layout : PageLayout) (doc : Node) (icon : Path)
    (newVendor deviceId : String) :
    (vendorTarget layout doc icon newVendor = none →
      replaceVendorInTableRow layout doc icon newVendor deviceId = doc) ∧
    (∀ el, vendorTarget layout doc icon newVendor = some el →
      replaceVendorInTableRow layout doc icon newVendor deviceId
        = doc.modify (markVendor newVendor deviceId) el ∧
      ¬ DottedQuad (textAt doc el) ∧ ¬ MacShape (textAt doc el) ∧
      ((layout.rect doc el).y - (layout.rect doc icon).y).natAbs ≤ 15 ∧
      200 < (layout.rect doc el).x - (layout.rect doc icon).x ∧
      (layout.rect doc el).x - (layout.rect doc icon).x < 450 ∧
      ∀ q, pathContains el q = false → pathContains q el = false →
        (replaceVendorInTableRow layout doc icon newVendor deviceId).get? q = doc.get? q) := by
  constructor
  · intro h
    simp [replaceVendorInTableRow, h]
  · intro el h
    have hres : replaceVendorInTableRow layout doc icon newVendor deviceId
        = doc.modify (markVendor newVendor deviceId) el := by
      simp [replaceVendorInTableRow, h]
    have hcell : isVendorCell layout doc icon el = true := by
      unfold vendorTarget at h
      split at h
      · simp at h
      split at h
      · simp at h
      · exact List.find?_some h
    simp only [isVendorCell, Bool.and_eq_true, Bool.not_eq_true', decide_eq_false_iff_not,
      decide_eq_true_eq, not_lt] at hcell
    obtain ⟨⟨⟨⟨⟨⟨⟨⟨⟨_, hy⟩, _⟩, _⟩, _⟩, hq⟩, hm⟩, _⟩, _⟩, hlo, hhi⟩ := hcell
    refine ⟨hres, ?_, ?_, ?_, hlo, hhi, ?_⟩
    · intro hd
      rw [isDottedQuad_of_DottedQuad _ hd] at hq
      exact absurd hq (by simp)
    · intro hmac
      rw [isMacAddress_of_MacShape _ hmac] at hm
      exact absurd hm (by simp)
    · simpa using hy
    · intro q h1 h2
      rw [hres]
      exact get?_modify_disjoint _ doc el q h1 h2

theorem replaceVendorInTableRow_target_witness :
    DottedQuad (textAt tableRowDoc [1]) ∧ MacShape (textAt tableRowDoc [2]) ∧
    textAt (replaceVendorInTableRow tableRowLayout tableRowDoc [0] "Acme" "100") [3] = "Acme" ∧
    textAt (replaceVendorInTableRow tableRowLayout tableRowDoc [0] "Acme" "100") [1]
      = "192.168.1.20" ∧
    ¬ DottedQuad (textAt tableRowDoc [3]) ∧
    ((tableRowLayout.rect tableRowDoc [3]).y
      - (tableRowLayout.rect tableRowDoc [0]).y).natAbs ≤ 15 ∧
    200 < (tableRowLayout.rect tableRowDoc [3]).x - (tableRowLayout.rect tableRowDoc [0]).x :=
  ⟨⟨"192".data, "168".data, "1".data, "20".data, by decide, by decide, by decide, by decide,
      by decide⟩,
    ⟨'A', 'A', 'B', 'B', 'C', 'C', 'D', 'D', 'E', 'E', 'F', 'F', by decide, by decide⟩,
    by decide, by decide,
    ((replaceVendorInTableRow_target tableRowLayout tableRowDoc [0] "Acme" "100").2 [3]
      (by decide)).2.1,
    ((replaceVendorInTableRow_target tableRowLayout tableRowDoc [0] "Acme" "100").2 [3]
      (by decide)).2.2.2.1,
    ((replaceVendorInTableRow_target tableRowLayout tableRowDoc [0] "Acme" "100").2 [3]
      (by decide)).2.2.2.2.1⟩

/-! ### The heap before and after `transformResponseData` -/

theorem length_listModify {α : Type} (f : α → α) (l : List α) (i : Nat) :
    (listModify f l i).length = l.length := by
  induction l generalizing i with
  | nil => rfl
  | cons a l ih =>
    cases i with
    | zero => rfl
    | succ i => simp [listModify, ih]

theorem heapExtends_refl (h : Heap) : HeapExtends h h := ⟨le_refl _, fun _ _ => rfl⟩

theorem heapExtends_trans {h1 h2 h3 : Heap} (h12 : HeapExtends h1 h2) (h23 : HeapExtends h2 h3) :
    HeapExtends h1 h3 :=
  ⟨le_trans h12.1 h23.1, fun a ha =>
    (h23.2 a (lt_of_lt_of_le ha h12.1)).trans (h12.2 a ha)⟩

theorem heapExtends_alloc (h0 h : Heap) (o : HObj) (hx : HeapExtends h0 h) :
    HeapExtends h0 (hAlloc h o).2 ∧ h0.length ≤ (hAlloc h o).1 := by
  refine ⟨⟨?_, ?_⟩, hx.1⟩
  · simp only [hAlloc, List.length_append, List.length_singleton]
    exact le_trans hx.1 (Nat.le_succ _)
  · intro a ha
    simp only [hAlloc]
    rw [List.get?_eq_getElem?, List.getElem?_append_left (lt_of_lt_of_le ha hx.1),
      ← List.get?_eq_getElem?]
    exact hx.2 a ha

theorem heapExtends_write (h0 h : Heap) (a : Nat) (name : String) (value : HVal)
    (hx : HeapExtends h0 h) (ha : h0.length ≤ a) : HeapExtends h0 (hWrite h a name value) := by
  refine ⟨?_, ?_⟩
  · simp only [hWrite, length_listModify]
    exact hx.1
  · intro b hb
    simp only [hWrite]
    rw [listModify_get?_ne _ _ _ _ (by omega)]
    exact hx.2 b hb

theorem heapExtends_overwrite (h0 h : Heap) (a : Nat) (name value : String)
    (hx : HeapExtends h0 h) (ha : h0.length ≤ a) : HeapExtends h0 (overwrite h a name value) := by
  unfold overwrite
  split
  · exact heapExtends_write h0 h a name _ hx ha
  · exact hx

theorem heapExtends_substitute (h0 h : Heap) (a : Nat) (name : String) (value : Option String)
    (hx : HeapExtends h0 h) (ha : h0.length ≤ a) : HeapExtends h0 (substitute h a name value) := by
  unfold substitute
  split
  · exact heapExtends_overwrite h0 h a name _ hx ha
  · exact hx

theorem heapExtends_os (h0 g : Heap) (a : Nat) (n1 n2 : String) (os : Option String)
    (hg : HeapExtends h0 g) (ha : h0.length ≤ a) :
    HeapExtends h0
      (if truthyStr os then overwrite (overwrite g a n1 (os.getD "")) a n2 (os.getD "")
        else g) := by
  split
  · exact heapExtends_overwrite h0 _ _ _ _ (heapExtends_overwrite h0 _ _ _ _ hg ha) ha
  · exact hg

theorem transformDevId_extends (mappings : MappingTable) (h0 h : Heap) (devId : String)
    (deviceInfo : HVal) (hx : HeapExtends h0 h) :
    HeapExtends h0 (transformDevId mappings h devId deviceInfo).1 := by
  unfold transformDevId
  cases mappingOf mappings devId with
  | none => exact hx
  | some mapping =>
    dsimp only
    split
    · have hm := heapExtends_alloc h0 h (.object (ownFields h deviceInfo)) hx
      apply heapExtends_os _ _ _ _ _ _ ?_ hm.2
      apply heapExtends_substitute _ _ _ _ _ ?_ hm.2
      apply heapExtends_substitute _ _ _ _ _ ?_ hm.2
      apply heapExtends_substitute _ _ _ _ _ ?_ hm.2
      exact hm.1
    · exact hx

theorem transformDevIds_extends (mappings : MappingTable) (h0 h : Heap) (result : Nat)
    (hx : HeapExtends h0 h) (hr : h0.length ≤ result) :
    HeapExtends h0 (transformDevIds mappings h result) := by
  unfold transformDevIds
  have hm := heapExtends_alloc h0 h (.object []) hx
  apply heapExtends_write h0 _ _ _ _ _ hr
  apply foldl_invariant (fun hh => HeapExtends h0 hh)
  · intro hh entry hhh
    exact heapExtends_write h0 _ _ _ _ (transformDevId_extends mappings h0 hh _ _ hhh) hm.2
  · exact hm.1

theorem applyToFingerprint_extends (h0 g : Heap) (result : Nat)
    (mapping : CustomMapping) (hg : HeapExtends h0 g) (hr : h0.length ≤ result) :
    HeapExtends h0 (applyToFingerprint g result mapping) := by
  unfold applyToFingerprint
  split
  · have hm := heapExtends_alloc h0 g
      (.object (ownFields g (hRead g (.ref result) "fingerprint"))) hg
    dsimp only
    apply heapExtends_os _ _ _ _ _ _ ?_ hm.2
    apply heapExtends_substitute _ _ _ _ _ ?_ hm.2
    apply heapExtends_substitute _ _ _ _ _ ?_ hm.2
    apply heapExtends_substitute _ _ _ _ _ ?_ hm.2
    apply heapExtends_write _ _ _ _ _ ?_ hr
    exact hm.1
  · exact hg

theorem applyMapping_extends (h0 h : Heap) (result : Nat) (mapping : CustomMapping)
    (hx : HeapExtends h0 h) (hr : h0.length ≤ result) :
    HeapExtends h0 (applyMapping h result mapping) := by
  unfold applyMapping
  dsimp only
  apply heapExtends_os _ _ _ _ _ _ ?_ hr
  apply heapExtends_substitute _ _ _ _ _ ?_ hr
  apply heapExtends_substitute _ _ _ _ _ ?_ hr
  apply applyToFingerprint_extends _ _ _ _ ?_ hr
  split
  · apply foldl_invariant (fun hh => HeapExtends h0 hh)
    · intro hh name hhh
      exact heapExtends_overwrite h0 hh result name _ hhh hr
    · exact hx
  · exact hx

theorem transform_extends (mappings : MappingTable) :
    ∀ (fuel : Nat) (h0 h : Heap) (v : HVal), HeapExtends h0 h →
      HeapExtends h0 (transform mappings fuel h v).1
  | 0, _, _, _, hx => by simpa [transform] using hx
  | fuel + 1, h0, h, v, hx => by
    cases v with
    | ref a =>
      simp only [transform]
      cases hget : h.get? a with
      | none => exact hx
      | some o =>
        cases o with
        | array elems =>
          dsimp only
          apply (heapExtends_alloc h0 _ _ ?_).1
          apply foldl_invariant (fun acc : Heap × List HVal => HeapExtends h0 acc.1)
          · intro acc item hacc
            exact transform_extends mappings fuel h0 acc.1 item hacc
          · exact hx
        | object fields =>
          dsimp only
          have hm := heapExtends_alloc h0 h (.object fields) hx
          split
          · exact transformDevIds_extends mappings h0 _ _ hm.1 hm.2
          · apply foldl_invariant (fun hh => HeapExtends h0 hh)
            · intro hh key hhh
              dsimp only
              split
              · exact heapExtends_write h0 _ _ _ _
                  (transform_extends mappings fuel h0 hh _ hhh) hm.2
              · exact hhh
            · split
              · split
                · exact applyMapping_extends h0 _ _ _ hm.1 hm.2
                · exact hm.1
              · exact hm.1
    | undefined => simpa [transform] using hx
    | null => simpa [transform] using hx
    | bool b => simpa [transform] using hx
    | num n => simpa [transform] using hx
    | str s => simpa [transform] using hx

theorem transform_result (mappings : MappingTable) (fuel : Nat) (h : Heap) (v : HVal) :
    (transform mappings fuel h v).2 = v ∨
      ∃ a, h.length ≤ a ∧ (transform mappings fuel h v).2 = .ref a := by
  cases fuel with
  | zero => exact Or.inl (by simp [transform])
  | succ fuel =>
    cases v with
    | ref a =>
      simp only [transform]
      cases hget : h.get? a with
      | none => exact Or.inl rfl
      | some o =>
        cases o with
        | array elems =>
          dsimp only
          refine Or.inr ⟨_, ?_, rfl⟩
          have : HeapExtends h (elems.foldl
              (fun (acc : Heap × List HVal) item =>
                ((transform mappings fuel acc.1 item).1,
                  acc.2 ++ [(transform mappings fuel acc.1 item).2]))
              (h, [])).1 := by
            apply foldl_invariant (fun acc : Heap × List HVal => HeapExtends h acc.1)
            · intro acc item hacc
              exact transform_extends mappings fuel h acc.1 item hacc
            · exact heapExtends_refl h
          exact this.1
        | object fields =>
          dsimp only
          split
          · exact Or.inr ⟨_, le_refl _, rfl⟩
          · exact Or.inr ⟨_, le_refl _, rfl⟩
    | undefined => exact Or.inl (by simp [transform])
    | null => exact Or.inl (by simp [transform])
    | bool b => exact Or.inl (by simp [transform])
    | num n => exact Or.inl (by simp [transform])
    | str s => exact Or.inl (by simp [transform])

/-- A value whose references lead into a closed heap reads as the same tree
in every heap that extends it. -/
theorem reify_extends (h h' : Heap) (hx : HeapExtends h h')
    (hc : h.all (fun o =>
      match o with
      | .array elems => elems.all (refBelow h)
      | .object fields => fields.all (fun kv => refBelow h kv.2)) = true) :
    ∀ (fuel : Nat) (v : HVal), refBelow h v = true → reify h' fuel v = reify h fuel v
  | 0, v, _ => by cases v <;> rfl
  | fuel + 1, v, hv => by
    cases v with
    | ref a =>
      have ha : a < h.length := by simpa [refBelow] using hv
      simp only [reify, hx.2 a ha]
      cases hget : h.get? a with
      | none => rfl
      | some o =>
        have ho := List.all_eq_true.mp hc o (List.get?_mem hget)
        cases o with
        | array elems =>
          simp only at ho ⊢
          congr 1
          apply List.map_congr_left
          intro e he
          exact reify_extends h h' hx hc fuel e (List.all_eq_true.mp ho e he)
        | object fields =>
          simp only at ho ⊢
          congr 1
          apply List.map_congr_left
          intro kv hkv
          rw [reify_extends h h' hx hc fuel kv.2 (List.all_eq_true.mp ho kv hkv)]
    | undefined => rfl
    | null => rfl
    | bool b => rfl
    | num n => rfl
    | str s => rfl

/-- C20: `transformResponseData` leaves every object that exists before the
call as it is, at every address, so that the argument reads as the same tree
before and after, at every depth; what it returns is the argument itself or
an object made by the call. -/
theorem transformResponseData_keeps_argument (mappings : MappingTable) (fuel : Nat) (h : Heap)
    (d : HVal) :
    HeapExtends h (transformResponseData mappings fuel h d).1 ∧
    ((transformResponseData mappings fuel h d).2 = d ∨
      ∃ a, h.length ≤ a ∧ (transformResponseData mappings fuel h d).2 = .ref a) ∧
    (heapClosed h d = true → ∀ depth,
      reify (transformResponseData mappings fuel h d).1 depth d = reify h depth d) := by
  have hx : HeapExtends h (transformResponseData mappings fuel h d).1 := by
    unfold transformResponseData
    split
    · exact heapExtends_refl h
    split
    · exact heapExtends_refl h
    · exact transform_extends mappings fuel h h d (heapExtends_refl h)
  refine ⟨hx, ?_, ?_⟩
  · unfold transformResponseData
    split
    · exact Or.inl rfl
    split
    · exact Or.inl rfl
    · exact transform_result mappings fuel h d
  · intro hc depth
    simp only [heapClosed, Bool.and_eq_true] at hc
    exact reify_extends h _ hx hc.2 depth d hc.1

theorem transformResponseData_keeps_argument_witness :
    hRead (transformResponseData [("100", fullMapping)] 3 sampleHeap.2 sampleHeap.1).1
      (transformResponseData [("100", fullMapping)] 3 sampleHeap.2 sampleHeap.1).2 "name"
      = .str "Acme Cam" ∧
    hRead (transformResponseData [("100", fullMapping)] 3 sampleHeap.2 sampleHeap.1).1
      sampleHeap.1 "name" = .str "old" ∧
    reify (transformResponseData [("100", fullMapping)] 3 sampleHeap.2 sampleHeap.1).1 4
      sampleHeap.1 = reify sampleHeap.2 4 sampleHeap.1 :=
  ⟨by decide, by decide,
    (transformResponseData_keeps_argument [("100", fullMapping)] 3 sampleHeap.2
      sampleHeap.1).2.2 (by decide) 4⟩

/-! ### The fetch hook -/

/-- C19: the hook hands back the response it was given, and leaves the
harvester alone, when the request URL is not a string, when it is a string
without one of the substrings, when the mappings table is empty, and when
the body does not parse; a response it makes has the status, the status text
and the headers of the one it was given. -/
theorem fetchHook_pass_through (codec : JsonCodec) (mappings : MappingTable) (st : PageState)
    (input : JsVal) (response : Response) :
    ((∀ url, requestUrl input ≠ .str url) →
      fetchHook codec mappings st input response = (.original, st)) ∧
    (∀ url, requestUrl input = .str url → mentionsDeviceData url = false →
      fetchHook codec mappings st input response = (.original, st)) ∧
    (mappings = [] → fetchHook codec mappings st input response = (.original, st)) ∧
    (codec.parse response.body = none →
      fetchHook codec mappings st input response = (.original, st)) ∧
    (∀ r, (fetchHook codec mappings st input response).1 = .replaced r →
      r.status = response.status ∧ r.statusText = response.statusText ∧
        r.headers = response.headers) := by
  refine ⟨?_, ?_, ?_, ?_, ?_⟩
  · intro h
    unfold fetchHook
    split
    · rename_i url hurl
      exact absurd hurl (h url)
    · rfl
  · intro url hurl hno
    simp [fetchHook, hurl, needsTransformation, hno]
  · intro hm
    unfold fetchHook
    split
    · simp [needsTransformation, hm]
    · rfl
  · intro hp
    unfold fetchHook
    split
    · split
      · simp [hp]
      · rfl
    · rfl
  · intro r hr
    unfold fetchHook at hr
    split at hr
    · split at hr
      · split at hr
        · simp at hr
        · split at hr
          · simp only [HookResult.replaced.injEq] at hr
            subst hr
            exact ⟨rfl, rfl, rfl⟩
          · simp at hr
      · simp at hr
    · simp at hr

theorem fetchHook_pass_through_witness :
    fetchHook sampleCodec [("100", fullMapping)] PageState.init clientsRequest htmlResponse
      = (.original, PageState.init) ∧
    (fetchHook sampleCodec [("100", fullMapping)] PageState.init clientsRequest
      jsonResponse).1 = .replaced { jsonResponse with body := "Acme Cam" } ∧
    ({ jsonResponse with body := "Acme Cam" }.status = jsonResponse.status ∧
      { jsonResponse with body := "Acme Cam" }.statusText = jsonResponse.statusText ∧
      { jsonResponse with body := "Acme Cam" }.headers = jsonResponse.headers) :=
  ⟨(fetchHook_pass_through sampleCodec [("100", fullMapping)] PageState.init clientsRequest
      htmlResponse).2.2.2.1 rfl,
    by decide,
    (fetchHook_pass_through sampleCodec [("100", fullMapping)] PageState.init clientsRequest
      jsonResponse).2.2.2.2 { jsonResponse with body := "Acme Cam" } (by decide)⟩

/-! ### Elements of a later document and where they come from -/

theorem frameAt_refl (ρ : Node → Node → Prop) (hρ : Stable ρ) (p : Path) (doc : Node) :
    FrameAt ρ p doc doc :=
  fun n' h hel => ⟨n', h, hel, hρ.of_same n' n' rfl (fun _ => rfl)⟩

theorem frameAt_trans {ρ : Node → Node → Prop} (hρ : Stable ρ) {p : Path} {d1 d2 d3 : Node}
    (h12 : FrameAt ρ p d1 d2) (h23 : FrameAt ρ p d2 d3) : FrameAt ρ p d1 d3 := by
  intro n3 h3 hel3
  obtain ⟨n2, h2, hel2, r23⟩ := h23 n3 h3 hel3
  obtain ⟨n1, h1, hel1, r12⟩ := h12 n2 h2 hel2
  exact ⟨n1, h1, hel1, hρ.trans _ _ _ r12 r23⟩

theorem get?_text_cons (c : Node) (hc : c.isElement = false) (k : Nat) (p : Path) :
    c.get? (k :: p) = none := by
  cases c with
  | text s => rfl
  | elem tag attrs cs => simp [Node.isElement] at hc

theorem get?_nil (n : Node) : n.get? [] = some n := by
  cases n <;> rfl

theorem get?_elem_cons (tag : String) (attrs : List (String × String)) (cs : List Node)
    (j : Nat) (p : Path) :
    (Node.elem tag attrs cs).get? (j :: p) = (cs.get? j).bind (fun c => c.get? p) :=
  get?_cons _ j p

/-- A gentle change at `q` leaves an element at `p` only where there was one
before, with tag and attributes as before unless `p` is `q`. -/
theorem frameAt_modify (ρ : Node → Node → Prop) (hρ : Stable ρ) (f : Node → Node)
    (hf : Gentle f) :
    ∀ (q : Path) (doc : Node) (p : Path),
      (q = p → ∀ n, doc.get? q = some n → n.isElement = true → ρ n (f n)) →
      FrameAt ρ p doc (doc.modify f q)
  | [], doc, [], h => by
    intro n' hn' hel
    have hm : doc.modify f [] = f doc := by cases doc <;> rfl
    rw [hm, get?_nil, Option.some.injEq] at hn'
    subst hn'
    have hd : doc.isElement = true := by rw [← (hf doc).1]; exact hel
    exact ⟨doc, get?_nil doc, hd, h rfl doc (get?_nil doc) hd⟩
  | [], doc, j :: p, _ => by
    intro n' hn' hel
    have hm : doc.modify f [] = f doc := by cases doc <;> rfl
    rw [hm, get?_cons] at hn'
    rcases (hf doc).2 with hsame | hnone
    · rw [hsame, ← get?_cons] at hn'
      exact ⟨n', hn', hel, hρ.of_same n' n' rfl (fun _ => rfl)⟩
    · exfalso
      cases hc : (f doc).childNodes.get? j with
      | none =>
        rw [hc] at hn'
        exact absurd hn' (by simp)
      | some c =>
        have hcel := hnone c (List.get?_mem hc)
        rw [hc, Option.some_bind] at hn'
        cases p with
        | nil =>
          rw [get?_nil, Option.some.injEq] at hn'
          subst hn'
          rw [hcel] at hel
          exact absurd hel (by simp)
        | cons k p =>
          rw [get?_text_cons c hcel] at hn'
          exact absurd hn' (by simp)
  | i :: q, .text s, p, _ => by
    have hm : (Node.text s).modify f (i :: q) = .text s := rfl
    rw [hm]
    exact frameAt_refl ρ hρ p _
  | i :: q, .elem tag attrs cs, [], _ => by
    intro n' hn' hel
    have hm : (Node.elem tag attrs cs).modify f (i :: q)
        = .elem tag attrs (listModify (fun c => Node.modify f c q) cs i) := rfl
    rw [hm, get?_nil, Option.some.injEq] at hn'
    subst hn'
    exact ⟨.elem tag attrs cs, rfl, rfl, hρ.of_same _ _ rfl (fun _ => rfl)⟩
  | i :: q, .elem tag attrs cs, j :: p, h => by
    intro n' hn' hel
    have hm : (Node.elem tag attrs cs).modify f (i :: q)
        = .elem tag attrs (listModify (fun c => Node.modify f c q) cs i) := rfl
    rw [hm, get?_elem_cons] at hn'
    by_cases hij : i = j
    · subst hij
      rw [listModify_get?_same] at hn'
      cases hc : cs.get? i with
      | none =>
        rw [hc] at hn'
        exact absurd hn' (by simp)
      | some c =>
        rw [hc, Option.map_some', Option.some_bind] at hn'
        have ih := frameAt_modify ρ hρ f hf q c p (by
          intro hqp n hn hnel
          apply h (by rw [hqp]) n _ hnel
          rw [get?_elem_cons, hc, Option.some_bind]
          exact hn)
        obtain ⟨n, hn, hnel, hr⟩ := ih n' hn' hel
        refine ⟨n, ?_, hnel, hr⟩
        rw [get?_elem_cons, hc, Option.some_bind]
        exact hn
    · rw [listModify_get?_ne _ _ _ _ hij, ← get?_elem_cons tag attrs] at hn'
      exact ⟨n', hn', hel, hρ.of_same n' n' rfl (fun _ => rfl)⟩

theorem AttrOnly.gentle {f : Node → Node} (hf : AttrOnly f) : Gentle f :=
  fun n => ⟨(hf n).1, Or.inl (hf n).2⟩

theorem gentle_comp {f g : Node → Node} (hf : Gentle f) (hg : Gentle g) :
    Gentle (fun n => f (g n)) := by
  intro n
  refine ⟨(hf (g n)).1.trans (hg n).1, ?_⟩
  rcases (hf (g n)).2 with h1 | h1
  · rcases (hg n).2 with h2 | h2
    · exact Or.inl (h1.trans h2)
    · exact Or.inr (by rw [h1]; exact h2)
  · exact Or.inr h1

theorem gentle_setTextContent (value : String) : Gentle (setTextContent value) := by
  intro n
  cases n with
  | text s => exact ⟨rfl, Or.inl rfl⟩
  | elem tag attrs cs =>
    refine ⟨rfl, Or.inr ?_⟩
    intro c hc
    simp only [setTextContent, Node.childNodes] at hc
    split at hc
    · simp at hc
    · simp only [List.mem_singleton] at hc
      subst hc
      rfl

theorem attrOnly_stashOriginal : AttrOnly stashOriginal := by
  intro n
  unfold stashOriginal
  split
  · exact ⟨rfl, rfl⟩
  · exact ⟨by rw [isElement_setAttr, isElement_setAttr],
      by rw [childNodes_setAttr, childNodes_setAttr]⟩

theorem gentle_replaced (value : String) :
    Gentle (fun n => setTextContent value (stashOriginal n)) :=
  gentle_comp (gentle_setTextContent value) attrOnly_stashOriginal.gentle

theorem Stable.rfl' {ρ : Node → Node → Prop} (hρ : Stable ρ) (n : Node) : ρ n n :=
  hρ.of_same n n rfl (fun _ => rfl)

theorem Stable.setText {ρ : Node → Node → Prop} (hρ : Stable ρ) (value : String) (n : Node) :
    ρ n (setTextContent value n) := by
  apply hρ.of_same
  · cases n <;> rfl
  · intro name
    cases n <;> rfl

theorem Stable.stash {ρ : Node → Node → Prop} (hρ : Stable ρ) (n : Node) :
    ρ n (stashOriginal n) := by
  unfold stashOriginal
  split
  · exact hρ.rfl' n
  · exact hρ.trans _ _ _ (hρ.text n _ _ (by decide)) (hρ.text _ _ _ (by decide))

theorem Stable.replaced {ρ : Node → Node → Prop} (hρ : Stable ρ) (value : String) (n : Node) :
    ρ n (setTextContent value (stashOriginal n)) :=
  hρ.trans _ _ _ (hρ.stash n) (hρ.setText value _)

theorem frameAt_modify_all {ρ : Node → Node → Prop} (hρ : Stable ρ) {f : Node → Node}
    (hf : Gentle f) (h : ∀ n, ρ n (f n)) (p q : Path) (doc : Node) :
    FrameAt ρ p doc (doc.modify f q) :=
  frameAt_modify ρ hρ f hf q doc p (fun _ n _ _ => h n)

theorem frameAt_foldl {α : Type} {ρ : Node → Node → Prop} (hρ : Stable ρ) (p : Path)
    (g : Node → α → Node) (h : ∀ d a, FrameAt ρ p d (g d a)) (l : List α) (doc : Node) :
    FrameAt ρ p doc (l.foldl g doc) :=
  foldl_invariant (fun d => FrameAt ρ p doc d) g
    (fun d a hd => frameAt_trans hρ hd (h d a)) l doc (frameAt_refl ρ hρ p doc)

theorem frameAt_replaceText {ρ : Node → Node → Prop} (hρ : Stable ρ) (p : Path) (doc : Node)
    (el : Path) (value : String) :
    FrameAt ρ p doc (replaceTextPreservingStyle doc el value) :=
  frameAt_modify_all hρ (gentle_replaced value) (hρ.replaced value) p _ doc

theorem frameAt_replaceInRow {ρ : Node → Node → Prop} (hρ : Stable ρ) (p : Path)
    (fieldLabel newValue : String) (doc : Node) (row : Path) :
    FrameAt ρ p doc (replaceInRow fieldLabel newValue doc row) := by
  unfold replaceInRow
  split
  · split
    · split
      · exact frameAt_replaceText hρ p doc _ _
      · exact frameAt_refl ρ hρ p doc
    · exact frameAt_refl ρ hρ p doc
  · exact frameAt_refl ρ hρ p doc

theorem frameAt_replaceInfoField {ρ : Node → Node → Prop} (hρ : Stable ρ) (p : Path)
    (doc : Node) (container : Path) (fieldLabel newValue : String) :
    FrameAt ρ p doc (replaceInfoField doc container fieldLabel newValue) := by
  unfold replaceInfoField
  split
  · exact frameAt_replaceText hρ p doc _ _
  · exact frameAt_foldl hρ p _ (fun d row => frameAt_replaceInRow hρ p _ _ d row) _ doc

theorem gentle_setAttr (name value : String) : Gentle (Node.setAttr name value) :=
  (attrOnly_setAttr name value).gentle

theorem frameAt_setAttr {ρ : Node → Node → Prop} (hρ : Stable ρ) (p q : Path) (doc : Node)
    (name value : String) (h : name ∈ textAttributes) :
    FrameAt ρ p doc (doc.modify (Node.setAttr name value) q) :=
  frameAt_modify_all hρ (gentle_setAttr name value) (fun n => hρ.text n name value h) p q doc

theorem frameAt_setAttr2 {ρ : Node → Node → Prop} (hρ : Stable ρ) (p q : Path) (doc : Node)
    (name1 name2 value2 : String) (value1 : Node → String) (h1 : name1 ∈ textAttributes)
    (h2 : name2 ∈ textAttributes) :
    FrameAt ρ p doc
      (doc.modify (fun n => (n.setAttr name1 (value1 n)).setAttr name2 value2) q) := by
  apply frameAt_modify_all hρ _ _ p q doc
  · intro n
    exact ⟨by rw [isElement_setAttr, isElement_setAttr],
      Or.inl (by rw [childNodes_setAttr, childNodes_setAttr])⟩
  · intro n
    exact hρ.trans _ _ _ (hρ.text n _ _ h1) (hρ.text _ _ _ h2)

theorem frameAt_markDeviceType {ρ : Node → Node → Prop} (hρ : Stable ρ) (p : Path)
    (doc : Node) (el : Path) (newName : String) :
    FrameAt ρ p doc (markDeviceType doc el newName) := by
  unfold markDeviceType
  have h1 := frameAt_replaceText hρ p doc el newName
  have h2 := frameAt_trans hρ h1
    (frameAt_setAttr2 hρ p (innermostPath doc el) (replaceTextPreservingStyle doc el newName)
      "data-original-device-type" "data-device-type-overridden" "true"
      (fun n => (n.attr "data-original-text").getD "undefined") (by decide) (by decide))
  have h3 := frameAt_trans hρ h2 (frameAt_setAttr hρ p el _ "title" newName (by decide))
  dsimp only
  split
  · exact frameAt_trans hρ h3 (frameAt_setAttr hρ p _ _ "title" newName (by decide))
  · exact h3

theorem frameAt_markDeviceName {ρ : Node → Node → Prop} (hρ : Stable ρ) (p : Path)
    (doc : Node) (el : Path) (newName : String) :
    FrameAt ρ p doc (markDeviceName doc el newName) := by
  unfold markDeviceName
  exact frameAt_trans hρ (frameAt_replaceText hρ p doc el newName)
    (frameAt_setAttr2 hρ p (innermostPath doc el) (replaceTextPreservingStyle doc el newName)
      "data-original-device-name" "data-device-name-overridden" "true"
      (fun n => (n.attr "data-original-text").getD "undefined") (by decide) (by decide))

theorem frameAt_replaceDeviceNameByHeading {ρ : Node → Node → Prop} (hρ : Stable ρ)
    (p : Path) (doc : Node) (container : Path) (newName : String) :
    FrameAt ρ p doc (replaceDeviceNameByHeading doc container newName) := by
  unfold replaceDeviceNameByHeading
  split
  · exact frameAt_markDeviceName hρ p doc _ _
  · exact frameAt_refl ρ hρ p doc

theorem frameAt_replaceDeviceName {ρ : Node → Node → Prop} (hρ : Stable ρ) (p : Path)
    (fontWeight : Path → Nat) (doc : Node) (container : Path) (newName : String)
    (deviceIcon : Option Path) :
    FrameAt ρ p doc (replaceDeviceName fontWeight doc container newName deviceIcon) := by
  unfold replaceDeviceName
  split
  · split
    · exact frameAt_markDeviceType hρ p doc _ _
    · exact frameAt_replaceDeviceNameByHeading hρ p doc _ _
  · exact frameAt_replaceDeviceNameByHeading hρ p doc _ _

theorem frameAt_revealPanel {ρ : Node → Node → Prop} (hρ : GateStable ρ) (p : Path)
    (st : PatchState) (panel : Path) : FrameAt ρ p st.doc (revealPanel st panel).doc := by
  unfold revealPanel
  apply frameAt_modify_all hρ.toStable _ (hρ.revealPanel) p panel st.doc
  intro n
  exact ⟨by rw [isElement_setAttr, isElement_removeAttr],
    Or.inl (by rw [childNodes_setAttr, childNodes_removeAttr])⟩

theorem frameAt_ite {ρ : Node → Node → Prop} (hρ : Stable ρ) (p : Path) (c : Bool)
    (doc doc' : Node) (h : FrameAt ρ p doc doc') :
    FrameAt ρ p doc (if c = true then doc' else doc) := by
  split
  · exact h
  · exact frameAt_refl ρ hρ p doc

theorem frameAt_applyDeviceOverrides {ρ : Node → Node → Prop} (hρ : GateStable ρ) (p : Path)
    (fontWeight : Path → Nat) (st : PatchState) (container : Path) (mapping : CustomMapping)
    (deviceIcon : Option Path) (deviceId : String) :
    FrameAt ρ p st.doc
      (applyDeviceOverrides fontWeight st container mapping deviceIcon deviceId).doc := by
  unfold applyDeviceOverrides
  dsimp only
  refine frameAt_trans hρ.toStable ?_ (frameAt_revealPanel hρ p _ container)
  dsimp only
  refine frameAt_trans hρ.toStable ?_
    (frameAt_ite hρ.toStable p _ _ _ (frameAt_replaceDeviceName hρ.toStable p _ _ _ _ _))
  refine frameAt_trans hρ.toStable ?_
    (frameAt_ite hρ.toStable p _ _ _ (frameAt_replaceInfoField hρ.toStable p _ _ _ _))
  refine frameAt_trans hρ.toStable ?_
    (frameAt_ite hρ.toStable p _ _ _ (frameAt_replaceInfoField hρ.toStable p _ _ _ _))
  exact frameAt_ite hρ.toStable p _ _ _ (frameAt_replaceInfoField hρ.toStable p _ _ _ _)

theorem gentle_markVendor (newVendor deviceId : String) :
    Gentle (markVendor newVendor deviceId) := by
  unfold markVendor
  apply gentle_comp (gentle_setTextContent newVendor)
  intro n
  refine ⟨?_, Or.inl ?_⟩
  · rw [isElement_setAttr, isElement_setAttr]
    split
    · rfl
    · exact isElement_setAttr _ _ _
  · rw [childNodes_setAttr, childNodes_setAttr]
    split
    · rfl
    · exact childNodes_setAttr _ _ _

theorem Stable.of_markVendor {ρ : Node → Node → Prop} (hρ : Stable ρ) (newVendor deviceId : String)
    (n : Node) : ρ n (markVendor newVendor deviceId n) := by
  unfold markVendor
  refine hρ.trans _ _ _ ?_ (hρ.setText newVendor _)
  refine hρ.trans _ _ _ ?_ (hρ.text _ _ _ (by decide))
  refine hρ.trans _ _ _ ?_ (hρ.text _ _ _ (by decide))
  split
  · exact hρ.rfl' n
  · exact hρ.text _ _ _ (by decide)

theorem frameAt_replaceVendor {ρ : Node → Node → Prop} (hρ : Stable ρ) (p : Path)
    (layout : PageLayout) (doc : Node) (icon : Path) (newVendor deviceId : String) :
    FrameAt ρ p doc (replaceVendorInTableRow layout doc icon newVendor deviceId) := by
  unfold replaceVendorInTableRow
  split
  · exact frameAt_modify_all hρ (gentle_markVendor _ _) (hρ.of_markVendor _ _) p _ doc
  · exact frameAt_refl ρ hρ p doc

/-! ### Engine states before and after a step -/

theorem StateframeAt_refl {ρ : Node → Node → Prop} (hρ : Stable ρ) (p : Path)
    (s : EngineState) : StateFrameAt ρ p s s :=
  ⟨frameAt_refl ρ hρ p _, rfl⟩

theorem StateframeAt_trans {ρ : Node → Node → Prop} (hρ : Stable ρ) {p : Path}
    {s1 s2 s3 : EngineState} (h12 : StateFrameAt ρ p s1 s2) (h23 : StateFrameAt ρ p s2 s3) :
    StateFrameAt ρ p s1 s3 :=
  ⟨frameAt_trans hρ h12.1 h23.1, h23.2.trans h12.2⟩

theorem stateFrameAt_foldl {α : Type} {ρ : Node → Node → Prop} (hρ : Stable ρ) (p : Path)
    (g : EngineState → α → EngineState) (l : List α)
    (h : ∀ s a, a ∈ l → StateFrameAt ρ p s (g s a)) (st : EngineState) :
    StateFrameAt ρ p st (l.foldl g st) :=
  foldl_invariant_mem (fun s => StateFrameAt ρ p st s) g l st
    (fun s a ha hs => StateframeAt_trans hρ hs (h s a ha)) (StateframeAt_refl hρ p st)

theorem stateFrameAt_andThen {ρ : Node → Node → Prop} (hρ : Stable ρ) (p : Path)
    (st : EngineState) (r : Run) (next : EngineState → Run)
    (h1 : StateFrameAt ρ p st r.state)
    (h2 : ∀ s, StateFrameAt ρ p s (next s).state) :
    StateFrameAt ρ p st (r.andThen next).state := by
  unfold Run.andThen
  split
  · exact StateframeAt_trans hρ h1 (h2 _)
  · exact h1

theorem stateFrameAt_forEachRun {α : Type} {ρ : Node → Node → Prop} (hρ : Stable ρ)
    (p : Path) (body : EngineState → α → Run)
    (h : ∀ s a, StateFrameAt ρ p s (body s a).state) :
    ∀ (l : List α) (st : EngineState), StateFrameAt ρ p st (forEachRun body l st).state
  | [], st => StateframeAt_refl hρ p st
  | a :: l, st => by
    have hb := h st a
    unfold forEachRun
    cases hr : body st a with
    | mk s1 c =>
      rw [hr] at hb
      cases c with
      | true => exact StateframeAt_trans hρ hb (stateFrameAt_forEachRun hρ p body h l s1)
      | false => exact hb

theorem stateFrameAt_applyToLocated {ρ : Node → Node → Prop} (hρ : GateStable ρ) (p : Path)
    (layout : PageLayout) (st : EngineState) (mapping : CustomMapping) (deviceId : String)
    (located : Path × Path) :
    StateFrameAt ρ p st (applyToLocated layout st mapping deviceId located) :=
  ⟨frameAt_applyDeviceOverrides hρ p _ st.patch _ _ _ deviceId, rfl⟩

theorem stateFrameAt_replaceDeviceInfoInPanel {ρ : Node → Node → Prop} (hρ : GateStable ρ)
    (p : Path) (layout : PageLayout) (st : EngineState) (deviceId : String) :
    StateFrameAt ρ p st (replaceDeviceInfoInPanel layout st deviceId).state := by
  have hr := StateframeAt_refl hρ.toStable p st
  have ha := fun mapping located =>
    stateFrameAt_applyToLocated hρ p layout st mapping deviceId located
  unfold replaceDeviceInfoInPanel
  split
  · exact hr
  · split
    · exact hr
    · split
      · exact hr
      · exact ha _ _
      · split
        · exact hr
        · exact ha _ _
        · split
          · exact hr
          · exact ha _ _
          · exact hr

theorem stateFrameAt_replaceAllDeviceInfo {ρ : Node → Node → Prop} (hρ : GateStable ρ)
    (p : Path) (layout : PageLayout) (st : EngineState) :
    StateFrameAt ρ p st (replaceAllDeviceInfo layout st).state :=
  stateFrameAt_forEachRun hρ.toStable p _
    (fun s a => stateFrameAt_replaceDeviceInfoInPanel hρ p layout s a) _ st

theorem stateFrameAt_scanPanel {ρ : Node → Node → Prop} (hρ : GateStable ρ) (p : Path)
    (layout : PageLayout) (st : EngineState) (panel : Path) :
    StateFrameAt ρ p st (scanPanel layout st panel) := by
  have hr := StateframeAt_refl hρ.toStable p st
  unfold scanPanel
  split
  · exact hr
  split
  · exact hr
  split
  · exact hr
  · apply stateFrameAt_foldl hρ.toStable p
    intro s deviceId _
    dsimp only
    split
    · split
      · exact ⟨frameAt_applyDeviceOverrides hρ p _ s.patch _ _ _ deviceId, rfl⟩
      · exact StateframeAt_refl hρ.toStable p s
    · exact StateframeAt_refl hρ.toStable p s

theorem stateFrameAt_scanAndReplaceAllPanels {ρ : Node → Node → Prop} (hρ : GateStable ρ)
    (p : Path) (layout : PageLayout) (st : EngineState) :
    StateFrameAt ρ p st (scanAndReplaceAllPanels layout st) := by
  unfold scanAndReplaceAllPanels
  split
  · exact StateframeAt_refl hρ.toStable p st
  · apply stateFrameAt_foldl hρ.toStable p
    intro s sel _
    exact stateFrameAt_foldl hρ.toStable p _ _
      (fun s2 panel _ => stateFrameAt_scanPanel hρ p layout s2 panel) s

theorem nodeAt_of_get? {doc : Node} {p : Path} {n : Node} (h : doc.get? p = some n) :
    nodeAt doc p = n := by
  simp [nodeAt, h]

theorem frameAt_hideAndMark {ρ : Node → Node → Prop} (hρ : GateStable ρ) (p : Path)
    (doc : Node) (panel : Path) : FrameAt ρ p doc (hideAndMark doc panel) := by
  unfold hideAndMark
  split
  · exact frameAt_refl ρ hρ.toStable p doc
  · rename_i hm
    apply frameAt_modify ρ hρ.toStable _ _ panel doc p
    · intro _ n hn _
      apply hρ.hideAndMark
      rw [nodeAt_of_get? hn] at hm
      simpa using hm
    · exact (attrOnly_comp (attrOnly_setAttr "data-unifi-panel-processing" "true")
        (attrOnly_setAttr "style.opacity" "0")).gentle

theorem frameAt_hideOnly {ρ : Node → Node → Prop} (hρ : GateStable ρ) (p : Path)
    (doc : Node) (panel : Path) : FrameAt ρ p doc (hideOnly doc panel) := by
  unfold hideOnly
  split
  · exact frameAt_refl ρ hρ.toStable p doc
  · rename_i hm
    apply frameAt_modify ρ hρ.toStable _ _ panel doc p
    · intro _ n hn _
      apply hρ.hideOnly
      rw [nodeAt_of_get? hn] at hm
      simpa using hm
    · exact gentle_setAttr _ _

theorem attrOnly_patchImage (deviceId customUrl : String) :
    AttrOnly (patchImage deviceId customUrl) := by
  intro n
  cases n with
  | text s => exact ⟨rfl, rfl⟩
  | elem tag attrs cs =>
    unfold patchImage
    dsimp only
    split <;> exact ⟨rfl, rfl⟩

theorem stateFrameAt_patchIcon {ρ : Node → Node → Prop} (hρ : GateStable ρ) (p : Path)
    (layout : PageLayout) (st : EngineState) (path : Path) (deviceId customUrl : String)
    (hpatch : path = p → ∀ n, ρ n (patchImage deviceId customUrl n)) :
    StateFrameAt ρ p st (patchIcon layout st path deviceId customUrl) := by
  refine ⟨?_, rfl⟩
  unfold patchIcon
  simp only [EngineState.doc, EngineState.schedule, EngineState.withDoc]
  have h1 : FrameAt ρ p st.patch.doc
      (match closest (matchesAny containingPanelSelectors st.patch.doc) path with
        | some panel => hideAndMark st.patch.doc panel
        | none => st.patch.doc) := by
    split
    · exact frameAt_hideAndMark hρ p _ _
    · exact frameAt_refl ρ hρ.toStable p _
  have h2 := frameAt_trans hρ.toStable h1
    (frameAt_modify ρ hρ.toStable (patchImage deviceId customUrl)
      (attrOnly_patchImage deviceId customUrl).gentle path _ p
      (fun hq n _ _ => hpatch hq n))
  split
  · split
    · exact frameAt_trans hρ.toStable h2 (frameAt_replaceVendor hρ.toStable p _ _ _ _ _)
    · exact h2
  · exact h2

theorem stateFrameAt_replaceIcon {ρ : Node → Node → Prop} (hρ : GateStable ρ) (p : Path)
    (layout : PageLayout) (st : EngineState) (e : ListedNode)
    (hpatch : e.path = p → ∀ deviceId customUrl n, ρ n (patchImage deviceId customUrl n)) :
    StateFrameAt ρ p st (replaceIcon layout st e) := by
  have hr := StateframeAt_refl hρ.toStable p st
  unfold replaceIcon
  cases imageDeviceId (e.current st.doc).1 with
  | none => exact hr
  | some deviceId =>
    dsimp only
    cases getCustomIconUrl st.customIconMappings deviceId with
    | none => exact hr
    | some customUrl =>
      dsimp only
      split
      · exact hr
      · split
        · exact ⟨frameAt_refl ρ hρ.toStable p _, rfl⟩
        · exact stateFrameAt_patchIcon hρ p layout st e.path deviceId customUrl
            (fun hq => hpatch hq deviceId customUrl)

theorem stateFrameAt_refreshReplacedIcon {ρ : Node → Node → Prop} (hρ : GateStable ρ)
    (p : Path) (layout : PageLayout) (st : EngineState) (e : ListedNode) :
    StateFrameAt ρ p st (refreshReplacedIcon layout st e).state := by
  have hr := StateframeAt_refl hρ.toStable p st
  unfold refreshReplacedIcon
  split
  · exact hr
  · split
    · exact hr
    · split
      · exact hr
      · apply stateFrameAt_andThen hρ.toStable p st _ _
          (stateFrameAt_replaceDeviceInfoInPanel hρ p layout st _)
        intro s
        dsimp only
        split
        · exact ⟨frameAt_replaceVendor hρ.toStable p _ _ _ _ _, rfl⟩
        · exact StateframeAt_refl hρ.toStable p s

/-- The second and third part of `replaceIconsInDom`, from the state the
first loop leaves. -/
theorem stateFrameAt_afterIcons {ρ : Node → Node → Prop} (hρ : GateStable ρ) (p : Path)
    (layout : PageLayout) (st1 : EngineState) (l : List ListedNode) :
    StateFrameAt ρ p st1
      ((forEachRun (refreshReplacedIcon layout) l st1).andThen
        (fun s => { state := scanAndReplaceAllPanels layout s, completed := true })).state :=
  stateFrameAt_andThen hρ.toStable p st1 _ _
    (stateFrameAt_forEachRun hρ.toStable p _
      (fun s a => stateFrameAt_refreshReplacedIcon hρ p layout s a) l st1)
    (fun s => stateFrameAt_scanAndReplaceAllPanels hρ p layout s)

theorem stateFrameAt_replaceIconsInDom {ρ : Node → Node → Prop} (hρ : GateStable ρ)
    (p : Path) (layout : PageLayout) (st : EngineState)
    (hpatch : ∀ deviceId customUrl n, ρ n (patchImage deviceId customUrl n)) :
    StateFrameAt ρ p st (replaceIconsInDom layout st).state := by
  unfold replaceIconsInDom
  dsimp only
  exact StateframeAt_trans hρ.toStable
    (stateFrameAt_foldl hρ.toStable p _ _
      (fun s e _ => stateFrameAt_replaceIcon hρ p layout s e
        (fun _ => hpatch)) st)
    (stateFrameAt_afterIcons hρ p layout _ _)

/-! ### The two relations the engine keeps -/

theorem mem_imageAttributes_ne (name k : String) (hn : name ∈ imageAttributes)
    (hk : k ∉ imageAttributes) : name ≠ k :=
  fun e => hk (e ▸ hn)

theorem sameImage_setAttr (n : Node) (k v : String) (hk : k ∉ imageAttributes) :
    SameImage n (n.setAttr k v) :=
  ⟨(tagName_setAttr n k v).symm, fun name hn =>
    (attr_setAttr_ne n k v name (mem_imageAttributes_ne name k hn hk)).symm⟩

theorem sameImage_removeAttr (n : Node) (k : String) (hk : k ∉ imageAttributes) :
    SameImage n (n.removeAttr k) :=
  ⟨(tagName_removeAttr n k).symm, fun name hn =>
    (attr_removeAttr_ne n k name (mem_imageAttributes_ne name k hn hk)).symm⟩

theorem sameImage_trans {a b c : Node} (h1 : SameImage a b) (h2 : SameImage b c) :
    SameImage a c :=
  ⟨h1.1.trans h2.1, fun name hn => (h1.2 name hn).trans (h2.2 name hn)⟩

theorem sameImage_refl (n : Node) : SameImage n n := ⟨rfl, fun _ _ => rfl⟩

theorem tagName_addClass (cls : String) (n : Node) : (addClass cls n).tagName = n.tagName := by
  unfold addClass
  split
  · split
    · rfl
    · exact tagName_setAttr _ _ _
  · exact tagName_setAttr _ _ _

theorem sameImage_addClass (cls : String) (n : Node) : SameImage n (addClass cls n) :=
  ⟨(tagName_addClass cls n).symm, fun name hn =>
    (attr_addClass_ne cls n name
      (mem_imageAttributes_ne name "class" hn (by decide))).symm⟩

theorem text_not_image : ∀ name ∈ textAttributes, name ∉ imageAttributes := by decide

theorem sameImage_gateStable : GateStable SameImage where
  of_same := fun _ _ ht ha => ⟨ht, fun name _ => ha name⟩
  trans := fun _ _ _ h1 h2 => sameImage_trans h1 h2
  text := fun n name value h => sameImage_setAttr n name value (text_not_image name h)
  revealPanel := fun n =>
    sameImage_trans (sameImage_removeAttr n _ (by decide)) (sameImage_setAttr _ _ _ (by decide))
  revealNode := fun unmark n => by
    cases unmark with
    | false =>
      exact sameImage_trans (sameImage_removeAttr n _ (by decide))
        (sameImage_setAttr _ _ _ (by decide))
    | true =>
      exact sameImage_trans
        (sameImage_trans (sameImage_removeAttr n _ (by decide))
          (sameImage_setAttr _ _ _ (by decide)))
        (sameImage_removeAttr _ _ (by decide))
  clickRevealNode := fun n =>
    sameImage_trans
      (sameImage_trans
        (sameImage_trans (sameImage_removeAttr n _ (by decide)) (sameImage_addClass _ _))
        (sameImage_setAttr _ _ _ (by decide)))
      (sameImage_removeAttr _ _ (by decide))
  hideAndMark := fun n _ =>
    sameImage_trans (sameImage_setAttr n _ _ (by decide)) (sameImage_setAttr _ _ _ (by decide))
  hideOnly := fun n _ => sameImage_setAttr n _ _ (by decide)

/-- A later element with the gate attributes of the earlier one keeps the gate. -/
theorem gateKept_of_attrs (n n' : Node)
    (h1 : n'.attr "data-unifi-panel-processed" = n.attr "data-unifi-panel-processed")
    (h2 : n'.attr "style.opacity" = n.attr "style.opacity")
    (h3 : n'.attr "data-unifi-panel-processing" = n.attr "data-unifi-panel-processing") :
    GateKept n n' := by
  intro hp
  rw [h1, h2, h3]
  exact ⟨hp, id, id⟩

theorem gateKept_trans {a b c : Node} (h1 : GateKept a b) (h2 : GateKept b c) :
    GateKept a c := by
  intro hp
  obtain ⟨hb, hbo, hbp⟩ := h1 hp
  obtain ⟨hc, hco, hcp⟩ := h2 hb
  exact ⟨hc, fun h => hbo (hco h), fun h => hbp (hcp h)⟩

theorem isElement_of_truthy_attr (n : Node) (name : String)
    (h : truthyStr (n.attr name) = true) : n.isElement = true := by
  cases n with
  | text s => simp [Node.attr, truthyStr] at h
  | elem tag attrs cs => rfl

theorem gateKept_setAttr (n : Node) (k v : String)
    (hk : k ∉ ["data-unifi-panel-processed", "style.opacity", "data-unifi-panel-processing"]) :
    GateKept n (n.setAttr k v) := by
  simp only [List.mem_cons, List.mem_singleton, List.not_mem_nil, or_false, not_or] at hk
  exact gateKept_of_attrs _ _ (attr_setAttr_ne _ _ _ _ (Ne.symm hk.1))
    (attr_setAttr_ne _ _ _ _ (Ne.symm hk.2.1)) (attr_setAttr_ne _ _ _ _ (Ne.symm hk.2.2))

theorem gateKept_removeAttr (n : Node) (k : String)
    (hk : k ∉ ["data-unifi-panel-processed", "style.opacity", "data-unifi-panel-processing"]) :
    GateKept n (n.removeAttr k) := by
  simp only [List.mem_cons, List.mem_singleton, List.not_mem_nil, or_false, not_or] at hk
  exact gateKept_of_attrs _ _ (attr_removeAttr_ne _ _ _ (Ne.symm hk.1))
    (attr_removeAttr_ne _ _ _ (Ne.symm hk.2.1)) (attr_removeAttr_ne _ _ _ (Ne.symm hk.2.2))

theorem text_not_gate : ∀ name ∈ textAttributes,
    name ∉ ["data-unifi-panel-processed", "style.opacity", "data-unifi-panel-processing"] := by
  decide

theorem gateKept_revealNode (unmark : Bool) (n : Node) : GateKept n (revealNode unmark n) := by
  intro hp
  have hel := isElement_of_truthy_attr n _ hp
  have h := revealNode_shown unmark n hel
  refine ⟨by rw [h.2.1]; rfl, fun ho => ?_, fun hpr => ?_⟩
  · rw [h.1] at ho
    exact absurd ho (by simp)
  · cases unmark with
    | true =>
      rw [h.2.2 rfl] at hpr
      exact absurd hpr (by simp)
    | false =>
      simp only [revealNode, Bool.false_eq_true, if_false] at hpr
      rw [attr_setAttr_ne _ _ _ _ (by decide), attr_removeAttr_ne _ _ _ (by decide)] at hpr
      exact hpr

theorem gateKept_gateStable : GateStable GateKept where
  of_same := fun n n' _ ha => gateKept_of_attrs n n' (ha _).symm (ha _).symm (ha _).symm
  trans := fun _ _ _ h1 h2 => gateKept_trans h1 h2
  text := fun n name value h => gateKept_setAttr n name value (text_not_gate name h)
  revealPanel := fun n => by
    intro hp
    have hel := isElement_of_truthy_attr n _ hp
    refine ⟨?_, fun ho => ?_, fun hpr => ?_⟩
    · rw [attr_setAttr_same _ _ _ (by rw [isElement_removeAttr]; exact hel)]
      rfl
    · rw [attr_setAttr_ne _ _ _ _ (by decide), attr_removeAttr_ne _ _ _ (by decide)] at ho
      exact ho
    · rw [attr_setAttr_ne _ _ _ _ (by decide), attr_removeAttr_same] at hpr
      exact absurd hpr (by simp)
  revealNode := gateKept_revealNode
  clickRevealNode := fun n => by
    intro hp
    have hel := isElement_of_truthy_attr n _ hp
    have h := clickRevealNode_shown n hel
    refine ⟨by rw [h.2.1]; rfl, fun ho => ?_, fun hpr => ?_⟩
    · rw [h.1] at ho
      exact absurd ho (by simp)
    · rw [h.2.2] at hpr
      exact absurd hpr (by simp)
  hideAndMark := fun n hn hp => by
    rw [hn] at hp
    exact absurd hp (by simp)
  hideOnly := fun n hn hp => by
    rw [hn] at hp
    exact absurd hp (by simp)

/-! ### Every step of the engine -/

theorem attr_patchImage_ne (deviceId customUrl : String) (n : Node) (name : String)
    (h : name ∉ imageAttributes) : (patchImage deviceId customUrl n).attr name = n.attr name := by
  simp only [imageAttributes, List.mem_cons, List.mem_singleton, List.not_mem_nil, or_false,
    not_or] at h
  obtain ⟨h1, h2, h3, h4, h5, h6⟩ := h
  unfold patchImage
  dsimp only
  split
  · rw [attr_removeAttr_ne _ _ _ h2, attr_setAttr_ne _ _ _ _ h1, attr_setAttr_ne _ _ _ _ h6,
      attr_setAttr_ne _ _ _ _ h4, attr_setAttr_ne _ _ _ _ h5, attr_setAttr_ne _ _ _ _ h3]
  · rw [attr_setAttr_ne _ _ _ _ h1, attr_setAttr_ne _ _ _ _ h6,
      attr_setAttr_ne _ _ _ _ h5, attr_setAttr_ne _ _ _ _ h3]

theorem attr_restoreImage_ne (n : Node) (name : String) (h : name ∉ imageAttributes) :
    (restoreImage n).attr name = n.attr name := by
  simp only [imageAttributes, List.mem_cons, List.mem_singleton, List.not_mem_nil, or_false,
    not_or] at h
  obtain ⟨h1, h2, h3, h4, h5, h6⟩ := h
  unfold restoreImage
  dsimp only
  rw [attr_removeAttr_ne _ _ _ h6]
  have e1 : (if truthyStr (n.attr "data-original-src") then
        (n.setAttr "src" ((n.attr "data-original-src").getD "")).removeAttr "data-original-src"
      else n).attr name = n.attr name := by
    split
    · rw [attr_removeAttr_ne _ _ _ h3, attr_setAttr_ne _ _ _ _ h1]
    · rfl
  have e2 : ∀ m : Node, (if truthyStr (m.attr "data-original-srcset") then
        (m.setAttr "srcset" ((m.attr "data-original-srcset").getD "")).removeAttr
          "data-original-srcset"
      else m).attr name = m.attr name := by
    intro m
    split
    · rw [attr_removeAttr_ne _ _ _ h4, attr_setAttr_ne _ _ _ _ h2]
    · rfl
  rw [e2, e1]

theorem attrOnly_restoreImage : AttrOnly restoreImage := by
  intro n
  cases n with
  | text s => exact ⟨rfl, rfl⟩
  | elem tag attrs cs =>
    unfold restoreImage
    dsimp only
    split <;> split <;> exact ⟨rfl, rfl⟩

theorem gateKept_patchImage (deviceId customUrl : String) (n : Node) :
    GateKept n (patchImage deviceId customUrl n) :=
  gateKept_of_attrs _ _ (attr_patchImage_ne _ _ _ _ (by decide))
    (attr_patchImage_ne _ _ _ _ (by decide)) (attr_patchImage_ne _ _ _ _ (by decide))

theorem gateKept_restoreImage (n : Node) : GateKept n (restoreImage n) :=
  gateKept_of_attrs _ _ (attr_restoreImage_ne _ _ (by decide))
    (attr_restoreImage_ne _ _ (by decide)) (attr_restoreImage_ne _ _ (by decide))

theorem frameAt_observerHide {ρ : Node → Node → Prop} (hρ : GateStable ρ) (p : Path)
    (st : EngineState) (records : List MutationRecord) :
    FrameAt ρ p st.doc (observerHide st records).1 := by
  unfold observerHide
  split
  · exact frameAt_refl ρ hρ.toStable p _
  · apply foldl_invariant (fun a : Node × List Path => FrameAt ρ p st.doc a.1)
    · intro acc record hacc
      cases record with
      | attributes _ _ => exact hacc
      | characterData _ => exact hacc
      | childList addedNodes =>
        simp only [observerHideRecord]
        apply foldl_invariant (fun a : Node × List Path => FrameAt ρ p st.doc a.1)
        · intro acc2 node hacc2
          unfold observerHideNode
          apply foldl_invariant (fun a : Node × List Path => FrameAt ρ p st.doc a.1)
          · intro a panel ha
            split
            · exact ha
            · exact frameAt_trans hρ.toStable ha (frameAt_hideOnly hρ p a.1 panel)
          · exact hacc2
        · exact hacc
    · exact frameAt_refl ρ hρ.toStable p _

theorem stateFrameAt_schedule {ρ : Node → Node → Prop} (hρ : Stable ρ) (p : Path)
    (s : EngineState) (t : Callback) : StateFrameAt ρ p s (s.schedule t) :=
  ⟨frameAt_refl ρ hρ p _, rfl⟩

theorem stateFrameAt_observerCallback {ρ : Node → Node → Prop} (hρ : GateStable ρ) (p : Path)
    (layout : PageLayout) (st : EngineState) (records : List MutationRecord)
    (hpatch : ∀ deviceId customUrl n, ρ n (patchImage deviceId customUrl n)) :
    StateFrameAt ρ p st (observerCallback layout st records).state := by
  unfold observerCallback
  dsimp only
  have h1 : StateFrameAt ρ p st (st.withDoc (observerHide st records).1) :=
    ⟨frameAt_observerHide hρ p st records, rfl⟩
  apply stateFrameAt_andThen hρ.toStable p st
  · split
    · exact StateframeAt_trans hρ.toStable h1
        (stateFrameAt_replaceIconsInDom hρ p layout _ hpatch)
    · exact h1
  · intro s
    dsimp only
    split
    · exact StateframeAt_refl hρ.toStable p s
    · exact stateFrameAt_schedule hρ.toStable p s _

theorem stateFrameAt_clickHandler {ρ : Node → Node → Prop} (hρ : GateStable ρ) (p : Path)
    (st : EngineState) (target : Path) : StateFrameAt ρ p st (clickHandler st target) := by
  have hr := StateframeAt_refl hρ.toStable p st
  unfold clickHandler
  split
  · exact hr
  split
  · exact hr
  split
  · exact hr
  split
  · exact hr
  · exact ⟨frameAt_foldl hρ.toStable p hideAndMark
      (fun d panel => frameAt_hideAndMark hρ p d panel) _ st.doc, rfl⟩

theorem stateFrameAt_runTask {ρ : Node → Node → Prop} (hρ : GateStable ρ) (p : Path)
    (layout : PageLayout) (st : EngineState) (t : Callback)
    (hpatch : ∀ deviceId customUrl n, ρ n (patchImage deviceId customUrl n)) :
    StateFrameAt ρ p st (runTask layout st t).state := by
  cases t with
  | iconFrame deviceId containingPanel =>
    apply stateFrameAt_andThen hρ.toStable p st _ _
      (stateFrameAt_replaceDeviceInfoInPanel hρ p layout st deviceId)
    intro s
    dsimp only
    split
    · exact ⟨frameAt_modify_all hρ.toStable (attrOnly_revealNode true).gentle
        (hρ.revealNode true) p _ s.doc, rfl⟩
    · exact StateframeAt_refl hρ.toStable p s
  | observerFrame panels =>
    apply stateFrameAt_andThen hρ.toStable p st
    · apply stateFrameAt_andThen hρ.toStable p st _ _
        (stateFrameAt_replaceAllDeviceInfo hρ p layout st)
      intro s
      exact stateFrameAt_replaceIconsInDom hρ p layout s hpatch
    · intro s
      exact StateframeAt_trans hρ.toStable (stateFrameAt_scanAndReplaceAllPanels hρ p layout s)
        (stateFrameAt_schedule hρ.toStable p _ _)
  | observerReveal panels =>
    exact ⟨frameAt_foldl hρ.toStable p _
      (fun d q => frameAt_modify_all hρ.toStable (attrOnly_revealNode false).gentle
        (hρ.revealNode false) p q d) panels st.doc, rfl⟩
  | clickFrame deviceId panels =>
    apply stateFrameAt_andThen hρ.toStable p st
    · apply stateFrameAt_andThen hρ.toStable p st _ _
        (stateFrameAt_replaceIconsInDom hρ p layout st hpatch)
      intro s
      exact stateFrameAt_replaceDeviceInfoInPanel hρ p layout s deviceId
    · intro s
      exact StateframeAt_trans hρ.toStable (stateFrameAt_scanAndReplaceAllPanels hρ p layout s)
        (stateFrameAt_schedule hρ.toStable p _ _)
  | clickReveal panels =>
    exact ⟨frameAt_foldl hρ.toStable p _
      (fun d q => frameAt_modify_all hρ.toStable attrOnly_clickRevealNode.gentle
        hρ.clickRevealNode p q d) panels st.doc, rfl⟩
  | applyMappings => exact stateFrameAt_replaceAllDeviceInfo hρ p layout st

theorem frameAt_onCustomIcons {ρ : Node → Node → Prop} (hρ : GateStable ρ) (p : Path)
    (layout : PageLayout) (st : EngineState) (mappings : MappingTable)
    (hpatch : ∀ deviceId customUrl n, ρ n (patchImage deviceId customUrl n))
    (hrestore : ∀ n, ρ n (restoreImage n)) :
    FrameAt ρ p st.doc (onCustomIcons layout st mappings).state.doc := by
  unfold onCustomIcons
  split
  · exact (stateFrameAt_andThen hρ.toStable p { st with customIconMappings := mappings } _ _
      (stateFrameAt_replaceIconsInDom hρ p layout _ hpatch)
      (fun s => stateFrameAt_schedule hρ.toStable p s _)).1
  · exact frameAt_foldl hρ.toStable p _
      (fun d q => frameAt_modify_all hρ.toStable attrOnly_restoreImage.gentle hrestore p q d)
      _ st.doc

theorem staysPatched_of_frameAt (p : Path) (doc doc' : Node)
    (hp : truthyStr ((nodeAt doc p).attr "data-unifi-panel-processed") = true)
    (h : FrameAt GateKept p doc doc') : StaysPatched p doc doc' := by
  have key : (nodeAt doc' p).isElement = true →
      ∃ n n', doc.get? p = some n ∧ doc'.get? p = some n' ∧ GateKept n n' := by
    intro hv
    cases hg : doc'.get? p with
    | none => simp [nodeAt, hg, Node.isElement] at hv
    | some n' =>
      rw [nodeAt_of_get? hg] at hv
      obtain ⟨n, hn, _, hr⟩ := h n' hg hv
      exact ⟨n, n', hn, rfl, hr⟩
  have hel : ∀ name value, (nodeAt doc' p).attr name = some value →
      (nodeAt doc' p).isElement = true := by
    intro name value hv
    cases hn : nodeAt doc' p with
    | text s => rw [hn] at hv; simp [Node.attr] at hv
    | elem tag attrs cs => rfl
  refine ⟨fun ho => ?_, fun ho => ?_, fun he => ?_⟩
  · obtain ⟨n, n', hn, hn', hr⟩ := key (hel _ _ ho)
    rw [nodeAt_of_get? hn] at hp ⊢
    rw [nodeAt_of_get? hn'] at ho
    exact (hr hp).2.1 ho
  · obtain ⟨n, n', hn, hn', hr⟩ := key (hel _ _ ho)
    rw [nodeAt_of_get? hn] at hp ⊢
    rw [nodeAt_of_get? hn'] at ho
    exact (hr hp).2.2 ho
  · obtain ⟨n, n', hn, hn', hr⟩ := key he
    rw [nodeAt_of_get? hn] at hp
    rw [nodeAt_of_get? hn']
    exact (hr hp).1

/-- C17: a panel that carries the processed marker is not hidden and not
marked as processing again, and keeps the marker, by any step of the engine:
the pre-hide of the observer and the whole observer callback, the click
handler, the pre-hide of `replaceIconsInDom` and the whole function, every
scheduled callback, and the `custom-icons` message. -/
theorem processed_panel_stays_patched (layout : PageLayout) (st : EngineState) (p : Path)
    (hp : truthyStr ((nodeAt st.doc p).attr "data-unifi-panel-processed") = true) :
    (∀ records, StaysPatched p st.doc (observerHide st records).1) ∧
    (∀ records, StaysPatched p st.doc (observerCallback layout st records).state.doc) ∧
    (∀ target, StaysPatched p st.doc (clickHandler st target).doc) ∧
    (∀ panel, StaysPatched p st.doc (hideAndMark st.doc panel)) ∧
    StaysPatched p st.doc (replaceIconsInDom layout st).state.doc ∧
    (∀ t, StaysPatched p st.doc (runTask layout st t).state.doc) ∧
    (∀ mappings, StaysPatched p st.doc (onCustomIcons layout st mappings).state.doc) := by
  refine ⟨fun records => ?_, fun records => ?_, fun target => ?_, fun panel => ?_, ?_,
    fun t => ?_, fun mappings => ?_⟩
  · exact staysPatched_of_frameAt p _ _ hp (frameAt_observerHide gateKept_gateStable p st records)
  · exact staysPatched_of_frameAt p _ _ hp
      (stateFrameAt_observerCallback gateKept_gateStable p layout st records
        gateKept_patchImage).1
  · exact staysPatched_of_frameAt p _ _ hp
      (stateFrameAt_clickHandler gateKept_gateStable p st target).1
  · exact staysPatched_of_frameAt p _ _ hp (frameAt_hideAndMark gateKept_gateStable p _ panel)
  · exact staysPatched_of_frameAt p _ _ hp
      (stateFrameAt_replaceIconsInDom gateKept_gateStable p layout st gateKept_patchImage).1
  · exact staysPatched_of_frameAt p _ _ hp
      (stateFrameAt_runTask gateKept_gateStable p layout st t gateKept_patchImage).1
  · exact staysPatched_of_frameAt p _ _ hp
      (frameAt_onCustomIcons gateKept_gateStable p layout st mappings gateKept_patchImage
        gateKept_restoreImage)

theorem processed_panel_stays_patched_witness :
    truthyStr ((nodeAt processedPanelDoc [0]).attr "data-unifi-panel-processed") = true ∧
    (nodeAt (observerCallback flatLayout (engineOn processedPanelDoc [("100", acme2)])
      [.childList [[0]]]).state.doc [0]).attr "style.opacity" = none ∧
    StaysPatched [0] processedPanelDoc
      (observerCallback flatLayout (engineOn processedPanelDoc [("100", acme2)])
        [.childList [[0]]]).state.doc ∧
    StaysPatched [0] processedPanelDoc
      (clickHandler (engineOn processedPanelDoc [("100", acme2)]) [0, 0]).doc :=
  ⟨by decide, by decide,
    (processed_panel_stays_patched flatLayout (engineOn processedPanelDoc [("100", acme2)])
      [0] (by decide)).2.1 [.childList [[0]]],
    (processed_panel_stays_patched flatLayout (engineOn processedPanelDoc [("100", acme2)])
      [0] (by decide)).2.2.1 [0, 0]⟩

/-! ### Patching the images -/

theorem imageDeviceId_congr (n0 n : Node) (h : SameImage n0 n) :
    imageDeviceId n = imageDeviceId n0 := by
  unfold imageDeviceId
  rw [h.2 "src" (by decide), h.2 "srcset" (by decide)]

theorem PatchedFrom.of_sameImage {orig n n' : Node} {deviceId customUrl : String}
    (hp : PatchedFrom orig deviceId customUrl n) (hs : SameImage n n') :
    PatchedFrom orig deviceId customUrl n' := by
  unfold PatchedFrom at hp ⊢
  rw [← hs.2 "src" (by decide), ← hs.2 "srcset" (by decide),
    ← hs.2 "data-original-src" (by decide), ← hs.2 "data-device-id" (by decide),
    ← hs.2 "data-original-srcset" (by decide), ← hs.2 "data-custom-icon-applied" (by decide)]
  exact hp

theorem patchImage_patched (orig n : Node) (deviceId customUrl : String)
    (hel : n.isElement = true) (hs : SameImage orig n) :
    PatchedFrom orig deviceId customUrl (patchImage deviceId customUrl n) := by
  have hsrc := hs.2 "src" (by decide)
  have hset := hs.2 "srcset" (by decide)
  have e1 : (n.setAttr "data-original-src" ((n.attr "src").getD "")).isElement = true := by
    rw [isElement_setAttr]; exact hel
  have e2 : ((n.setAttr "data-original-src" ((n.attr "src").getD "")).setAttr
      "data-device-id" deviceId).isElement = true := by
    rw [isElement_setAttr]; exact e1
  unfold PatchedFrom patchImage
  dsimp only
  by_cases ht : truthyStr (n.attr "srcset") = true
  · simp only [ht, if_true]
    have e3 : (((n.setAttr "data-original-src" ((n.attr "src").getD "")).setAttr
        "data-device-id" deviceId).setAttr "data-original-srcset"
          ((n.attr "srcset").getD "")).isElement = true := by
      rw [isElement_setAttr]; exact e2
    have e4 : ((((n.setAttr "data-original-src" ((n.attr "src").getD "")).setAttr
        "data-device-id" deviceId).setAttr "data-original-srcset"
          ((n.attr "srcset").getD "")).setAttr "data-custom-icon-applied" "true").isElement
        = true := by
      rw [isElement_setAttr]; exact e3
    refine ⟨?_, ?_, ?_, ?_, ?_, ?_⟩
    · rw [attr_removeAttr_ne _ _ _ (by decide), attr_setAttr_same _ _ _ e4]
    · rw [attr_removeAttr_same]; rfl
    · rw [attr_removeAttr_ne _ _ _ (by decide), attr_setAttr_ne _ _ _ _ (by decide),
        attr_setAttr_ne _ _ _ _ (by decide), attr_setAttr_ne _ _ _ _ (by decide),
        attr_setAttr_ne _ _ _ _ (by decide), attr_setAttr_same _ _ _ hel, hsrc]
    · rw [attr_removeAttr_ne _ _ _ (by decide), attr_setAttr_ne _ _ _ _ (by decide),
        attr_setAttr_ne _ _ _ _ (by decide), attr_setAttr_ne _ _ _ _ (by decide),
        attr_setAttr_same _ _ _ e1]
    · intro _
      refine ⟨?_, attr_removeAttr_same _ _⟩
      rw [attr_removeAttr_ne _ _ _ (by decide), attr_setAttr_ne _ _ _ _ (by decide),
        attr_setAttr_ne _ _ _ _ (by decide), attr_setAttr_same _ _ _ e2, hset]
      cases hv : n.attr "srcset" with
      | none => rw [hv] at ht; simp [truthyStr] at ht
      | some v => rfl
    · rw [attr_removeAttr_ne _ _ _ (by decide), attr_setAttr_ne _ _ _ _ (by decide),
        attr_setAttr_same _ _ _ e3]
  · simp only [ht, Bool.false_eq_true, if_false]
    have e3 : (((n.setAttr "data-original-src" ((n.attr "src").getD "")).setAttr
        "data-device-id" deviceId).setAttr "data-custom-icon-applied" "true").isElement
        = true := by
      rw [isElement_setAttr]; exact e2
    refine ⟨?_, ?_, ?_, ?_, ?_, ?_⟩
    · rw [attr_setAttr_same _ _ _ e3]
    · rw [attr_setAttr_ne _ _ _ _ (by decide), attr_setAttr_ne _ _ _ _ (by decide),
        attr_setAttr_ne _ _ _ _ (by decide), attr_setAttr_ne _ _ _ _ (by decide)]
      simpa using ht
    · rw [attr_setAttr_ne _ _ _ _ (by decide), attr_setAttr_ne _ _ _ _ (by decide),
        attr_setAttr_ne _ _ _ _ (by decide), attr_setAttr_same _ _ _ hel, hsrc]
    · rw [attr_setAttr_ne _ _ _ _ (by decide), attr_setAttr_ne _ _ _ _ (by decide),
        attr_setAttr_same _ _ _ e1]
    · intro h0
      rw [hset] at h0
      exact absurd h0 ht
    · rw [attr_setAttr_ne _ _ _ _ (by decide), attr_setAttr_same _ _ _ e2]

theorem current_attached (doc : Node) (e : ListedNode) (h : (e.current doc).2 = true) :
    ∃ n, doc.get? e.path = some n ∧ n.isElement = true ∧ (e.current doc).1 = n := by
  unfold ListedNode.current at h ⊢
  cases hg : doc.get? e.path with
  | none => simp [hg] at h
  | some n =>
    simp only [hg] at h ⊢
    by_cases hn : n.isElement = true
    · exact ⟨n, rfl, hn, by simp [hn]⟩
    · simp [hn] at h

theorem current_detached (doc : Node) (e : ListedNode) (h : (e.current doc).2 = false)
    (n : Node) (hn : doc.get? e.path = some n) : n.isElement = false := by
  unfold ListedNode.current at h
  simp only [hn] at h
  by_cases hel : n.isElement = true
  · simp [hel] at h
  · simpa using hel

theorem replaceIcon_mappings (layout : PageLayout) (st : EngineState) (e : ListedNode) :
    (replaceIcon layout st e).customIconMappings = st.customIconMappings := by
  unfold replaceIcon
  cases imageDeviceId (e.current st.doc).1 with
  | none => rfl
  | some deviceId =>
    dsimp only
    cases getCustomIconUrl st.customIconMappings deviceId with
    | none => rfl
    | some customUrl =>
      dsimp only
      split
      · rfl
      · split <;> rfl

/-- The block that patches an image leaves it, if it leaves it in the
document, patched from what it was. -/
theorem patchIcon_patches (layout : PageLayout) (s : EngineState) (p : Path) (orig : Node)
    (deviceId customUrl : String)
    (hpend : ∀ n, s.doc.get? p = some n → n.isElement = true → SameImage orig n) :
    ∀ n', (patchIcon layout s p deviceId customUrl).doc.get? p = some n' →
      n'.isElement = true → PatchedFrom orig deviceId customUrl n' := by
  intro n' hn' hel'
  unfold patchIcon at hn'
  simp only [EngineState.doc, EngineState.schedule, EngineState.withDoc] at hn' hpend
  have hst := sameImage_gateStable.toStable
  have h1 : FrameAt SameImage p s.patch.doc
      (match closest (matchesAny containingPanelSelectors s.patch.doc) p with
        | some panel => hideAndMark s.patch.doc panel
        | none => s.patch.doc) := by
    split
    · exact frameAt_hideAndMark sameImage_gateStable p _ _
    · exact frameAt_refl SameImage hst p _
  generalize (match closest (matchesAny containingPanelSelectors s.patch.doc) p with
        | some panel => hideAndMark s.patch.doc panel
        | none => s.patch.doc) = doc1 at h1 hn'
  have h3 : FrameAt SameImage p (doc1.modify (patchImage deviceId customUrl) p)
      (match mappingOf s.customIconMappings deviceId with
        | some mapping =>
          if truthyStr mapping.manufacturer then
            replaceVendorInTableRow layout (doc1.modify (patchImage deviceId customUrl) p) p
              (mapping.manufacturer.getD "") deviceId
          else doc1.modify (patchImage deviceId customUrl) p
        | none => doc1.modify (patchImage deviceId customUrl) p) := by
    split
    · split
      · exact frameAt_replaceVendor hst p _ _ _ _ _
      · exact frameAt_refl SameImage hst p _
    · exact frameAt_refl SameImage hst p _
  obtain ⟨n2, hn2, hel2, hs2⟩ := h3 n' hn' hel'
  rw [get?_modify_self] at hn2
  cases hg : doc1.get? p with
  | none => rw [hg] at hn2; simp at hn2
  | some n1 =>
    rw [hg, Option.map_some', Option.some.injEq] at hn2
    subst hn2
    have hel1 : n1.isElement = true := by
      rw [← (attrOnly_patchImage deviceId customUrl n1).1]; exact hel2
    obtain ⟨n, hn, hel, hs⟩ := h1 n1 hg hel1
    exact (patchImage_patched orig n1 deviceId customUrl hel1
      (sameImage_trans (hpend n hn hel) hs)).of_sameImage hs2

/-- The callback for the image at `p`, run on a pending image, patches it. -/
theorem replaceIcon_patches_self (layout : PageLayout) (s : EngineState) (e : ListedNode)
    (orig : Node) (deviceId customUrl : String)
    (hpend : ∀ n, s.doc.get? e.path = some n → n.isElement = true → SameImage orig n)
    (hid : imageDeviceId orig = some deviceId)
    (hurl : getCustomIconUrl s.customIconMappings deviceId = some customUrl)
    (hm : truthyStr (orig.attr "data-custom-icon-applied") = false) :
    ∀ n', (replaceIcon layout s e).doc.get? e.path = some n' → n'.isElement = true →
      PatchedFrom orig deviceId customUrl n' := by
  by_cases hatt : (e.current s.doc).2 = true
  · obtain ⟨n, hn, hel, hcur⟩ := current_attached s.doc e hatt
    have hs := hpend n hn hel
    have hidn : imageDeviceId (e.current s.doc).1 = some deviceId := by
      rw [hcur, imageDeviceId_congr orig n hs, hid]
    have hmn : truthyStr ((e.current s.doc).1.attr "data-custom-icon-applied") = false := by
      rw [hcur, ← hs.2 _ (by decide), hm]
    have hrep : replaceIcon layout s e = patchIcon layout s e.path deviceId customUrl := by
      unfold replaceIcon
      simp [hidn, hurl, hmn, hatt]
    rw [hrep]
    exact patchIcon_patches layout s e.path orig deviceId customUrl hpend
  · have hdet : (e.current s.doc).2 = false := by simpa using hatt
    have hdoc : (replaceIcon layout s e).doc = s.doc := by
      unfold replaceIcon
      cases imageDeviceId (e.current s.doc).1 with
      | none => rfl
      | some d =>
        dsimp only
        cases getCustomIconUrl s.customIconMappings d with
        | none => rfl
        | some u =>
          dsimp only
          split
          · rfl
          · rw [hdet]
            rfl
    intro n' hn' hel'
    rw [hdoc] at hn'
    have := current_detached s.doc e hdet n' hn'
    rw [this] at hel'
    exact absurd hel' (by simp)

/-- The callback for the image at `p`, run on a patched image, leaves the
document as it is. -/
theorem replaceIcon_patched_self (layout : PageLayout) (s : EngineState) (e : ListedNode)
    (orig : Node) (deviceId customUrl : String)
    (hp : ∀ n, s.doc.get? e.path = some n → n.isElement = true →
      PatchedFrom orig deviceId customUrl n) :
    (replaceIcon layout s e).doc = s.doc := by
  unfold replaceIcon
  cases imageDeviceId (e.current s.doc).1 with
  | none => rfl
  | some d =>
    dsimp only
    cases getCustomIconUrl s.customIconMappings d with
    | none => rfl
    | some u =>
      dsimp only
      split
      · rfl
      · rename_i hmark
        by_cases hatt : (e.current s.doc).2 = true
        · exfalso
          obtain ⟨n, hn, hel, hcur⟩ := current_attached s.doc e hatt
          have := (hp n hn hel).2.2.2.2.2
          rw [hcur, this] at hmark
          exact hmark rfl
        · have hdet : (e.current s.doc).2 = false := by simpa using hatt
          rw [hdet]
          rfl

/-- The first loop of `replaceIconsInDom` keeps a patched image patched. -/
theorem foldl_replaceIcon_keeps (layout : PageLayout) (p : Path) (orig : Node)
    (deviceId customUrl : String) :
    ∀ (l : List ListedNode) (s : EngineState),
      (∀ n, s.doc.get? p = some n → n.isElement = true →
        PatchedFrom orig deviceId customUrl n) →
      ∀ n', (l.foldl (replaceIcon layout) s).doc.get? p = some n' → n'.isElement = true →
        PatchedFrom orig deviceId customUrl n'
  | [], _, hp => hp
  | e :: l, s, hp => by
    rw [List.foldl_cons]
    apply foldl_replaceIcon_keeps layout p orig deviceId customUrl l
    by_cases he : e.path = p
    · subst he
      rw [replaceIcon_patched_self layout s e orig deviceId customUrl hp]
      exact hp
    · intro n' hn' hel'
      obtain ⟨n, hn, hel, hs⟩ :=
        (stateFrameAt_replaceIcon sameImage_gateStable p layout s e
          (fun h => absurd h he)).1 n' hn' hel'
      exact (hp n hn hel).of_sameImage hs

/-- The first loop of `replaceIconsInDom` patches a pending image that is
in its list. -/
theorem foldl_replaceIcon_patches (layout : PageLayout) (p : Path) (orig : Node)
    (deviceId customUrl : String) (mappings : MappingTable)
    (hid : imageDeviceId orig = some deviceId)
    (hurl : getCustomIconUrl mappings deviceId = some customUrl)
    (hm : truthyStr (orig.attr "data-custom-icon-applied") = false) :
    ∀ (l : List ListedNode) (s : EngineState),
      s.customIconMappings = mappings →
      (∀ n, s.doc.get? p = some n → n.isElement = true → SameImage orig n) →
      (∃ e ∈ l, e.path = p) →
      ∀ n', (l.foldl (replaceIcon layout) s).doc.get? p = some n' → n'.isElement = true →
        PatchedFrom orig deviceId customUrl n'
  | [], _, _, _, hex => by
    obtain ⟨e, he, _⟩ := hex
    simp at he
  | e :: l, s, hmap, hpend, hex => by
    rw [List.foldl_cons]
    by_cases he : e.path = p
    · subst he
      apply foldl_replaceIcon_keeps layout e.path orig deviceId customUrl l
      exact replaceIcon_patches_self layout s e orig deviceId customUrl hpend hid
        (by rw [hmap]; exact hurl) hm
    · apply foldl_replaceIcon_patches layout p orig deviceId customUrl mappings hid hurl hm l
      · rw [replaceIcon_mappings, hmap]
      · intro n' hn' hel'
        obtain ⟨n, hn, hel, hs⟩ :=
          (stateFrameAt_replaceIcon sameImage_gateStable p layout s e
            (fun h => absurd h he)).1 n' hn' hel'
        exact sameImage_trans (hpend n hn hel) hs
      · obtain ⟨e2, he2, hp2⟩ := hex
        rcases List.mem_cons.mp he2 with h | h
        · subst h
          exact absurd hp2 he
        · exact ⟨e2, h, hp2⟩

/-- C13 (the claim fails as stated): the image of device 100 carries the marker of an
earlier patch and shows the built-in icon again; its `src` matches the
pattern and the mapping of device 100 has an icon, yet `replaceIconsInDom`
returns and leaves `src` as it is. -/
theorem replaceIconsInDom_skips_marked_image :
    extractFingerprintId (srcOf resetSrcDoc [0]) = some "100" ∧
    getCustomIconUrl [("100", acme2)] "100" = some "https://example.com/acme.png" ∧
    (replaceIconsInDom flatLayout (engineOn resetSrcDoc [("100", acme2)])).completed = true ∧
    (nodeAt (replaceIconsInDom flatLayout (engineOn resetSrcDoc [("100", acme2)])).state.doc
      [0]).attr "src" = some (fpUrl "100") := by
  refine ⟨by decide, by decide, by decide, by decide⟩

/-- C13 (amended): an image that the first query of `replaceIconsInDom`
lists, that does not carry the marker, and whose device id (read from `src`,
else from a non-empty `srcset`) has a mapping with a non-empty icon, is
patched: if it is still in the document when the function ends, its `src`
is the icon, it has no non-empty `srcset`, and it carries the stash of its
old `src` and `srcset`, the device id and the marker. -/
theorem replaceIconsInDom_patches_unmarked (layout : PageLayout) (st : EngineState) (p : Path)
    (deviceId customUrl : String)
    (hsel : p ∈ (allElements st.doc).filter (fun q => isImg st.doc q &&
      (attrIncludes st.doc q "src" "fingerprint" ||
        attrIncludes st.doc q "srcset" "fingerprint")))
    (hid : imageDeviceId (nodeAt st.doc p) = some deviceId)
    (hurl : getCustomIconUrl st.customIconMappings deviceId = some customUrl)
    (hm : truthyStr ((nodeAt st.doc p).attr "data-custom-icon-applied") = false) :
    ∀ n', (replaceIconsInDom layout st).state.doc.get? p = some n' → n'.isElement = true →
      PatchedFrom (nodeAt st.doc p) deviceId customUrl n' := by
  intro n' hn' hel'
  unfold replaceIconsInDom at hn'
  dsimp only at hn'
  obtain ⟨n1, hn1, hel1, hs1⟩ :=
    (stateFrameAt_afterIcons sameImage_gateStable p layout _ _).1 n' hn' hel'
  refine PatchedFrom.of_sameImage ?_ hs1
  refine foldl_replaceIcon_patches layout p (nodeAt st.doc p) deviceId customUrl
    st.customIconMappings hid hurl hm _ st rfl ?_ ?_ n1 hn1 hel1
  · intro n hn _
    rw [nodeAt_of_get? hn]
    exact sameImage_refl n
  · exact ⟨{ path := p, snapshot := nodeAt st.doc p },
      List.mem_map.mpr ⟨p, hsel, rfl⟩, rfl⟩

theorem replaceIconsInDom_patches_unmarked_witness :
    (nodeAt (replaceIconsInDom flatLayout (engineOn freshImageDoc [("100", acme2)])).state.doc
      [0, 0]).attr "src" = some "https://example.com/acme.png" ∧
    PatchedFrom (nodeAt freshImageDoc [0, 0]) "100" "https://example.com/acme.png"
      (nodeAt (replaceIconsInDom flatLayout (engineOn freshImageDoc [("100", acme2)])).state.doc
        [0, 0]) :=
  ⟨by decide,
    replaceIconsInDom_patches_unmarked flatLayout (engineOn freshImageDoc [("100", acme2)])
      [0, 0] "100" "https://example.com/acme.png" (by decide) (by decide) (by decide)
      (by decide) _ rfl (by decide)⟩

/-! ### The storage manager -/

theorem migrateEntry_eq (host : Host) (m : Migration) (e : String × JsVal) :
    migrateEntry host m e =
      { registry :=
          match migratedEntry e.2 (host.now m.ticks) with
          | some x => objSet m.registry e.1 x
          | none => m.registry
        needsSave := m.needsSave || needsMigration e.2
        ticks := if needsMigration e.2 then m.ticks + 1 else m.ticks } := by
  obtain ⟨k, v⟩ := e
  obtain ⟨r, s, t⟩ := m
  cases v with
  | undefined => simp [migrateEntry, migratedEntry, needsMigration]
  | null => simp [migrateEntry, migratedEntry, needsMigration]
  | bool b => simp [migrateEntry, migratedEntry, needsMigration]
  | num n => simp [migrateEntry, migratedEntry, needsMigration]
  | str x => simp [migrateEntry, migratedEntry, needsMigration]
  | arr xs =>
    simp [migrateEntry, migratedEntry, needsMigration, JsVal.getProp, jsOr, JsVal.truthy]
  | obj fs =>
    by_cases h : ((JsVal.obj fs).getProp "addedAt").truthy = true
    · simp [migrateEntry, migratedEntry, needsMigration, jsOr, h]
    · simp [migrateEntry, migratedEntry, needsMigration, jsOr, h]

theorem migratedEntry_of_settled (v : JsVal) (t t' : Int) (h : needsMigration v = false) :
    migratedEntry v t = migratedEntry v t' := by
  cases v with
  | undefined => rfl
  | null => rfl
  | bool b => rfl
  | num n => rfl
  | str x => simp [needsMigration] at h
  | arr xs => simp [needsMigration, JsVal.getProp, JsVal.truthy] at h
  | obj fs =>
    simp only [needsMigration, Bool.not_eq_false'] at h
    simp [migratedEntry, jsOr, h]

theorem migrate_fold_ticks (host : Host) (es : List (String × JsVal)) (m : Migration) :
    (es.foldl (migrateEntry host) m).ticks =
      m.ticks + (es.filter (fun e => needsMigration e.2)).length := by
  induction es generalizing m with
  | nil => simp
  | cons e rest ih =>
    rw [List.foldl_cons, ih, migrateEntry_eq]
    by_cases h : needsMigration e.2 = true
    · simp [h]; omega
    · simp [h]

theorem migrate_fold_needsSave (host : Host) (es : List (String × JsVal)) (m : Migration) :
    (es.foldl (migrateEntry host) m).needsSave =
      (m.needsSave || es.any (fun e => needsMigration e.2)) := by
  induction es generalizing m with
  | nil => simp
  | cons e rest ih =>
    rw [List.foldl_cons, ih, migrateEntry_eq]
    simp [Bool.or_assoc]

theorem migrate_fold_of_not_key (host : Host) (es : List (String × JsVal)) (m : Migration)
    (id : String) (h : ∀ e ∈ es, e.1 ≠ id) :
    objGet (es.foldl (migrateEntry host) m).registry id = objGet m.registry id := by
  induction es generalizing m with
  | nil => rfl
  | cons e rest ih =>
    rw [List.foldl_cons, ih _ (fun x hx => h x (List.mem_cons_of_mem _ hx)), migrateEntry_eq]
    have hne := h e (List.mem_cons_self _ _)
    cases migratedEntry e.2 (host.now m.ticks) with
    | none => rfl
    | some x => simp only; rw [objGet_objSet, if_neg hne]

theorem migrate_fold_of_mem (host : Host) (es : List (String × JsVal)) (m : Migration)
    (id : String) (v : JsVal) (hnodup : (es.map Prod.fst).Nodup) (hmem : (id, v) ∈ es) :
    ∃ k, m.ticks ≤ k ∧
      objGet (es.foldl (migrateEntry host) m).registry id =
        match migratedEntry v (host.now k) with
        | some x => some x
        | none => objGet m.registry id := by
  induction es generalizing m with
  | nil => simp at hmem
  | cons e rest ih =>
    rw [List.map_cons, List.nodup_cons] at hnodup
    rw [List.foldl_cons]
    rcases List.mem_cons.mp hmem with h | h
    · subst h
      refine ⟨m.ticks, le_refl _, ?_⟩
      rw [migrate_fold_of_not_key, migrateEntry_eq]
      · cases migratedEntry v (host.now m.ticks) with
        | none => rfl
        | some x => simp only; rw [objGet_objSet, if_pos rfl]
      · intro x hx hk
        exact hnodup.1 (List.mem_map.mpr ⟨x, hx, hk⟩)
    · obtain ⟨k, hk, hget⟩ := ih (migrateEntry host m e) hnodup.2 h
      refine ⟨k, ?_, ?_⟩
      · have : m.ticks ≤ (migrateEntry host m e).ticks := by
          rw [migrateEntry_eq]; simp only; split <;> omega
        omega
      · rw [hget]
        cases migratedEntry v (host.now k) with
        | some x => rfl
        | none =>
          simp only
          rw [migrateEntry_eq]
          have hne : e.1 ≠ id := fun hk => hnodup.1 (List.mem_map.mpr ⟨(id, v), h, hk.symm⟩)
          cases migratedEntry e.2 (host.now m.ticks) with
          | none => rfl
          | some x => simp only; rw [objGet_objSet, if_neg hne]

theorem objGet_migrate_none (host : Host) (stored : JsObj) (t : Nat) (id : String)
    (h : objGet stored id = none) :
    objGet (migrateRegistryIfNeeded host stored t).registry id = none := by
  unfold migrateRegistryIfNeeded
  rw [migrate_fold_of_not_key]
  · rfl
  · intro e he hk
    have hv := (mem_objEntries stored e.1 e.2).mp he
    rw [hk, h] at hv
    simp at hv

theorem objGet_migrate_some (host : Host) (stored : JsObj) (t : Nat) (id : String) (v : JsVal)
    (h : objGet stored id = some v) :
    ∃ k, t ≤ k ∧
      objGet (migrateRegistryIfNeeded host stored t).registry id =
        migratedEntry v (host.now k) := by
  unfold migrateRegistryIfNeeded
  obtain ⟨k, hk, hget⟩ := migrate_fold_of_mem host (objEntries stored)
    { registry := [], needsSave := false, ticks := t } id v (nodup_objKeys stored)
    ((mem_objEntries stored id v).mpr h)
  refine ⟨k, hk, ?_⟩
  rw [hget]
  cases migratedEntry v (host.now k) <;> rfl

theorem migrate_needsSave_iff (host : Host) (stored : JsObj) (t : Nat) :
    (migrateRegistryIfNeeded host stored t).needsSave = true ↔
      ∃ id v, objGet stored id = some v ∧ needsMigration v = true := by
  unfold migrateRegistryIfNeeded
  rw [migrate_fold_needsSave]
  simp only [Bool.false_or, List.any_eq_true, Prod.exists]
  constructor
  · rintro ⟨id, v, hmem, hn⟩
    exact ⟨id, v, (mem_objEntries stored id v).mp hmem, hn⟩
  · rintro ⟨id, v, hget, hn⟩
    exact ⟨id, v, (mem_objEntries stored id v).mpr hget, hn⟩

theorem migrate_ticks_of_settled (host : Host) (stored : JsObj) (t : Nat)
    (h : (migrateRegistryIfNeeded host stored t).needsSave = false) :
    (migrateRegistryIfNeeded host stored t).ticks = t := by
  unfold migrateRegistryIfNeeded at h ⊢
  rw [migrate_fold_needsSave] at h
  rw [migrate_fold_ticks]
  simp only [Bool.false_or] at h
  have : (objEntries stored).filter (fun e => needsMigration e.2) = [] := by
    rw [List.filter_eq_nil_iff]
    intro e he hn
    have : (objEntries stored).any (fun e => needsMigration e.2) = true :=
      List.any_eq_true.mpr ⟨e, he, hn⟩
    rw [h] at this
    exact absurd this (by decide)
  rw [this]
  rfl

theorem getRegistry_of_needsSave (host : Host) (st : StoreState) (hread : host.readOk = true)
    (h : (migrateRegistryIfNeeded host (readRegistry st.area) st.ticks).needsSave = true) :
    (StorageManager.getRegistry host st).1 =
        (migrateRegistryIfNeeded host (readRegistry st.area) st.ticks).registry ∧
      (StorageManager.getRegistry host st).2.saved =
        st.saved ++ [(StorageManager.getRegistry host st).1] ∧
      (StorageManager.getRegistry host st).2.area =
        (if host.writeOk then
          objSet st.area registryKey (.obj (StorageManager.getRegistry host st).1)
        else st.area) := by
  unfold StorageManager.getRegistry StorageManager.saveRegistry
  simp only [hread, if_true, h]
  cases host.writeOk <;> simp

theorem getRegistry_of_settled (host : Host) (st : StoreState) (hread : host.readOk = true)
    (h : (migrateRegistryIfNeeded host (readRegistry st.area) st.ticks).needsSave = false) :
    StorageManager.getRegistry host st =
      ((migrateRegistryIfNeeded host (readRegistry st.area) st.ticks).registry, st) := by
  unfold StorageManager.getRegistry
  simp only [hread, if_true, h, Bool.false_eq_true, if_false]
  rw [migrate_ticks_of_settled host _ _ h]

theorem getRegistry_fst (host : Host) (st : StoreState) (hread : host.readOk = true) :
    (StorageManager.getRegistry host st).1 =
      (migrateRegistryIfNeeded host (readRegistry st.area) st.ticks).registry := by
  unfold StorageManager.getRegistry
  simp only [hread, if_true]
  split <;> rfl

theorem readRegistry_objSet (area : ChromeStorage) (registry : JsObj) :
    readRegistry (objSet area registryKey (.obj registry)) = registry := by
  unfold readRegistry
  rw [objGet_objSet]
  simp

/-- C21 (the claim fails as stated): the stored entry `{name: "", addedAt: 5}`
has the shape `{name, addedAt}`, yet `getRegistry` returns it with the name
`"Unknown"`, and it hands nothing to the storage. -/
theorem getRegistry_renames_unnamed_entry :
    (((objGet (readRegistry (storeOf unnamedRegistry).area) "7").getD .undefined).getProp
        "name").toKey = "" ∧
      (((objGet (StorageManager.getRegistry workingHost (storeOf unnamedRegistry)).1 "7").getD
        .undefined).getProp "name").toKey = "Unknown" ∧
      (StorageManager.getRegistry workingHost (storeOf unnamedRegistry)).2.saved.length = 0 := by
  decide

/-- C21 (amended): when the read succeeds, `getRegistry` returns a registry
with no id the stored one lacks; a stored name string `s` comes back as
`{name: s, addedAt: t}` with `t` an answer of `Date.now()` during the call; a
stored object whose `name` and `addedAt` are both truthy comes back as
`{name, addedAt}` with these two values.  If some entry is a string the
returned registry is handed to the storage, which holds it afterwards when
the write succeeds; if every entry is an object with a truthy `addedAt`,
nothing is written and the area stays as it is. -/
theorem getRegistry_migrates_legacy (host : Host) (st : StoreState)
    (hread : host.readOk = true) :
    (∀ id, objGet (readRegistry st.area) id = none →
      objGet (StorageManager.getRegistry host st).1 id = none) ∧
    (∀ id s, objGet (readRegistry st.area) id = some (.str s) →
      ∃ k, st.ticks ≤ k ∧ objGet (StorageManager.getRegistry host st).1 id =
        some (.obj [("name", .str s), ("addedAt", .num (host.now k))])) ∧
    (∀ id fs, objGet (readRegistry st.area) id = some (.obj fs) →
      ((JsVal.obj fs).getProp "name").truthy = true →
      ((JsVal.obj fs).getProp "addedAt").truthy = true →
      objGet (StorageManager.getRegistry host st).1 id =
        some (.obj [("name", (JsVal.obj fs).getProp "name"),
          ("addedAt", (JsVal.obj fs).getProp "addedAt")])) ∧
    ((∃ id s, objGet (readRegistry st.area) id = some (.str s)) →
      (StorageManager.getRegistry host st).2.saved =
          st.saved ++ [(StorageManager.getRegistry host st).1] ∧
        (host.writeOk = true →
          readRegistry (StorageManager.getRegistry host st).2.area =
            (StorageManager.getRegistry host st).1)) ∧
    ((∀ id v, objGet (readRegistry st.area) id = some v →
        ∃ fs, v = .obj fs ∧ ((JsVal.obj fs).getProp "addedAt").truthy = true) →
      (StorageManager.getRegistry host st).2.saved = st.saved ∧
        (StorageManager.getRegistry host st).2.area = st.area) := by
  refine ⟨?_, ?_, ?_, ?_, ?_⟩
  · intro id h
    rw [getRegistry_fst host st hread]
    exact objGet_migrate_none host _ _ id h
  · intro id s h
    obtain ⟨k, hk, hget⟩ := objGet_migrate_some host _ st.ticks id _ h
    exact ⟨k, hk, by rw [getRegistry_fst host st hread, hget]; rfl⟩
  · intro id fs h hn ha
    obtain ⟨k, _, hget⟩ := objGet_migrate_some host _ st.ticks id _ h
    rw [getRegistry_fst host st hread, hget]
    simp [migratedEntry, jsOr, hn, ha]
  · rintro ⟨id, s, h⟩
    have hneeds : (migrateRegistryIfNeeded host (readRegistry st.area) st.ticks).needsSave =
        true := (migrate_needsSave_iff host _ _).mpr ⟨id, .str s, h, rfl⟩
    obtain ⟨_, h2, h3⟩ := getRegistry_of_needsSave host st hread hneeds
    refine ⟨h2, fun hw => ?_⟩
    rw [h3, if_pos hw, readRegistry_objSet]
  · intro hall
    have hsettled : (migrateRegistryIfNeeded host (readRegistry st.area) st.ticks).needsSave =
        false := by
      cases hn : (migrateRegistryIfNeeded host (readRegistry st.area) st.ticks).needsSave with
      | false => rfl
      | true =>
        obtain ⟨id, v, hget, hv⟩ := (migrate_needsSave_iff host _ _).mp hn
        obtain ⟨fs, rfl, ha⟩ := hall id v hget
        simp [needsMigration, ha] at hv
    rw [getRegistry_of_settled host st hread hsettled]
    exact ⟨rfl, rfl⟩

theorem getRegistry_migrates_legacy_witness :
    workingHost.readOk = true ∧
      (StorageManager.getRegistry workingHost (storeOf legacyRegistry)).2.saved =
        (storeOf legacyRegistry).saved ++
          [(StorageManager.getRegistry workingHost (storeOf legacyRegistry)).1] ∧
      readRegistry (StorageManager.getRegistry workingHost (storeOf legacyRegistry)).2.area =
        (StorageManager.getRegistry workingHost (storeOf legacyRegistry)).1 :=
  have h := (getRegistry_migrates_legacy workingHost (storeOf legacyRegistry) rfl).2.2.2.1
    ⟨"100", "Device A", rfl⟩
  ⟨rfl, h.1, h.2 rfl⟩

theorem allObjects_of_allSettled (registry : JsObj) (h : AllSettled registry) :
    AllObjects registry := fun id v hv =>
  let ⟨fs, hfs, _⟩ := h id v hv
  ⟨fs, hfs⟩

theorem lacksEntry_of_allObjects (registry : JsObj) (h : AllObjects registry) (id : String) :
    lacksEntry registry id = (objGet registry id).isNone := by
  unfold lacksEntry
  cases hv : objGet registry id with
  | none => rfl
  | some v =>
    obtain ⟨fs, rfl⟩ := h id v hv
    rfl

theorem lacksEntry_objSet_ne (o : JsObj) (k k' : String) (v : JsVal) (h : k ≠ k') :
    lacksEntry (objSet o k v) k' = lacksEntry o k' := by
  unfold lacksEntry
  rw [objGet_objSet, if_neg h]

theorem migratedEntry_obj (v x : JsVal) (t : Int) (h : migratedEntry v t = some x) :
    ∃ fs, x = JsVal.obj fs := by
  cases v <;> simp [migratedEntry] at h <;> exact ⟨_, h.symm⟩

theorem migratedEntry_isSome (v : JsVal) (t t' : Int) :
    (migratedEntry v t).isSome = (migratedEntry v t').isSome := by
  cases v <;> rfl

theorem normalizeEntry_obj (v : JsVal) (t : Int) : ∃ fs, normalizeEntry v t = JsVal.obj fs := by
  cases v <;> exact ⟨_, rfl⟩

theorem allObjects_migrate (host : Host) (stored : JsObj) (t : Nat) :
    AllObjects (migrateRegistryIfNeeded host stored t).registry := by
  intro id x hx
  cases hs : objGet stored id with
  | none => rw [objGet_migrate_none host stored t id hs] at hx; simp at hx
  | some v =>
    obtain ⟨k, _, hget⟩ := objGet_migrate_some host stored t id v hs
    rw [hget] at hx
    exact migratedEntry_obj v x _ hx

theorem isSome_objGet_migrate (host : Host) (stored : JsObj) (t : Nat) (id : String) :
    (objGet (migrateRegistryIfNeeded host stored t).registry id).isSome =
      ((objGet stored id).bind (fun v => migratedEntry v 0)).isSome := by
  cases hs : objGet stored id with
  | none => rw [objGet_migrate_none host stored t id hs]; rfl
  | some v =>
    obtain ⟨k, _, hget⟩ := objGet_migrate_some host stored t id v hs
    rw [hget]
    exact migratedEntry_isSome v _ _

theorem jsOr_truthy (a b : JsVal) (hb : b.truthy = true) : (jsOr a b).truthy = true := by
  unfold jsOr
  split
  · assumption
  · exact hb

theorem num_truthy (t : Int) (ht : t ≠ 0) : (JsVal.num t).truthy = true := by
  simp [JsVal.truthy, ht]

theorem getProp_addedAt (n a : JsVal) :
    (JsVal.obj [("name", n), ("addedAt", a)]).getProp "addedAt" = a := by
  simp [JsVal.getProp, objGet]

theorem getProp_name (n a : JsVal) :
    (JsVal.obj [("name", n), ("addedAt", a)]).getProp "name" = n := by
  simp [JsVal.getProp, objGet]

theorem migratedEntry_settled (v x : JsVal) (t : Int) (ht : t ≠ 0)
    (h : migratedEntry v t = some x) :
    ∃ fs, x = JsVal.obj fs ∧ ((JsVal.obj fs).getProp "addedAt").truthy = true := by
  cases v with
  | undefined => simp [migratedEntry] at h
  | null => simp [migratedEntry] at h
  | bool b => simp [migratedEntry] at h
  | num n => simp [migratedEntry] at h
  | str s =>
    simp only [migratedEntry, Option.some.injEq] at h
    subst h
    exact ⟨_, rfl, by rw [getProp_addedAt]; exact num_truthy t ht⟩
  | arr xs =>
    simp only [migratedEntry, Option.some.injEq] at h
    subst h
    exact ⟨_, rfl, by rw [getProp_addedAt]; exact jsOr_truthy _ _ (num_truthy t ht)⟩
  | obj fs =>
    simp only [migratedEntry, Option.some.injEq] at h
    subst h
    exact ⟨_, rfl, by rw [getProp_addedAt]; exact jsOr_truthy _ _ (num_truthy t ht)⟩

theorem allSettled_migrate (host : Host) (stored : JsObj) (t : Nat)
    (hclock : ∀ k, host.now k ≠ 0) :
    AllSettled (migrateRegistryIfNeeded host stored t).registry := by
  intro id x hx
  cases hs : objGet stored id with
  | none => rw [objGet_migrate_none host stored t id hs] at hx; simp at hx
  | some v =>
    obtain ⟨k, _, hget⟩ := objGet_migrate_some host stored t id v hs
    rw [hget] at hx
    exact migratedEntry_settled v x _ (hclock k) hx

theorem normalizeEntry_settled (v : JsVal) (t : Int) (ht : t ≠ 0) :
    ∃ fs, normalizeEntry v t = JsVal.obj fs ∧
      ((JsVal.obj fs).getProp "addedAt").truthy = true := by
  cases v with
  | str s => exact ⟨_, rfl, by rw [getProp_addedAt]; exact num_truthy t ht⟩
  | obj fs => exact ⟨_, rfl, by rw [getProp_addedAt]; exact jsOr_truthy _ _ (num_truthy t ht)⟩
  | undefined =>
    exact ⟨_, rfl, by rw [getProp_addedAt]; exact jsOr_truthy _ _ (num_truthy t ht)⟩
  | null => exact ⟨_, rfl, by rw [getProp_addedAt]; exact jsOr_truthy _ _ (num_truthy t ht)⟩
  | bool b => exact ⟨_, rfl, by rw [getProp_addedAt]; exact jsOr_truthy _ _ (num_truthy t ht)⟩
  | num n => exact ⟨_, rfl, by rw [getProp_addedAt]; exact jsOr_truthy _ _ (num_truthy t ht)⟩
  | arr xs => exact ⟨_, rfl, by rw [getProp_addedAt]; exact jsOr_truthy _ _ (num_truthy t ht)⟩

theorem needsSave_of_allSettled (host : Host) (stored : JsObj) (t : Nat)
    (h : AllSettled stored) : (migrateRegistryIfNeeded host stored t).needsSave = false := by
  cases hn : (migrateRegistryIfNeeded host stored t).needsSave with
  | false => rfl
  | true =>
    obtain ⟨id, v, hget, hv⟩ := (migrate_needsSave_iff host _ _).mp hn
    obtain ⟨fs, rfl, ha⟩ := h id v hget
    simp [needsMigration, ha] at hv

theorem needsSave_shift (host : Host) (stored : JsObj) (t t' : Nat) :
    (migrateRegistryIfNeeded host stored t').needsSave =
      (migrateRegistryIfNeeded host stored t).needsSave := by
  cases hn : (migrateRegistryIfNeeded host stored t).needsSave with
  | true => exact (migrate_needsSave_iff host _ _).mpr ((migrate_needsSave_iff host _ _).mp hn)
  | false =>
    cases hn' : (migrateRegistryIfNeeded host stored t').needsSave with
    | false => rfl
    | true =>
      rw [(migrate_needsSave_iff host _ _).mpr ((migrate_needsSave_iff host _ _).mp hn')] at hn
      exact absurd hn (by decide)

theorem length_objKeys_congr (a b : JsObj)
    (h : ∀ id, (objGet a id).isSome = (objGet b id).isSome) :
    (objKeys a).length = (objKeys b).length := by
  apply List.Perm.length_eq
  rw [List.perm_ext_iff_of_nodup (nodup_objKeys a) (nodup_objKeys b)]
  intro id
  rw [mem_objKeys, mem_objKeys, h id]

theorem length_objKeys_objSet (o : JsObj) (k : String) (v : JsVal) (h : objGet o k = none) :
    (objKeys (objSet o k v)).length = (objKeys o).length + 1 := by
  have hperm : (objKeys (objSet o k v)).Perm (k :: objKeys o) := by
    have hk : k ∉ objKeys o := by
      rw [mem_objKeys, h]
      simp
    rw [List.perm_ext_iff_of_nodup (nodup_objKeys _) (List.nodup_cons.mpr ⟨hk, nodup_objKeys o⟩)]
    intro id
    rw [mem_objKeys, objGet_objSet, List.mem_cons, mem_objKeys]
    by_cases hid : k = id
    · simp [hid]
    · have hid' : ¬ id = k := fun e => hid e.symm
      simp [hid, hid']
  rw [hperm.length_eq]
  rfl

theorem merge_fold_noop (now : Int) (es : List (String × JsVal)) (acc : JsObj × Nat)
    (h : ∀ e ∈ es, lacksEntry acc.1 e.1 = false) :
    es.foldl (mergeDevice now) acc = acc := by
  induction es with
  | nil => rfl
  | cons e rest ih =>
    rw [List.foldl_cons]
    have he : mergeDevice now acc e = acc := by
      unfold mergeDevice
      rw [h e (List.mem_cons_self _ _)]
      rfl
    rw [he]
    exact ih (fun x hx => h x (List.mem_cons_of_mem _ hx))

theorem merge_fold_of_not_key (now : Int) (es : List (String × JsVal)) (acc : JsObj × Nat)
    (id : String) (h : ∀ e ∈ es, e.1 ≠ id) :
    objGet (es.foldl (mergeDevice now) acc).1 id = objGet acc.1 id := by
  induction es generalizing acc with
  | nil => rfl
  | cons e rest ih =>
    rw [List.foldl_cons, ih _ (fun x hx => h x (List.mem_cons_of_mem _ hx))]
    unfold mergeDevice
    split
    · simp only
      rw [objGet_objSet, if_neg (h e (List.mem_cons_self _ _))]
    · rfl

theorem merge_fold_of_mem (now : Int) (es : List (String × JsVal)) (acc : JsObj × Nat)
    (id : String) (v : JsVal) (hnodup : (es.map Prod.fst).Nodup) (hmem : (id, v) ∈ es) :
    objGet (es.foldl (mergeDevice now) acc).1 id =
      if lacksEntry acc.1 id then some (normalizeEntry v now) else objGet acc.1 id := by
  induction es generalizing acc with
  | nil => simp at hmem
  | cons e rest ih =>
    rw [List.map_cons, List.nodup_cons] at hnodup
    rw [List.foldl_cons]
    rcases List.mem_cons.mp hmem with h | h
    · subst h
      rw [merge_fold_of_not_key]
      · unfold mergeDevice
        split
        · simp only
          rw [objGet_objSet, if_pos rfl]
        · rfl
      · intro x hx hk
        exact hnodup.1 (List.mem_map.mpr ⟨x, hx, hk⟩)
    · rw [ih _ hnodup.2 h]
      have hne : e.1 ≠ id := fun hk => hnodup.1 (List.mem_map.mpr ⟨(id, v), h, hk.symm⟩)
      unfold mergeDevice
      split
      · simp only
        rw [lacksEntry_objSet_ne _ _ _ _ hne, objGet_objSet, if_neg hne]
      · rfl

theorem merge_fold_count (now : Int) (es : List (String × JsVal)) (acc : JsObj × Nat)
    (hnodup : (es.map Prod.fst).Nodup) :
    (es.foldl (mergeDevice now) acc).2 =
      acc.2 + (es.filter (fun e => lacksEntry acc.1 e.1)).length := by
  induction es generalizing acc with
  | nil => rfl
  | cons e rest ih =>
    rw [List.map_cons, List.nodup_cons] at hnodup
    rw [List.foldl_cons, ih _ hnodup.2]
    by_cases hl : lacksEntry acc.1 e.1 = true
    · have hfilter : rest.filter (fun x => lacksEntry (mergeDevice now acc e).1 x.1) =
          rest.filter (fun x => lacksEntry acc.1 x.1) := by
        apply List.filter_congr
        intro x hx
        have hne : e.1 ≠ x.1 := fun hk => hnodup.1 (List.mem_map.mpr ⟨x, hx, hk.symm⟩)
        simp only [mergeDevice, hl, if_true]
        exact lacksEntry_objSet_ne _ _ _ _ hne
      rw [hfilter, List.filter_cons_of_pos (by simpa using hl)]
      simp only [mergeDevice, hl, if_true, List.length_cons]
      omega
    · have he : mergeDevice now acc e = acc := by
        unfold mergeDevice
        rw [if_neg hl]
      rw [he, List.filter_cons_of_neg (by simpa using hl)]

theorem merge_fold_length (now : Int) (es : List (String × JsVal)) (acc : JsObj × Nat)
    (hacc : AllObjects acc.1) :
    (objKeys (es.foldl (mergeDevice now) acc).1).length + acc.2 =
      (objKeys acc.1).length + (es.foldl (mergeDevice now) acc).2 := by
  induction es generalizing acc with
  | nil => rfl
  | cons e rest ih =>
    rw [List.foldl_cons]
    by_cases hl : lacksEntry acc.1 e.1 = true
    · have hnone : objGet acc.1 e.1 = none := by
        rw [lacksEntry_of_allObjects _ hacc] at hl
        simpa using hl
      have hstep : mergeDevice now acc e =
          (objSet acc.1 e.1 (normalizeEntry e.2 now), acc.2 + 1) := by
        unfold mergeDevice
        rw [if_pos hl]
      have hobj : AllObjects (mergeDevice now acc e).1 := by
        rw [hstep]
        intro id v hv
        rw [objGet_objSet] at hv
        split at hv
        · obtain ⟨fs, hfs⟩ := normalizeEntry_obj e.2 now
          exact ⟨fs, by rw [← Option.some.inj hv, hfs]⟩
        · exact hacc id v hv
      have := ih _ hobj
      rw [hstep] at this ⊢
      simp only at this ⊢
      rw [length_objKeys_objSet _ _ _ hnone] at this
      omega
    · have he : mergeDevice now acc e = acc := by
        unfold mergeDevice
        rw [if_neg hl]
      rw [he]
      exact ih _ hacc

theorem saveDevicesToRegistry_eq (host : Host) (devices : JsObj) (st : StoreState)
    (hwrite : host.writeOk = true) :
    StorageManager.saveDevicesToRegistry host devices st =
      ({ success := true
         newCount := ((objEntries devices).foldl
           (mergeDevice (host.now (StorageManager.getRegistry host st).2.ticks))
           ((StorageManager.getRegistry host st).1, 0)).2
         totalCount := (objKeys ((objEntries devices).foldl
           (mergeDevice (host.now (StorageManager.getRegistry host st).2.ticks))
           ((StorageManager.getRegistry host st).1, 0)).1).length },
       if ((objEntries devices).foldl
           (mergeDevice (host.now (StorageManager.getRegistry host st).2.ticks))
           ((StorageManager.getRegistry host st).1, 0)).2 > 0 then
         { area := objSet (StorageManager.getRegistry host st).2.area registryKey
             (.obj ((objEntries devices).foldl
               (mergeDevice (host.now (StorageManager.getRegistry host st).2.ticks))
               ((StorageManager.getRegistry host st).1, 0)).1)
           ticks := (StorageManager.getRegistry host st).2.ticks + 1
           saved := (StorageManager.getRegistry host st).2.saved ++
             [((objEntries devices).foldl
               (mergeDevice (host.now (StorageManager.getRegistry host st).2.ticks))
               ((StorageManager.getRegistry host st).1, 0)).1] }
       else
         { (StorageManager.getRegistry host st).2 with
           ticks := (StorageManager.getRegistry host st).2.ticks + 1 }) := by
  unfold StorageManager.saveDevicesToRegistry StorageManager.saveRegistry
  simp only [hwrite, if_true]

theorem merge_count_eq (now : Int) (devices registry : JsObj) (h : AllObjects registry) :
    ((objEntries devices).foldl (mergeDevice now) (registry, 0)).2 =
      ((objKeys devices).filter (fun id => (objGet registry id).isNone)).length := by
  rw [merge_fold_count now _ _ (nodup_objKeys devices), objKeys, List.filter_map,
    List.length_map]
  simp only [Nat.zero_add]
  congr 1
  apply List.filter_congr
  intro e _
  exact lacksEntry_of_allObjects registry h e.1

theorem merge_all_present (now : Int) (devices registry : JsObj) (h : AllObjects registry)
    (e : String × JsVal) (he : e ∈ objEntries devices) :
    (objGet ((objEntries devices).foldl (mergeDevice now) (registry, 0)).1 e.1).isSome = true := by
  rw [merge_fold_of_mem now _ _ e.1 e.2 (nodup_objKeys devices) he]
  split
  · rfl
  · rename_i hl
    rw [lacksEntry_of_allObjects _ h] at hl
    cases hv : objGet registry e.1 with
    | none => rw [hv] at hl; exact absurd rfl hl
    | some v => rfl

theorem allSettled_merge (now : Int) (hnow : now ≠ 0) (devices registry : JsObj)
    (h : AllSettled registry) :
    AllSettled ((objEntries devices).foldl (mergeDevice now) (registry, 0)).1 := by
  intro id v hv
  by_cases hkey : ∃ w, (id, w) ∈ objEntries devices
  · obtain ⟨w, hw⟩ := hkey
    rw [merge_fold_of_mem now _ _ id w (nodup_objKeys devices) hw] at hv
    split at hv
    · obtain ⟨fs, hfs, ha⟩ := normalizeEntry_settled w now hnow
      exact ⟨fs, by rw [← Option.some.inj hv, hfs], ha⟩
    · exact h id v hv
  · rw [merge_fold_of_not_key] at hv
    · exact h id v hv
    · intro e he hk
      exact hkey ⟨e.2, by rw [← hk]; exact he⟩

theorem getRegistry_of_allSettled (host : Host) (st : StoreState) (hread : host.readOk = true)
    (h : AllSettled (readRegistry st.area)) :
    (StorageManager.getRegistry host st).2 = st ∧
      ∀ id, (objGet (StorageManager.getRegistry host st).1 id).isSome =
        (objGet (readRegistry st.area) id).isSome := by
  rw [getRegistry_of_settled host st hread (needsSave_of_allSettled host _ _ h)]
  refine ⟨rfl, fun id => ?_⟩
  simp only
  rw [isSome_objGet_migrate]
  cases hv : objGet (readRegistry st.area) id with
  | none => rfl
  | some v =>
    obtain ⟨fs, rfl, _⟩ := h id v hv
    rfl

theorem saveDevicesToRegistry_again (host : Host) (devices : JsObj) (st : StoreState)
    (hwrite : host.writeOk = true) (hst : (StorageManager.getRegistry host st).2 = st)
    (hobj : AllObjects (StorageManager.getRegistry host st).1)
    (hall : ∀ e ∈ objEntries devices,
      (objGet (StorageManager.getRegistry host st).1 e.1).isSome = true) :
    (StorageManager.saveDevicesToRegistry host devices st).1.newCount = 0 ∧
      (StorageManager.saveDevicesToRegistry host devices st).1.totalCount =
        (objKeys (StorageManager.getRegistry host st).1).length ∧
      (StorageManager.saveDevicesToRegistry host devices st).2.area = st.area ∧
      (StorageManager.saveDevicesToRegistry host devices st).2.saved = st.saved := by
  have hnoop : (objEntries devices).foldl
      (mergeDevice (host.now (StorageManager.getRegistry host st).2.ticks))
      ((StorageManager.getRegistry host st).1, 0) =
        ((StorageManager.getRegistry host st).1, 0) := by
    apply merge_fold_noop
    intro e he
    simp only
    rw [lacksEntry_of_allObjects _ hobj]
    have := hall e he
    cases hv : objGet (StorageManager.getRegistry host st).1 e.1 with
    | none => rw [hv] at this; exact absurd this (by decide)
    | some v => rfl
  rw [saveDevicesToRegistry_eq host devices st hwrite, hnoop]
  simp only [gt_iff_lt, lt_self_iff_false, if_false]
  rw [hst]
  simp

theorem reread_after_merge (host : Host) (devices : JsObj) (st : StoreState)
    (hread : host.readOk = true) (hwrite : host.writeOk = true)
    (hclock : ∀ k, host.now k ≠ 0) (merged : JsObj × Nat)
    (hmerged : merged = (objEntries devices).foldl
      (mergeDevice (host.now (StorageManager.getRegistry host st).2.ticks))
      ((StorageManager.getRegistry host st).1, 0))
    (st2 : StoreState)
    (hst2 : st2 = if merged.2 > 0 then
        { area := objSet (StorageManager.getRegistry host st).2.area registryKey (.obj merged.1)
          ticks := (StorageManager.getRegistry host st).2.ticks + 1
          saved := (StorageManager.getRegistry host st).2.saved ++ [merged.1] }
      else
        { (StorageManager.getRegistry host st).2 with
          ticks := (StorageManager.getRegistry host st).2.ticks + 1 }) :
    (StorageManager.getRegistry host st2).2 = st2 ∧
      ∀ id, (objGet (StorageManager.getRegistry host st2).1 id).isSome =
        (objGet merged.1 id).isSome := by
  have hfst := getRegistry_fst host st hread
  have hset : AllSettled (StorageManager.getRegistry host st).1 := by
    rw [hfst]; exact allSettled_migrate host _ _ hclock
  have hMset : AllSettled merged.1 := by
    rw [hmerged]; exact allSettled_merge _ (hclock _) devices _ hset
  by_cases hpos : merged.2 > 0
  · rw [if_pos hpos] at hst2
    have hreg : readRegistry st2.area = merged.1 := by
      rw [hst2]; exact readRegistry_objSet _ _
    have h := getRegistry_of_allSettled host st2 hread (by rw [hreg]; exact hMset)
    rw [hreg] at h
    exact h
  · rw [if_neg hpos] at hst2
    have hzero : merged.2 = 0 := by omega
    have hM : merged = ((StorageManager.getRegistry host st).1, 0) := by
      rw [hmerged]
      apply merge_fold_noop
      intro e he
      have hc := merge_fold_count (host.now (StorageManager.getRegistry host st).2.ticks)
        (objEntries devices) ((StorageManager.getRegistry host st).1, 0) (nodup_objKeys devices)
      rw [← hmerged, hzero] at hc
      simp only [Nat.zero_add] at hc
      have hnil := List.length_eq_zero.mp hc.symm
      rw [List.filter_eq_nil_iff] at hnil
      simpa using hnil e he
    cases hn : (migrateRegistryIfNeeded host (readRegistry st.area) st.ticks).needsSave with
    | true =>
      obtain ⟨_, _, harea⟩ := getRegistry_of_needsSave host st hread hn
      rw [if_pos hwrite] at harea
      have hreg : readRegistry st2.area = merged.1 := by
        rw [hst2, hM]
        simp only
        rw [harea]
        exact readRegistry_objSet _ _
      have h := getRegistry_of_allSettled host st2 hread (by rw [hreg]; exact hMset)
      rw [hreg] at h
      exact h
    | false =>
      have hg := getRegistry_of_settled host st hread hn
      have harea : st2.area = st.area := by rw [hst2, hg]
      have hticks : st2.ticks = st.ticks + 1 := by rw [hst2, hg]
      have hn2 : (migrateRegistryIfNeeded host (readRegistry st2.area) st2.ticks).needsSave =
          false := by
        rw [harea, needsSave_shift host _ st.ticks st2.ticks, hn]
      rw [getRegistry_of_settled host st2 hread hn2]
      refine ⟨rfl, fun id => ?_⟩
      simp only
      rw [hM, hfst, harea, isSome_objGet_migrate, isSome_objGet_migrate]

/-- The entry `_normalizeEntry(value, timestamp)` returns, written out. -/
theorem normalizeEntry_eq (v : JsVal) (t : Int) :
    normalizeEntry v t =
      match v with
      | .str s => JsVal.obj [("name", .str s), ("addedAt", .num t)]
      | _ =>
        JsVal.obj [("name",
            if (v.getProp "name").truthy then v.getProp "name" else .str "Unknown"),
          ("addedAt", if (v.getProp "addedAt").truthy then v.getProp "addedAt" else .num t)] := by
  cases v <;> rfl

/-- C22: with a storage area that answers and a clock that never answers 0,
let `R` be the registry `getRegistry` reads.  `saveDevicesToRegistry(D)`
returns `success`, `newCount` = the number of ids of `D` that `R` lacks and
`totalCount` = `|R| + newCount`.  If `newCount` is 0 it writes nothing more
than the read did.  Otherwise the stored registry afterwards has `totalCount`
entries and no further id: the entry of `R` for every id of `R`, and for
every other id of `D` the entry made of `D[id]` and the one timestamp `now`
of the call, which is `{name: D[id], addedAt: now}` when `D[id]` is a string
and otherwise `{name: D[id].name || 'Unknown', addedAt: D[id].addedAt || now}`.  A second call with the same `D` returns `newCount = 0` and the same
`totalCount`, and neither writes nor changes the area. -/
theorem saveDevicesToRegistry_merges_new (host : Host) (devices : JsObj) (st : StoreState)
    (hread : host.readOk = true) (hwrite : host.writeOk = true)
    (hclock : ∀ k, host.now k ≠ 0) :
    (StorageManager.saveDevicesToRegistry host devices st).1.success = true ∧
    (StorageManager.saveDevicesToRegistry host devices st).1.newCount =
      ((objKeys devices).filter
        (fun id => (objGet (StorageManager.getRegistry host st).1 id).isNone)).length ∧
    (StorageManager.saveDevicesToRegistry host devices st).1.totalCount =
      (objKeys (StorageManager.getRegistry host st).1).length +
        (StorageManager.saveDevicesToRegistry host devices st).1.newCount ∧
    ((StorageManager.saveDevicesToRegistry host devices st).1.newCount = 0 →
      (StorageManager.saveDevicesToRegistry host devices st).2.area =
        (StorageManager.getRegistry host st).2.area) ∧
    (0 < (StorageManager.saveDevicesToRegistry host devices st).1.newCount →
      (StorageManager.saveDevicesToRegistry host devices st).1.totalCount =
        (objKeys (readRegistry
          (StorageManager.saveDevicesToRegistry host devices st).2.area)).length ∧
      ∀ id, objGet (readRegistry
          (StorageManager.saveDevicesToRegistry host devices st).2.area) id =
        match objGet (StorageManager.getRegistry host st).1 id with
        | some v => some v
        | none => (objGet devices id).map (fun v =>
            match v with
            | .str s =>
              JsVal.obj [("name", .str s),
                ("addedAt", .num (host.now (StorageManager.getRegistry host st).2.ticks))]
            | _ =>
              JsVal.obj [("name",
                  if (v.getProp "name").truthy then v.getProp "name" else .str "Unknown"),
                ("addedAt",
                  if (v.getProp "addedAt").truthy then v.getProp "addedAt"
                  else .num (host.now (StorageManager.getRegistry host st).2.ticks))])) ∧
    (StorageManager.saveDevicesToRegistry host devices
      (StorageManager.saveDevicesToRegistry host devices st).2).1.newCount = 0 ∧
    (StorageManager.saveDevicesToRegistry host devices
      (StorageManager.saveDevicesToRegistry host devices st).2).1.totalCount =
        (StorageManager.saveDevicesToRegistry host devices st).1.totalCount ∧
    (StorageManager.saveDevicesToRegistry host devices
      (StorageManager.saveDevicesToRegistry host devices st).2).2.area =
        (StorageManager.saveDevicesToRegistry host devices st).2.area ∧
    (StorageManager.saveDevicesToRegistry host devices
      (StorageManager.saveDevicesToRegistry host devices st).2).2.saved =
        (StorageManager.saveDevicesToRegistry host devices st).2.saved := by
  have hfst := getRegistry_fst host st hread
  have hobj : AllObjects (StorageManager.getRegistry host st).1 := by
    rw [hfst]; exact allObjects_migrate host _ _
  have heq := saveDevicesToRegistry_eq host devices st hwrite
  have hcount := merge_count_eq (host.now (StorageManager.getRegistry host st).2.ticks) devices
    (StorageManager.getRegistry host st).1 hobj
  have hlen := merge_fold_length (host.now (StorageManager.getRegistry host st).2.ticks)
    (objEntries devices) ((StorageManager.getRegistry host st).1, 0) hobj
  have hpres := merge_all_present (host.now (StorageManager.getRegistry host st).2.ticks) devices
    (StorageManager.getRegistry host st).1 hobj
  have hre := reread_after_merge host devices st hread hwrite hclock _ rfl
    (StorageManager.saveDevicesToRegistry host devices st).2 (by rw [heq])
  have hget : ∀ id, objGet ((objEntries devices).foldl
      (mergeDevice (host.now (StorageManager.getRegistry host st).2.ticks))
      ((StorageManager.getRegistry host st).1, 0)).1 id =
        match objGet (StorageManager.getRegistry host st).1 id with
        | some v => some v
        | none => (objGet devices id).map
            (fun v => normalizeEntry v
              (host.now (StorageManager.getRegistry host st).2.ticks)) := by
    intro id
    cases hd : objGet devices id with
    | none =>
      rw [merge_fold_of_not_key]
      · cases objGet (StorageManager.getRegistry host st).1 id <;> rfl
      · intro e he hk
        have hv := (mem_objEntries devices e.1 e.2).mp he
        rw [hk, hd] at hv
        simp at hv
    | some w =>
      rw [merge_fold_of_mem _ _ _ id w (nodup_objKeys devices)
        ((mem_objEntries devices id w).mpr hd)]
      simp only
      rw [lacksEntry_of_allObjects _ hobj]
      cases objGet (StorageManager.getRegistry host st).1 id <;> rfl
  have hagain := saveDevicesToRegistry_again host devices
    (StorageManager.saveDevicesToRegistry host devices st).2 hwrite hre.1
    (by rw [getRegistry_fst host _ hread]; exact allObjects_migrate host _ _)
    (fun e he => by rw [hre.2]; exact hpres e he)
  have htotal : (StorageManager.saveDevicesToRegistry host devices st).1.totalCount =
      (objKeys ((objEntries devices).foldl
        (mergeDevice (host.now (StorageManager.getRegistry host st).2.ticks))
        ((StorageManager.getRegistry host st).1, 0)).1).length := by rw [heq]
  have hnew : (StorageManager.saveDevicesToRegistry host devices st).1.newCount =
      ((objEntries devices).foldl
        (mergeDevice (host.now (StorageManager.getRegistry host st).2.ticks))
        ((StorageManager.getRegistry host st).1, 0)).2 := by rw [heq]
  refine ⟨rfl, ?_, ?_, ?_, ?_, hagain.1, ?_, hagain.2.2.1, hagain.2.2.2⟩
  · rw [hnew, hcount]
  · rw [htotal, hnew]
    simpa using hlen
  · intro h0
    rw [hnew] at h0
    rw [heq]
    simp only [h0, gt_iff_lt, lt_self_iff_false, if_false]
  · intro hpos
    rw [hnew] at hpos
    have harea : readRegistry (StorageManager.saveDevicesToRegistry host devices st).2.area =
        ((objEntries devices).foldl
          (mergeDevice (host.now (StorageManager.getRegistry host st).2.ticks))
          ((StorageManager.getRegistry host st).1, 0)).1 := by
      rw [heq]
      simp only [gt_iff_lt, hpos, if_true]
      exact readRegistry_objSet _ _
    rw [harea]
    refine ⟨htotal, fun id => ?_⟩
    rw [hget id]
    cases objGet (StorageManager.getRegistry host st).1 id with
    | some v => rfl
    | none =>
      cases objGet devices id with
      | none => rfl
      | some w =>
        simp only [Option.map_some']
        exact congrArg some (normalizeEntry_eq w _)
  · rw [hagain.2.1, htotal]
    exact length_objKeys_congr _ _ hre.2

theorem saveDevicesToRegistry_merges_new_witness :
    (StorageManager.saveDevicesToRegistry workingHost
        [("101", .str "Device B"), ("100", .str "Other"),
          ("102", .obj [("name", .str "Device C"), ("addedAt", .num 7)]), ("103", .obj [])]
        (storeOf currentRegistry)).1 =
      { success := true, newCount := 3, totalCount := 4 } ∧
    (∀ id, objGet (readRegistry (StorageManager.saveDevicesToRegistry workingHost
        [("101", .str "Device B"), ("100", .str "Other"),
          ("102", .obj [("name", .str "Device C"), ("addedAt", .num 7)]), ("103", .obj [])]
        (storeOf currentRegistry)).2.area) id =
      if id = "100" then some (.obj [("name", .str "Device A"), ("addedAt", .num 5)])
      else if id = "101" then
        some (.obj [("name", .str "Device B"), ("addedAt", .num 1700000000000)])
      else if id = "102" then some (.obj [("name", .str "Device C"), ("addedAt", .num 7)])
      else if id = "103" then
        some (.obj [("name", .str "Unknown"), ("addedAt", .num 1700000000000)])
      else none) ∧
    (StorageManager.saveDevicesToRegistry workingHost
      [("101", .str "Device B"), ("100", .str "Other"),
        ("102", .obj [("name", .str "Device C"), ("addedAt", .num 7)]), ("103", .obj [])]
      (StorageManager.saveDevicesToRegistry workingHost
        [("101", .str "Device B"), ("100", .str "Other"),
          ("102", .obj [("name", .str "Device C"), ("addedAt", .num 7)]), ("103", .obj [])]
        (storeOf currentRegistry)).2).1.newCount = 0 ∧
    (StorageManager.saveDevicesToRegistry workingHost
      [("101", .str "Device B"), ("100", .str "Other"),
        ("102", .obj [("name", .str "Device C"), ("addedAt", .num 7)]), ("103", .obj [])]
      (StorageManager.saveDevicesToRegistry workingHost
        [("101", .str "Device B"), ("100", .str "Other"),
          ("102", .obj [("name", .str "Device C"), ("addedAt", .num 7)]), ("103", .obj [])]
        (storeOf currentRegistry)).2).2.area =
      (StorageManager.saveDevicesToRegistry workingHost
        [("101", .str "Device B"), ("100", .str "Other"),
          ("102", .obj [("name", .str "Device C"), ("addedAt", .num 7)]), ("103", .obj [])]
        (storeOf currentRegistry)).2.area :=
  have h := saveDevicesToRegistry_merges_new workingHost
    [("101", .str "Device B"), ("100", .str "Other"),
      ("102", .obj [("name", .str "Device C"), ("addedAt", .num 7)]), ("103", .obj [])]
    (storeOf currentRegistry) rfl rfl
    (fun k => by simp only [workingHost, sampleClock]; omega)
  ⟨by decide,
    fun id => by
      rw [(h.2.2.2.2.1 (by decide)).2 id]
      by_cases h0 : id = "100"
      · subst h0; rfl
      · by_cases h1 : id = "101"
        · subst h1; rfl
        · by_cases h2 : id = "102"
          · subst h2; rfl
          · by_cases h3 : id = "103"
            · subst h3; rfl
            · have e0 : ¬ "100" = id := fun e => h0 e.symm
              have e1 : ¬ "101" = id := fun e => h1 e.symm
              have e2 : ¬ "102" = id := fun e => h2 e.symm
              have e3 : ¬ "103" = id := fun e => h3 e.symm
              have hR : objGet (StorageManager.getRegistry workingHost
                  (storeOf currentRegistry)).1 id = none := by
                have hreg : (StorageManager.getRegistry workingHost (storeOf currentRegistry)).1 =
                    currentRegistry := rfl
                rw [hreg]
                simp [currentRegistry, objGet, e0]
              rw [hR]
              simp [objGet, h0, h1, h2, h3, e0, e1, e2, e3],
    h.2.2.2.2.2.1, h.2.2.2.2.2.2.2.1⟩

/-- C23 (the code at the failing input): the storage rejects the write, the
registry is empty and the devices are `{"1": "A"}`.  `saveRegistry` reports
the failure, yet `saveDevicesToRegistry` and `importRegistry`, which handed
it the registry with the new entry, both return `success: true`, and the area
still holds the empty registry. -/
theorem failed_write_returns_success :
    (StorageManager.saveDevicesToRegistry failingHost [("1", .str "A")] (storeOf [])).1 =
      { success := true, newCount := 1, totalCount := 1 } ∧
    (StorageManager.saveDevicesToRegistry failingHost [("1", .str "A")]
      (storeOf [])).2.saved.length = 1 ∧
    objKeys (readRegistry (StorageManager.saveDevicesToRegistry failingHost [("1", .str "A")]
      (storeOf [])).2.area) = [] ∧
    (StorageManager.importRegistry failingHost [("1", .str "A")] true (storeOf [])).1 =
      { success := true, count := 1 } ∧
    (StorageManager.importRegistry failingHost [("1", .str "A")] true
      (storeOf [])).2.saved.length = 1 ∧
    objKeys (readRegistry (StorageManager.importRegistry failingHost [("1", .str "A")] true
      (storeOf [])).2.area) = [] ∧
    (StorageManager.saveRegistry failingHost [("1", normalizeEntry (.str "A") 0)]
      (storeOf [])).1 = false := by
  decide

/-- C28 (the code at the failing input): the registry holds the id 100 and
the import data are `{"2": "B"}`.  The response of the background worker has
`newCount = 1` and `totalCount = 1`, the import count again, while the
registry after the import has two entries; `saveDevicesToRegistry` reports
the total 2 for the same data. -/
theorem importRegistry_total_is_import_count :
    (onImportRegistry workingHost [("2", .str "B")] (storeOf currentRegistry)).1 =
      { success := true, newCount := 1, totalCount := 1 } ∧
    (objKeys (readRegistry (onImportRegistry workingHost [("2", .str "B")]
      (storeOf currentRegistry)).2.area)).length = 2 ∧
    (StorageManager.saveDevicesToRegistry workingHost [("2", .str "B")]
      (storeOf currentRegistry)).1.totalCount = 2 := by
  decide

/-! ### The harvest of the fetch hook -/

/-- C27 (the claim fails as stated): the URL contains `fingerprint` and the
body parses as a list of 1001 items with id and subtitle, which
`processApiResponse` would broadcast; with an empty mappings table the hook
returns the response it was given and the state of the harvester is as
before, nothing being posted. -/
theorem fetchHook_skips_harvest_without_mappings :
    mentionsDeviceData "/api/fingerprint/devices" = true ∧
      fetchHook bulkCodec [] PageState.init (.str "/api/fingerprint/devices") bulkResponse =
        (.original, PageState.init) ∧
      (fetchHook bulkCodec [] PageState.init (.str "/api/fingerprint/devices")
        bulkResponse).2.posted.length = 0 ∧
      (processApiResponse "/api/fingerprint/devices" (payloadOf (pickerItems 1000 1001))
        PageState.init).posted.length = 1 := by
  refine ⟨by decide, rfl, rfl, ?_⟩
  rw [processApiResponse_posted, payloadItems_payloadOf, length_pickerItems,
    countP_pickerItems _ _ (by decide), if_pos (by decide)]
  rfl

/-- C27 (amended): for a request whose URL is a string containing one of the
substrings and a response whose body parses, the hook hands the parsed data
to `processApiResponse` when the mappings table is not empty; when the table
is empty the state of the harvester is left as it is. -/
theorem fetchHook_harvests_when_mapped (codec : JsonCodec) (mappings : MappingTable)
    (st : PageState) (input : JsVal) (response : Response) (url : String) (data : JsVal)
    (hurl : requestUrl input = .str url) (hm : mentionsDeviceData url = true)
    (hparse : codec.parse response.body = some data) :
    (mappings ≠ [] →
      (fetchHook codec mappings st input response).2 = processApiResponse url data st) ∧
    (mappings = [] → (fetchHook codec mappings st input response).2 = st) := by
  constructor
  · intro hne
    have hlen : mappings.length > 0 := List.length_pos.mpr hne
    unfold fetchHook
    simp only [hurl, needsTransformation, hm, Bool.and_true, decide_eq_true hlen, if_true,
      hparse]
    split <;> rfl
  · intro he
    subst he
    unfold fetchHook
    simp only [hurl, needsTransformation, List.length_nil, gt_iff_lt, lt_self_iff_false,
      decide_False, Bool.false_and, Bool.false_eq_true, if_false]

theorem fetchHook_harvests_when_mapped_witness :
    (fetchHook bulkCodec [("100", fullMapping)] PageState.init
        (.str "/api/fingerprint/devices") bulkResponse).2 =
      processApiResponse "/api/fingerprint/devices" (payloadOf (pickerItems 1000 1001))
        PageState.init :=
  (fetchHook_harvests_when_mapped bulkCodec [("100", fullMapping)] PageState.init
    (.str "/api/fingerprint/devices") bulkResponse "/api/fingerprint/devices"
    (payloadOf (pickerItems 1000 1001)) rfl (by decide) rfl).1 (List.cons_ne_nil _ _)

/-! ### Regular expressions -/

theorem starLoop_isSome (step : MState → (MState → Option MState) → Option MState)
    (fuel : Nat) (s : MState) (k : MState → Option MState) (hk : ∀ s1, (k s1).isSome = true) :
    (starLoop step fuel s k).isSome = true := by
  cases fuel with
  | zero => exact hk s
  | succ n =>
    unfold starLoop
    split
    · rfl
    · exact hk s

theorem search_isSome_of_suffix (re : Re) (pre suf : List Char)
    (h : (re.matchAt suf).isSome = true) : (re.search (pre ++ suf)).isSome = true := by
  induction pre with
  | nil =>
    cases suf with
    | nil => exact h
    | cons c cs =>
      simp only [List.nil_append, Re.search]
      split
      · rfl
      · rename_i hn
        rw [hn] at h
        exact absurd h (by decide)
  | cons c pre ih =>
    simp only [List.cons_append, Re.search]
    split
    · rfl
    · exact ih

theorem pipe_pattern_matches (post : List Char) :
    ((Re.cat [.star (.chr isSpace), Re.lit '|', .star (.chr isSpace)]).matchAt
      ('|' :: post)).isSome = true := by
  simp only [Re.matchAt, Re.cat, Re.run, Re.lit, List.length_cons]
  unfold starLoop
  simp only [Re.run]
  have h1 : isSpace '|' = false := by decide
  simp only [h1, Bool.false_eq_true, if_false, beq_self_eq_true, if_true]
  exact starLoop_isSome _ _ _ _ (fun _ => rfl)

theorem looksLikeUserDeviceName_of_pipe (s : String) (h : '|' ∈ s.data) :
    Utils.looksLikeUserDeviceName (.str s) = true := by
  obtain ⟨pre, post, hs⟩ := List.append_of_mem h
  unfold Utils.looksLikeUserDeviceName
  simp only
  split
  · rfl
  · unfold userDevicePatterns
    rw [List.any_cons]
    have : Pattern.test
        { anchored := false
          body := Re.cat [.star (.chr isSpace), Re.lit '|', .star (.chr isSpace)] } s = true := by
      unfold Pattern.test Pattern.exec
      simp only [Bool.false_eq_true, if_false]
      rw [hs]
      exact search_isSome_of_suffix _ pre _ (pipe_pattern_matches post)
    rw [this]
    rfl

/-- C25: `looksLikeUserDeviceName` has ten patterns; it answers `true` exactly
for a value that is not a string, for the empty string, and for a string that
one of the patterns matches.  It answers `true` for every string that
contains `|` and for the three user names of the docstring, and `false` for
the three official names of the docstring. -/
theorem looksLikeUserDeviceName_characterised :
    userDevicePatterns.length = 10 ∧
    (∀ name, Utils.looksLikeUserDeviceName name = true ↔
      ((∀ s, name ≠ .str s) ∨ name = .str "" ∨
        ∃ s pattern, name = .str s ∧ pattern ∈ userDevicePatterns ∧ pattern.test s = true)) ∧
    (∀ s : String, '|' ∈ s.data → Utils.looksLikeUserDeviceName (.str s) = true) ∧
    Utils.looksLikeUserDeviceName (.str "CANTI-PC | PORT 2") = true ∧
    Utils.looksLikeUserDeviceName (.str "Jeff\x27s Laptop") = true ∧
    Utils.looksLikeUserDeviceName (.str "My Server") = true ∧
    Utils.looksLikeUserDeviceName (.str "Apple iPhone 14 Pro") = false ∧
    Utils.looksLikeUserDeviceName (.str "Samsung Galaxy S23") = false ∧
    Utils.looksLikeUserDeviceName (.str "Dell Latitude") = false := by
  refine ⟨rfl, ?_, looksLikeUserDeviceName_of_pipe, by decide, by decide, by decide, by decide,
    by decide, by decide⟩
  intro name
  cases name with
  | str s =>
    unfold Utils.looksLikeUserDeviceName
    by_cases hs : s = ""
    · simp [hs]
    · simp only [hs, if_false, List.any_eq_true]
      constructor
      · rintro ⟨pattern, hmem, htest⟩
        exact Or.inr (Or.inr ⟨s, pattern, rfl, hmem, htest⟩)
      · rintro (h | h | ⟨s1, pattern, h1, hmem, htest⟩)
        · exact absurd rfl (h s)
        · exact absurd (JsVal.str.inj h) hs
        · rw [JsVal.str.inj h1]
          exact ⟨pattern, hmem, htest⟩
  | undefined => exact ⟨fun _ => Or.inl (fun s h => by cases h), fun _ => rfl⟩
  | null => exact ⟨fun _ => Or.inl (fun s h => by cases h), fun _ => rfl⟩
  | bool b => exact ⟨fun _ => Or.inl (fun s h => by cases h), fun _ => rfl⟩
  | num n => exact ⟨fun _ => Or.inl (fun s h => by cases h), fun _ => rfl⟩
  | arr xs => exact ⟨fun _ => Or.inl (fun s h => by cases h), fun _ => rfl⟩
  | obj fs => exact ⟨fun _ => Or.inl (fun s h => by cases h), fun _ => rfl⟩

theorem looksLikeUserDeviceName_characterised_witness :
    Utils.looksLikeUserDeviceName (.str "New Laptop | Wi-Fi") = true :=
  looksLikeUserDeviceName_characterised.2.2.1 "New Laptop | Wi-Fi" (by decide)

/-! ### The URL round trip -/

theorem isDigit_digitChar (d : Nat) (h : d < 10) : isDigit (Nat.digitChar d) = true := by
  interval_cases d <;> rfl

theorem toDigitsCore_digits (fuel n : Nat) (ds : List Char)
    (hds : ∀ c ∈ ds, isDigit c = true) :
    ∀ c ∈ Nat.toDigitsCore 10 fuel n ds, isDigit c = true := by
  induction fuel generalizing n ds with
  | zero => exact hds
  | succ fuel ih =>
    unfold Nat.toDigitsCore
    simp only
    have hd : ∀ c ∈ Nat.digitChar (n % 10) :: ds, isDigit c = true := by
      intro c hc
      rcases List.mem_cons.mp hc with h | h
      · rw [h]; exact isDigit_digitChar _ (Nat.mod_lt n (by decide))
      · exact hds c h
    split
    · exact hd
    · exact ih _ _ hd

theorem toDigitsCore_ne_nil (fuel n : Nat) (ds : List Char) (h : 0 < fuel ∨ ds ≠ []) :
    Nat.toDigitsCore 10 fuel n ds ≠ [] := by
  induction fuel generalizing n ds with
  | zero =>
    rcases h with h | h
    · omega
    · exact h
  | succ fuel ih =>
    unfold Nat.toDigitsCore
    simp only
    split
    · exact List.cons_ne_nil _ _
    · exact ih _ _ (Or.inr (List.cons_ne_nil _ _))

theorem toString_digits (n : Nat) :
    (toString n).data ≠ [] ∧ ∀ c ∈ (toString n).data, isDigit c = true := by
  have : (toString n).data = Nat.toDigitsCore 10 (n + 1) n [] := rfl
  rw [this]
  exact ⟨toDigitsCore_ne_nil _ _ _ (Or.inl (Nat.succ_pos n)),
    toDigitsCore_digits _ _ _ (fun c hc => by simp at hc)⟩

theorem run_cat_cons (a : Re) (rest : List Re) (s : MState) (k : MState → Option MState) :
    (Re.cat (a :: rest)).run s k = a.run s (fun s1 => (Re.cat rest).run s1 k) := by
  cases rest <;> rfl

theorem starLoop_succ (step : MState → (MState → Option MState) → Option MState)
    (fuel : Nat) (s : MState) (k : MState → Option MState) :
    starLoop step (fuel + 1) s k =
      match step s (fun s1 =>
          if s1.rest.length < s.rest.length then starLoop step fuel s1 k else none) with
      | some r => some r
      | none => k s := rfl

theorem run_chr_cons (p : Char → Bool) (c : Char) (cs : List Char) (cap : Option (List Char))
    (k : MState → Option MState) :
    (Re.chr p).run { rest := c :: cs, cap := cap } k =
      if p c then k { rest := cs, cap := cap } else none := rfl

theorem run_chr_nil (p : Char → Bool) (cap : Option (List Char))
    (k : MState → Option MState) : (Re.chr p).run { rest := [], cap := cap } k = none := rfl

theorem starLoop_chr (p : Char → Bool) (ds r : List Char) (cap : Option (List Char))
    (k : MState → Option MState) (res : MState) (fuel : Nat) (hfuel : ds.length ≤ fuel)
    (hds : ∀ c ∈ ds, p c = true) (hr : ∀ c r2, r = c :: r2 → p c = false)
    (hk : k { rest := r, cap := cap } = some res) :
    starLoop (Re.chr p).run fuel { rest := ds ++ r, cap := cap } k = some res := by
  induction ds generalizing fuel with
  | nil =>
    cases fuel with
    | zero => exact hk
    | succ f =>
      rw [starLoop_succ, List.nil_append]
      cases r with
      | nil => rw [run_chr_nil]; exact hk
      | cons c r2 =>
        rw [run_chr_cons, if_neg (by rw [hr c r2 rfl]; decide)]
        exact hk
  | cons d ds ih =>
    cases fuel with
    | zero => simp at hfuel
    | succ f =>
      have hd := hds d (List.mem_cons_self _ _)
      have := ih f (by simpa using hfuel) (fun c hc => hds c (List.mem_cons_of_mem _ hc))
      rw [starLoop_succ, List.cons_append, run_chr_cons, if_pos hd]
      simp only [List.length_cons, Nat.lt_succ_self, if_true]
      rw [this]

theorem run_plus_chr (p : Char → Bool) (ds r : List Char) (cap : Option (List Char))
    (k : MState → Option MState) (res : MState) (hne : ds ≠ [])
    (hds : ∀ c ∈ ds, p c = true) (hr : ∀ c r2, r = c :: r2 → p c = false)
    (hk : k { rest := r, cap := cap } = some res) :
    (Re.plus (.chr p)).run { rest := ds ++ r, cap := cap } k = some res := by
  cases ds with
  | nil => exact absurd rfl hne
  | cons d ds =>
    have hd := hds d (List.mem_cons_self _ _)
    have := starLoop_chr p ds r cap k res (ds ++ r).length (by simp)
      (fun c hc => hds c (List.mem_cons_of_mem _ hc)) hr hk
    show (Re.chr p).run { rest := d :: (ds ++ r), cap := cap }
      (fun s1 => starLoop (Re.chr p).run s1.rest.length s1 k) = some res
    rw [run_chr_cons, if_pos hd]
    exact this

theorem run_wordI (w inp rest : List Char) (cap : Option (List Char))
    (k : MState → Option MState) (h : inp.map Char.toLower = w.map Char.toLower) :
    (Re.cat (w.map Re.litI)).run { rest := inp ++ rest, cap := cap } k =
      k { rest := rest, cap := cap } := by
  induction w generalizing inp with
  | nil =>
    cases inp with
    | nil => rfl
    | cons c cs => simp at h
  | cons a w ih =>
    cases inp with
    | nil => simp at h
    | cons c cs =>
      simp only [List.map_cons, List.cons.injEq] at h
      rw [List.map_cons, run_cat_cons]
      simp only [Re.litI, Re.run, List.cons_append, h.1, beq_self_eq_true, if_true]
      exact ih cs h.2

theorem run_wordI_fail (a : Char) (w : List Char) (c : Char) (cs : List Char)
    (cap : Option (List Char)) (k : MState → Option MState)
    (h : (c.toLower == a.toLower) = false) :
    (Re.cat ((a :: w).map Re.litI)).run { rest := c :: cs, cap := cap } k = none := by
  rw [List.map_cons, run_cat_cons]
  simp [Re.litI, Re.run, h]

theorem run_opt_of_some (a : Re) (s : MState) (k : MState → Option MState) (res : MState)
    (h : a.run s k = some res) : (Re.opt a).run s k = some res := by
  simp [Re.opt, Re.run, h]

theorem search_skip (re : Re) (pre rest : List Char)
    (h : ∀ c ∈ pre, ∀ cs, re.matchAt (c :: cs) = none) :
    re.search (pre ++ rest) = re.search rest := by
  induction pre with
  | nil => rfl
  | cons c pre ih =>
    simp only [List.cons_append, Re.search, h c (List.mem_cons_self _ _)]
    exact ih (fun x hx => h x (List.mem_cons_of_mem _ hx))

theorem search_of_matchAt (re : Re) (cs : List Char) (m : MState)
    (h : re.matchAt cs = some m) : re.search cs = some m := by
  cases cs with
  | nil => exact h
  | cons c cs => simp [Re.search, h]

theorem buildFingerprintUrl_data (deviceId : String) (size : Nat) (h : size < 10 ^ 21) :
    (Utils.buildFingerprintUrl deviceId size).data =
      "https://static.ui.com/".data ++ ("fingerprint/".data ++ ('0' :: '/' ::
        (deviceId.data ++ ('_' :: ((toString size).data ++ ('x' ::
          ((toString size).data ++ (".png".data ++ []))))))))  := by
  unfold Utils.buildFingerprintUrl numberToString
  rw [if_pos h]
  simp only [String.data_append, List.append_assoc, List.append_nil]
  rfl

theorem not_digit_of_head (x : Char) (hx : isDigit x = false) (rest : List Char) (c : Char)
    (r2 : List Char) (h : x :: rest = c :: r2) : isDigit c = false := by
  rw [← (List.cons.inj h).1]
  exact hx

theorem run_lit_cons (a c : Char) (cs : List Char) (cap : Option (List Char))
    (k : MState → Option MState) :
    (Re.lit a).run { rest := c :: cs, cap := cap } k =
      if c == a then k { rest := cs, cap := cap } else none := rfl

theorem run_litI_cons (a c : Char) (cs : List Char) (cap : Option (List Char))
    (k : MState → Option MState) :
    (Re.litI a).run { rest := c :: cs, cap := cap } k =
      if c.toLower == a.toLower then k { rest := cs, cap := cap } else none := rfl

theorem fingerprintPattern_matchAt (ds sz : List Char) (hne : ds ≠ [])
    (hds : ∀ c ∈ ds, isDigit c = true) (hsne : sz ≠ []) (hsz : ∀ c ∈ sz, isDigit c = true) :
    fingerprintPattern.body.matchAt
      ("fingerprint/".data ++ ('0' :: '/' ::
        (ds ++ ('_' :: (sz ++ ('x' :: (sz ++ (".png".data ++ []))))))))
      = some { rest := [], cap := some ds } := by
  unfold fingerprintPattern Re.matchAt
  simp only
  rw [run_cat_cons]
  unfold Re.wordI
  rw [run_wordI _ _ _ _ _ rfl, run_cat_cons]
  apply run_plus_chr isDigit ['0'] _ _ _ _ (by decide) (by decide)
    (not_digit_of_head '/' (by decide) _)
  rw [run_cat_cons, run_lit_cons, if_pos (by decide), run_cat_cons]
  show (Re.plus (.chr isDigit)).run _ _ = _
  apply run_plus_chr isDigit ds _ _ _ _ hne hds (not_digit_of_head '_' (by decide) _)
  simp only [List.length_append, Nat.add_sub_cancel, List.take_left']
  rw [run_cat_cons]
  apply run_opt_of_some
  rw [run_cat_cons, run_lit_cons, if_pos (by decide), run_cat_cons]
  apply run_plus_chr isDigit sz _ _ _ _ hsne hsz (not_digit_of_head 'x' (by decide) _)
  rw [run_cat_cons, run_litI_cons, if_pos (by decide), run_cat_cons]
  apply run_plus_chr isDigit sz _ _ _ _ hsne hsz (not_digit_of_head '.' (by decide) _)
  show (Re.cat (".png".data.map Re.litI)).run { rest := ".png".data ++ [], cap := some ds } some
    = _
  rw [run_wordI _ _ _ _ _ rfl]

theorem fingerprintPattern_skip (c : Char) (cs : List Char)
    (hc : (c.toLower == 'f'.toLower) = false) :
    fingerprintPattern.body.matchAt (c :: cs) = none := by
  unfold fingerprintPattern Re.matchAt
  simp only
  rw [run_cat_cons]
  unfold Re.wordI
  exact run_wordI_fail 'f' "ingerprint/".data c cs none _ hc

theorem prefix_has_no_f :
    ∀ c ∈ "https://static.ui.com/".data, (c.toLower == 'f'.toLower) = false ∧ 'f' ≠ c := by
  decide

theorem extractDeviceIdFromUrl_build (deviceId : String) (size : Nat)
    (hne : deviceId.data ≠ []) (hds : ∀ c ∈ deviceId.data, isDigit c = true)
    (h : size < 10 ^ 21) :
    Utils.extractDeviceIdFromUrl (Utils.buildFingerprintUrl deviceId size) = some deviceId := by
  have hexec : fingerprintPattern.exec (Utils.buildFingerprintUrl deviceId size) =
      some { rest := [], cap := some deviceId.data } := by
    unfold Pattern.exec
    have ha : fingerprintPattern.anchored = false := rfl
    simp only [ha, Bool.false_eq_true, if_false]
    rw [buildFingerprintUrl_data deviceId size h,
      search_skip _ _ _ (fun c hc cs => fingerprintPattern_skip c cs (prefix_has_no_f c hc).1)]
    exact search_of_matchAt _ _ _
      (fingerprintPattern_matchAt deviceId.data (toString size).data hne hds
        (toString_digits size).1 (toString_digits size).2)
  have hurl : Utils.buildFingerprintUrl deviceId size ≠ "" := by
    intro he
    have := congrArg String.data he
    rw [buildFingerprintUrl_data deviceId size h] at this
    exact absurd this (by simp)
  unfold Utils.extractDeviceIdFromUrl
  rw [if_neg hurl, hexec]
  rfl

theorem dropLiteral_append (l r : List Char) : dropLiteral l (l ++ r) = some r := by
  induction l with
  | nil => cases r <;> rfl
  | cons a l ih => simp [dropLiteral, ih]

theorem takeDigits_run (a r : List Char) (hne : a ≠ []) (ha : ∀ c ∈ a, isDigit c = true)
    (hr : ∀ c r2, r = c :: r2 → isDigit c = false) : takeDigits (a ++ r) = some (a, r) := by
  have hs := span_digits a r ha hr
  unfold takeDigits
  rw [hs.1, hs.2]
  cases a with
  | nil => exact absurd rfl hne
  | cons x a => rfl

theorem firstMatch_skip (pattern : List Char → Option String) (pre rest : List Char)
    (h : ∀ c ∈ pre, ∀ cs, pattern (c :: cs) = none) :
    firstMatch pattern (pre ++ rest) = firstMatch pattern rest := by
  induction pre with
  | nil => rfl
  | cons c pre ih =>
    simp only [List.cons_append, firstMatch, h c (List.mem_cons_self _ _)]
    exact ih (fun x hx => h x (List.mem_cons_of_mem _ hx))

theorem firstMatch_of_match (pattern : List Char → Option String) (cs : List Char) (r : String)
    (h : pattern cs = some r) : firstMatch pattern cs = some r := by
  cases cs with
  | nil => exact h
  | cons c cs => simp [firstMatch, h]

theorem matchFingerprintUrlAt_skip (c : Char) (cs : List Char) (hc : 'f' ≠ c) :
    matchFingerprintUrlAt (c :: cs) = none := by
  have h1 : dropLiteral "fingerprint/".data (c :: cs) = none := by
    show (if 'f' = c then dropLiteral "ingerprint/".data cs else none) = none
    rw [if_neg hc]
  unfold matchFingerprintUrlAt
  rw [h1]

theorem matchFingerprintUrlAt_build (ds sz : List Char) (hne : ds ≠ [])
    (hds : ∀ c ∈ ds, isDigit c = true) (hsne : sz ≠ []) (hsz : ∀ c ∈ sz, isDigit c = true) :
    matchFingerprintUrlAt
      ("fingerprint/".data ++ ('0' :: '/' ::
        (ds ++ ('_' :: (sz ++ ('x' :: (sz ++ (".png".data ++ []))))))))
      = some (String.mk ds) := by
  have h1 := dropLiteral_append "fingerprint/".data
    ('0' :: '/' :: (ds ++ ('_' :: (sz ++ ('x' :: (sz ++ (".png".data ++ [])))))))
  have h2 := takeDigits_run ['0'] ('/' :: (ds ++ ('_' :: (sz ++ ('x' :: (sz ++ (".png".data ++ []))))))) (by decide) (by decide)
    (not_digit_of_head '/' (by decide) _)
  have h3 := dropLiteral_append "/".data
    (ds ++ ('_' :: (sz ++ ('x' :: (sz ++ (".png".data ++ []))))))
  have h4 := takeDigits_run ds ('_' :: (sz ++ ('x' :: (sz ++ (".png".data ++ []))))) hne hds
    (not_digit_of_head '_' (by decide) _)
  have h5 := dropLiteral_append "_".data (sz ++ ('x' :: (sz ++ (".png".data ++ []))))
  have h6 := takeDigits_run sz ('x' :: (sz ++ (".png".data ++ []))) hsne hsz
    (not_digit_of_head 'x' (by decide) _)
  have h7 := dropLiteral_append "x".data (sz ++ (".png".data ++ []))
  have h8 := takeDigits_run sz (".png".data ++ []) hsne hsz
    (not_digit_of_head '.' (by decide) _)
  have h9 := dropLiteral_append ".png".data []
  have hsuffix : matchSizeSuffix ('_' :: (sz ++ ('x' :: (sz ++ (".png".data ++ []))))) =
      some (".png".data ++ []) := by
    unfold matchSizeSuffix
    rw [show '_' :: (sz ++ ('x' :: (sz ++ (".png".data ++ [])))) =
      "_".data ++ (sz ++ ('x' :: (sz ++ (".png".data ++ [])))) from rfl, h5]
    simp only
    rw [h6]
    simp only
    rw [show 'x' :: (sz ++ (".png".data ++ [])) = "x".data ++ (sz ++ (".png".data ++ [])) from rfl,
      h7]
    simp only
    rw [h8]
  unfold matchFingerprintUrlAt
  rw [h1]
  simp only
  rw [show '0' :: '/' :: (ds ++ ('_' :: (sz ++ ('x' :: (sz ++ (".png".data ++ [])))))) =
    ['0'] ++ ('/' :: (ds ++ ('_' :: (sz ++ ('x' :: (sz ++ (".png".data ++ [])))))))
    from rfl, h2]
  simp only
  rw [show '/' :: (ds ++ ('_' :: (sz ++ ('x' :: (sz ++ (".png".data ++ []))))))  =
    "/".data ++ (ds ++ ('_' :: (sz ++ ('x' :: (sz ++ (".png".data ++ [])))))) from rfl, h3]
  simp only
  rw [h4]
  simp only
  rw [hsuffix]
  simp only [Option.getD_some]
  rw [h9]

theorem extractFingerprintId_build (deviceId : String) (size : Nat)
    (hne : deviceId.data ≠ []) (hds : ∀ c ∈ deviceId.data, isDigit c = true)
    (h : size < 10 ^ 21) :
    extractFingerprintId (Utils.buildFingerprintUrl deviceId size) = some deviceId := by
  unfold extractFingerprintId
  rw [buildFingerprintUrl_data deviceId size h,
    firstMatch_skip _ _ _
      (fun c hc cs => matchFingerprintUrlAt_skip c cs (prefix_has_no_f c hc).2),
    firstMatch_of_match _ _ _
      (matchFingerprintUrlAt_build deviceId.data (toString size).data hne hds
        (toString_digits size).1 (toString_digits size).2)]

/-- C30 (the claim fails as stated): the size 10^21 is printed `1e+21` by the
template literal, so the URL built for the id 5 has no size suffix of the
form `_\d+x\d+`, and neither `Utils.extractDeviceIdFromUrl` nor the
page-context `extractFingerprintId` finds an id in it. -/
theorem round_trip_fails_for_large_size :
    Utils.buildFingerprintUrl "5" (10 ^ 21) =
        "https://static.ui.com/fingerprint/0/5_1e+21x1e+21.png" ∧
      Utils.extractDeviceIdFromUrl (Utils.buildFingerprintUrl "5" (10 ^ 21)) = none ∧
      extractFingerprintId (Utils.buildFingerprintUrl "5" (10 ^ 21)) = none := by
  decide

/-- C30 (amended): for every device id that is a non-empty string of decimal
digits and every size below 10^21, `Utils.extractDeviceIdFromUrl` gives the id
back from the URL `Utils.buildFingerprintUrl` builds, and so does the
page-context `extractFingerprintId`. -/
theorem fingerprintUrl_round_trip (deviceId : String) (size : Nat)
    (hne : deviceId.data ≠ []) (hds : ∀ c ∈ deviceId.data, isDigit c = true)
    (hsize : size < 10 ^ 21) :
    Utils.extractDeviceIdFromUrl (Utils.buildFingerprintUrl deviceId size) = some deviceId ∧
      extractFingerprintId (Utils.buildFingerprintUrl deviceId size) = some deviceId :=
  ⟨extractDeviceIdFromUrl_build deviceId size hne hds hsize,
    extractFingerprintId_build deviceId size hne hds hsize⟩

theorem fingerprintUrl_round_trip_witness :
    Utils.extractDeviceIdFromUrl (Utils.buildFingerprintUrl "1234" 129) = some "1234" ∧
      extractFingerprintId (Utils.buildFingerprintUrl "1234" 129) = some "1234" :=
  fingerprintUrl_round_trip "1234" 129 (by decide) (by decide) (by decide)

/-! ### The device list built for display -/

theorem bundledRound_spec (registry : JsObj) (devices out : List DisplayDevice)
    (e : String × JsVal) (h : bundledRound registry devices e = some out) :
    (parseInt e.1 = none ∧ out = devices) ∨
      ∃ numericId name d, parseInt e.1 = some numericId ∧ officialName e.2 = some name ∧
        d.id = numericId ∧ d.name = name ∧ d.isNew = false ∧ out = devices ++ [d] := by
  unfold bundledRound at h
  cases hp : parseInt e.1 with
  | none =>
    rw [hp] at h
    exact Or.inl ⟨rfl, (Option.some.inj h).symm⟩
  | some numericId =>
    rw [hp] at h
    cases ho : officialName e.2 with
    | none => rw [ho] at h; simp at h
    | some name =>
      rw [ho] at h
      exact Or.inr ⟨numericId, name, _, rfl, rfl, rfl, rfl, rfl, (Option.some.inj h).symm⟩

theorem bundledLoop_spec (bundledDatabase registry : JsObj) (es : List (String × JsVal))
    (hes : ∀ e ∈ es, objGet bundledDatabase e.1 = some e.2) (acc out : List DisplayDevice)
    (h : bundledLoop registry es acc = some out) :
    (∀ d ∈ acc, d ∈ out) ∧
    (∀ d ∈ out, d ∈ acc ∨ (d.isNew = false ∧ ∃ id name, objGet bundledDatabase id = some name ∧
      parseInt id = some d.id ∧ some d.name = officialName name)) ∧
    (∀ e ∈ es, ∀ numericId, parseInt e.1 = some numericId →
      ∃ d ∈ out, d.id = numericId ∧ some d.name = officialName e.2 ∧ d.isNew = false) := by
  induction es generalizing acc with
  | nil =>
    simp only [bundledLoop, Option.some.injEq] at h
    subst h
    exact ⟨fun d hd => hd, fun d hd => Or.inl hd, fun e he => absurd he (List.not_mem_nil _)⟩
  | cons e rest ih =>
    unfold bundledLoop at h
    cases hr : bundledRound registry acc e with
    | none => rw [hr] at h; simp at h
    | some acc1 =>
      rw [hr] at h
      simp only at h
      obtain ⟨h1, h2, h3⟩ := ih (fun x hx => hes x (List.mem_cons_of_mem _ hx)) acc1 h
      have he := hes e (List.mem_cons_self _ _)
      rcases bundledRound_spec registry acc acc1 e hr with ⟨hp, hacc⟩ |
        ⟨numericId, name, d0, hp, ho, hid, hname, hnew, hacc⟩
      · subst hacc
        refine ⟨h1, h2, ?_⟩
        intro x hx n hn
        rcases List.mem_cons.mp hx with hx | hx
        · rw [hx, hp] at hn
          simp at hn
        · exact h3 x hx n hn
      · subst hacc
        refine ⟨fun d hd => h1 d (List.mem_append_left _ hd), ?_, ?_⟩
        · intro d hd
          rcases h2 d hd with hd1 | hd1
          · rcases List.mem_append.mp hd1 with hd2 | hd2
            · exact Or.inl hd2
            · have hd3 : d = d0 := by simpa using hd2
              subst hd3
              exact Or.inr ⟨hnew, e.1, e.2, he, by rw [hp, hid], by rw [ho, hname]⟩
          · exact Or.inr hd1
        · intro x hx n hn
          rcases List.mem_cons.mp hx with hx | hx
          · subst hx
            rw [hp] at hn
            refine ⟨d0, h1 d0 (List.mem_append_right _ (List.mem_singleton_self _)), ?_, ?_, hnew⟩
            · rw [hid]; exact Option.some.inj hn
            · rw [ho, hname]
          · exact h3 x hx n hn

theorem registryRound_spec (bundledDatabase : JsObj) (devices : List DisplayDevice)
    (e : String × JsVal) :
    registryRound bundledDatabase devices e = devices ∨
      ∃ d, registryRound bundledDatabase devices e = devices ++ [d] ∧ d.isNew = true ∧
        objGet bundledDatabase e.1 = none ∧ parseInt e.1 = some d.id ∧
        d.name = StorageManager.getDeviceName e.2 := by
  unfold registryRound
  cases hp : parseInt e.1 with
  | none => exact Or.inl rfl
  | some numericId =>
    simp only
    by_cases hb : (objKeys bundledDatabase).contains e.1 = true
    · rw [if_pos hb]; exact Or.inl rfl
    · rw [if_neg hb]
      split
      · exact Or.inl rfl
      · split
        · exact Or.inl rfl
        · refine Or.inr ⟨_, rfl, rfl, ?_, rfl, rfl⟩
          cases hg : objGet bundledDatabase e.1 with
          | none => rfl
          | some v =>
            exfalso
            apply hb
            have hk : e.1 ∈ objKeys bundledDatabase := by
              rw [mem_objKeys, hg]
              rfl
            simpa using hk

theorem registryLoop_spec (bundledDatabase registry : JsObj) (es : List (String × JsVal))
    (hes : ∀ e ∈ es, objGet registry e.1 = some e.2) (acc : List DisplayDevice) :
    (∀ d ∈ acc, d ∈ es.foldl (registryRound bundledDatabase) acc) ∧
    (∀ d ∈ es.foldl (registryRound bundledDatabase) acc, d ∈ acc ∨
      (d.isNew = true ∧ ∃ id entry, objGet registry id = some entry ∧
        objGet bundledDatabase id = none ∧ parseInt id = some d.id ∧
        d.name = StorageManager.getDeviceName entry)) := by
  induction es generalizing acc with
  | nil => exact ⟨fun d hd => hd, fun d hd => Or.inl hd⟩
  | cons e rest ih =>
    rw [List.foldl_cons]
    obtain ⟨h1, h2⟩ := ih (fun x hx => hes x (List.mem_cons_of_mem _ hx))
      (registryRound bundledDatabase acc e)
    have he := hes e (List.mem_cons_self _ _)
    rcases registryRound_spec bundledDatabase acc e with hr | ⟨d0, hr, hnew, hb, hp, hname⟩
    · rw [hr] at h1 h2 ⊢
      exact ⟨h1, h2⟩
    · rw [hr] at h1 h2 ⊢
      refine ⟨fun d hd => h1 d (List.mem_append_left _ hd), ?_⟩
      intro d hd
      rcases h2 d hd with hd1 | hd1
      · rcases List.mem_append.mp hd1 with hd2 | hd2
        · exact Or.inl hd2
        · have hd3 : d = d0 := by simpa using hd2
          subst hd3
          exact Or.inr ⟨hnew, e.1, e.2, he, hb, hp, hname⟩
      · exact Or.inr hd1

/-- C24 (the claim fails as stated): the id 5 is in the bundled database with
the name `Bundled Name` and in the registry with the name `Harvested Name`;
the list built for display holds one device, with the bundled name. -/
theorem displayDevices_shows_bundled_name :
    (StorageManager.getDeviceName
      (.obj [("name", .str "Harvested Name"), ("addedAt", .num 1)])).toKey = "Harvested Name" ∧
    (displayDevices [("5", .str "Bundled Name")]
      [("5", .obj [("name", .str "Harvested Name"), ("addedAt", .num 1)])]).map
        (fun devices => devices.map DisplayDevice.shown) = some [(5, "Bundled Name", false)] := by
  decide

/-- C24 (amended): when the two loops have built the list, every id of the
bundled database that `parseInt` reads as a number has a device with the name
of the bundled database, not marked new, whatever the registry holds for the
id; every device not marked new is such a device; and every device marked new
comes from a registry entry whose id is not in the bundled database, with the
name of that entry. -/
theorem displayDevices_sources (bundledDatabase registry : JsObj)
    (devices : List DisplayDevice)
    (h : displayDevices bundledDatabase registry = some devices) :
    (∀ id name numericId, objGet bundledDatabase id = some name →
      parseInt id = some numericId →
      ∃ d ∈ devices, d.id = numericId ∧ some d.name = officialName name ∧ d.isNew = false) ∧
    (∀ d ∈ devices, d.isNew = false →
      ∃ id name, objGet bundledDatabase id = some name ∧ parseInt id = some d.id ∧
        some d.name = officialName name) ∧
    (∀ d ∈ devices, d.isNew = true →
      ∃ id entry, objGet registry id = some entry ∧ objGet bundledDatabase id = none ∧
        parseInt id = some d.id ∧ d.name = StorageManager.getDeviceName entry) := by
  unfold displayDevices at h
  cases hb : bundledLoop registry (objEntries bundledDatabase) [] with
  | none => rw [hb] at h; simp at h
  | some first =>
    rw [hb] at h
    simp only [Option.some.injEq] at h
    obtain ⟨_, b2, b3⟩ := bundledLoop_spec bundledDatabase registry (objEntries bundledDatabase)
      (fun e he => (mem_objEntries bundledDatabase e.1 e.2).mp he) [] first hb
    obtain ⟨r1, r2⟩ := registryLoop_spec bundledDatabase registry (objEntries registry)
      (fun e he => (mem_objEntries registry e.1 e.2).mp he) first
    rw [h] at r1 r2
    refine ⟨?_, ?_, ?_⟩
    · intro id name numericId hget hp
      obtain ⟨d, hd, hprops⟩ := b3 (id, name) ((mem_objEntries bundledDatabase id name).mpr hget)
        numericId hp
      exact ⟨d, r1 d hd, hprops⟩
    · intro d hd hnew
      rcases r2 d hd with hd1 | ⟨hd1, _⟩
      · rcases b2 d hd1 with hd2 | ⟨_, hsrc⟩
        · exact absurd hd2 (List.not_mem_nil _)
        · exact hsrc
      · rw [hnew] at hd1
        exact absurd hd1 (by decide)
    · intro d hd hnew
      rcases r2 d hd with hd1 | ⟨_, hsrc⟩
      · rcases b2 d hd1 with hd2 | ⟨hd2, _⟩
        · exact absurd hd2 (List.not_mem_nil _)
        · rw [hnew] at hd2
          exact absurd hd2 (by decide)
      · exact hsrc

theorem displayDevices_sources_witness :
    ∃ d ∈ [({ id := 5, name := .str "Bundled Name", addedAt := .num 1, isNew := false } :
        DisplayDevice)],
      d.id = 5 ∧ some d.name = officialName (.str "Bundled Name") ∧ d.isNew = false :=
  (displayDevices_sources [("5", .str "Bundled Name")]
    [("5", .obj [("name", .str "Harvested Name"), ("addedAt", .num 1)])]
    [{ id := 5, name := .str "Bundled Name", addedAt := .num 1, isNew := false }] rfl).1
    "5" (.str "Bundled Name") 5 rfl (by decide)

/-! ### Completeness of the render-tree search in a forest -/

theorem within_mono (heap : FiberHeap) (n m f t : Nat) (h : Within heap n f t) (hnm : n ≤ m) :
    Within heap m f t := by
  induction h generalizing m with
  | here n f => exact Within.here m f
  | child n f c t fb hf hc _ ih =>
    obtain ⟨m1, rfl⟩ : ∃ m1, m = m1 + 1 := ⟨m - 1, by omega⟩
    exact Within.child m1 f c t fb hf hc (ih m1 (by omega))
  | sibling n f s t fb hf hs _ ih =>
    obtain ⟨m1, rfl⟩ : ∃ m1, m = m1 + 1 := ⟨m - 1, by omega⟩
    exact Within.sibling m1 f s t fb hf hs (ih m1 (by omega))

theorem reach_refl (heap : FiberHeap) (f : Nat) : Reach heap f f := ⟨0, Within.here 0 f⟩

theorem reach_of_child (heap : FiberHeap) (f c g : Nat) (fb : Fiber)
    (hf : heap.get? f = some fb) (hc : fb.child = some c) (h : Reach heap c g) :
    Reach heap f g :=
  let ⟨n, hn⟩ := h
  ⟨n + 1, Within.child n f c g fb hf hc hn⟩

theorem reach_of_sibling (heap : FiberHeap) (f s g : Nat) (fb : Fiber)
    (hf : heap.get? f = some fb) (hs : fb.sibling = some s) (h : Reach heap s g) :
    Reach heap f g :=
  let ⟨n, hn⟩ := h
  ⟨n + 1, Within.sibling n f s g fb hf hs hn⟩

/-- The search marks only fibers reached from the fiber it starts at. -/
theorem searchFuel_visited (fuel : Nat) (heap : FiberHeap) (fiber : Option Nat) (depth : Nat)
    (st : SearchState) (g : Nat)
    (h : g ∈ (searchFuel fuel heap fiber depth st).visited) :
    g ∈ st.visited ∨ ∃ f, fiber = some f ∧ Reach heap f g := by
  induction fuel generalizing fiber depth st g with
  | zero => exact Or.inl (by simpa [searchFuel] using h)
  | succ fuel ih =>
    cases fiber with
    | none => exact Or.inl (by simpa [searchFuel] using h)
    | some f =>
      rw [searchFuel] at h
      cases hfb : heap.get? f with
      | none => rw [hfb] at h; exact Or.inl h
      | some fb =>
        rw [hfb] at h
        simp only at h
        split at h
        · exact Or.inl h
        · have hst1 : ∀ x, x ∈ f :: st.visited → x ∈ st.visited ∨ Reach heap f x := by
            intro x hx
            rcases List.mem_cons.mp hx with hx | hx
            · exact Or.inr (hx ▸ reach_refl heap f)
            · exact Or.inl hx
          split at h
          · rcases hst1 g h with hg | hg
            · exact Or.inl hg
            · exact Or.inr ⟨f, rfl, hg⟩
          · have hst2 : ∀ x, x ∈ (match fb.child with
                | some c => searchFuel fuel heap (some c) (depth + 1)
                    { st with visited := f :: st.visited,
                              examined := st.examined ++ [(f, depth)] }
                | none => { st with visited := f :: st.visited,
                                    examined := st.examined ++ [(f, depth)] }).visited →
                x ∈ st.visited ∨ Reach heap f x := by
              intro x hx
              cases hc : fb.child with
              | none =>
                rw [hc] at hx
                exact hst1 x hx
              | some c =>
                rw [hc] at hx
                simp only at hx
                rcases ih _ _ _ _ hx with hx1 | ⟨c1, hc1, hx1⟩
                · exact hst1 x hx1
                · rw [← Option.some.inj hc1] at hx1
                  exact Or.inr (reach_of_child heap f c x fb hfb hc hx1)
            cases hs : fb.sibling with
            | none =>
              rw [hs] at h
              rcases hst2 g h with hg | hg
              · exact Or.inl hg
              · exact Or.inr ⟨f, rfl, hg⟩
            | some s =>
              rw [hs] at h
              simp only at h
              rcases ih _ _ _ _ h with hx1 | ⟨s1, hs1, hx1⟩
              · rcases hst2 g hx1 with hg | hg
                · exact Or.inl hg
                · exact Or.inr ⟨f, rfl, hg⟩
              · rw [← Option.some.inj hs1] at hx1
                exact Or.inr ⟨f, rfl, reach_of_sibling heap f s g fb hfb hs hx1⟩

theorem search_of_found (heap : FiberHeap) (fiber : Option Nat) (depth : Nat)
    (st : SearchState) (h : st.found.isSome = true) : search heap fiber depth st = st := by
  cases fiber with
  | none =>
    unfold search
    cases 52 - depth <;> rfl
  | some f =>
    rw [search_unfold]
    cases heap.get? f with
    | none => rfl
    | some fb => simp [h]

theorem search_guard_open (heap : FiberHeap) (f : Nat) (fb : Fiber) (depth : Nat)
    (st : SearchState) (hf : heap.get? f = some fb) (hd : depth ≤ 50)
    (hv : f ∉ st.visited) (hfound : st.found = none) :
    search heap (some f) depth st =
      if lengthExceeds fb.items 1000 then
        { visited := f :: st.visited, found := some fb.items,
          examined := st.examined ++ [(f, depth)] }
      else
        match fb.sibling with
        | some s => search heap (some s) (depth + 1)
            (match fb.child with
              | some c => search heap (some c) (depth + 1)
                  { st with visited := f :: st.visited,
                            examined := st.examined ++ [(f, depth)] }
              | none => { st with visited := f :: st.visited,
                                  examined := st.examined ++ [(f, depth)] })
        | none =>
            (match fb.child with
              | some c => search heap (some c) (depth + 1)
                  { st with visited := f :: st.visited,
                            examined := st.examined ++ [(f, depth)] }
              | none => { st with visited := f :: st.visited,
                                  examined := st.examined ++ [(f, depth)] }) := by
  rw [search_unfold, hf]
  have hg : (decide (depth > 50) || st.visited.contains f || st.found.isSome) = false := by
    have h1 : decide (depth > 50) = false := by simp; omega
    have h2 : st.visited.contains f = false := by simpa using hv
    rw [h1, h2, hfound]
    rfl
  simp only [hg, Bool.false_eq_true, if_false]

/-- In a forest, the search that starts at a fiber none of whose descendants
is marked finds a collection when one lies within the depth it may still go. -/
theorem search_finds (heap : FiberHeap) (hforest : IsForest heap) (t : Nat) (target : Fiber)
    (ht : heap.get? t = some target) (hq : lengthExceeds target.items 1000 = true)
    (n f : Nat) (hw : Within heap n f t) :
    ∀ depth st, depth + n ≤ 50 → st.found = none →
      (∀ g, Reach heap f g → g ∉ st.visited) →
      (search heap (some f) depth st).found.isSome = true := by
  induction hw with
  | here n f =>
    intro depth st hd hfound hvis
    rw [search_guard_open heap f target depth st ht (by omega) (hvis f (reach_refl heap f))
      hfound, if_pos hq]
    rfl
  | child n f c t fb hf hc _ ih =>
    intro depth st hd hfound hvis
    rw [search_guard_open heap f fb depth st hf (by omega) (hvis f (reach_refl heap f)) hfound]
    split
    · rfl
    · have hchild : (search heap (some c) (depth + 1)
          { st with visited := f :: st.visited,
                    examined := st.examined ++ [(f, depth)] }).found.isSome = true := by
        refine ih ht (depth + 1)
          { st with visited := f :: st.visited, examined := st.examined ++ [(f, depth)] }
          (by omega) hfound ?_
        intro g hg hmem
        rcases List.mem_cons.mp hmem with h | h
        · exact (hforest f fb hf).1 c hc (h ▸ hg)
        · exact hvis g (reach_of_child heap f c g fb hf hc hg) h
      rw [hc]
      simp only
      cases fb.sibling with
      | none => exact hchild
      | some s =>
        simp only
        rw [search_of_found _ _ _ _ hchild]
        exact hchild
  | sibling n f s t fb hf hs _ ih =>
    intro depth st hd hfound hvis
    rw [search_guard_open heap f fb depth st hf (by omega) (hvis f (reach_refl heap f)) hfound]
    split
    · rfl
    · rw [hs]
      simp only
      cases hfd : (match fb.child with
          | some c => search heap (some c) (depth + 1)
              { st with visited := f :: st.visited,
                        examined := st.examined ++ [(f, depth)] }
          | none => { st with visited := f :: st.visited,
                              examined := st.examined ++ [(f, depth)] }).found with
      | some x =>
        rw [search_of_found _ _ _ _ (by rw [hfd]; rfl), hfd]
        rfl
      | none =>
        apply ih ht (depth + 1) _ (by omega) hfd
        intro g hg hmem
        have hst1 : g ∈ f :: st.visited → False := by
          intro h1
          rcases List.mem_cons.mp h1 with h | h
          · exact (hforest f fb hf).2.1 s hs (h ▸ hg)
          · exact hvis g (reach_of_sibling heap f s g fb hf hs hg) h
        cases hc : fb.child with
        | none =>
          rw [hc] at hmem
          exact hst1 hmem
        | some c =>
          rw [hc] at hmem
          simp only [search] at hmem
          rcases searchFuel_visited _ _ _ _ _ g hmem with h1 | ⟨c1, hc1, h1⟩
          · exact hst1 h1
          · rw [← Option.some.inj hc1] at h1
            exact (hforest f fb hf).2.2 c s g hc hs h1 hg

theorem scanRoots_of_found (heap : FiberHeap) (roots : List (Option Nat)) (st : SearchState)
    (h : st.found.isSome = true) : scanRoots heap roots st = st := by
  induction roots with
  | nil => rfl
  | cons r rest ih =>
    simp only [scanRoots, List.foldl_cons] at ih ⊢
    cases r with
    | none => exact ih
    | some f =>
      simp only [h, if_true]
      exact ih

theorem scanRoots_nones (heap : FiberHeap) (k : Nat) (rest : List (Option Nat))
    (st : SearchState) :
    scanRoots heap (List.replicate k none ++ rest) st = scanRoots heap rest st := by
  induction k with
  | zero => rfl
  | succ k ih =>
    rw [List.replicate_succ, List.cons_append]
    simp only [scanRoots, List.foldl_cons] at ih ⊢
    exact ih

theorem reactItem_of_shaped (map : JsObj) (item : JsVal) (h : hasIdAndSubtitle item = true) :
    reactItem map item =
      some (objSet map (item.getProp "id").toKey (item.getProp "subtitle")) := by
  simp only [hasIdAndSubtitle, Bool.and_eq_true] at h
  obtain ⟨⟨h1, h2⟩, h3⟩ := h
  cases item <;> simp_all [reactItem, JsVal.truthy]

theorem reactItems_of_shaped (xs : List JsVal) (acc : JsObj) (n : Nat)
    (h : ∀ item ∈ xs, hasIdAndSubtitle item = true) :
    xs.foldlM reactItem acc = some (xs.foldl harvestItem (acc, n)).1 := by
  induction xs generalizing acc n with
  | nil => rfl
  | cons x xs ih =>
    have hx := h x (List.mem_cons_self _ _)
    rw [List.foldlM_cons, reactItem_of_shaped acc x hx, List.foldl_cons,
      harvestItem_of_true _ _ hx]
    exact ih _ _ (fun item hi => h item (List.mem_cons_of_mem _ hi))

theorem harvestTable_ne_nil (xs : List JsVal) (hne : xs ≠ [])
    (h : ∀ item ∈ xs, hasIdAndSubtitle item = true) : harvestTable xs ≠ [] := by
  cases xs with
  | nil => exact absurd rfl hne
  | cons x xs =>
    have hk := harvest_keys_of_items (x :: xs) ([], 0) x (List.mem_cons_self _ _)
      (h x (List.mem_cons_self _ _))
    intro he
    unfold harvestTable at he
    rw [he] at hk
    simp [objKeys, objEntries] at hk

theorem within_le (heap : FiberHeap)
    (hup : ∀ f < heap.length, (heap.get? f).all
      (fun fb => fb.child.all (fun c => f < c) && fb.sibling.all (fun s => f < s) &&
        !(fb.child.isSome && fb.sibling.isSome)) = true)
    (n f g : Nat) (h : Within heap n f g) : f ≤ g := by
  induction h with
  | here n f => exact le_refl f
  | child n f c t fb hf hc _ ih =>
    have := hup f (List.get?_eq_some.mp hf).1
    rw [hf] at this
    simp [hc] at this
    omega
  | sibling n f s t fb hf hs _ ih =>
    have := hup f (List.get?_eq_some.mp hf).1
    rw [hf] at this
    simp [hs] at this
    omega

/-- A heap whose links lead to higher indices, and in which no fiber has both
a child and a sibling, is a forest. -/
theorem isForest_of_upward (heap : FiberHeap)
    (hup : ∀ f < heap.length, (heap.get? f).all
      (fun fb => fb.child.all (fun c => f < c) && fb.sibling.all (fun s => f < s) &&
        !(fb.child.isSome && fb.sibling.isSome)) = true) :
    IsForest heap := by
  intro f fb hf
  have := hup f (List.get?_eq_some.mp hf).1
  rw [hf] at this
  refine ⟨?_, ?_, ?_⟩
  · rintro c hc ⟨n, hw⟩
    have hle := within_le heap hup n c f hw
    simp [hc] at this
    omega
  · rintro s hs ⟨n, hw⟩
    have hle := within_le heap hup n s f hw
    simp [hs] at this
    omega
  · intro c s g hc hs
    simp [hc, hs] at this

/-- C26 (the claim fails as stated): in a chain of 52 fibers the elements carry
the fibers 0 and 50.  The fiber 51 is the child of the start fiber 50 and
exposes 1001 items, each with id and subtitle.  The search from the fiber 0
marks the fiber 50 at depth 50 and is cut below it; the search from the fiber
50 stops at the mark; `extractFromReact` returns the empty table. -/
theorem extractFromReact_misses_below_marked_fiber :
    IsForest chainHeap ∧
    Within chainHeap 1 50 51 ∧
    (∃ target, chainHeap.get? 51 = some target ∧
      target.items = .arr (pickerItems 1000 1001) ∧
      lengthExceeds target.items 1000 = true ∧
      ∀ item ∈ pickerItems 1000 1001, hasIdAndSubtitle item = true) ∧
    (extractFromReact chainHeap [some 0, some 50]).map objKeys = some [] ∧
    (searchResult chainHeap [some 0, some 50]).examined.map Prod.fst = List.range 51 := by
  refine ⟨isForest_of_upward chainHeap (by decide), ?_, ?_, by decide, by decide⟩
  · exact Within.child 0 50 51 51
      { memoizedProps := .null, child := some 51, sibling := none } rfl rfl
      (Within.here 0 51)
  · refine ⟨{ memoizedProps := .obj [("data", payloadOf (pickerItems 1000 1001))],
              child := none, sibling := none }, rfl, rfl, ?_,
      hasIdAndSubtitle_pickerItems 1000 1001 (by decide)⟩
    show decide ((pickerItems 1000 1001).length > 1000) = true
    rw [length_pickerItems]
    rfl

/-- C26 (amended): in a fiber forest, let the first element that carries a
fiber carry `f0`.  If a fiber within 50 child or sibling links of `f0`
exposes an array of more than 1000 items, each with id and subtitle, and no
other fiber exposes a collection of more than 1000 items, then
`extractFromReact` returns the table of that array, which is not empty. -/
theorem extractFromReact_finds_in_forest (heap : FiberHeap) (k f0 : Nat)
    (rest : List (Option Nat)) (n t : Nat) (target : Fiber) (xs : List JsVal)
    (hforest : IsForest heap) (hwithin : Within heap n f0 t) (hn : n ≤ 50)
    (htarget : heap.get? t = some target) (hitems : target.items = .arr xs)
    (hlen : 1000 < xs.length) (hshape : ∀ item ∈ xs, hasIdAndSubtitle item = true)
    (honly : ∀ g fb, heap.get? g = some fb → lengthExceeds fb.items 1000 = true → g = t) :
    extractFromReact heap (List.replicate k none ++ some f0 :: rest) = some (harvestTable xs) ∧
      harvestTable xs ≠ [] := by
  have hq : lengthExceeds target.items 1000 = true := by
    rw [hitems]
    simpa [lengthExceeds] using hlen
  have hfirst := search_finds heap hforest t target htarget hq n f0 hwithin 0
    { visited := [], found := none, examined := [] } (by omega) rfl
    (fun g _ hg => absurd hg (List.not_mem_nil _))
  have hscan : (searchResult heap (List.replicate k none ++ some f0 :: rest)).found.isSome =
      true := by
    unfold searchResult
    rw [scanRoots_nones]
    simp only [scanRoots, List.foldl_cons, Option.isSome_none, Bool.false_eq_true, if_false]
    have := scanRoots_of_found heap rest _ hfirst
    simp only [scanRoots] at this
    rw [this]
    exact hfirst
  obtain ⟨items, hfound⟩ := Option.isSome_iff_exists.mp hscan
  have hsrc : items = .arr xs := by
    rcases scanRoots_found heap _ _ items hfound with h | ⟨g, fb, hg, hgq, hgi⟩
    · simp at h
    · have := honly g fb hg hgq
      subst this
      rw [htarget] at hg
      rw [← hgi, ← Option.some.inj hg, hitems]
  refine ⟨?_, harvestTable_ne_nil xs (fun he => by rw [he] at hlen; simp at hlen) hshape⟩
  unfold extractFromReact
  rw [hfound, hsrc]
  exact reactItems_of_shaped xs [] 0 hshape

theorem extractFromReact_finds_in_forest_witness :
    extractFromReact smallForest [none, some 0, some 1, some 2] =
        some (harvestTable (pickerItems 1000 1001)) ∧
      harvestTable (pickerItems 1000 1001) ≠ [] :=
  extractFromReact_finds_in_forest smallForest 1 0 [some 1, some 2] 2 2
    { memoizedProps := .obj [("data", payloadOf (pickerItems 1000 1001))]
      child := none
      sibling := none }
    (pickerItems 1000 1001)
    (isForest_of_upward smallForest (by decide))
    (Within.child 1 0 1 2 { memoizedProps := .null, child := some 1, sibling := none } rfl rfl
      (Within.sibling 0 1 2 2 { memoizedProps := .null, child := none, sibling := some 2 }
        rfl rfl (Within.here 0 2)))
    (by decide) rfl rfl (by rw [length_pickerItems]; decide)
    (hasIdAndSubtitle_pickerItems 1000 1001 (by decide))
    (by
      intro g fb hg hq
      rcases g with _ | _ | _ | g
      · simp only [smallForest, List.get?_cons_zero, Option.some.injEq] at hg
        subst hg
        exact absurd hq (by decide)
      · simp only [smallForest, List.get?_cons_succ, List.get?_cons_zero,
          Option.some.injEq] at hg
        subst hg
        exact absurd hq (by decide)
      · rfl
      · simp [smallForest] at hg)

/-! ### The `dev_ids` branch of `transformResponseData` -/

theorem fieldGet_fieldSet (fs : List (String × HVal)) (k k' : String) (v : HVal) :
    fieldGet (fieldSet fs k v) k' = if k = k' then v else fieldGet fs k' := by
  induction fs with
  | nil => simp [fieldSet, fieldGet]
  | cons e rest ih =>
    obtain ⟨k0, v0⟩ := e
    by_cases h0 : k0 = k
    · subst h0
      by_cases h1 : k0 = k' <;> simp [fieldSet, fieldGet, h1]
    · by_cases h1 : k = k'
      · subst h1
        simp [fieldSet, fieldGet, h0, ih]
      · by_cases h2 : k0 = k'
        · subst h2
          simp [fieldSet, fieldGet, h0, h1]
        · simp [fieldSet, fieldGet, h0, h1, h2, ih]

theorem fieldGet_of_not_key (fs : List (String × HVal)) (k : String)
    (h : k ∉ fs.map Prod.fst) : fieldGet fs k = .undefined := by
  induction fs with
  | nil => rfl
  | cons e rest ih =>
    obtain ⟨k0, v0⟩ := e
    simp only [List.map_cons, List.mem_cons, not_or] at h
    have h0 : ¬ k0 = k := fun e => h.1 e.symm
    simp only [fieldGet, h0, if_false]
    exact ih h.2

theorem fieldSet_of_key (fs : List (String × HVal)) (k : String) (v : HVal)
    (h : k ∈ fs.map Prod.fst) : (fieldSet fs k v).map Prod.fst = fs.map Prod.fst := by
  induction fs with
  | nil => simp at h
  | cons e rest ih =>
    obtain ⟨k0, v0⟩ := e
    by_cases h0 : k0 = k
    · simp [fieldSet, h0]
    · simp only [List.map_cons, List.mem_cons] at h
      rcases h with h | h
      · exact absurd h.symm h0
      · simp [fieldSet, h0, ih h]

theorem fieldSet_of_not_key (fs : List (String × HVal)) (k : String) (v : HVal)
    (h : k ∉ fs.map Prod.fst) : fieldSet fs k v = fs ++ [(k, v)] := by
  induction fs with
  | nil => rfl
  | cons e rest ih =>
    obtain ⟨k0, v0⟩ := e
    simp only [List.map_cons, List.mem_cons, not_or] at h
    have h0 : ¬ k0 = k := fun e => h.1 e.symm
    simp [fieldSet, h0, ih h.2]

theorem fieldGet_of_mem (fs : List (String × HVal)) (k : String) (v : HVal)
    (hnodup : (fs.map Prod.fst).Nodup) (h : (k, v) ∈ fs) : fieldGet fs k = v := by
  induction fs with
  | nil => simp at h
  | cons e rest ih =>
    obtain ⟨k0, v0⟩ := e
    rw [List.map_cons, List.nodup_cons] at hnodup
    rcases List.mem_cons.mp h with h | h
    · simp only [Prod.mk.injEq] at h
      simp [fieldGet, h.1, h.2]
    · have h0 : ¬ k0 = k := by
        intro e
        exact hnodup.1 (List.mem_map.mpr ⟨(k, v), h, e.symm⟩)
      simp only [fieldGet, h0, if_false]
      exact ih hnodup.2 h

theorem fieldsOverwrite_keys (fs : List (String × HVal)) (name value : String) :
    (fieldsOverwrite fs name value).map Prod.fst = fs.map Prod.fst := by
  unfold fieldsOverwrite
  split
  · rename_i h
    apply fieldSet_of_key
    by_contra hk
    rw [fieldGet_of_not_key fs name hk] at h
    simp at h
  · rfl

theorem fieldsOverwrite_get (fs : List (String × HVal)) (name value k : String) :
    fieldGet (fieldsOverwrite fs name value) k =
      if name = k ∧ fieldGet fs k ≠ .undefined then .str value else fieldGet fs k := by
  unfold fieldsOverwrite
  by_cases hk : name = k
  · subst hk
    by_cases hp : fieldGet fs name = .undefined
    · simp [hp]
    · simp [hp, fieldGet_fieldSet]
  · by_cases hp : fieldGet fs name = .undefined
    · simp [hp, hk]
    · simp [hp, hk, fieldGet_fieldSet]

theorem fieldsSubstitute_keys (fs : List (String × HVal)) (name : String)
    (value : Option String) : (fieldsSubstitute fs name value).map Prod.fst = fs.map Prod.fst := by
  unfold fieldsSubstitute
  split
  · exact fieldsOverwrite_keys _ _ _
  · rfl

theorem fieldsSubstitute_get (fs : List (String × HVal)) (name : String)
    (value : Option String) (k : String) :
    fieldGet (fieldsSubstitute fs name value) k =
      if name = k ∧ truthyStr value = true ∧ fieldGet fs k ≠ .undefined then
        .str (value.getD "")
      else fieldGet fs k := by
  unfold fieldsSubstitute
  by_cases ht : truthyStr value = true
  · simp [ht, fieldsOverwrite_get]
  · simp [ht]

theorem rewrittenFields_keys (mapping : CustomMapping) (fs : List (String × HVal)) :
    (rewrittenFields mapping fs).map Prod.fst = fs.map Prod.fst := by
  unfold rewrittenFields
  simp only
  split
  · rw [fieldsOverwrite_keys, fieldsOverwrite_keys, fieldsSubstitute_keys, fieldsSubstitute_keys,
      fieldsSubstitute_keys]
  · rw [fieldsSubstitute_keys, fieldsSubstitute_keys, fieldsSubstitute_keys]

theorem rewrittenFields_get (mapping : CustomMapping) (fs : List (String × HVal)) (k : String) :
    fieldGet (rewrittenFields mapping fs) k =
      if truthyStr (devIdOverride mapping k) = true ∧ fieldGet fs k ≠ .undefined then
        .str ((devIdOverride mapping k).getD "")
      else fieldGet fs k := by
  unfold rewrittenFields devIdOverride
  simp only
  by_cases h1 : k = "name"
  · subst h1
    split <;> simp +decide [fieldsOverwrite_get, fieldsSubstitute_get]
  · by_cases h2 : k = "manufacturer"
    · subst h2
      split <;> simp +decide [fieldsOverwrite_get, fieldsSubstitute_get]
    · by_cases h3 : k = "model"
      · subst h3
        split <;> simp +decide [fieldsOverwrite_get, fieldsSubstitute_get]
      · by_cases h4 : k = "os_name"
        · subst h4
          split
          · rename_i hos
            simp +decide [fieldsOverwrite_get, fieldsSubstitute_get, hos]
          · rename_i hos
            simp +decide [fieldsOverwrite_get, fieldsSubstitute_get, hos]
        · by_cases h5 : k = "os_class"
          · subst h5
            split
            · rename_i hos
              simp +decide [fieldsOverwrite_get, fieldsSubstitute_get, hos]
            · rename_i hos
              simp +decide [fieldsOverwrite_get, fieldsSubstitute_get, hos]
          · have e1 : ¬ "name" = k := fun e => h1 e.symm
            have e2 : ¬ "manufacturer" = k := fun e => h2 e.symm
            have e3 : ¬ "model" = k := fun e => h3 e.symm
            have e4 : ¬ "os_name" = k := fun e => h4 e.symm
            have e5 : ¬ "os_class" = k := fun e => h5 e.symm
            split <;>
              simp [fieldsOverwrite_get, fieldsSubstitute_get, h1, h2, h3, h4, h5, e1, e2, e3, e4,
                e5, truthyStr]

theorem topObject_alloc (g : Heap) (fs : List (String × HVal)) :
    TopObject g (hAlloc g (.object fs)).2 fs := by
  refine ⟨by simp [hAlloc], ?_, ?_⟩
  · intro b hb
    simp only [hAlloc]
    rw [List.get?_eq_getElem?, List.getElem?_append_left hb, ← List.get?_eq_getElem?]
  · simp [hAlloc]

theorem topObject_overwrite (g hh : Heap) (fs : List (String × HVal)) (name value : String)
    (h : TopObject g hh fs) :
    TopObject g (overwrite hh g.length name value) (fieldsOverwrite fs name value) := by
  obtain ⟨h1, h2, h3⟩ := h
  have hread : hRead hh (.ref g.length) name = fieldGet fs name := by
    simp only [hRead, h3]
  unfold overwrite fieldsOverwrite
  rw [hread]
  split
  · refine ⟨?_, ?_, ?_⟩
    · simp only [hWrite, length_listModify]
      exact h1
    · intro b hb
      simp only [hWrite]
      rw [listModify_get?_ne _ _ _ _ (by omega)]
      exact h2 b hb
    · simp only [hWrite]
      rw [listModify_get?_same, h3]
      rfl
  · exact ⟨h1, h2, h3⟩

theorem topObject_substitute (g hh : Heap) (fs : List (String × HVal)) (name : String)
    (value : Option String) (h : TopObject g hh fs) :
    TopObject g (substitute hh g.length name value) (fieldsSubstitute fs name value) := by
  unfold substitute fieldsSubstitute
  split
  · exact topObject_overwrite g hh fs name _ h
  · exact h

theorem transformDevId_unmapped (mappings : MappingTable) (g : Heap) (devId : String)
    (info : HVal)
    (h : mappingOf mappings devId = none ∨ info.isObject = false) :
    transformDevId mappings g devId info = (g, info) := by
  unfold transformDevId
  cases hm : mappingOf mappings devId with
  | none => rfl
  | some mapping =>
    rcases h with h | h
    · rw [hm] at h
      exact absurd h (by simp)
    · simp [h]

theorem transformDevId_mapped (mappings : MappingTable) (g : Heap) (devId : String)
    (info : HVal) (mapping : CustomMapping) (hm : mappingOf mappings devId = some mapping)
    (hobj : info.isObject = true) :
    (transformDevId mappings g devId info).2 = .ref g.length ∧
      TopObject g (transformDevId mappings g devId info).1
        (rewrittenFields mapping (ownFields g info)) := by
  unfold transformDevId
  simp only [hm, hobj, if_true]
  refine ⟨rfl, ?_⟩
  have h0 := topObject_alloc g (ownFields g info)
  have h1 := topObject_substitute g _ _ "name" mapping.deviceName h0
  have h2 := topObject_substitute g _ _ "manufacturer" mapping.manufacturer h1
  have h3 := topObject_substitute g _ _ "model" mapping.model h2
  unfold rewrittenFields
  simp only
  split
  · exact topObject_overwrite g _ _ "os_class" _ (topObject_overwrite g _ _ "os_name" _ h3)
  · exact h3

theorem entryRewritten_frame (mappings : MappingTable) (base : Heap) (top : Nat)
    (hh hh1 : Heap) (devId : String) (info v : HVal)
    (h : EntryRewritten mappings base top hh devId info v)
    (hframe : ∀ b, top < b → b < hh.length → hh1.get? b = hh.get? b) :
    EntryRewritten mappings base top hh1 devId info v := by
  unfold EntryRewritten at h ⊢
  cases hm : mappingOf mappings devId with
  | none => rw [hm] at h; exact h
  | some mapping =>
    rw [hm] at h
    simp only at h ⊢
    split
    · rename_i hobj
      rw [if_pos hobj] at h
      obtain ⟨b, hv, hb, hget⟩ := h
      refine ⟨b, hv, hb, ?_⟩
      rw [hframe b hb (List.get?_eq_some.mp hget).1]
      exact hget
    · rename_i hobj
      rw [if_neg hobj] at h
      exact h

theorem ownFields_congr (g hh : Heap) (v : HVal)
    (h : ∀ i, v = .ref i → hh.get? i = g.get? i) : ownFields hh v = ownFields g v := by
  cases v with
  | ref i => simp only [ownFields, h i rfl]
  | undefined => rfl
  | null => rfl
  | bool b => rfl
  | num n => rfl
  | str s => rfl

theorem devIdsDone_step (mappings : MappingTable) (top : Nat) (base hh : Heap)
    (done : List (String × HVal)) (e : String × HVal)
    (hinv : DevIdsDone mappings top base hh done) (hkey : e.1 ∉ done.map Prod.fst)
    (hbelow : ∀ i, e.2 = .ref i → i < top) :
    DevIdsDone mappings top base
      (hWrite (transformDevId mappings hh e.1 e.2).1 top e.1 (transformDevId mappings hh e.1 e.2).2)
      (done ++ [e]) := by
  obtain ⟨htop, hframe, tf, htf, hkeys, hentries⟩ := hinv
  have hnotkey : e.1 ∉ tf.map Prod.fst := by rw [hkeys]; exact hkey
  have hown : ownFields hh e.2 = ownFields base e.2 :=
    ownFields_congr base hh e.2 (fun i hi => hframe i (hbelow i hi))
  -- what the round does to the heap, in either case
  have hround : ∃ hh1 v, transformDevId mappings hh e.1 e.2 = (hh1, v) ∧
      hh.length ≤ hh1.length ∧ (∀ b, b < hh.length → hh1.get? b = hh.get? b) ∧
      EntryRewritten mappings base top hh1 e.1 e.2 v := by
    by_cases hcase : mappingOf mappings e.1 = none ∨ e.2.isObject = false
    · refine ⟨hh, e.2, transformDevId_unmapped mappings hh e.1 e.2 hcase, le_refl _,
        fun _ _ => rfl, ?_⟩
      unfold EntryRewritten
      rcases hcase with hc | hc
      · rw [hc]
      · cases mappingOf mappings e.1 with
        | none => rfl
        | some mapping => simp [hc]
    · simp only [not_or] at hcase
      obtain ⟨mapping, hm⟩ := Option.ne_none_iff_exists'.mp hcase.1
      have hobj : e.2.isObject = true := by simpa using hcase.2
      obtain ⟨hv, ht1, ht2, ht3⟩ := transformDevId_mapped mappings hh e.1 e.2 mapping hm hobj
      refine ⟨(transformDevId mappings hh e.1 e.2).1, (transformDevId mappings hh e.1 e.2).2,
        rfl, by omega, ht2, ?_⟩
      unfold EntryRewritten
      rw [hm]
      simp only [hobj, if_true]
      exact ⟨hh.length, hv, htop, by rw [ht3, hown]⟩
  obtain ⟨hh1, v, hround1, hlen, hkeep, hentry⟩ := hround
  rw [hround1]
  simp only
  have hwframe : ∀ b, b ≠ top → (hWrite hh1 top e.1 v).get? b = hh1.get? b := by
    intro b hb
    simp only [hWrite]
    exact listModify_get?_ne _ _ _ _ (fun he => hb he.symm)
  refine ⟨?_, ?_, fieldSet tf e.1 v, ?_, ?_, ?_⟩
  · simp only [hWrite, length_listModify]
    omega
  · intro b hb
    rw [hwframe b (by omega), hkeep b (by omega)]
    exact hframe b hb
  · simp only [hWrite]
    rw [listModify_get?_same, hkeep top htop, htf]
    rfl
  · rw [fieldSet_of_not_key tf e.1 v hnotkey, List.map_append, hkeys, List.map_append]
    rfl
  · intro e1 he1
    rcases List.mem_append.mp he1 with hd | hd
    · have hne : e.1 ≠ e1.1 := fun hc => hkey (List.mem_map.mpr ⟨e1, hd, hc.symm⟩)
      rw [fieldGet_fieldSet, if_neg hne]
      apply entryRewritten_frame mappings base top hh _ _ _ _ (hentries e1 hd)
      intro b hb1 hb2
      rw [hwframe b (by omega)]
      exact hkeep b hb2
    · have : e1 = e := by simpa using hd
      subst this
      rw [fieldGet_fieldSet, if_pos rfl]
      apply entryRewritten_frame mappings base top hh1 _ _ _ _ hentry
      intro b hb1 _
      exact hwframe b (by omega)

theorem devIdsDone_fold (mappings : MappingTable) (top : Nat) (base : Heap)
    (es : List (String × HVal)) (hh : Heap) (done : List (String × HVal))
    (hinv : DevIdsDone mappings top base hh done)
    (hnodup : ((done ++ es).map Prod.fst).Nodup)
    (hbelow : ∀ e ∈ es, ∀ i, e.2 = .ref i → i < top) :
    DevIdsDone mappings top base
      (es.foldl
        (fun hh entry =>
          hWrite (transformDevId mappings hh entry.1 entry.2).1 top entry.1
            (transformDevId mappings hh entry.1 entry.2).2)
        hh)
      (done ++ es) := by
  induction es generalizing hh done with
  | nil => simpa using hinv
  | cons e rest ih =>
    rw [List.foldl_cons]
    have hkey : e.1 ∉ done.map Prod.fst := by
      intro hc
      rw [List.map_append, List.map_cons] at hnodup
      exact (List.nodup_append.mp hnodup).2.2 hc (List.mem_cons_self _ _)
    have hstep := devIdsDone_step mappings top base hh done e hinv hkey
      (hbelow e (List.mem_cons_self _ _))
    have := ih _ (done ++ [e]) hstep (by simpa using hnodup)
      (fun x hx => hbelow x (List.mem_cons_of_mem _ hx))
    simpa using this

theorem get?_append_last (g : Heap) (o : HObj) : (g ++ [o]).get? g.length = some o := by
  simp

theorem get?_append_below (g : Heap) (o : HObj) (b : Nat) (hb : b < g.length) :
    (g ++ [o]).get? b = g.get? b := by
  rw [List.get?_eq_getElem?, List.getElem?_append_left hb, ← List.get?_eq_getElem?]

theorem hWrite_get?_ne (g : Heap) (a b : Nat) (name : String) (v : HVal) (hb : b ≠ a) :
    (hWrite g a name v).get? b = g.get? b := by
  simp only [hWrite]
  exact listModify_get?_ne _ _ _ _ (fun he => hb he.symm)

theorem hWrite_get?_object (g : Heap) (a : Nat) (name : String) (v : HVal)
    (fs : List (String × HVal)) (ha : g.get? a = some (.object fs)) :
    (hWrite g a name v).get? a = some (.object (fieldSet fs name v)) := by
  simp only [hWrite]
  rw [listModify_get?_same, ha]
  rfl

theorem transform_dev_ids_eq (mappings : MappingTable) (fuel : Nat) (h : Heap) (a d : Nat)
    (fields : List (String × HVal)) (ha : h.get? a = some (.object fields))
    (hd : fieldGet fields "dev_ids" = .ref d) :
    transform mappings (fuel + 1) h (.ref a) =
      (transformDevIds mappings (h ++ [.object fields]) h.length, .ref h.length) := by
  have hread : hRead (h ++ [.object fields]) (.ref h.length) "dev_ids" = .ref d := by
    simp only [hRead, get?_append_last, hd]
  simp only [transform, ha, hAlloc, hread, HVal.isObject, if_true]

/-- The heap the `dev_ids` branch leaves, described. -/
theorem transformDevIds_spec (mappings : MappingTable) (h : Heap) (d : Nat)
    (fields : List (String × HVal)) (hd : fieldGet fields "dev_ids" = .ref d)
    (hdlt : d < h.length) (hbelow : ∀ e ∈ ownFields h (.ref d), refBelow h e.2 = true)
    (hnodup : ((ownFields h (.ref d)).map Prod.fst).Nodup) :
    (transformDevIds mappings (h ++ [.object fields]) h.length).get? h.length =
        some (.object (fieldSet fields "dev_ids" (.ref (h.length + 1)))) ∧
      ∃ tf, (transformDevIds mappings (h ++ [.object fields]) h.length).get? (h.length + 1) =
          some (.object tf) ∧
        tf.map Prod.fst = (ownFields h (.ref d)).map Prod.fst ∧
        ∀ e ∈ ownFields h (.ref d),
          EntryRewritten mappings h (h.length + 1)
            (transformDevIds mappings (h ++ [.object fields]) h.length) e.1 e.2
            (fieldGet tf e.1) := by
  have hread : hRead (h ++ [.object fields]) (.ref h.length) "dev_ids" = .ref d := by
    simp only [hRead, get?_append_last, hd]
  have hentries : ownFields (h ++ [.object fields]) (.ref d) = ownFields h (.ref d) :=
    ownFields_congr h _ _ (fun i hi => by
      rw [← HVal.ref.inj hi]; exact get?_append_below h _ d hdlt)
  have hlen : (h ++ [HObj.object fields]).length = h.length + 1 := by simp
  have hinit : DevIdsDone mappings (h.length + 1) (h ++ [.object fields] ++ [.object []])
      (h ++ [.object fields] ++ [.object []]) [] := by
    refine ⟨by simp, fun _ _ => rfl, [], ?_, rfl, fun e he => absurd he (List.not_mem_nil _)⟩
    rw [← hlen]
    exact get?_append_last _ _
  have hfold := devIdsDone_fold mappings (h.length + 1) (h ++ [.object fields] ++ [.object []])
    (ownFields h (.ref d)) _ [] hinit (by simpa using hnodup)
    (fun e he i hi => by
      have := hbelow e he
      rw [hi] at this
      simp only [refBelow, decide_eq_true_eq] at this
      omega)
  obtain ⟨htop, hframe, tf, htf, hkeys, hdone⟩ := hfold
  have hfinal : transformDevIds mappings (h ++ [.object fields]) h.length =
      hWrite ((ownFields h (.ref d)).foldl
        (fun hh entry =>
          hWrite (transformDevId mappings hh entry.1 entry.2).1 (h.length + 1) entry.1
            (transformDevId mappings hh entry.1 entry.2).2)
        (h ++ [.object fields] ++ [.object []])) h.length "dev_ids" (.ref (h.length + 1)) := by
    unfold transformDevIds
    simp only [hread, hentries, hAlloc, hlen]
  rw [hfinal]
  have hwframe : ∀ (g : Heap) (b : Nat), b ≠ h.length →
      (hWrite g h.length "dev_ids" (.ref (h.length + 1))).get? b = g.get? b :=
    fun g b hb => hWrite_get?_ne g _ b _ _ hb
  refine ⟨?_, tf, ?_, by simpa using hkeys, ?_⟩
  · apply hWrite_get?_object
    rw [hframe h.length (by omega), get?_append_below _ _ _ (by rw [hlen]; omega),
      get?_append_last]
  · rw [hwframe _ _ (by omega)]
    exact htf
  · intro e he
    have hbase : ownFields (h ++ [.object fields] ++ [.object []]) e.2 = ownFields h e.2 :=
      ownFields_congr h _ _ (fun i hi => by
        have := hbelow e he
        rw [hi] at this
        simp only [refBelow, decide_eq_true_eq] at this
        rw [get?_append_below _ _ _ (by rw [hlen]; omega), get?_append_below _ _ _ this])
    have := entryRewritten_frame mappings _ (h.length + 1) _
      (hWrite _ h.length "dev_ids" (.ref (h.length + 1))) _ _ _
      (hdone e (by simpa using he)) (fun b hb _ => hwframe _ b (by omega))
    unfold EntryRewritten at this ⊢
    rw [hbase] at this
    exact this

/-- C29: let `out` be what `transformResponseData` returns, with the heap it
leaves, for an object of the heap whose `dev_ids` field is an object.  No
object of the heap it was given is changed.  The result has the fields of the
argument, and every field but `dev_ids` holds the very value it held, so
nothing below it was entered.  The new `dev_ids` has the keys of the old one.
An entry whose key has no mapping, or whose value is no object, is the value
it was.  An entry whose key has a mapping is an object with the fields of the
old entry, none added: a field among `name`, `manufacturer`, `model`,
`os_name` and `os_class` that is present, and for which the mapping holds a
value that is not empty, reads as that value, and every other field reads as
before. -/
theorem transformResponseData_dev_ids (mappings : MappingTable) (fuel : Nat) (h : Heap)
    (a d : Nat) (fields : List (String × HVal)) (out : Heap × HVal)
    (hout : out = transformResponseData mappings (fuel + 1) h (.ref a))
    (ha : h.get? a = some (.object fields))
    (hd : fieldGet fields "dev_ids" = .ref d) (hdlt : d < h.length)
    (hbelow : ∀ e ∈ ownFields h (.ref d), refBelow h e.2 = true)
    (hnodup : ((ownFields h (.ref d)).map Prod.fst).Nodup) :
    HeapExtends h out.1 ∧
    (ownFields out.1 out.2).map Prod.fst = fields.map Prod.fst ∧
    (∀ name, name ≠ "dev_ids" → hRead out.1 out.2 name = fieldGet fields name) ∧
    (ownFields out.1 (hRead out.1 out.2 "dev_ids")).map Prod.fst =
      (ownFields h (.ref d)).map Prod.fst ∧
    ∀ devId info, (devId, info) ∈ ownFields h (.ref d) →
      (mappingOf mappings devId = none ∨ info.isObject = false →
        fieldGet (ownFields out.1 (hRead out.1 out.2 "dev_ids")) devId = info) ∧
      (∀ mapping, mappingOf mappings devId = some mapping → info.isObject = true →
        (ownFields out.1
            (fieldGet (ownFields out.1 (hRead out.1 out.2 "dev_ids")) devId)).map Prod.fst =
          (ownFields h info).map Prod.fst ∧
        ∀ name,
          fieldGet (ownFields out.1
              (fieldGet (ownFields out.1 (hRead out.1 out.2 "dev_ids")) devId)) name =
            if truthyStr (devIdOverride mapping name) = true ∧
                fieldGet (ownFields h info) name ≠ .undefined then
              .str ((devIdOverride mapping name).getD "")
            else fieldGet (ownFields h info) name) := by
  by_cases hempty : mappings.isEmpty = true
  · have hout1 : out = (h, .ref a) := by
      rw [hout]
      simp [transformResponseData, HVal.isObject, hempty]
    have hm : mappings = [] := List.isEmpty_iff.mp hempty
    subst hout1
    have hread : hRead h (.ref a) "dev_ids" = .ref d := by simp only [hRead, ha, hd]
    refine ⟨heapExtends_refl h, by simp only [ownFields, ha], ?_, by rw [hread], ?_⟩
    · intro name _
      simp only [hRead, ha]
    · intro devId info hmem
      simp only
      rw [hread]
      refine ⟨fun _ => fieldGet_of_mem _ _ _ hnodup hmem, ?_⟩
      intro mapping hmap
      rw [hm] at hmap
      simp [mappingOf] at hmap
  · have hout1 : out = (transformDevIds mappings (h ++ [.object fields]) h.length,
        .ref h.length) := by
      rw [hout, ← transform_dev_ids_eq mappings fuel h a d fields ha hd]
      simp [transformResponseData, HVal.isObject, hempty]
    obtain ⟨hres, tf, htf, hkeys, hentries⟩ :=
      transformDevIds_spec mappings h d fields hd hdlt hbelow hnodup
    have hext : HeapExtends h out.1 := by
      rw [hout1]
      exact transformDevIds_extends mappings h _ _
        (heapExtends_alloc h h (.object fields) (heapExtends_refl h)).1 (le_refl _)
    subst hout1
    have hkey : "dev_ids" ∈ fields.map Prod.fst := by
      by_contra hk
      rw [fieldGet_of_not_key fields _ hk] at hd
      cases hd
    have hread : hRead (transformDevIds mappings (h ++ [.object fields]) h.length)
        (.ref h.length) "dev_ids" = .ref (h.length + 1) := by
      simp only [hRead, hres, fieldGet_fieldSet, if_true]
    have hown : ownFields (transformDevIds mappings (h ++ [.object fields]) h.length)
        (.ref (h.length + 1)) = tf := by
      simp only [ownFields, htf]
    refine ⟨hext, ?_, ?_, ?_, ?_⟩
    · simp only [ownFields, hres]
      exact fieldSet_of_key fields _ _ hkey
    · intro name hname
      simp only [hRead, hres, fieldGet_fieldSet]
      rw [if_neg (fun e => hname e.symm)]
    · simp only
      rw [hread, hown, hkeys]
    · intro devId info hmem
      simp only
      rw [hread, hown]
      have he := hentries (devId, info) hmem
      unfold EntryRewritten at he
      simp only at he
      constructor
      · rintro (hc | hc)
        · rw [hc] at he
          exact he
        · cases hmap : mappingOf mappings devId with
          | none => rw [hmap] at he; exact he
          | some mapping =>
            rw [hmap] at he
            simp only [hc, Bool.false_eq_true, if_false] at he
            exact he
      · intro mapping hmap hobj
        rw [hmap] at he
        simp only [hobj, if_true] at he
        obtain ⟨b, hv, _, hget⟩ := he
        rw [hv]
        simp only [ownFields, hget]
        exact ⟨rewrittenFields_keys mapping _, fun name => rewrittenFields_get mapping _ name⟩

theorem transformResponseData_dev_ids_witness :
    HeapExtends devIdsHeap.2
      (transformResponseData [("100", fullMapping)] 1 devIdsHeap.2 devIdsHeap.1).1 ∧
    (ownFields (transformResponseData [("100", fullMapping)] 1 devIdsHeap.2 devIdsHeap.1).1
      (transformResponseData [("100", fullMapping)] 1 devIdsHeap.2 devIdsHeap.1).2).map Prod.fst =
      ["dev_ids", "meta"] ∧
    fieldGet (ownFields (transformResponseData [("100", fullMapping)] 1 devIdsHeap.2 devIdsHeap.1).1
      (fieldGet (ownFields
        (transformResponseData [("100", fullMapping)] 1 devIdsHeap.2 devIdsHeap.1).1
        (hRead (transformResponseData [("100", fullMapping)] 1 devIdsHeap.2 devIdsHeap.1).1
          (transformResponseData [("100", fullMapping)] 1 devIdsHeap.2 devIdsHeap.1).2
          "dev_ids")) "100")) "name" = .str "Acme Cam" ∧
    fieldGet (ownFields (transformResponseData [("100", fullMapping)] 1 devIdsHeap.2 devIdsHeap.1).1
      (hRead (transformResponseData [("100", fullMapping)] 1 devIdsHeap.2 devIdsHeap.1).1
        (transformResponseData [("100", fullMapping)] 1 devIdsHeap.2 devIdsHeap.1).2
        "dev_ids")) "200" = .ref 1 :=
  have h := transformResponseData_dev_ids [("100", fullMapping)] 0 devIdsHeap.2 4 2
    [("dev_ids", .ref 2), ("meta", .ref 3)]
    (transformResponseData [("100", fullMapping)] 1 devIdsHeap.2 devIdsHeap.1) rfl rfl rfl
    (by decide) (by decide) (by decide)
  ⟨h.1, h.2.1,
    ((h.2.2.2.2 "100" (.ref 0) (by decide)).2 fullMapping rfl rfl).2 "name",
    (h.2.2.2.2 "200" (.ref 1) (by decide)).1 (Or.inl rfl)⟩

end UniFiIconBrowser
